import Mathlib

/-!
# C-minus front end: symbol table and semantic analyzer

A shallow embedding of `SYMTAB.C` and `ANALYZE.C`.

Modelling conventions.

* A `char*` is a `String`; the code of a character is `Char.toNat` (identifiers are ASCII).
* A `TreeNode*` is a value of `TreeNode`: `TreeNode.NULL` is the null pointer, and a node
  carries its address `addr`, which is what tells two allocations apart.  The fields the
  analyzer never writes (kind, name, children, sibling, ...) are part of the value; the two
  fields it does write, `declaration` and `expressionType`, live in the heap maps of `State`,
  keyed by address.
* The linked lists of `HashNode`s (`next`) are Lean lists.
* The C globals (`hashtable`, `tempList`, `scopeDepth`, `Error`, the static
  `enclosingFunction`) are fields of `State`.  `listing` holds the error lines written to
  the listing file, one `Diagnostic` per `fprintf` of an error; trace output (rulers and
  scope dumps) is not recorded, but writing it may end the run: `dumpCurrentScope` is part
  of the embedding for that reason.
* A failed `assert`, a null-pointer dereference and a write beyond the end of a buffer end
  the run: functions that can do one of them return `Option`, and `none` is that outcome.
* `malloc` always succeeds and returns the next unused address, `State.brk`.
-/

namespace CMinus

/-! ## globals.h -/

inductive TokenType where
  | IF | ELSE | INT | RETURN | VOID | WHILE
  | PLUS | MINUS | TIMES | DIVIDE | LT | GT | ASSIGN | NEQ | SEMI | COMMA
  | LPAREN | RPAREN | LBRACE | RBRACE | LSQUARE | RSQUARE | LTE | GTE | EQ
  | NUM | ID
  | ENDOFFILE | ERROR
deriving DecidableEq

inductive StmtKind where
  | IfK | WhileK | ReturnK | CallK | CompoundK
deriving DecidableEq

inductive ExpKind where
  | OpK | ConstK | IdK | AssignK
deriving DecidableEq

inductive DecKind where
  | ScalarDecK | FuncDecK | ArrayDecK
deriving DecidableEq

inductive ExpType where
  | Void | Integer | Function | Array
deriving DecidableEq

/-- The pair `nodekind` / `kind` of a tree node: the union `kind` is always read through the
member that `nodekind` selects. -/
inductive Kind where
  | StmtK (stmt : StmtKind)
  | ExpK (exp : ExpKind)
  | DecK (dec : DecKind)
deriving DecidableEq

/-- The fields of a `TreeNode` that the analyzer only reads. -/
structure Fields where
  lineno : Int
  kind : Kind
  op : TokenType
  val : Int
  name : String
  functionReturnType : ExpType
  variableDataType : ExpType
  isParameter : Bool
deriving DecidableEq

/-- A pointer to a tree node: `NULL`, or the node at address `addr` with its three child
slots and its sibling link. -/
inductive TreeNode where
  | NULL : TreeNode
  | node (addr : Nat) (f : Fields) (child0 child1 child2 sibling : TreeNode) : TreeNode
deriving DecidableEq

/-- An entry of the symbol table (`HashNode` without its `next` link). -/
structure HashNode where
  name : String
  declaration : TreeNode
  lineFirstReferenced : Int
deriving DecidableEq

/-- One error line of the listing file. -/
inductive Diagnostic where
  | duplicateIdentifier (name : String)
  | unknownIdentifier (name : String)
  | ifNotInteger (lineno : Int)
  | whileNotInteger (lineno : Int)
  | parametersDontMatch (lineno : Int)
  | returnNotInteger (lineno : Int)
  | arithmeticOperands (lineno : Int)
  | relationalOperands (lineno : Int)
  | unknownOperator (lineno : Int)
  | illegalIdentifier (lineno : Int)
  | assignNotInteger (lineno : Int)
deriving DecidableEq

/-- The global variables of the analyzer together with the writable part of the heap. -/
structure State where
  hashtable : Nat → List HashNode
  tempList : List HashNode
  scopeDepth : Int
  Error : Bool
  listing : List Diagnostic
  enclosingFunction : TreeNode
  declaration : Nat → TreeNode
  expressionType : Nat → ExpType
  lineno : Int
  brk : Nat

/-- Assignment to one cell of an array or of a heap map. -/
def assign {β : Type} (m : Nat → β) (i : Nat) (v : β) : Nat → β :=
  fun j => if j = i then v else m j

/-! ## SYMTAB.C -/

def MAXTABLESIZE : Nat := 233

def HIGHWATERMARK : String := "__invalid__"

def SHIFT : Nat := 4

def hashFunction (key : String) : Nat :=
  key.data.foldl (fun temp c => ((temp <<< SHIFT) + c.toNat) % MAXTABLESIZE) 0

/-- The loop of `symbolAlreadyDeclared`, started with `cursor` at the head of the list. -/
def symbolAlreadyDeclaredFrom (name : String) : List HashNode → Bool
  | [] => false
  | cursor :: next =>
    if cursor.name = HIGHWATERMARK then false
    else if name = cursor.name then true
    else symbolAlreadyDeclaredFrom name next

def symbolAlreadyDeclared (name : String) (s : State) : Bool :=
  symbolAlreadyDeclaredFrom name s.tempList

def allocateSymbolNode (name : String) (declaration : TreeNode) (lineDefined : Int) :
    HashNode :=
  { name := name, declaration := declaration, lineFirstReferenced := lineDefined }

/-- The error report of SYMTAB.C: writes the line and raises `Error`. -/
def flagError (d : Diagnostic) (s : State) : State :=
  { s with listing := s.listing ++ [d], Error := true }

def insertSymbol (name : String) (symbolDefNode : TreeNode) (lineDefined : Int)
    (s : State) : State :=
  if symbolAlreadyDeclared name s then
    flagError (Diagnostic.duplicateIdentifier name) s
  else
    let hashBucket := hashFunction name
    let newHashNode := allocateSymbolNode name symbolDefNode lineDefined
    { s with
      hashtable := assign s.hashtable hashBucket (newHashNode :: s.hashtable hashBucket),
      tempList := newHashNode :: s.tempList }

/-- The search loop of `lookupSymbol` over one bucket. -/
def lookupFrom (name : String) : List HashNode → Option HashNode
  | [] => none
  | cursor :: next => if name = cursor.name then some cursor else lookupFrom name next

def lookupSymbol (name : String) (s : State) : Option HashNode :=
  lookupFrom name (s.hashtable (hashFunction name))

def IDENT_LEN : Nat := 12

/-- The recursive `startDumpCurrentScope`, called with `cursor` at the head of the list: the
entries up to the nearest sentinel are written out, the oldest first.  The name of an entry
is copied, `strlen(name)` bytes of it, into `char paddedIdentifier[IDENT_LEN + 1]`, which a
name of more bytes overruns (a character of an identifier is one byte); the line written
reads `cursor->declaration->isParameter`.  The lines themselves are trace output. -/
def startDumpCurrentScope : List HashNode → Option Unit
  | [] => none
  | cursor :: next =>
    (match next with
      | [] => some ()
      | e :: _ => if e.name ≠ HIGHWATERMARK then startDumpCurrentScope next else some ()).bind
    fun _ =>
    /- pad identifier name -/
    if IDENT_LEN + 1 < cursor.name.length then none
    else
      /- output symbol table entry -/
      match cursor.declaration with
      | TreeNode.NULL => none
      | TreeNode.node _ _ _ _ _ _ => some ()

def dumpCurrentScope (s : State) : Option State :=
  match s.tempList with
  | [] => some s
  | cursor :: next =>
    /- if the current scope isn't empty, dump it out -/
    if cursor.name ≠ HIGHWATERMARK then
      (startDumpCurrentScope (cursor :: next)).map fun _ => s
    else some s

def newScope (s : State) : State :=
  { s with tempList := allocateSymbolNode HIGHWATERMARK TreeNode.NULL 0 :: s.tempList }

/-- The `while` loop of `endScope`: the hash table and the scope list when the loop exits,
or `none` when one of the two assertions in its body fails. -/
def endScopeLoop (hashtable : Nat → List HashNode) :
    List HashNode → Option ((Nat → List HashNode) × List HashNode)
  | [] => some (hashtable, [])
  | e :: rest =>
    if HIGHWATERMARK = e.name then some (hashtable, e :: rest)
    else
      let hashBucket := hashFunction e.name
      match hashtable hashBucket with
      | [] => none
      | hashPtr :: temp =>
        if e.name = hashPtr.name then endScopeLoop (assign hashtable hashBucket temp) rest
        else none

def endScope (s : State) : Option State :=
  match endScopeLoop s.hashtable s.tempList with
  | none => none
  | some (hashtable, tempList) =>
    match tempList with
    | [] => none
    | e :: temp =>
      if e.name = HIGHWATERMARK then some { s with hashtable := hashtable, tempList := temp }
      else none

def initSymbolTable (s : State) : State :=
  { s with hashtable := fun _ => [], tempList := [] }

/-! ## util.c (not part of the sources at hand) -/

/-- Modelled from the spec: the fields of a node as `newStmtNode`, `newExpNode` and
`newDecNode` of util.c (not among the source files) leave them: the source line and the
kind are set, the other fields are zero. -/
def newFields (lineno : Int) (kind : Kind) : Fields :=
  { lineno := lineno, kind := kind, op := TokenType.IF, val := 0, name := "",
    functionReturnType := ExpType.Void, variableDataType := ExpType.Void,
    isParameter := false }

/-- Modelled from the spec: `newDecNode` of util.c, which is not among the source files.
A node is created with its three child slots and its sibling link null, its
resolved-declaration reference null, the current source line, and the requested declaration
kind.  The result is the address and the fields of the new node. -/
def newDecNode (kind : DecKind) (s : State) : Nat × Fields × State :=
  (s.brk, newFields s.lineno (Kind.DecK kind),
   { s with brk := s.brk + 1, declaration := assign s.declaration s.brk TreeNode.NULL })

/-! ## ANALYZE.C -/

/-- The error report of ANALYZE.C: writes the line and raises `Error`. -/
def flagSemanticError (d : Diagnostic) (s : State) : State :=
  { s with listing := s.listing ++ [d], Error := true }

def declarePredefines (s : State) : State :=
  /- define "int input(void)" -/
  let (inputAddr, inputF, s) := newDecNode DecKind.FuncDecK s
  let inputF := { inputF with name := "input", functionReturnType := ExpType.Integer }
  let s := { s with expressionType := assign s.expressionType inputAddr ExpType.Function }
  let (tempAddr, tempF, s) := newDecNode DecKind.ScalarDecK s
  let tempF := { tempF with name := "arg", variableDataType := ExpType.Integer }
  let s := { s with expressionType := assign s.expressionType tempAddr ExpType.Integer }
  /- define "void output(int)" -/
  let (outputAddr, outputF, s) := newDecNode DecKind.FuncDecK s
  let outputF := { outputF with name := "output", functionReturnType := ExpType.Void }
  let s := { s with expressionType := assign s.expressionType outputAddr ExpType.Function }
  let temp := TreeNode.node tempAddr tempF TreeNode.NULL TreeNode.NULL TreeNode.NULL
    TreeNode.NULL
  let input := TreeNode.node inputAddr inputF TreeNode.NULL TreeNode.NULL TreeNode.NULL
    TreeNode.NULL
  let output := TreeNode.node outputAddr outputF temp TreeNode.NULL TreeNode.NULL
    TreeNode.NULL
  /- get input() and output() added to global scope -/
  let s := insertSymbol "input" input 0 s
  insertSymbol "output" output 0 s

/-- Lines 102 to 104 of `startBuildSymbolTable`: if the node is a declaration, insert it
into the symbol table. -/
def insertDeclaration (t : TreeNode) (s : State) : State :=
  match t with
  | TreeNode.NULL => s
  | TreeNode.node _ f _ _ _ _ =>
    match f.kind with
    | Kind.DecK _ => insertSymbol f.name t f.lineno s
    | _ => s

/-- Lines 106 to 117: if entering a new function, record it as the enclosing procedure and
tell the symbol table. -/
def enterFunction (t : TreeNode) (s : State) : State :=
  match t with
  | TreeNode.NULL => s
  | TreeNode.node _ f _ _ _ _ =>
    if f.kind = Kind.DecK DecKind.FuncDecK then
      newScope { s with enclosingFunction := t, scopeDepth := s.scopeDepth + 1 }
    else s

/-- Lines 119 to 124: if entering a compound statement, create a new scope as well. -/
def enterCompound (t : TreeNode) (s : State) : State :=
  match t with
  | TreeNode.NULL => s
  | TreeNode.node _ f _ _ _ _ =>
    if f.kind = Kind.StmtK StmtKind.CompoundK then
      newScope { s with scopeDepth := s.scopeDepth + 1 }
    else s

/-- Lines 126 to 141: if the node is an identifier expression or a call statement, look its
name up; report a failed lookup, and otherwise store the declaration found on the node. -/
def checkIdentifier (t : TreeNode) (s : State) : State :=
  match t with
  | TreeNode.NULL => s
  | TreeNode.node addr f _ _ _ _ =>
    if f.kind = Kind.ExpK ExpKind.IdK ∨ f.kind = Kind.StmtK StmtKind.CallK then
      match lookupSymbol f.name s with
      | none => flagSemanticError (Diagnostic.unknownIdentifier f.name) s
      | some currentSymbol =>
        { s with declaration := assign s.declaration addr currentSymbol.declaration }
    else s

/-- Lines 143 to 148: mark a return statement with the enclosing procedure. -/
def markReturn (t : TreeNode) (s : State) : State :=
  match t with
  | TreeNode.NULL => s
  | TreeNode.node addr f _ _ _ _ =>
    if f.kind = Kind.StmtK StmtKind.ReturnK then
      { s with declaration := assign s.declaration addr s.enclosingFunction }
    else s

/-- The part of the loop body of `startBuildSymbolTable` that runs before the children of
the node `t` are visited (lines 102 to 148): its five `if` statements, in order. -/
def enterNode (t : TreeNode) (s : State) : State :=
  markReturn t (checkIdentifier t (enterCompound t (enterFunction t (insertDeclaration t s))))

/-- The global `TraceAnalyze` of ANALYZE.C: it is initialised to 1, and no statement of the
sources assigns it. -/
def TraceAnalyze : Bool := true

/-- The part of the loop body of `startBuildSymbolTable` that runs after the children of
the node `t` have been visited (lines 153 to 161): if leaving a scope, the scope is dumped
when `TraceAnalyze` is set, and the symbol table is told. -/
def leaveNode (t : TreeNode) (s : State) : Option State :=
  match t with
  | TreeNode.NULL => some s
  | TreeNode.node _ f _ _ _ _ =>
    if f.kind = Kind.DecK DecKind.FuncDecK ∨ f.kind = Kind.StmtK StmtKind.CompoundK then
      (if TraceAnalyze then dumpCurrentScope s else some s).bind fun s =>
      endScope { s with scopeDepth := s.scopeDepth - 1 }
    else some s

def startBuildSymbolTable : TreeNode → State → Option State
  | TreeNode.NULL, s => some s
  | TreeNode.node addr f child0 child1 child2 sibling, s =>
    let t := TreeNode.node addr f child0 child1 child2 sibling
    (startBuildSymbolTable child0 (enterNode t s)).bind fun s =>
    (startBuildSymbolTable child1 s).bind fun s =>
    (startBuildSymbolTable child2 s).bind fun s =>
    (leaveNode t s).bind fun s =>
    startBuildSymbolTable sibling s

def buildSymTab (t : TreeNode) (s : State) : Option State :=
  startBuildSymbolTable t (declarePredefines s)

def traverse (preProc postProc : TreeNode → State → Option State) :
    TreeNode → State → Option State
  | TreeNode.NULL, s => some s
  | TreeNode.node addr f child0 child1 child2 sibling, s =>
    let t := TreeNode.node addr f child0 child1 child2 sibling
    (preProc t s).bind fun s =>
    (traverse preProc postProc child0 s).bind fun s =>
    (traverse preProc postProc child1 s).bind fun s =>
    (traverse preProc postProc child2 s).bind fun s =>
    (postProc t s).bind fun s =>
    traverse preProc postProc sibling s

/-- Reads `p->expressionType`. -/
def readExpressionType (s : State) : TreeNode → Option ExpType
  | TreeNode.NULL => none
  | TreeNode.node addr _ _ _ _ _ => some (s.expressionType addr)

/-- The loop and the final test of `checkFormalAgainstActualParms`, on the two chains. -/
def checkParmsFrom (s : State) : TreeNode → TreeNode → Bool
  | TreeNode.node a1 _ _ _ _ sibling1, TreeNode.node a2 _ _ _ _ sibling2 =>
    if s.expressionType a1 ≠ s.expressionType a2 then false
    else checkParmsFrom s sibling1 sibling2
  | TreeNode.NULL, TreeNode.node _ _ _ _ _ _ => false
  | TreeNode.node _ _ _ _ _ _, TreeNode.NULL => false
  | TreeNode.NULL, TreeNode.NULL => true

def checkFormalAgainstActualParms (formal actual : TreeNode) (s : State) : Option Bool :=
  match formal, actual with
  | TreeNode.node _ _ firstList _ _ _, TreeNode.node _ _ secondList _ _ _ =>
    some (checkParmsFrom s firstList secondList)
  | _, _ => none

/-- The test `child[0]->expressionType == Integer && child[1]->expressionType == Integer`;
the second operand is read only when the first test succeeds. -/
def bothInteger (s : State) (child0 child1 : TreeNode) : Option Bool :=
  match readExpressionType s child0 with
  | none => none
  | some t0 =>
    if t0 = ExpType.Integer then
      match readExpressionType s child1 with
      | none => none
      | some t1 => some (decide (t1 = ExpType.Integer))
    else some false

def checkNode (t : TreeNode) (s : State) : Option State :=
  match t with
  | TreeNode.NULL => none
  | TreeNode.node addr f child0 child1 _ _ =>
    match f.kind with
    | Kind.DecK DecKind.ScalarDecK =>
      some { s with expressionType := assign s.expressionType addr f.variableDataType }
    | Kind.DecK DecKind.ArrayDecK =>
      some { s with expressionType := assign s.expressionType addr ExpType.Array }
    | Kind.DecK DecKind.FuncDecK =>
      some { s with expressionType := assign s.expressionType addr ExpType.Function }
    | Kind.StmtK StmtKind.IfK =>
      (readExpressionType s child0).map fun t0 =>
        if t0 ≠ ExpType.Integer then flagSemanticError (Diagnostic.ifNotInteger f.lineno) s
        else s
    | Kind.StmtK StmtKind.WhileK =>
      (readExpressionType s child0).map fun t0 =>
        if t0 ≠ ExpType.Integer then flagSemanticError (Diagnostic.whileNotInteger f.lineno) s
        else s
    | Kind.StmtK StmtKind.CallK =>
      /- check types and numbers of formal against actual parameters -/
      (checkFormalAgainstActualParms (s.declaration addr) t s).bind fun ok =>
        let s := if !ok then flagSemanticError (Diagnostic.parametersDontMatch f.lineno) s
          else s
        match s.declaration addr with
        | TreeNode.NULL => none
        | TreeNode.node _ fd _ _ _ _ =>
          some { s with expressionType := assign s.expressionType addr fd.functionReturnType }
    | Kind.StmtK StmtKind.ReturnK =>
      /- match return type -/
      match s.declaration addr with
      | TreeNode.NULL => none
      | TreeNode.node _ fd _ _ _ _ =>
        if fd.functionReturnType = ExpType.Integer then
          if child0 = TreeNode.NULL ∨ readExpressionType s child0 ≠ some ExpType.Integer then
            some (flagSemanticError (Diagnostic.returnNotInteger f.lineno) s)
          else some s
        else if fd.functionReturnType = ExpType.Void then
          /- the message is formatted into a buffer and never written -/
          if child0 ≠ TreeNode.NULL then some s else some s
        else some s
    | Kind.StmtK StmtKind.CompoundK =>
      some { s with expressionType := assign s.expressionType addr ExpType.Void }
    | Kind.ExpK ExpKind.OpK =>
      if f.op = TokenType.PLUS ∨ f.op = TokenType.MINUS ∨ f.op = TokenType.TIMES
          ∨ f.op = TokenType.DIVIDE then
        (bothInteger s child0 child1).map fun b =>
          if b then { s with expressionType := assign s.expressionType addr ExpType.Integer }
          else flagSemanticError (Diagnostic.arithmeticOperands f.lineno) s
      else if f.op = TokenType.GT ∨ f.op = TokenType.LT ∨ f.op = TokenType.LTE
          ∨ f.op = TokenType.GTE ∨ f.op = TokenType.EQ ∨ f.op = TokenType.NEQ then
        (bothInteger s child0 child1).map fun b =>
          if b then { s with expressionType := assign s.expressionType addr ExpType.Integer }
          else flagSemanticError (Diagnostic.relationalOperands f.lineno) s
      else some (flagSemanticError (Diagnostic.unknownOperator f.lineno) s)
    | Kind.ExpK ExpKind.IdK =>
      (readExpressionType s (s.declaration addr)).map fun td =>
        if td = ExpType.Integer then
          if child0 = TreeNode.NULL then
            { s with expressionType := assign s.expressionType addr ExpType.Integer }
          else flagSemanticError (Diagnostic.illegalIdentifier f.lineno) s
        else s
    | Kind.ExpK ExpKind.ConstK =>
      some { s with expressionType := assign s.expressionType addr ExpType.Integer }
    | Kind.ExpK ExpKind.AssignK =>
      (bothInteger s child0 child1).map fun b =>
        if b then { s with expressionType := assign s.expressionType addr ExpType.Integer }
        else flagSemanticError (Diagnostic.assignNotInteger f.lineno) s

def nullProc (_t : TreeNode) (s : State) : Option State := some s

def typeCheck (t : TreeNode) (s : State) : Option State :=
  traverse nullProc checkNode t s

/-- The two passes that `main` runs on the tree returned by the parser. -/
def analyze (t : TreeNode) (s : State) : Option State :=
  (buildSymTab t s).bind fun s => typeCheck t s

/-- The globals and the heap when `main` starts the analysis of a tree whose nodes lie at
addresses below `brk`: every global is zero and no node has been resolved or typed. -/
def State.start (brk : Nat) (lineno : Int) : State :=
  { hashtable := fun _ => [], tempList := [], scopeDepth := 0, Error := false, listing := [],
    enclosingFunction := TreeNode.NULL, declaration := fun _ => TreeNode.NULL,
    expressionType := fun _ => ExpType.Void, lineno := lineno, brk := brk }

/-! ## Specification-level definitions -/

/-- Whether the scope-list entry `e` is a declaration (not a sentinel) whose name hashes to
bucket `b`. -/
def inBucket (b : Nat) (e : HashNode) : Bool :=
  decide (e.name ≠ HIGHWATERMARK) && decide (hashFunction e.name = b)

/-- The dual-structure invariant: every hash bucket is the subsequence of the non-sentinel
entries of the scope list whose name hashes to that bucket, in the same order. -/
def DualInv (s : State) : Prop :=
  ∀ b, s.hashtable b = s.tempList.filter (inBucket b)

/-- At least one scope is open: the scope list holds a sentinel. -/
def ScopeOpen (s : State) : Prop :=
  ∃ e ∈ s.tempList, e.name = HIGHWATERMARK

/-- The entries of the currently open scope: the scope list up to the nearest sentinel. -/
def currentScope (l : List HashNode) : List HashNode :=
  l.takeWhile (fun e => decide (e.name ≠ HIGHWATERMARK))

/-- A run of `insertSymbol` calls, in order. -/
def insertAll (decls : List (String × TreeNode × Int)) (s : State) : State :=
  decls.foldl (fun s d => insertSymbol d.1 d.2.1 d.2.2 s) s

/-- The symbol table as the spec describes it: a stack of scopes, innermost first, each
scope holding its declarations newest first; the remaining fields are those of `State`. -/
structure SpecState where
  scopes : List (List HashNode)
  scopeDepth : Int
  Error : Bool
  listing : List Diagnostic
  enclosingFunction : TreeNode
  declaration : Nat → TreeNode
  expressionType : Nat → ExpType
  lineno : Int
  brk : Nat

/-- The sentinel entry that `newScope` allocates. -/
def sentinel : HashNode := allocateSymbolNode HIGHWATERMARK TreeNode.NULL 0

/-- The scope list that represents a scope stack: the scopes in order, innermost first, with
a sentinel between each scope and the next one out. -/
def scopeList : List (List HashNode) → List HashNode
  | [] => []
  | [globals] => globals
  | cur :: o :: outer => cur ++ sentinel :: scopeList (o :: outer)

/-- The state of the C program that represents a scope stack. -/
def SpecState.toState (r : SpecState) : State :=
  { hashtable := fun b => (scopeList r.scopes).filter (inBucket b),
    tempList := scopeList r.scopes,
    scopeDepth := r.scopeDepth, Error := r.Error, listing := r.listing,
    enclosingFunction := r.enclosingFunction, declaration := r.declaration,
    expressionType := r.expressionType, lineno := r.lineno, brk := r.brk }

/-- Spec `declare`: fails with *duplicate identifier* when the name is in the innermost
scope, and otherwise puts a new entry at the front of that scope. -/
def declareSpec (name : String) (decl : TreeNode) (line : Int) (r : SpecState) : SpecState :=
  match r.scopes with
  | [] => r
  | cur :: outer =>
    if cur.any (fun e => decide (e.name = name)) then
      { r with listing := r.listing ++ [Diagnostic.duplicateIdentifier name], Error := true }
    else
      { r with scopes :=
          ({ name := name, declaration := decl, lineFirstReferenced := line } :: cur) :: outer }

/-- Spec `lookup`: walks the stack from the innermost scope to the outermost and returns the
first entry with the name. -/
def lookupScopes (name : String) : List (List HashNode) → Option HashNode
  | [] => none
  | cur :: outer =>
    match cur.find? (fun e => decide (e.name = name)) with
    | some e => some e
    | none => lookupScopes name outer

/-- Spec `enterScope`. -/
def enterSpec (r : SpecState) : SpecState :=
  { r with scopes := [] :: r.scopes }

/-- Spec `exitScope`: drops the innermost scope. -/
def exitSpec (r : SpecState) : SpecState :=
  { r with scopes := r.scopes.tail }

/-- A scope stack that the scope list can represent: there is a scope, and no entry bears
the sentinel name. -/
def SpecState.WF (r : SpecState) : Prop :=
  r.scopes ≠ [] ∧ ∀ sc ∈ r.scopes, ∀ e ∈ sc, e.name ≠ HIGHWATERMARK

/-- A call of one of the three operations that change the symbol table. -/
inductive SymOp where
  | insert (name : String) (decl : TreeNode) (line : Int)
  | enter
  | exit
deriving DecidableEq

/-- Whether the call declares an identifier equal to the sentinel name. -/
def SymOp.declaresSentinel : SymOp → Bool
  | SymOp.insert name _ _ => decide (name = HIGHWATERMARK)
  | _ => false

/-- The C function that the call runs. -/
def applyOp : SymOp → State → Option State
  | SymOp.insert name decl line, s => some (insertSymbol name decl line s)
  | SymOp.enter, s => some (newScope s)
  | SymOp.exit, s => endScope s

/-- A sequence of calls, run in order. -/
def runOps : List SymOp → State → Option State
  | [], s => some s
  | op :: ops, s => (applyOp op s).bind (runOps ops)

/-- The effect of call number `t` on the declarations that are visible, kept as a stack of
open scopes (innermost first, each scope newest first) in which every declaration is paired
with the number of the call that inserted it.  `insert` is rejected when the innermost scope
has the name; `exit` drops the innermost scope with its declarations, and has no result when
only the outermost scope is open (the sequence is not balanced). -/
def visibleStep (t : Nat) :
    SymOp → List (List (Nat × HashNode)) → Option (List (List (Nat × HashNode)))
  | SymOp.insert _ _ _, [] => none
  | SymOp.insert name decl line, cur :: outer =>
    if cur.any (fun p => decide (p.2.name = name)) then some (cur :: outer)
    else some (((t, { name := name, declaration := decl, lineFirstReferenced := line })
      :: cur) :: outer)
  | SymOp.enter, st => some ([] :: st)
  | SymOp.exit, _ :: o :: outer => some (o :: outer)
  | SymOp.exit, _ => none

/-- The visible declarations after a sequence of calls, the first of which is call number
`t`. -/
def visibleAfter (t : Nat) :
    List SymOp → List (List (Nat × HashNode)) → Option (List (List (Nat × HashNode)))
  | [], st => some st
  | op :: ops, st => (visibleStep t op st).bind (visibleAfter (t + 1) ops)

/-- The scope stack of a stack of numbered declarations. -/
def eraseNumbers (st : List (List (Nat × HashNode))) : List (List HashNode) :=
  st.map (List.map Prod.snd)

/-- The scope stack `scopes` with the remaining fields of `s`. -/
def State.withScopes (s : State) (scopes : List (List HashNode)) : SpecState :=
  { scopes := scopes, scopeDepth := s.scopeDepth, Error := s.Error, listing := s.listing,
    enclosingFunction := s.enclosingFunction, declaration := s.declaration,
    expressionType := s.expressionType, lineno := s.lineno, brk := s.brk }

/-- What relates the C state `s` to the numbered visible declarations `st` before call
number `t`. -/
def Tracks (t : Nat) (s : State) (st : List (List (Nat × HashNode))) : Prop :=
  (∃ r : SpecState, r.WF ∧ r.scopes = eraseNumbers st ∧ s = r.toState) ∧
  st.flatten.Pairwise (fun p q => q.1 < p.1) ∧ ∀ p ∈ st.flatten, p.1 < t

/-- Whether the node kind opens a scope of its own: a function declaration or a compound
statement. -/
def opensScope (k : Kind) : Bool :=
  decide (k = Kind.DecK DecKind.FuncDecK ∨ k = Kind.StmtK StmtKind.CompoundK)

/-- Whether a node with these fields is a declaration named with the sentinel. -/
def Fields.declaresSentinel (f : Fields) : Bool :=
  match f.kind with
  | Kind.DecK _ => decide (f.name = HIGHWATERMARK)
  | _ => false

/-- Whether some declaration node of the tree is named with the sentinel. -/
def declaresSentinel : TreeNode → Bool
  | TreeNode.NULL => false
  | TreeNode.node _ f child0 child1 child2 sibling =>
    f.declaresSentinel || declaresSentinel child0 || declaresSentinel child1
      || declaresSentinel child2 || declaresSentinel sibling

/-- Spec pass 1, what happens on visiting a node, before its children: a declaration is
declared; a function declaration is remembered as the enclosing function and opens a scope;
a compound statement opens a scope; an identifier expression or a call statement is looked
up, which either stores the declaration found on the node or reports an undeclared
identifier; a return statement stores the remembered enclosing function. -/
def visitSpec (t : TreeNode) (r : SpecState) : SpecState :=
  match t with
  | TreeNode.NULL => r
  | TreeNode.node addr f _ _ _ _ =>
    match f.kind with
    | Kind.DecK DecKind.FuncDecK =>
      let r := declareSpec f.name t f.lineno r
      enterSpec { r with enclosingFunction := t, scopeDepth := r.scopeDepth + 1 }
    | Kind.DecK _ => declareSpec f.name t f.lineno r
    | Kind.StmtK StmtKind.CompoundK => enterSpec { r with scopeDepth := r.scopeDepth + 1 }
    | Kind.StmtK StmtKind.ReturnK =>
      { r with declaration := assign r.declaration addr r.enclosingFunction }
    | Kind.StmtK StmtKind.CallK | Kind.ExpK ExpKind.IdK =>
      match lookupScopes f.name r.scopes with
      | none =>
        { r with listing := r.listing ++ [Diagnostic.unknownIdentifier f.name], Error := true }
      | some e => { r with declaration := assign r.declaration addr e.declaration }
    | _ => r

/-- Spec pass 1, what happens after the children of a node: a function declaration and a
compound statement close the scope they opened. -/
def leaveSpec (t : TreeNode) (r : SpecState) : SpecState :=
  match t with
  | TreeNode.NULL => r
  | TreeNode.node _ f _ _ _ _ =>
    if opensScope f.kind then exitSpec { r with scopeDepth := r.scopeDepth - 1 } else r

/-- Spec pass 1: the tree is walked depth first, siblings in order, over the scope stack. -/
def resolveSpec : TreeNode → SpecState → SpecState
  | TreeNode.NULL, r => r
  | TreeNode.node addr f child0 child1 child2 sibling, r =>
    let t := TreeNode.node addr f child0 child1 child2 sibling
    let r := visitSpec t r
    let r := resolveSpec child0 r
    let r := resolveSpec child1 r
    let r := resolveSpec child2 r
    let r := leaveSpec t r
    resolveSpec sibling r

/-- The scope stack `r'` has the outer scopes of `r`: only the innermost scope may differ. -/
def SameOuter (r r' : SpecState) : Prop :=
  r'.WF ∧ r'.scopes.tail = r.scopes.tail

/-- The declaration node of the built-in `input` that `declarePredefines` allocates in
state `s`: a function that returns Integer and has no parameter. -/
def predefinedInput (s : State) : TreeNode :=
  TreeNode.node s.brk
    { lineno := s.lineno, kind := Kind.DecK DecKind.FuncDecK, op := TokenType.IF, val := 0,
      name := "input", functionReturnType := ExpType.Integer,
      variableDataType := ExpType.Void, isParameter := false }
    TreeNode.NULL TreeNode.NULL TreeNode.NULL TreeNode.NULL

/-- The declaration node of the built-in `output` that `declarePredefines` allocates in
state `s`: a function that returns Void and has one parameter, a scalar of type Integer. -/
def predefinedOutput (s : State) : TreeNode :=
  TreeNode.node (s.brk + 2)
    { lineno := s.lineno, kind := Kind.DecK DecKind.FuncDecK, op := TokenType.IF, val := 0,
      name := "output", functionReturnType := ExpType.Void,
      variableDataType := ExpType.Void, isParameter := false }
    (TreeNode.node (s.brk + 1)
      { lineno := s.lineno, kind := Kind.DecK DecKind.ScalarDecK, op := TokenType.IF, val := 0,
        name := "arg", functionReturnType := ExpType.Void,
        variableDataType := ExpType.Integer, isParameter := false }
      TreeNode.NULL TreeNode.NULL TreeNode.NULL TreeNode.NULL)
    TreeNode.NULL TreeNode.NULL TreeNode.NULL

/-- The scope stack before the tree is walked: one scope, the outermost, seeded with the
two built-in declarations; the remaining fields are those that `declarePredefines` leaves. -/
def predefinesSpec (s : State) : SpecState :=
  (declarePredefines s).withScopes
    [[{ name := "output", declaration := predefinedOutput s, lineFirstReferenced := 0 },
      { name := "input", declaration := predefinedInput s, lineFirstReferenced := 0 }]]

/-- The addresses of the nodes of a sibling chain, in order. -/
def siblings : TreeNode → List Nat
  | TreeNode.NULL => []
  | TreeNode.node addr _ _ _ _ sibling => addr :: siblings sibling

/-- Positional match of a parameter chain against an argument chain: the two chains have
the same length, and at every position the two inferred types are equal. -/
def ParmsMatch (s : State) (parms args : TreeNode) : Prop :=
  (siblings parms).length = (siblings args).length ∧
    ∀ p ∈ List.zip (siblings parms) (siblings args),
      s.expressionType p.1 = s.expressionType p.2

/-! ## Example programs

The trees are those that `parse` builds for the program texts, the nodes numbered in the
order of their allocation; every token is on line 1. -/

/-- A scalar declaration `int name;` without children. -/
def scalarDec (addr : Nat) (name : String) (sibling : TreeNode) : TreeNode :=
  TreeNode.node addr
    { newFields 1 (Kind.DecK DecKind.ScalarDecK) with
      name := name, variableDataType := ExpType.Integer }
    TreeNode.NULL TreeNode.NULL TreeNode.NULL sibling

/-- A formal parameter `int name`. -/
def paramDec (addr : Nat) (name : String) (sibling : TreeNode) : TreeNode :=
  TreeNode.node addr
    { newFields 1 (Kind.DecK DecKind.ScalarDecK) with
      name := name, variableDataType := ExpType.Integer, isParameter := true }
    TreeNode.NULL TreeNode.NULL TreeNode.NULL sibling

/-- A function declaration with its parameter chain and its body. -/
def funcDec (addr : Nat) (returnType : ExpType) (name : String)
    (params body sibling : TreeNode) : TreeNode :=
  TreeNode.node addr
    { newFields 1 (Kind.DecK DecKind.FuncDecK) with
      name := name, functionReturnType := returnType }
    params body TreeNode.NULL sibling

/-- A compound statement with its local declarations and its statement list. -/
def compound (addr : Nat) (locals statements sibling : TreeNode) : TreeNode :=
  TreeNode.node addr (newFields 1 (Kind.StmtK StmtKind.CompoundK))
    locals statements TreeNode.NULL sibling

/-- A return statement with its value expression, which may be null. -/
def returnStmt (addr : Nat) (value sibling : TreeNode) : TreeNode :=
  TreeNode.node addr (newFields 1 (Kind.StmtK StmtKind.ReturnK))
    value TreeNode.NULL TreeNode.NULL sibling

/-- A call `name(args)`. -/
def callStmt (addr : Nat) (name : String) (args sibling : TreeNode) : TreeNode :=
  TreeNode.node addr { newFields 1 (Kind.StmtK StmtKind.CallK) with name := name }
    args TreeNode.NULL TreeNode.NULL sibling

/-- A use of the identifier `name`. -/
def identifier (addr : Nat) (name : String) (sibling : TreeNode) : TreeNode :=
  TreeNode.node addr { newFields 1 (Kind.ExpK ExpKind.IdK) with name := name }
    TreeNode.NULL TreeNode.NULL TreeNode.NULL sibling

/-- An integer literal. -/
def constant (addr : Nat) (val : Int) (sibling : TreeNode) : TreeNode :=
  TreeNode.node addr
    { newFields 1 (Kind.ExpK ExpKind.ConstK) with
      val := val, variableDataType := ExpType.Integer }
    TreeNode.NULL TreeNode.NULL TreeNode.NULL sibling

/-- The local declaration of `x` in `shadowingProgram`. -/
def innerX : TreeNode := scalarDec 4 "x" TreeNode.NULL

/-- The function `f` of `shadowingProgram`. -/
def shadowingF : TreeNode :=
  funcDec 2 ExpType.Integer "f" TreeNode.NULL
    (compound 3 innerX
      (returnStmt 5 (identifier 6 "x" TreeNode.NULL) TreeNode.NULL) TreeNode.NULL)
    TreeNode.NULL

/-- The tree of `int x; int f(void){ int x; return x; }`. -/
def shadowingProgram : TreeNode := scalarDec 1 "x" shadowingF

/-- The tree of `int main(void){ return y; }`. -/
def undeclaredProgram : TreeNode :=
  funcDec 1 ExpType.Integer "main" TreeNode.NULL
    (compound 2 TreeNode.NULL
      (returnStmt 3 (identifier 4 "y" TreeNode.NULL) TreeNode.NULL) TreeNode.NULL)
    TreeNode.NULL

/-- The arguments of the call `g(1, 2)` in `arityProgram`. -/
def arityArgs : TreeNode := constant 5 1 (constant 6 2 TreeNode.NULL)

/-- The function `main` of `arityProgram`. -/
def arityMain : TreeNode :=
  funcDec 3 ExpType.Void "main" TreeNode.NULL
    (compound 4 TreeNode.NULL
      (callStmt 7 "g" arityArgs (callStmt 8 "g" TreeNode.NULL TreeNode.NULL))
      TreeNode.NULL)
    TreeNode.NULL

/-- The tree of `void g(int a){} void main(void){ g(1, 2); g(); }`. -/
def arityProgram : TreeNode :=
  funcDec 1 ExpType.Void "g" (paramDec 2 "a" TreeNode.NULL) TreeNode.NULL arityMain

/-- The tree of `int h(void){ return; }`. -/
def missingReturnProgram : TreeNode :=
  funcDec 1 ExpType.Integer "h" TreeNode.NULL
    (compound 2 TreeNode.NULL (returnStmt 3 TreeNode.NULL TreeNode.NULL) TreeNode.NULL)
    TreeNode.NULL

/-- The symbol-table entry of the outer `x` of `shadowingProgram`. -/
def outerXEntry : HashNode :=
  { name := "x", declaration := shadowingProgram, lineFirstReferenced := 1 }

/-- The symbol-table entry of the local `x` of `shadowingProgram`. -/
def innerXEntry : HashNode :=
  { name := "x", declaration := innerX, lineFirstReferenced := 1 }

/-- The symbol-table calls that the resolution pass makes on `shadowingProgram` up to the
second declaration of `x`, the scope of `f` left out. -/
def shadowingOps : List SymOp :=
  [SymOp.insert "x" shadowingProgram 1, SymOp.enter, SymOp.insert "x" innerX 1]

/-- The declarations that are visible after `shadowingOps`, with their call numbers. -/
def shadowingVisible : List (List (Nat × HashNode)) :=
  [[(2, innerXEntry)], [(0, outerXEntry)]]

/-- The symbol table that holds the outer `x` of `shadowingProgram` only. -/
def outerXState : State := insertSymbol "x" shadowingProgram 1 (State.start 7 1)

/-- The state in which the analysis of `arityProgram` ends. -/
def arityState : State :=
  (analyze arityProgram (State.start 9 1)).getD (State.start 9 1)

/-- The state in which the analysis of `missingReturnProgram` ends. -/
def missingReturnState : State :=
  (analyze missingReturnProgram (State.start 4 1)).getD (State.start 4 1)

/-- A return statement lacks an integer value: it has no value expression, or the inferred
type of its value expression is not Integer. -/
def NoIntegerValue (s : State) (value : TreeNode) : Prop :=
  value = TreeNode.NULL ∨
    ∃ addr f c0 c1 c2 sib, value = TreeNode.node addr f c0 c1 c2 sib ∧
      s.expressionType addr ≠ ExpType.Integer

/-- The declared types (`variableDataType`) of the nodes of a sibling chain, in order. -/
def declaredTypes : TreeNode → List ExpType
  | TreeNode.NULL => []
  | TreeNode.node _ f _ _ _ sibling => f.variableDataType :: declaredTypes sibling

/-- Every parameter of the chain has been typed: its inferred type is its declared type, as
`checkNode` leaves it on a scalar declaration. -/
def ParmsTyped (s : State) (parms : TreeNode) : Prop :=
  (siblings parms).map s.expressionType = declaredTypes parms

/-- Positional match of the declared parameter types against an argument chain: the two
chains have the same length, and at every position the inferred type of the argument is the
declared type of the parameter. -/
def ParmsMatchDeclared (s : State) (parms args : TreeNode) : Prop :=
  (declaredTypes parms).length = (siblings args).length ∧
    ∀ p ∈ List.zip (declaredTypes parms) (siblings args), p.1 = s.expressionType p.2

/-- The tree of `void k(void){ return 1; }`. -/
def voidReturnProgram : TreeNode :=
  funcDec 1 ExpType.Void "k" TreeNode.NULL
    (compound 2 TreeNode.NULL
      (returnStmt 3 (constant 4 1 TreeNode.NULL) TreeNode.NULL) TreeNode.NULL)
    TreeNode.NULL

/-- The ten operators that `checkNode` knows: the four arithmetic and the six relational
ones. -/
def knownOperators : List TokenType :=
  [TokenType.PLUS, TokenType.MINUS, TokenType.TIMES, TokenType.DIVIDE,
   TokenType.LT, TokenType.LTE, TokenType.GT, TokenType.GTE, TokenType.EQ, TokenType.NEQ]

/-- The state in which the analysis of `shadowingProgram` ends. -/
def shadowingState : State :=
  (analyze shadowingProgram (State.start 7 1)).getD (State.start 7 1)

/-- A state in which every node has inferred type Integer. -/
def allIntegerState : State :=
  { State.start 4 1 with expressionType := fun _ => ExpType.Integer }

/-- The fields of an operator node with operator `op`. -/
def opFields (op : TokenType) : Fields :=
  { newFields 1 (Kind.ExpK ExpKind.OpK) with op := op }

/-! ## PARSE.C

The parser reads its tokens from the scanner, which is not among the source files: the
token source is the list of the tokens that the scanner will deliver, and after the last of
them the scanner answers `ENDOFFILE` to every request.  The recursive procedures take a
bound `fuel` on the depth of their calls and on the number of rounds of their loops; the
result `none` means that the bound was too small.  A loop that appends to a sibling chain
through `ptr` yields the value that it assigns to the `sibling` field of the node `ptr`
pointed to when the loop was entered, if it assigns one. -/

/-- A token as the scanner delivers it: its kind, its text (`tokenString`) and its source
line. -/
structure Token where
  type : TokenType
  text : String
  line : Int
deriving DecidableEq

/-- One syntax-error line of the listing file. -/
inductive SyntaxDiagnostic where
  | unexpectedToken (lineno : Int) (token : TokenType) (tokenString : String)
  | expectedType (lineno : Int) (token : TokenType) (tokenString : String)
  | notAnLvalue (lineno : Int)
  | endOfFile (lineno : Int)
deriving DecidableEq

/-- The variables of the parser and of the scanner: the lookahead `token`, the globals
`tokenString` and `lineno`, the tokens that the scanner has not delivered yet, the syntax
errors written to the listing, and the next unused address. -/
structure ParseState where
  token : TokenType
  tokenString : String
  lineno : Int
  source : List Token
  listing : List SyntaxDiagnostic
  brk : Nat
deriving DecidableEq

/-- Modelled from the spec: the statement `token = getToken()`, with `getToken` of the
scanner, which is not among the source files: the next token of the source becomes the
lookahead, with its text and line; at the end of the source the lookahead is `ENDOFFILE`. -/
def getToken (p : ParseState) : ParseState :=
  match p.source with
  | [] => { p with token := TokenType.ENDOFFILE, tokenString := "" }
  | t :: rest =>
    { p with token := t.type, tokenString := t.text, lineno := t.line, source := rest }

/-- Modelled from the spec: `newStmtNode`, `newExpNode` and `newDecNode` of util.c, called
by the parser: the address and the fields of a new node of the given kind, whose children
and sibling are null. -/
def newNode (kind : Kind) (p : ParseState) : Nat × Fields × ParseState :=
  (p.brk, newFields p.lineno kind, { p with brk := p.brk + 1 })

/-- The assignment `ptr->sibling = t`. -/
def setSibling : TreeNode → TreeNode → TreeNode
  | TreeNode.NULL, _ => TreeNode.NULL
  | TreeNode.node addr f child0 child1 child2 _, t => TreeNode.node addr f child0 child1 child2 t

/-- The node `ptr` after a loop that assigned `rest` to its `sibling` field, or assigned
nothing. -/
def assignSibling (ptr : TreeNode) : Option TreeNode → TreeNode
  | none => ptr
  | some t => setSibling ptr t

/-- Modelled from the spec: `atoi` of the C library on the text of a `NUM` token: the value
of its leading decimal digits. -/
def atoiFrom : Nat → List Char → Nat
  | acc, [] => acc
  | acc, c :: cs => if c.isDigit then atoiFrom (10 * acc + (c.toNat - 48)) cs else acc

def atoi (s : String) : Int := (atoiFrom 0 s.data : Nat)

def syntaxError (d : SyntaxDiagnostic) (p : ParseState) : ParseState :=
  { p with listing := p.listing ++ [d] }

/-- The procedure `match` of PARSE.C. -/
def matchToken (expected : TokenType) (p : ParseState) : ParseState :=
  if p.token = expected then getToken p
  else syntaxError (SyntaxDiagnostic.unexpectedToken p.lineno p.token p.tokenString) p

def matchType (p : ParseState) : ExpType × ParseState :=
  if p.token = TokenType.INT then (ExpType.Integer, getToken p)
  else if p.token = TokenType.VOID then (ExpType.Void, getToken p)
  else (ExpType.Void,
    syntaxError (SyntaxDiagnostic.expectedType p.lineno p.token p.tokenString) p)

def isAType (tok : TokenType) : Bool :=
  decide (tok = TokenType.INT ∨ tok = TokenType.VOID)

def var_declaration (p : ParseState) : TreeNode × ParseState :=
  let (declaration_type, p) := matchType p
  let identifier := p.tokenString
  let p := matchToken TokenType.ID p
  if p.token = TokenType.SEMI then
    let (addr, f, p) := newNode (Kind.DecK DecKind.ScalarDecK) p
    let p := matchToken TokenType.SEMI p
    (TreeNode.node addr { f with variableDataType := declaration_type, name := identifier }
      TreeNode.NULL TreeNode.NULL TreeNode.NULL TreeNode.NULL, p)
  else
    (TreeNode.NULL,
      getToken (syntaxError
        (SyntaxDiagnostic.unexpectedToken p.lineno p.token p.tokenString) p))

def param (p : ParseState) : TreeNode × ParseState :=
  let (paramType, p) := matchType p
  let identifier := p.tokenString
  let p := matchToken TokenType.ID p
  let (addr, f, p) := newNode (Kind.DecK DecKind.ScalarDecK) p
  (TreeNode.node addr
    { f with name := identifier, val := 0, variableDataType := paramType,
             isParameter := true }
    TreeNode.NULL TreeNode.NULL TreeNode.NULL TreeNode.NULL, p)

/-- The `while` loop of `param_list`. -/
def param_list_loop : Nat → ParseState → Option (Option TreeNode × ParseState)
  | 0, _ => none
  | fuel + 1, p =>
    if p.token = TokenType.COMMA then
      let p := matchToken TokenType.COMMA p
      let (newNode, p) := param p
      if newNode ≠ TreeNode.NULL then
        (param_list_loop fuel p).map fun (rest, p) => (some (assignSibling newNode rest), p)
      else param_list_loop fuel p
    else some (none, p)

def param_list (fuel : Nat) (p : ParseState) : Option (TreeNode × ParseState) :=
  if p.token = TokenType.VOID then
    some (TreeNode.NULL, matchToken TokenType.VOID p)
  else
    let (tree, p) := param p
    if tree ≠ TreeNode.NULL then
      (param_list_loop fuel p).map fun (rest, p) => (assignSibling tree rest, p)
    else some (tree, p)

/-- The `while` loop of `local_declarations`. -/
def local_declarations_loop : Nat → ParseState → Option (Option TreeNode × ParseState)
  | 0, _ => none
  | fuel + 1, p =>
    if isAType p.token then
      let (newNode, p) := var_declaration p
      if newNode ≠ TreeNode.NULL then
        (local_declarations_loop fuel p).map fun (rest, p) =>
          (some (assignSibling newNode rest), p)
      else local_declarations_loop fuel p
    else some (none, p)

def local_declarations (fuel : Nat) (p : ParseState) : Option (TreeNode × ParseState) :=
  let (tree, p) := if isAType p.token then var_declaration p else (TreeNode.NULL, p)
  if tree ≠ TreeNode.NULL then
    (local_declarations_loop fuel p).map fun (rest, p) => (assignSibling tree rest, p)
  else some (tree, p)

/-- Whether the lookahead is one of the six relational operators. -/
def isRelational (tok : TokenType) : Bool :=
  decide (tok = TokenType.LTE ∨ tok = TokenType.GTE ∨ tok = TokenType.GT ∨
    tok = TokenType.LT ∨ tok = TokenType.EQ ∨ tok = TokenType.NEQ)

mutual

def compound_statement : Nat → ParseState → Option (TreeNode × ParseState)
  | 0, _ => none
  | fuel + 1, p =>
    let p := matchToken TokenType.LBRACE p
    if p.token ≠ TokenType.RBRACE then
      let (addr, f, p) := newNode (Kind.StmtK StmtKind.CompoundK) p
      ((if isAType p.token then local_declarations fuel p
        else some (TreeNode.NULL, p)).bind fun (child0, p) =>
      (if p.token ≠ TokenType.RBRACE then statement_list fuel p
        else some (TreeNode.NULL, p)).bind fun (child1, p) =>
      some (TreeNode.node addr f child0 child1 TreeNode.NULL TreeNode.NULL,
        matchToken TokenType.RBRACE p))
    else some (TreeNode.NULL, matchToken TokenType.RBRACE p)

/-- The `while` loop of `statement_list`; `ptr` tells whether `ptr` is non-null. -/
def statement_list_loop : Nat → Bool → ParseState → Option (Option TreeNode × ParseState)
  | 0, _, _ => none
  | fuel + 1, ptr, p =>
    if p.token ≠ TokenType.RBRACE then
      (statement fuel p).bind fun (newNode, p) =>
      if ptr ∧ newNode ≠ TreeNode.NULL then
        (statement_list_loop fuel true p).map fun (rest, p) =>
          (some (assignSibling newNode rest), p)
      else statement_list_loop fuel ptr p
    else some (none, p)

def statement_list : Nat → ParseState → Option (TreeNode × ParseState)
  | 0, _ => none
  | fuel + 1, p =>
    if p.token ≠ TokenType.RBRACE then
      (statement fuel p).bind fun (tree, p) =>
      (statement_list_loop fuel (decide (tree ≠ TreeNode.NULL)) p).map fun (rest, p) =>
        (assignSibling tree rest, p)
    else some (TreeNode.NULL, p)

def statement : Nat → ParseState → Option (TreeNode × ParseState)
  | 0, _ => none
  | fuel + 1, p =>
    if p.token = TokenType.IF then if_statement fuel p
    else if p.token = TokenType.WHILE then while_statement fuel p
    else if p.token = TokenType.RETURN then return_statement fuel p
    else if p.token = TokenType.LBRACE then compound_statement fuel p
    else if p.token = TokenType.ID ∨ p.token = TokenType.SEMI ∨ p.token = TokenType.LPAREN
        ∨ p.token = TokenType.NUM then expression_statement fuel p
    else
      some (TreeNode.NULL,
        getToken (syntaxError
          (SyntaxDiagnostic.unexpectedToken p.lineno p.token p.tokenString) p))

def expression_statement : Nat → ParseState → Option (TreeNode × ParseState)
  | 0, _ => none
  | fuel + 1, p =>
    if p.token = TokenType.SEMI then some (TreeNode.NULL, matchToken TokenType.SEMI p)
    else if p.token ≠ TokenType.RBRACE then
      (expression fuel p).bind fun (tree, p) => some (tree, matchToken TokenType.SEMI p)
    else some (TreeNode.NULL, p)

def if_statement : Nat → ParseState → Option (TreeNode × ParseState)
  | 0, _ => none
  | fuel + 1, p =>
    let p := matchToken TokenType.IF p
    let p := matchToken TokenType.LPAREN p
    (expression fuel p).bind fun (expr, p) =>
    let p := matchToken TokenType.RPAREN p
    (statement fuel p).bind fun (ifStmt, p) =>
    (if p.token = TokenType.ELSE then statement fuel (matchToken TokenType.ELSE p)
      else some (TreeNode.NULL, p)).bind fun (elseStmt, p) =>
    let (addr, f, p) := newNode (Kind.StmtK StmtKind.IfK) p
    some (TreeNode.node addr f expr ifStmt elseStmt TreeNode.NULL, p)

def while_statement : Nat → ParseState → Option (TreeNode × ParseState)
  | 0, _ => none
  | fuel + 1, p =>
    let p := matchToken TokenType.WHILE p
    let p := matchToken TokenType.LPAREN p
    (expression fuel p).bind fun (expr, p) =>
    let p := matchToken TokenType.RPAREN p
    (statement fuel p).bind fun (stmt, p) =>
    let (addr, f, p) := newNode (Kind.StmtK StmtKind.WhileK) p
    some (TreeNode.node addr f expr stmt TreeNode.NULL TreeNode.NULL, p)

def return_statement : Nat → ParseState → Option (TreeNode × ParseState)
  | 0, _ => none
  | fuel + 1, p =>
    let p := matchToken TokenType.RETURN p
    let (addr, f, p) := newNode (Kind.StmtK StmtKind.ReturnK) p
    (if p.token ≠ TokenType.SEMI then expression fuel p
      else some (TreeNode.NULL, p)).bind fun (expr, p) =>
    some (TreeNode.node addr f expr TreeNode.NULL TreeNode.NULL TreeNode.NULL,
      matchToken TokenType.SEMI p)

def expression : Nat → ParseState → Option (TreeNode × ParseState)
  | 0, _ => none
  | fuel + 1, p =>
    (if p.token = TokenType.ID then
        (identifier_statement fuel p).map fun (lvalue, p) => (lvalue, true, p)
      else some (TreeNode.NULL, false, p)).bind fun (lvalue, gotLvalue, p) =>
    /- assign -/
    if gotLvalue = true ∧ p.token = TokenType.ASSIGN then
      match lvalue with
      | TreeNode.node _ lf _ _ _ _ =>
        if lf.kind = Kind.ExpK ExpKind.IdK then
          let p := matchToken TokenType.ASSIGN p
          (expression fuel p).bind fun (rvalue, p) =>
          let (addr, f, p) := newNode (Kind.ExpK ExpKind.AssignK) p
          some (TreeNode.node addr f lvalue rvalue TreeNode.NULL TreeNode.NULL, p)
        else
          some (TreeNode.NULL,
            getToken (syntaxError (SyntaxDiagnostic.notAnLvalue p.lineno) p))
      | TreeNode.NULL =>
        some (TreeNode.NULL,
          getToken (syntaxError (SyntaxDiagnostic.notAnLvalue p.lineno) p))
    else simple_expression fuel lvalue p

def simple_expression : Nat → TreeNode → ParseState → Option (TreeNode × ParseState)
  | 0, _, _ => none
  | fuel + 1, passdown, p =>
    (additive_expression fuel passdown p).bind fun (lExpr, p) =>
    if isRelational p.token then
      let operat := p.token
      let p := matchToken p.token p
      (additive_expression fuel TreeNode.NULL p).bind fun (rExpr, p) =>
      let (addr, f, p) := newNode (Kind.ExpK ExpKind.OpK) p
      some (TreeNode.node addr { f with op := operat } lExpr rExpr TreeNode.NULL
        TreeNode.NULL, p)
    else some (lExpr, p)

/-- The `while` loop of `additive_expression`. -/
def additive_expression_loop : Nat → TreeNode → ParseState → Option (TreeNode × ParseState)
  | 0, _, _ => none
  | fuel + 1, tree, p =>
    if p.token = TokenType.PLUS ∨ p.token = TokenType.MINUS then
      let (addr, f, p) := newNode (Kind.ExpK ExpKind.OpK) p
      let op := p.token
      let p := matchToken p.token p
      (term fuel TreeNode.NULL p).bind fun (child1, p) =>
      additive_expression_loop fuel
        (TreeNode.node addr { f with op := op } tree child1 TreeNode.NULL TreeNode.NULL) p
    else some (tree, p)

def additive_expression : Nat → TreeNode → ParseState → Option (TreeNode × ParseState)
  | 0, _, _ => none
  | fuel + 1, passdown, p =>
    (term fuel passdown p).bind fun (tree, p) => additive_expression_loop fuel tree p

/-- The `while` loop of `term`. -/
def term_loop : Nat → TreeNode → ParseState → Option (TreeNode × ParseState)
  | 0, _, _ => none
  | fuel + 1, tree, p =>
    if p.token = TokenType.TIMES ∨ p.token = TokenType.DIVIDE then
      let (addr, f, p) := newNode (Kind.ExpK ExpKind.OpK) p
      let op := p.token
      let p := matchToken p.token p
      (factor fuel TreeNode.NULL p).bind fun (child1, p) =>
      term_loop fuel
        (TreeNode.node addr { f with op := op } tree child1 TreeNode.NULL TreeNode.NULL) p
    else some (tree, p)

def term : Nat → TreeNode → ParseState → Option (TreeNode × ParseState)
  | 0, _, _ => none
  | fuel + 1, passdown, p =>
    (factor fuel passdown p).bind fun (tree, p) => term_loop fuel tree p

def factor : Nat → TreeNode → ParseState → Option (TreeNode × ParseState)
  | 0, _, _ => none
  | fuel + 1, passdown, p =>
    /- if the subtree in "passdown" is a factor, pass it back -/
    if passdown ≠ TreeNode.NULL then some (passdown, p)
    else if p.token = TokenType.ID then identifier_statement fuel p
    else if p.token = TokenType.LPAREN then
      let p := matchToken TokenType.LPAREN p
      (expression fuel p).bind fun (tree, p) => some (tree, matchToken TokenType.RPAREN p)
    else if p.token = TokenType.NUM then
      let (addr, f, p) := newNode (Kind.ExpK ExpKind.ConstK) p
      some (TreeNode.node addr
        { f with val := atoi p.tokenString, variableDataType := ExpType.Integer }
        TreeNode.NULL TreeNode.NULL TreeNode.NULL TreeNode.NULL,
        matchToken TokenType.NUM p)
    else
      some (TreeNode.NULL,
        getToken (syntaxError
          (SyntaxDiagnostic.unexpectedToken p.lineno p.token p.tokenString) p))

def identifier_statement : Nat → ParseState → Option (TreeNode × ParseState)
  | 0, _ => none
  | fuel + 1, p =>
    let identifier := if p.token = TokenType.ID then p.tokenString else ""
    let p := matchToken TokenType.ID p
    if p.token = TokenType.LPAREN then
      let p := matchToken TokenType.LPAREN p
      (args fuel p).bind fun (arguments, p) =>
      let p := matchToken TokenType.RPAREN p
      let (addr, f, p) := newNode (Kind.StmtK StmtKind.CallK) p
      some (TreeNode.node addr { f with name := identifier } arguments TreeNode.NULL
        TreeNode.NULL TreeNode.NULL, p)
    else
      let (addr, f, p) := newNode (Kind.ExpK ExpKind.IdK) p
      some (TreeNode.node addr { f with name := identifier } TreeNode.NULL TreeNode.NULL
        TreeNode.NULL TreeNode.NULL, p)

def args : Nat → ParseState → Option (TreeNode × ParseState)
  | 0, _ => none
  | fuel + 1, p =>
    if p.token ≠ TokenType.RPAREN then arg_list fuel p else some (TreeNode.NULL, p)

/-- The `while` loop of `arg_list`; `ptr` tells whether `ptr` is non-null (`tree` is
non-null whenever `ptr` is). -/
def arg_list_loop : Nat → Bool → ParseState → Option (Option TreeNode × ParseState)
  | 0, _, _ => none
  | fuel + 1, ptr, p =>
    if p.token = TokenType.COMMA then
      let p := matchToken TokenType.COMMA p
      (expression fuel p).bind fun (newNode, p) =>
      if ptr then
        (arg_list_loop fuel (decide (newNode ≠ TreeNode.NULL)) p).map fun (rest, p) =>
          (some (assignSibling newNode rest), p)
      else arg_list_loop fuel false p
    else some (none, p)

def arg_list : Nat → ParseState → Option (TreeNode × ParseState)
  | 0, _ => none
  | fuel + 1, p =>
    (expression fuel p).bind fun (tree, p) =>
    (arg_list_loop fuel (decide (tree ≠ TreeNode.NULL)) p).map fun (rest, p) =>
      (assignSibling tree rest, p)

end

def declaration (fuel : Nat) (p : ParseState) : Option (TreeNode × ParseState) :=
  let (declaration_type, p) := matchType p
  let identifier := p.tokenString
  let p := matchToken TokenType.ID p
  if p.token = TokenType.SEMI then
    /- variable declaration -/
    let (addr, f, p) := newNode (Kind.DecK DecKind.ScalarDecK) p
    let p := matchToken TokenType.SEMI p
    some (TreeNode.node addr { f with variableDataType := declaration_type, name := identifier }
      TreeNode.NULL TreeNode.NULL TreeNode.NULL TreeNode.NULL, p)
  else if p.token = TokenType.LPAREN then
    /- function declaration -/
    let (addr, f, p) := newNode (Kind.DecK DecKind.FuncDecK) p
    let p := matchToken TokenType.LPAREN p
    (param_list fuel p).bind fun (child0, p) =>
    let p := matchToken TokenType.RPAREN p
    (compound_statement fuel p).bind fun (child1, p) =>
    some (TreeNode.node addr { f with functionReturnType := declaration_type, name := identifier }
      child0 child1 TreeNode.NULL TreeNode.NULL, p)
  else
    some (TreeNode.NULL,
      getToken (syntaxError
        (SyntaxDiagnostic.unexpectedToken p.lineno p.token p.tokenString) p))

/-- The `while` loop of `declaration_list`; `ptr` tells whether `ptr` is non-null. -/
def declaration_list_loop : Nat → Bool → ParseState → Option (Option TreeNode × ParseState)
  | 0, _, _ => none
  | fuel + 1, ptr, p =>
    if p.token ≠ TokenType.ENDOFFILE then
      (declaration fuel p).bind fun (tmp, p) =>
      if tmp ≠ TreeNode.NULL ∧ ptr then
        (declaration_list_loop fuel true p).map fun (rest, p) =>
          (some (assignSibling tmp rest), p)
      else declaration_list_loop fuel ptr p
    else some (none, p)

def declaration_list (fuel : Nat) (p : ParseState) : Option (TreeNode × ParseState) :=
  (declaration fuel p).bind fun (tree, p) =>
  (declaration_list_loop fuel (decide (tree ≠ TreeNode.NULL)) p).map fun (rest, p) =>
    (assignSibling tree rest, p)

/-- The state of the parser before `parse` requests its first token: the tokens that the
scanner will deliver, no syntax error written, and `brk` the next unused address. -/
def ParseState.start (source : List Token) (brk : Nat) : ParseState :=
  { token := TokenType.ENDOFFILE, tokenString := "", lineno := 1, source := source,
    listing := [], brk := brk }

def parse (fuel : Nat) (p : ParseState) : Option (TreeNode × ParseState) :=
  let p := getToken p
  (declaration_list fuel p).bind fun (t, p) =>
  if p.token ≠ TokenType.ENDOFFILE then
    some (t, syntaxError (SyntaxDiagnostic.endOfFile p.lineno) p)
  else some (t, p)

/-! ## Specification-level definitions for the parser -/

/-- The upcoming tokens of the parser state `p` are `toks`: the first of them is the
lookahead (with its text in `tokenString`) and the others are still in the source; when
`toks` is empty the lookahead is `ENDOFFILE` and the source is exhausted. -/
def Upcoming : List Token → ParseState → Prop
  | [], p => p.token = TokenType.ENDOFFILE ∧ p.source = []
  | t :: ts, p => p.token = t.type ∧ p.tokenString = t.text ∧ p.source = ts

/-- The kind of the first of the tokens `toks`, `ENDOFFILE` when there is none. -/
def firstType : List Token → TokenType
  | [] => TokenType.ENDOFFILE
  | t :: _ => t.type

/-- The shape of an expression tree, without addresses and line numbers. -/
inductive Exp where
  | null
  | num (val : Int)
  | var (name : String)
  | op (op : TokenType) (left right : Exp)
  | assign (left right : Exp)
  | other
deriving DecidableEq

/-- The shape of the expression tree at `t`. -/
def expOf : TreeNode → Exp
  | TreeNode.NULL => Exp.null
  | TreeNode.node _ f child0 child1 _ _ =>
    match f.kind with
    | Kind.ExpK ExpKind.ConstK => Exp.num f.val
    | Kind.ExpK ExpKind.IdK => Exp.var f.name
    | Kind.ExpK ExpKind.OpK => Exp.op f.op (expOf child0) (expOf child1)
    | Kind.ExpK ExpKind.AssignK => Exp.assign (expOf child0) (expOf child1)
    | _ => Exp.other

/-- A token on line 1. -/
def tok (type : TokenType) (text : String) : Token :=
  { type := type, text := text, line := 1 }

/-- The parser state in which the tokens `toks` are upcoming: the state of `parse` after its
first request for a token, nodes being allocated from address 1. -/
def upcomingState (toks : List Token) : ParseState :=
  getToken (ParseState.start toks 1)

/-- The tokens of `a < b < c ;`. -/
def chainedLess : List Token :=
  [tok TokenType.ID "a", tok TokenType.LT "<", tok TokenType.ID "b", tok TokenType.LT "<",
   tok TokenType.ID "c", tok TokenType.SEMI ";"]

/-- The tokens of `a = b = 1 ;`. -/
def chainedAssign : List Token :=
  [tok TokenType.ID "a", tok TokenType.ASSIGN "=", tok TokenType.ID "b",
   tok TokenType.ASSIGN "=", tok TokenType.NUM "1", tok TokenType.SEMI ";"]

/-- The tokens of `f ( ) = 1 ;`. -/
def callAssign : List Token :=
  [tok TokenType.ID "f", tok TokenType.LPAREN "(", tok TokenType.RPAREN ")",
   tok TokenType.ASSIGN "=", tok TokenType.NUM "1", tok TokenType.SEMI ";"]

/-- The result `b` is the result `a` whenever `a` is a result at all: how the result of a
procedure with more fuel relates to its result with less. -/
def Below {α : Type} (a b : Option α) : Prop := ∀ r, a = some r → b = some r

/-- Every procedure of the mutual block that returns with fuel `F` returns the same with fuel
`F + 1`. -/
structure FuelMono (F : Nat) : Prop where
  compound_statement : ∀ p, Below (compound_statement F p) (compound_statement (F + 1) p)
  statement_list_loop : ∀ b p,
    Below (statement_list_loop F b p) (statement_list_loop (F + 1) b p)
  statement_list : ∀ p, Below (statement_list F p) (statement_list (F + 1) p)
  statement : ∀ p, Below (statement F p) (statement (F + 1) p)
  expression_statement : ∀ p,
    Below (expression_statement F p) (expression_statement (F + 1) p)
  if_statement : ∀ p, Below (if_statement F p) (if_statement (F + 1) p)
  while_statement : ∀ p, Below (while_statement F p) (while_statement (F + 1) p)
  return_statement : ∀ p, Below (return_statement F p) (return_statement (F + 1) p)
  expression : ∀ p, Below (expression F p) (expression (F + 1) p)
  simple_expression : ∀ t p,
    Below (simple_expression F t p) (simple_expression (F + 1) t p)
  additive_expression_loop : ∀ t p,
    Below (additive_expression_loop F t p) (additive_expression_loop (F + 1) t p)
  additive_expression : ∀ t p,
    Below (additive_expression F t p) (additive_expression (F + 1) t p)
  term_loop : ∀ t p, Below (term_loop F t p) (term_loop (F + 1) t p)
  term : ∀ t p, Below (term F t p) (term (F + 1) t p)
  factor : ∀ t p, Below (factor F t p) (factor (F + 1) t p)
  identifier_statement : ∀ p,
    Below (identifier_statement F p) (identifier_statement (F + 1) p)
  args : ∀ p, Below (args F p) (args (F + 1) p)
  arg_list_loop : ∀ b p, Below (arg_list_loop F b p) (arg_list_loop (F + 1) b p)
  arg_list : ∀ p, Below (arg_list F p) (arg_list (F + 1) p)

/-- The chain that links the nodes `ts` through their `sibling` fields, in this order; the
last node keeps its own sibling. -/
def chainOf : List TreeNode → TreeNode
  | [] => TreeNode.NULL
  | [t] => t
  | t :: t' :: ts => setSibling t (chainOf (t' :: ts))

/-- What a node of a parameter chain declares: its kind, name, declared type and
is-parameter tag; the list runs along the sibling chain. -/
def paramView : TreeNode → List (Kind × String × ExpType × Bool)
  | TreeNode.NULL => []
  | TreeNode.node _ f _ _ _ sibling =>
    (f.kind, f.name, f.variableDataType, f.isParameter) :: paramView sibling

/-- A type token: `int` or `void`. -/
def IsTypeTok (t : Token) : Prop := t.type = TokenType.INT ∨ t.type = TokenType.VOID

/-- The type that `matchType` returns on a type token. -/
def typeOfToken (t : Token) : ExpType :=
  if t.type = TokenType.INT then ExpType.Integer else ExpType.Void

/-- A parameter, written out: its type token and its identifier. -/
abbrev ParamInput := Token × Token

/-- A parameter list, written out: the first parameter, and the further ones, each after its
comma. -/
abbrev ParamListInput := ParamInput × List (Token × ParamInput)

def ParamInput.WF (a : ParamInput) : Prop := IsTypeTok a.1 ∧ a.2.type = TokenType.ID

def ParamListInput.WF (a : ParamListInput) : Prop :=
  a.1.WF ∧ ∀ it ∈ a.2, it.1.type = TokenType.COMMA ∧ it.2.WF

/-- The tokens of a written-out parameter list, in textual order. -/
def paramTokens (a : ParamListInput) : List Token :=
  a.1.1 :: a.1.2 :: (a.2.map fun it => [it.1, it.2.1, it.2.2]).flatten

/-- What the written-out parameter `a` declares. -/
def paramDecl (a : ParamInput) : Kind × String × ExpType × Bool :=
  (Kind.DecK DecKind.ScalarDecK, a.2.text, typeOfToken a.1, true)

/-- What the parameters of a written-out parameter list declare, in textual order. -/
def paramDecls (a : ParamListInput) : List (Kind × String × ExpType × Bool) :=
  paramDecl a.1 :: a.2.map fun it => paramDecl it.2

/-- The chain that a loop assigned to a `sibling` field, as a view; nothing when it assigned
nothing. -/
def paramViewOpt : Option TreeNode → List (Kind × String × ExpType × Bool)
  | none => []
  | some t => paramView t

/-- The addresses of the chain that a loop assigned to a `sibling` field. -/
def siblingsOpt : Option TreeNode → List Nat
  | none => []
  | some t => siblings t

/-- The parameter list `int a, void b, int c`, written out. -/
def threeParams : ParamListInput :=
  ((tok TokenType.INT "int", tok TokenType.ID "a"),
   [(tok TokenType.COMMA ",", (tok TokenType.VOID "void", tok TokenType.ID "b")),
    (tok TokenType.COMMA ",", (tok TokenType.INT "int", tok TokenType.ID "c"))])

/-- The parameter list `void a`, written out. -/
def voidFirst : ParamListInput :=
  ((tok TokenType.VOID "void", tok TokenType.ID "a"), [])
/-- The value that a loop assigns to the `sibling` field of the node before the nodes `ts`,
when it links them in this order: nothing when there is none. -/
def chainOpt : List TreeNode → Option TreeNode
  | [] => none
  | t :: ts => some (chainOf (t :: ts))

/-- The argument expressions from the parser state `p` on are parsed, by `expression` with
fuel `G`, to the trees `ts`, in textual order: each but the last is followed by a comma, and
the last ends in the state `q`, whose lookahead is no comma. -/
def ArgsParsed (G : Nat) : List TreeNode → ParseState → ParseState → Prop
  | [], _, _ => False
  | [t], p, q => expression G p = some (t, q) ∧ q.token ≠ TokenType.COMMA
  | t :: t' :: ts, p, q =>
    ∃ p1, expression G p = some (t, p1) ∧ p1.token = TokenType.COMMA ∧
      ArgsParsed G (t' :: ts) (getToken p1) q

/-- The statements from the parser state `p` on are parsed, by `statement` with fuel `G`, to
the trees `ts`, in textual order: none of them begins with `}`, and the last ends in the
state `q`, whose lookahead is `}`. -/
def StmtsParsed (G : Nat) : List TreeNode → ParseState → ParseState → Prop
  | [], _, _ => False
  | [t], p, q =>
    p.token ≠ TokenType.RBRACE ∧ statement G p = some (t, q) ∧ q.token = TokenType.RBRACE
  | t :: t' :: ts, p, q =>
    p.token ≠ TokenType.RBRACE ∧
      ∃ p1, statement G p = some (t, p1) ∧ StmtsParsed G (t' :: ts) p1 q

/-- The tokens of `a , b + 1 , 2 )`. -/
def threeArgs : List Token :=
  [tok TokenType.ID "a", tok TokenType.COMMA ",", tok TokenType.ID "b",
   tok TokenType.PLUS "+", tok TokenType.NUM "1", tok TokenType.COMMA ",",
   tok TokenType.NUM "2", tok TokenType.RPAREN ")"]

/-- The tokens of `x = 1 ; return x ; }`. -/
def twoStatements : List Token :=
  [tok TokenType.ID "x", tok TokenType.ASSIGN "=", tok TokenType.NUM "1",
   tok TokenType.SEMI ";", tok TokenType.RETURN "return", tok TokenType.ID "x",
   tok TokenType.SEMI ";", tok TokenType.RBRACE "\x7d"]
/-- The node `t` has no sibling (or is null). -/
def Lone : TreeNode → Prop
  | TreeNode.NULL => True
  | TreeNode.node _ _ _ _ _ sibling => sibling = TreeNode.NULL

/-- Every result that `a` may be satisfies `P`. -/
def Returns {α : Type} (P : α → Prop) (a : Option α) : Prop := ∀ r, a = some r → P r

/-- The tree that a procedure returns with fuel `F` has no sibling, for the procedures that
parse one statement or one expression. -/
structure LoneResult (F : Nat) : Prop where
  compound_statement : ∀ p, Returns (fun r => Lone r.1) (compound_statement F p)
  statement : ∀ p, Returns (fun r => Lone r.1) (statement F p)
  expression_statement : ∀ p, Returns (fun r => Lone r.1) (expression_statement F p)
  if_statement : ∀ p, Returns (fun r => Lone r.1) (if_statement F p)
  while_statement : ∀ p, Returns (fun r => Lone r.1) (while_statement F p)
  return_statement : ∀ p, Returns (fun r => Lone r.1) (return_statement F p)
  expression : ∀ p, Returns (fun r => Lone r.1) (expression F p)
  simple_expression : ∀ t p, Lone t →
    Returns (fun r => Lone r.1) (simple_expression F t p)
  additive_expression_loop : ∀ t p, Lone t →
    Returns (fun r => Lone r.1) (additive_expression_loop F t p)
  additive_expression : ∀ t p, Lone t →
    Returns (fun r => Lone r.1) (additive_expression F t p)
  term_loop : ∀ t p, Lone t → Returns (fun r => Lone r.1) (term_loop F t p)
  term : ∀ t p, Lone t → Returns (fun r => Lone r.1) (term F t p)
  factor : ∀ t p, Lone t → Returns (fun r => Lone r.1) (factor F t p)
  identifier_statement : ∀ p, Returns (fun r => Lone r.1) (identifier_statement F p)

/-- The nodes of a sibling chain, in order, each without its sibling. -/
def unchain : TreeNode → List TreeNode
  | TreeNode.NULL => []
  | TreeNode.node addr f child0 child1 child2 sibling =>
    TreeNode.node addr f child0 child1 child2 TreeNode.NULL :: unchain sibling

/-- The trees of the three arguments `a`, `b + 1` and `2` of `threeArgs`. -/
def threeArgTrees : List TreeNode :=
  [identifier 1 "a" TreeNode.NULL,
   TreeNode.node 3 (opFields TokenType.PLUS) (identifier 2 "b" TreeNode.NULL)
     (constant 4 1 TreeNode.NULL) TreeNode.NULL TreeNode.NULL,
   constant 5 2 TreeNode.NULL]

/-- The trees of the two statements `x = 1;` and `return x;` of `twoStatements`. -/
def twoStatementTrees : List TreeNode :=
  [TreeNode.node 3 (newFields 1 (Kind.ExpK ExpKind.AssignK)) (identifier 1 "x" TreeNode.NULL)
     (constant 2 1 TreeNode.NULL) TreeNode.NULL TreeNode.NULL,
   returnStmt 4 (identifier 5 "x" TreeNode.NULL) TreeNode.NULL]

/-- The parser state whose lookahead is the last token `t` of the source, on line 1, with no
syntax error written and `brk` the next unused address. -/
def lastTokenState (t : Token) (brk : Nat) : ParseState :=
  { token := t.type, tokenString := t.text, lineno := 1, source := [], listing := [],
    brk := brk }

/-- The syntax error *unexpected token* that a procedure writes in the state `p`. -/
def unexpectedHere (p : ParseState) : SyntaxDiagnostic :=
  SyntaxDiagnostic.unexpectedToken p.lineno p.token p.tokenString

/-- The state `q` is the state `p` after one more syntax error `d`, and the upcoming tokens
of `q` are `toks`. -/
def Reported (toks : List Token) (d : SyntaxDiagnostic) (p q : ParseState) : Prop :=
  Upcoming toks q ∧ q.listing = p.listing ++ [d]

/-- The tokens of `) x ;`. -/
def strayParen : List Token :=
  [tok TokenType.RPAREN ")", tok TokenType.ID "x", tok TokenType.SEMI ";"]

/-- The parser state after the call `f ( )` of `callAssign`: the upcoming tokens are
`= 1 ;`, and the node of the call has address 1. -/
def afterCall : ParseState :=
  { upcomingState [tok TokenType.ASSIGN "=", tok TokenType.NUM "1", tok TokenType.SEMI ";"]
    with brk := 2 }

/-! ## Specification-level definitions for the type checker -/

/-- The address of a node; 0 for the null pointer. -/
def addrOf : TreeNode → Nat
  | TreeNode.NULL => 0
  | TreeNode.node addr _ _ _ _ _ => addr

/-- The address of a node as a list: empty for the null pointer. -/
def topAddr : TreeNode → List Nat
  | TreeNode.NULL => []
  | TreeNode.node addr _ _ _ _ _ => [addr]

/-- The first child of a node; null for the null pointer. -/
def child0Of : TreeNode → TreeNode
  | TreeNode.NULL => TreeNode.NULL
  | TreeNode.node _ _ child0 _ _ _ => child0

/-- What one call of `checkNode` changes: the type that it writes to the node, if it writes
one, and the error that it reports, if it reports one. -/
structure Effect where
  write : Option ExpType
  report : Option Diagnostic
deriving DecidableEq

/-- The report of an effect, made in the state `s`. -/
def Effect.reportTo (e : Effect) (s : State) : State :=
  match e.report with
  | some d => flagSemanticError d s
  | none => s

/-- The effect `e` of `checkNode` on the node at `addr`, applied to the state `s`. -/
def Effect.apply (e : Effect) (addr : Nat) (s : State) : State :=
  match e.write with
  | some v =>
    { e.reportTo s with expressionType := assign (e.reportTo s).expressionType addr v }
  | none => e.reportTo s

/-- The effect of `checkNode` on the node `t` in the state `s`, of which it reads the
resolved declarations and the inferred types: the rule of the node's kind, with the same
reads in the same order as `checkNode`; no result where `checkNode` has none. -/
def effectOf (s : State) (t : TreeNode) : Option Effect :=
  match t with
  | TreeNode.NULL => none
  | TreeNode.node addr f child0 child1 _ _ =>
    match f.kind with
    | Kind.DecK DecKind.ScalarDecK => some { write := some f.variableDataType, report := none }
    | Kind.DecK DecKind.ArrayDecK => some { write := some ExpType.Array, report := none }
    | Kind.DecK DecKind.FuncDecK => some { write := some ExpType.Function, report := none }
    | Kind.StmtK StmtKind.IfK =>
      (readExpressionType s child0).map fun t0 =>
        { write := none,
          report := if t0 ≠ ExpType.Integer then some (Diagnostic.ifNotInteger f.lineno)
            else none }
    | Kind.StmtK StmtKind.WhileK =>
      (readExpressionType s child0).map fun t0 =>
        { write := none,
          report := if t0 ≠ ExpType.Integer then some (Diagnostic.whileNotInteger f.lineno)
            else none }
    | Kind.StmtK StmtKind.CallK =>
      (checkFormalAgainstActualParms (s.declaration addr) t s).bind fun ok =>
        match s.declaration addr with
        | TreeNode.NULL => none
        | TreeNode.node _ fd _ _ _ _ =>
          some { write := some fd.functionReturnType,
                 report := if !ok then some (Diagnostic.parametersDontMatch f.lineno)
                   else none }
    | Kind.StmtK StmtKind.ReturnK =>
      match s.declaration addr with
      | TreeNode.NULL => none
      | TreeNode.node _ fd _ _ _ _ =>
        some { write := none,
               report :=
                 if fd.functionReturnType = ExpType.Integer ∧
                     (child0 = TreeNode.NULL ∨
                       readExpressionType s child0 ≠ some ExpType.Integer) then
                   some (Diagnostic.returnNotInteger f.lineno)
                 else none }
    | Kind.StmtK StmtKind.CompoundK => some { write := some ExpType.Void, report := none }
    | Kind.ExpK ExpKind.OpK =>
      if f.op = TokenType.PLUS ∨ f.op = TokenType.MINUS ∨ f.op = TokenType.TIMES
          ∨ f.op = TokenType.DIVIDE then
        (bothInteger s child0 child1).map fun b =>
          if b then { write := some ExpType.Integer, report := none }
          else { write := none, report := some (Diagnostic.arithmeticOperands f.lineno) }
      else if f.op = TokenType.GT ∨ f.op = TokenType.LT ∨ f.op = TokenType.LTE
          ∨ f.op = TokenType.GTE ∨ f.op = TokenType.EQ ∨ f.op = TokenType.NEQ then
        (bothInteger s child0 child1).map fun b =>
          if b then { write := some ExpType.Integer, report := none }
          else { write := none, report := some (Diagnostic.relationalOperands f.lineno) }
      else some { write := none, report := some (Diagnostic.unknownOperator f.lineno) }
    | Kind.ExpK ExpKind.IdK =>
      (readExpressionType s (s.declaration addr)).map fun td =>
        if td = ExpType.Integer then
          if child0 = TreeNode.NULL then { write := some ExpType.Integer, report := none }
          else { write := none, report := some (Diagnostic.illegalIdentifier f.lineno) }
        else { write := none, report := none }
    | Kind.ExpK ExpKind.ConstK => some { write := some ExpType.Integer, report := none }
    | Kind.ExpK ExpKind.AssignK =>
      (bothInteger s child0 child1).map fun b =>
        if b then { write := some ExpType.Integer, report := none }
        else { write := none, report := some (Diagnostic.assignNotInteger f.lineno) }
/-- The addresses of the nodes whose inferred types `checkNode` reads and compares on the
node `t`: the condition of an `if` or `while`, the value of a `return`, the operands of an
operator or an assignment, the parameters of the callee and the arguments of a call.  The
declaration of an identifier is in `idReads`. -/
def reads (decl : Nat → TreeNode) : TreeNode → List Nat
  | TreeNode.NULL => []
  | TreeNode.node addr f child0 child1 _ _ =>
    match f.kind with
    | Kind.StmtK StmtKind.IfK => topAddr child0
    | Kind.StmtK StmtKind.WhileK => topAddr child0
    | Kind.StmtK StmtKind.ReturnK => topAddr child0
    | Kind.StmtK StmtKind.CallK => siblings (child0Of (decl addr)) ++ siblings child0
    | Kind.ExpK ExpKind.OpK => topAddr child0 ++ topAddr child1
    | Kind.ExpK ExpKind.AssignK => topAddr child0 ++ topAddr child1
    | _ => []

/-- The address of the declaration of which `checkNode` tests, on an identifier node `t`,
whether its inferred type is Integer. -/
def idReads (decl : Nat → TreeNode) : TreeNode → List Nat
  | TreeNode.NULL => []
  | TreeNode.node addr f _ _ _ _ =>
    if f.kind = Kind.ExpK ExpKind.IdK then topAddr (decl addr) else []

/-- The state `u` shows `checkNode` on the node `t` what the state `s` shows it: the same
resolved declarations, the same inferred types at the addresses it reads, and a declaration
of inferred type Integer for an identifier in the one if and only if in the other. -/
def Agree (s u : State) (t : TreeNode) : Prop :=
  u.declaration = s.declaration ∧
  (∀ a ∈ reads s.declaration t, u.expressionType a = s.expressionType a) ∧
  (∀ a ∈ idReads s.declaration t,
    (u.expressionType a = ExpType.Integer ↔ s.expressionType a = ExpType.Integer))
/-- The nodes of a tree in the order in which `traverse` applies its `postProc` to them: a
node after its three subtrees and before its siblings. -/
def postNodes : TreeNode → List TreeNode
  | TreeNode.NULL => []
  | TreeNode.node addr f child0 child1 child2 sibling =>
    postNodes child0 ++ postNodes child1 ++ postNodes child2 ++
      TreeNode.node addr f child0 child1 child2 sibling :: postNodes sibling

/-- The calls of `checkNode` on the nodes of a list, in order. -/
def checkAll : List TreeNode → State → Option State
  | [], s => some s
  | n :: ns, s => (checkNode n s).bind (checkAll ns)

/-- The kind of a node. -/
def kindOf : TreeNode → Option Kind
  | TreeNode.NULL => none
  | TreeNode.node _ f _ _ _ _ => some f.kind

/-- The diagnostics that the rules of `checkNode` give on the nodes of `l`, in order, when
every rule reads the state `s`. -/
def reportsOf (s : State) (l : List TreeNode) : List Diagnostic :=
  (l.map fun n => ((effectOf s n).bind fun e => e.report).toList).flatten

/-- The node `n` is ready to be checked when the nodes at the addresses `done` have been
checked, among the nodes `l` to check from a state with inferred types `et0`: every inferred
type that `checkNode` reads on `n` is one of a node that has been checked or that is not to
be checked at all; the declaration of an identifier may also be a function declaration yet
to be checked, whose inferred type is not Integer before. -/
def NodeReady (decl : Nat → TreeNode) (et0 : Nat → ExpType) (l : List TreeNode)
    (done : List Nat) (n : TreeNode) : Prop :=
  (∀ a ∈ reads decl n, a ∈ done ∨ a ∉ l.map addrOf) ∧
  (∀ a ∈ idReads decl n, a ∈ done ∨ a ∉ l.map addrOf ∨
    ((∀ m ∈ l, addrOf m = a → kindOf m = some (Kind.DecK DecKind.FuncDecK)) ∧
      et0 a ≠ ExpType.Integer))

/-- Every node of the list `l` is ready when its turn comes. -/
def ReadyList (decl : Nat → TreeNode) (et0 : Nat → ExpType) (l : List TreeNode) : Prop :=
  ∀ pre n post, l = pre ++ n :: post → NodeReady decl et0 l (pre.map addrOf) n
/-- The addresses of the nodes of a tree, in the order of `postNodes`. -/
def addrs (t : TreeNode) : List Nat := (postNodes t).map addrOf

/-- The property `P done n` holds of every node `n` of the tree `t` with `done` the
addresses of the nodes checked before it, when the nodes at `done` are checked before the
tree: the order is the one of `postNodes`. -/
def ReadyTree (P : List Nat → TreeNode → Prop) : List Nat → TreeNode → Prop
  | _, TreeNode.NULL => True
  | done, TreeNode.node addr f child0 child1 child2 sibling =>
    ReadyTree P done child0 ∧
    ReadyTree P (done ++ addrs child0) child1 ∧
    ReadyTree P (done ++ addrs child0 ++ addrs child1) child2 ∧
    P (done ++ addrs child0 ++ addrs child1 ++ addrs child2)
      (TreeNode.node addr f child0 child1 child2 sibling) ∧
    ReadyTree P (done ++ addrs child0 ++ addrs child1 ++ addrs child2 ++ [addr]) sibling
/-- Whether the kind is the one of a variable declaration: a scalar or an array. -/
def isVarDec : Kind → Bool
  | Kind.DecK DecKind.ScalarDecK => true
  | Kind.DecK DecKind.ArrayDecK => true
  | _ => false

/-- Whether the chain holds variable declarations without children only: the shape of the
parameter chain that `param_list` builds. -/
def paramChain : TreeNode → Bool
  | TreeNode.NULL => true
  | TreeNode.node _ f child0 child1 child2 sibling =>
    isVarDec f.kind && decide (child0 = TreeNode.NULL) && decide (child1 = TreeNode.NULL)
      && decide (child2 = TreeNode.NULL) && paramChain sibling

/-- Whether the declarations of the tree have the shape that the parser gives them: a
variable declaration has no children, and the first child of a function declaration is a
chain of variable declarations. -/
def plainDecls : TreeNode → Bool
  | TreeNode.NULL => true
  | TreeNode.node _ f child0 child1 child2 sibling =>
    (if f.kind = Kind.DecK DecKind.FuncDecK then paramChain child0
      else if isVarDec f.kind then
        decide (child0 = TreeNode.NULL ∧ child1 = TreeNode.NULL ∧ child2 = TreeNode.NULL)
      else true)
    && plainDecls child0 && plainDecls child1 && plainDecls child2 && plainDecls sibling

/-- The entry `e` is in one of the scopes of the scope stack. -/
def InTable (r : SpecState) (e : HashNode) : Prop := ∃ sc ∈ r.scopes, e ∈ sc

/-- A declaration `D` may be found by a lookup when the nodes at the addresses `done` have
been checked: its parameters have been checked or are not to be checked at all, and so has
the declaration itself, unless it is a function declaration yet to be checked, whose
inferred type is not Integer before. -/
def EntryOK (et0 : Nat → ExpType) (l : List TreeNode) (done : List Nat) (D : TreeNode) :
    Prop :=
  (∀ a ∈ siblings (child0Of D), a ∈ done ∨ a ∉ l.map addrOf) ∧
  (∀ a ∈ topAddr D, a ∈ done ∨ a ∉ l.map addrOf ∨
    ((∀ m ∈ l, addrOf m = a → kindOf m = some (Kind.DecK DecKind.FuncDecK)) ∧
      et0 a ≠ ExpType.Integer))

/-- Every declaration in the scope stack may be found. -/
def TableOK (et0 : Nat → ExpType) (l : List TreeNode) (done : List Nat) (r : SpecState) :
    Prop :=
  ∀ e, InTable r e → EntryOK et0 l done e.declaration
/-- What the type checker guarantees of a node when it reports no error: the condition of
an `if` or a `while` has inferred type Integer; both operands of an operator or of an
assignment have inferred type Integer, and so has the node; the arguments of a call match
the parameters of the resolved declaration position by position. -/
def WellTyped (s : State) : TreeNode → Prop
  | TreeNode.NULL => True
  | TreeNode.node addr f child0 child1 _ _ =>
    match f.kind with
    | Kind.StmtK StmtKind.IfK => readExpressionType s child0 = some ExpType.Integer
    | Kind.StmtK StmtKind.WhileK => readExpressionType s child0 = some ExpType.Integer
    | Kind.ExpK ExpKind.OpK =>
      readExpressionType s child0 = some ExpType.Integer ∧
        readExpressionType s child1 = some ExpType.Integer ∧
        s.expressionType addr = ExpType.Integer
    | Kind.ExpK ExpKind.AssignK =>
      readExpressionType s child0 = some ExpType.Integer ∧
        readExpressionType s child1 = some ExpType.Integer ∧
        s.expressionType addr = ExpType.Integer
    | Kind.StmtK StmtKind.CallK => ParmsMatch s (child0Of (s.declaration addr)) child0
    | _ => True

/-- The statements of `main` in `checkedProgram`:
`x = g(2); if (x < 3) output(x); while (x) x = x - 1;`. -/
def checkedStatements : TreeNode :=
  TreeNode.node 14 (newFields 1 (Kind.ExpK ExpKind.AssignK))
    (identifier 11 "x" TreeNode.NULL)
    (callStmt 13 "g" (constant 12 2 TreeNode.NULL) TreeNode.NULL) TreeNode.NULL
  (TreeNode.node 20 (newFields 1 (Kind.StmtK StmtKind.IfK))
    (TreeNode.node 17 (opFields TokenType.LT) (identifier 15 "x" TreeNode.NULL)
      (constant 16 3 TreeNode.NULL) TreeNode.NULL TreeNode.NULL)
    (callStmt 19 "output" (identifier 18 "x" TreeNode.NULL) TreeNode.NULL) TreeNode.NULL
  (TreeNode.node 27 (newFields 1 (Kind.StmtK StmtKind.WhileK))
    (identifier 21 "x" TreeNode.NULL)
    (TreeNode.node 26 (newFields 1 (Kind.ExpK ExpKind.AssignK))
      (identifier 22 "x" TreeNode.NULL)
      (TreeNode.node 24 (opFields TokenType.MINUS) (identifier 23 "x" TreeNode.NULL)
        (constant 25 1 TreeNode.NULL) TreeNode.NULL TreeNode.NULL)
      TreeNode.NULL TreeNode.NULL)
    TreeNode.NULL TreeNode.NULL))

/-- The tree of
`int g(int a){ return a + 1; } void main(void){ int x; x = g(2); if (x < 3) output(x); while (x) x = x - 1; }`. -/
def checkedProgram : TreeNode :=
  funcDec 1 ExpType.Integer "g" (paramDec 2 "a" TreeNode.NULL)
    (compound 3 TreeNode.NULL
      (returnStmt 4
        (TreeNode.node 6 (opFields TokenType.PLUS) (identifier 5 "a" TreeNode.NULL)
          (constant 7 1 TreeNode.NULL) TreeNode.NULL TreeNode.NULL)
        TreeNode.NULL)
      TreeNode.NULL)
    (funcDec 8 ExpType.Void "main" TreeNode.NULL
      (compound 9 (scalarDec 10 "x" TreeNode.NULL) checkedStatements TreeNode.NULL)
      TreeNode.NULL)

/-- The state in which the resolution pass leaves `checkedProgram`. -/
def checkedResolved : State :=
  (buildSymTab checkedProgram (State.start 28 1)).getD (State.start 28 1)

/-- The state in which the type checker leaves `checkedProgram`. -/
def checkedFinal : State :=
  (typeCheck checkedProgram checkedResolved).getD checkedResolved
/-- The state in which the resolution pass leaves `missingReturnProgram`. -/
def missingReturnResolved : State :=
  (buildSymTab missingReturnProgram (State.start 4 1)).getD (State.start 4 1)

/-- The state in which the type checker leaves `missingReturnProgram`. -/
def missingReturnFinal : State :=
  (typeCheck missingReturnProgram missingReturnResolved).getD missingReturnResolved

/-- What a loop assigned to a `sibling` field satisfies `P`, if it assigned something. -/
def OptAll (P : TreeNode → Prop) : Option TreeNode → Prop
  | none => True
  | some t => P t

/-- The tree that a procedure of the mutual block returns with fuel `F` has declarations of
the parser's shape. -/
structure PlainResult (F : Nat) : Prop where
  compound_statement : ∀ p,
    Returns (fun r => plainDecls r.1 = true) (compound_statement F p)
  statement_list_loop : ∀ b p,
    Returns (fun r => OptAll (fun t => plainDecls t = true) r.1) (statement_list_loop F b p)
  statement_list : ∀ p, Returns (fun r => plainDecls r.1 = true) (statement_list F p)
  statement : ∀ p, Returns (fun r => plainDecls r.1 = true) (statement F p)
  expression_statement : ∀ p,
    Returns (fun r => plainDecls r.1 = true) (expression_statement F p)
  if_statement : ∀ p, Returns (fun r => plainDecls r.1 = true) (if_statement F p)
  while_statement : ∀ p, Returns (fun r => plainDecls r.1 = true) (while_statement F p)
  return_statement : ∀ p, Returns (fun r => plainDecls r.1 = true) (return_statement F p)
  expression : ∀ p, Returns (fun r => plainDecls r.1 = true) (expression F p)
  simple_expression : ∀ t p, plainDecls t = true →
    Returns (fun r => plainDecls r.1 = true) (simple_expression F t p)
  additive_expression_loop : ∀ t p, plainDecls t = true →
    Returns (fun r => plainDecls r.1 = true) (additive_expression_loop F t p)
  additive_expression : ∀ t p, plainDecls t = true →
    Returns (fun r => plainDecls r.1 = true) (additive_expression F t p)
  term_loop : ∀ t p, plainDecls t = true →
    Returns (fun r => plainDecls r.1 = true) (term_loop F t p)
  term : ∀ t p, plainDecls t = true → Returns (fun r => plainDecls r.1 = true) (term F t p)
  factor : ∀ t p, plainDecls t = true →
    Returns (fun r => plainDecls r.1 = true) (factor F t p)
  identifier_statement : ∀ p,
    Returns (fun r => plainDecls r.1 = true) (identifier_statement F p)
  args : ∀ p, Returns (fun r => plainDecls r.1 = true) (args F p)
  arg_list_loop : ∀ b p,
    Returns (fun r => OptAll (fun t => plainDecls t = true) r.1) (arg_list_loop F b p)
  arg_list : ∀ p, Returns (fun r => plainDecls r.1 = true) (arg_list F p)

/-- The values of `(temp << SHIFT) + key[i]` in the successive rounds of the loop of
`hashFunction`, before the remainder is taken, when the loop is entered with `temp`. -/
def hashTrace (temp : Nat) : List Char → List Nat
  | [] => []
  | c :: cs =>
    ((temp <<< SHIFT) + c.toNat) ::
      hashTrace (((temp <<< SHIFT) + c.toNat) % MAXTABLESIZE) cs

/-- The characters read as the digits of a positional number of base 16, the first
character the most significant. -/
def base16 (cs : List Char) : Nat :=
  cs.foldl (fun acc c => acc * 16 + c.toNat) 0
/-- The number of the entries of `pre` whose name hashes to bucket `b`: as many entries as
`endScope` has deleted from that bucket when it has popped `pre`. -/
def popped (pre : List HashNode) (b : Nat) : Nat :=
  pre.countP fun e => decide (hashFunction e.name = b)

/-- The hash bucket of the scope-list entry `e` as `endScope` finds it, after it has popped
the entries `pre`, from the hash table `ht`. -/
def bucketAfter (ht : Nat → List HashNode) (pre : List HashNode) (e : HashNode) :
    List HashNode :=
  (ht (hashFunction e.name)).drop (popped pre (hashFunction e.name))

/-- The entry `e`, met after the entries `pre` have been popped, breaks the consistency of
the two structures: its hash bucket is empty, or the name of the front entry of its bucket
is not its name. -/
def Inconsistent (ht : Nat → List HashNode) (pre : List HashNode) (e : HashNode) : Prop :=
  bucketAfter ht pre e = [] ∨
    ∃ front rest, bucketAfter ht pre e = front :: rest ∧ front.name ≠ e.name

/-- A state in which the front entry of the bucket of `x` is `y`: the two structures are
not consistent. -/
def mismatchState : State :=
  { State.start 1 1 with
    tempList := [allocateSymbolNode "x" TreeNode.NULL 1, sentinel],
    hashtable := assign (fun _ => []) (hashFunction "x")
      [allocateSymbolNode "y" TreeNode.NULL 1] }

/-- The call `x()` of `scalarCallProgram`. -/
def scalarCall : TreeNode := callStmt 4 "x" TreeNode.NULL TreeNode.NULL

/-- The tree of `int x; void main(void){ x(); }`. -/
def scalarCallProgram : TreeNode :=
  scalarDec 1 "x"
    (funcDec 2 ExpType.Void "main" TreeNode.NULL
      (compound 3 TreeNode.NULL scalarCall TreeNode.NULL) TreeNode.NULL)

/-- The tokens of `int f ( void ) {`: a function whose body is never closed. -/
def unclosedBlock : List Token :=
  [tok TokenType.INT "int", tok TokenType.ID "f", tok TokenType.LPAREN "(",
   tok TokenType.VOID "void", tok TokenType.RPAREN ")", tok TokenType.LBRACE "\x7b"]

/-- The tokens of `int x; void main(void){ if ( ) x = 1; }`: the condition of the `if` is
missing. -/
def missingCondition : List Token :=
  [tok TokenType.INT "int", tok TokenType.ID "x", tok TokenType.SEMI ";",
   tok TokenType.VOID "void", tok TokenType.ID "main", tok TokenType.LPAREN "(",
   tok TokenType.VOID "void", tok TokenType.RPAREN ")", tok TokenType.LBRACE "\x7b",
   tok TokenType.IF "if", tok TokenType.LPAREN "(", tok TokenType.RPAREN ")",
   tok TokenType.ID "x", tok TokenType.ASSIGN "=", tok TokenType.NUM "1",
   tok TokenType.SEMI ";", tok TokenType.RBRACE "\x7d"]

/-- The `if` statement of `missingConditionProgram`: its condition is null, its branch is
`x = 1`. -/
def missingConditionIf : TreeNode :=
  TreeNode.node 7 (newFields 1 (Kind.StmtK StmtKind.IfK)) TreeNode.NULL
    (TreeNode.node 6 (newFields 1 (Kind.ExpK ExpKind.AssignK))
      (identifier 4 "x" TreeNode.NULL) (constant 5 1 TreeNode.NULL)
      TreeNode.NULL TreeNode.NULL)
    TreeNode.NULL TreeNode.NULL

/-- The tree that `parse` returns for `missingCondition`. -/
def missingConditionProgram : TreeNode :=
  scalarDec 1 "x"
    (funcDec 2 ExpType.Void "main" TreeNode.NULL
      (compound 3 TreeNode.NULL missingConditionIf TreeNode.NULL) TreeNode.NULL)

/-- The statements from the parser state `p` up to the closing brace are parsed, by
`statement` with fuel `G`, to the results `ts` in textual order, a result being null when the
statement yields no node; `q` is the state at the closing brace. -/
def StmtsRun (G : Nat) : List TreeNode → ParseState → ParseState → Prop
  | [], p, q => p.token = TokenType.RBRACE ∧ q = p
  | t :: ts, p, q =>
    p.token ≠ TokenType.RBRACE ∧ ∃ p1, statement G p = some (t, p1) ∧ StmtsRun G ts p1 q

/-- The results that are nodes. -/
def nonNull (ts : List TreeNode) : List TreeNode :=
  ts.filter fun t => decide (t ≠ TreeNode.NULL)

/-- The tokens of `; return 1 ; }`: a block that begins with an empty statement. -/
def emptyFirst : List Token :=
  [tok TokenType.SEMI ";", tok TokenType.RETURN "return", tok TokenType.NUM "1",
   tok TokenType.SEMI ";", tok TokenType.RBRACE "\x7d"]

/-- The tokens of `return 1 ; ; }`: an empty statement in the second position. -/
def emptySecond : List Token :=
  [tok TokenType.RETURN "return", tok TokenType.NUM "1", tok TokenType.SEMI ";",
   tok TokenType.SEMI ";", tok TokenType.RBRACE "\x7d"]

/-- The tokens of `int f ( void ) { ; return 1 ; }`. -/
def emptyFirstProgram : List Token :=
  [tok TokenType.INT "int", tok TokenType.ID "f", tok TokenType.LPAREN "(",
   tok TokenType.VOID "void", tok TokenType.RPAREN ")", tok TokenType.LBRACE "\x7b"]
    ++ emptyFirst

/-- The tokens of `a + 1 ;`. -/
def sumStatement : List Token :=
  [tok TokenType.ID "a", tok TokenType.PLUS "+", tok TokenType.NUM "1", tok TokenType.SEMI ";"]

/-- The parameter `int x` of `paramShadow`. -/
def shadowParam (a : Nat) (x : String) : TreeNode := paramDec (a + 1) x TreeNode.NULL

/-- The local declaration `int x;` of `paramShadow`. -/
def shadowLocal (a : Nat) (x : String) : TreeNode := scalarDec (a + 3) x TreeNode.NULL

/-- The body `{ int x; return x; }` of `paramShadow`. -/
def shadowBody (a : Nat) (x : String) : TreeNode :=
  compound (a + 2) (shadowLocal a x)
    (returnStmt (a + 4) (identifier (a + 5) x TreeNode.NULL) TreeNode.NULL) TreeNode.NULL

/-- The tree of `T f(int x){ int x; return x; }` with the function named `fname`, its
return type `ty`, the parameter and the local variable both named `x`, and its six nodes
allocated from address `a` in the order in which the parser allocates them. -/
def paramShadow (a : Nat) (fname x : String) (ty : ExpType) : TreeNode :=
  funcDec a ty fname (shadowParam a x) (shadowBody a x) TreeNode.NULL

/-- The tokens of `int f ( int x ) { int x ; return x ; }`. -/
def paramShadowTokens : List Token :=
  [tok TokenType.INT "int", tok TokenType.ID "f", tok TokenType.LPAREN "(",
   tok TokenType.INT "int", tok TokenType.ID "x", tok TokenType.RPAREN ")",
   tok TokenType.LBRACE "\x7b", tok TokenType.INT "int", tok TokenType.ID "x",
   tok TokenType.SEMI ";", tok TokenType.RETURN "return", tok TokenType.ID "x",
   tok TokenType.SEMI ";", tok TokenType.RBRACE "\x7d"]

/-- An entry that the scope dump can write out: its name fits the buffer, and its
declaration is there. -/
def Dumpable (e : HashNode) : Prop :=
  e.name.length ≤ IDENT_LEN + 1 ∧ e.declaration ≠ TreeNode.NULL

/-- The result `a`, if there is one, is `x`. -/
def AtMost {α : Type} (a : Option α) (x : α) : Prop := ∀ y, a = some y → y = x

/-- The Operator node that a loop of `term` or of `additive_expression` allocates while the
lookahead of `p` is the operator: its address is the next unused one, its line the current
one, its operator the lookahead, and `l` and `r` are its operands. -/
def opNode (p : ParseState) (l r : TreeNode) : TreeNode :=
  TreeNode.node p.brk { newFields p.lineno (Kind.ExpK ExpKind.OpK) with op := p.token } l r
    TreeNode.NULL TreeNode.NULL

/-- The parser state in which such a loop parses the right operand: the node is allocated
and the operator matched. -/
def afterOp (p : ParseState) : ParseState :=
  getToken { p with brk := p.brk + 1 }

/-- The Operator node that `simple_expression` allocates for the relational operator that was
the lookahead of `p`, after the right operand is parsed and `q` is reached. -/
def relNode (p q : ParseState) (l r : TreeNode) : TreeNode :=
  TreeNode.node q.brk { newFields q.lineno (Kind.ExpK ExpKind.OpK) with op := p.token } l r
    TreeNode.NULL TreeNode.NULL

/-- A run of the loop of `term` from the state `p` to the state `q`, `factor` having fuel
`G`: each item is the state whose lookahead is the `*` or `/` of one iteration, with the tree
that `factor` returns for the operand after it; at `q` the lookahead is neither `*` nor
`/`. -/
def FactorsRun (G : Nat) : List (ParseState × TreeNode) → ParseState → ParseState → Prop
  | [], p, q => q = p ∧ p.token ≠ TokenType.TIMES ∧ p.token ≠ TokenType.DIVIDE
  | it :: items, p, q =>
    it.1 = p ∧ (p.token = TokenType.TIMES ∨ p.token = TokenType.DIVIDE) ∧
      ∃ p1, factor G TreeNode.NULL (afterOp p) = some (it.2, p1) ∧ FactorsRun G items p1 q

/-- A run of `term` from `p` to `q` with the tree `passdown` passed down: `d.1` is what
`factor` returns first, and `d.2` are the iterations of the loop. -/
def TermRun (G : Nat) (passdown : TreeNode) (d : TreeNode × List (ParseState × TreeNode))
    (p q : ParseState) : Prop :=
  ∃ p1, factor G passdown p = some (d.1, p1) ∧ FactorsRun G d.2 p1 q

/-- A run of the loop of `additive_expression` from the state `p` to the state `q`: each
item is the state whose lookahead is the `+` or `-` of one iteration, with the run of `term`
for the operand after it; at `q` the lookahead is neither `+` nor `-`. -/
def TermsRun (G : Nat) :
    List (ParseState × TreeNode × List (ParseState × TreeNode)) → ParseState → ParseState → Prop
  | [], p, q => q = p ∧ p.token ≠ TokenType.PLUS ∧ p.token ≠ TokenType.MINUS
  | it :: items, p, q =>
    it.1 = p ∧ (p.token = TokenType.PLUS ∨ p.token = TokenType.MINUS) ∧
      ∃ p1, TermRun G TreeNode.NULL it.2 (afterOp p) p1 ∧ TermsRun G items p1 q

/-- A run of `additive_expression` from `p` to `q` with the tree `passdown` passed down:
`a.1` is the run of the first `term`, and `a.2` are the iterations of the loop. -/
def AdditiveRun (G : Nat) (passdown : TreeNode)
    (a : (TreeNode × List (ParseState × TreeNode)) ×
      List (ParseState × TreeNode × List (ParseState × TreeNode)))
    (p q : ParseState) : Prop :=
  ∃ p1, TermRun G passdown a.1 p p1 ∧ TermsRun G a.2 p1 q

/-- The tree of a run of `term`: the operators applied from left to right to the trees of
the primaries. -/
def termTree (d : TreeNode × List (ParseState × TreeNode)) : TreeNode :=
  d.2.foldl (fun l it => opNode it.1 l it.2) d.1

/-- The tree of a run of `additive_expression`: the operators applied from left to right to
the trees of the terms. -/
def additiveTree
    (a : (TreeNode × List (ParseState × TreeNode)) ×
      List (ParseState × TreeNode × List (ParseState × TreeNode))) : TreeNode :=
  a.2.foldl (fun l it => opNode it.1 l (termTree it.2)) (termTree a.1)

/-- A syntax tree of the reference grammar of expressions, with every token of its text:

    expression → ID = expression | simple
    simple     → additive relop additive | additive
    additive   → additive addop term | term
    term       → term mulop factor | factor
    factor     → NUM | ID | ID ( args ) | ( expression )
    args       → arg-list | empty
    arg-list   → expression , arg-list | expression

`op l o r` is the operator `o` applied to `l` and `r`, and `comma first c more` is an
argument list of more than one expression. -/
inductive Syn where
  | num (t : Token)
  | var (t : Token)
  | call (name lp : Token) (args : Syn) (rp : Token)
  | paren (lp : Token) (e : Syn) (rp : Token)
  | op (l : Syn) (o : Token) (r : Syn)
  | assign (name eq : Token) (r : Syn)
  | noArgs
  | comma (first : Syn) (c : Token) (more : Syn)
deriving DecidableEq

/-- The nonterminals of the reference grammar, from the tightest binding on. -/
inductive Level where
  | factor | term | additive | simple | expression | argList | args
deriving DecidableEq

/-- The position of a nonterminal in the chain `factor`, `term`, `additive`, `simple`,
`expression`, `arg-list`, `args`, in which each one derives the one before it. -/
def Level.rank : Level → Nat
  | Level.factor => 0
  | Level.term => 1
  | Level.additive => 2
  | Level.simple => 3
  | Level.expression => 4
  | Level.argList => 5
  | Level.args => 6

/-- Whether the token kind is `*` or `/`. -/
def isMulOp (k : TokenType) : Bool :=
  decide (k = TokenType.TIMES ∨ k = TokenType.DIVIDE)

/-- Whether the token kind is `+` or `-`. -/
def isAddOp (k : TokenType) : Bool :=
  decide (k = TokenType.PLUS ∨ k = TokenType.MINUS)

/-- Whether the nonterminal `v` of the reference grammar derives the syntax tree: `*` and
`/` take a term on the left and a factor on the right, `+` and `-` take an additive
expression on the left and a term on the right, so that both levels associate to the left
and `*` and `/` bind tighter, and a relational operator takes an additive expression on
either side. -/
def Syn.wf : Syn → Level → Bool
  | Syn.num t, _ => decide (t.type = TokenType.NUM)
  | Syn.var t, _ => decide (t.type = TokenType.ID)
  | Syn.call name lp args rp, _ =>
    decide (name.type = TokenType.ID) && decide (lp.type = TokenType.LPAREN) &&
      decide (rp.type = TokenType.RPAREN) && args.wf Level.args
  | Syn.paren lp e rp, _ =>
    decide (lp.type = TokenType.LPAREN) && decide (rp.type = TokenType.RPAREN) &&
      e.wf Level.expression
  | Syn.op l o r, v =>
    (isMulOp o.type && decide (1 ≤ v.rank) && l.wf Level.term && r.wf Level.factor) ||
    (isAddOp o.type && decide (2 ≤ v.rank) && l.wf Level.additive && r.wf Level.term) ||
    (isRelational o.type && decide (3 ≤ v.rank) && l.wf Level.additive &&
      r.wf Level.additive)
  | Syn.assign name eq r, v =>
    decide (4 ≤ v.rank) && decide (name.type = TokenType.ID) &&
      decide (eq.type = TokenType.ASSIGN) && r.wf Level.expression
  | Syn.noArgs, v => decide (v = Level.args)
  | Syn.comma first c more, v =>
    decide (5 ≤ v.rank) && decide (c.type = TokenType.COMMA) && first.wf Level.expression &&
      more.wf Level.argList

/-- The text of a syntax tree: its tokens in textual order. -/
def Syn.tokens : Syn → List Token
  | Syn.num t => [t]
  | Syn.var t => [t]
  | Syn.call name lp args rp => name :: lp :: (args.tokens ++ [rp])
  | Syn.paren lp e rp => lp :: (e.tokens ++ [rp])
  | Syn.op l o r => l.tokens ++ o :: r.tokens
  | Syn.assign name eq r => name :: eq :: r.tokens
  | Syn.noArgs => []
  | Syn.comma first c more => first.tokens ++ c :: more.tokens

/-- Whether the text of the syntax tree ends in a bare identifier. -/
def Syn.endsInVar : Syn → Bool
  | Syn.var _ => true
  | Syn.op _ _ r => r.endsInVar
  | Syn.assign _ _ r => r.endsInVar
  | Syn.comma _ _ more => more.endsInVar
  | _ => false

/-- What a tree node is, apart from its address, line and types. -/
inductive Label where
  | const (val : Int)
  | id (name : String)
  | call (name : String)
  | op (o : TokenType)
  | assign
  | other
deriving DecidableEq

/-- A tree without addresses, lines and types: the label of each node, its three children
and its sibling. -/
inductive Shape where
  | null
  | node (l : Label) (child0 child1 child2 sibling : Shape)
deriving DecidableEq

/-- The label of a node with the fields `f`. -/
def labelOf (f : Fields) : Label :=
  match f.kind with
  | Kind.ExpK ExpKind.ConstK => Label.const f.val
  | Kind.ExpK ExpKind.IdK => Label.id f.name
  | Kind.ExpK ExpKind.OpK => Label.op f.op
  | Kind.ExpK ExpKind.AssignK => Label.assign
  | Kind.StmtK StmtKind.CallK => Label.call f.name
  | _ => Label.other

/-- The shape of the tree at `t`. -/
def shapeOf : TreeNode → Shape
  | TreeNode.NULL => Shape.null
  | TreeNode.node _ f child0 child1 child2 sibling =>
    Shape.node (labelOf f) (shapeOf child0) (shapeOf child1) (shapeOf child2)
      (shapeOf sibling)

/-- The shape `s` with `t` as the sibling of its root. -/
def Shape.setSibling : Shape → Shape → Shape
  | Shape.null, _ => Shape.null
  | Shape.node l child0 child1 child2 _, t => Shape.node l child0 child1 child2 t

/-- The tree of the reference grammar for a syntax tree: a Constant, Identifier, Call,
Operator or Assignment node for each production that builds one, the operands as the first
two children, the arguments of a call as the sibling chain under its first child, and for a
parenthesised expression the tree of the expression. -/
def Syn.shape : Syn → Shape
  | Syn.num t =>
    Shape.node (Label.const (atoi t.text)) Shape.null Shape.null Shape.null Shape.null
  | Syn.var t => Shape.node (Label.id t.text) Shape.null Shape.null Shape.null Shape.null
  | Syn.call name _ args _ =>
    Shape.node (Label.call name.text) args.shape Shape.null Shape.null Shape.null
  | Syn.paren _ e _ => e.shape
  | Syn.op l o r => Shape.node (Label.op o.type) l.shape r.shape Shape.null Shape.null
  | Syn.assign name _ r =>
    Shape.node Label.assign
      (Shape.node (Label.id name.text) Shape.null Shape.null Shape.null Shape.null)
      r.shape Shape.null Shape.null
  | Syn.noArgs => Shape.null
  | Syn.comma first _ more => first.shape.setSibling more.shape

/-- The token kind `k` may follow the text of `e` where the nonterminal `v` is expected: it
does not continue the text (no `(` after a bare identifier, no operator of a level that `v`
derives, no `=`), and after the arguments of a call it is `)`. -/
def Follows (v : Level) (e : Syn) (k : TokenType) : Prop :=
  (e.endsInVar = true → k ≠ TokenType.LPAREN) ∧
  (2 ≤ v.rank → k ≠ TokenType.TIMES ∧ k ≠ TokenType.DIVIDE) ∧
  (3 ≤ v.rank → k ≠ TokenType.PLUS ∧ k ≠ TokenType.MINUS ∧ isRelational k = false) ∧
  (4 ≤ v.rank → k ≠ TokenType.ASSIGN) ∧
  (5 ≤ v.rank → k = TokenType.RPAREN)

/-- The tree `n` and the parser state `p'` are a correct result for the text of `e` read
from the state `p` on, with `rest` after it: `n` has the shape of the reference tree, the
tokens `rest` are upcoming, and no syntax error was reported. -/
def Parsed (e : Syn) (rest : List Token) (p : ParseState) (n : TreeNode) (p' : ParseState) :
    Prop :=
  shapeOf n = e.shape ∧ Upcoming rest p' ∧ p'.listing = p.listing

/-- The first primary of a text read from the state `p` on: `factor` returns the tree `n0`,
which is not null, and the state `p0`, whose lookahead is not `=` unless `k` is. -/
def Led (p : ParseState) (k : TokenType) (n0 : TreeNode) (p0 : ParseState) : Prop :=
  n0 ≠ TreeNode.NULL ∧ (∃ F, factor F TreeNode.NULL p = some (n0, p0)) ∧
    (k ≠ TokenType.ASSIGN → p0.token ≠ TokenType.ASSIGN)

/-- The parser handles the text of `e` as the nonterminal `v`, whatever follows it that may
follow.  For a factor, an expression and arguments the procedure returns, with enough fuel,
a correct result.  A term and an additive expression may be continued by the loop of the
procedure: the loop, entered with a correct result, returns what the procedure returns when
it starts behind the first primary with that primary passed down. -/
def Parses (v : Level) (e : Syn) : Prop :=
  ∀ (rest : List Token) (p : ParseState), Upcoming (e.tokens ++ rest) p →
    Follows v e (firstType rest) →
    match v with
    | Level.factor =>
      ∃ n p', Parsed e rest p n p' ∧ ∃ F, factor F TreeNode.NULL p = some (n, p')
    | Level.term =>
      ∃ n0 p0 n p', Led p (firstType rest) n0 p0 ∧ Parsed e rest p n p' ∧
        ∀ G r, term_loop G n p' = some r → ∃ F, term F n0 p0 = some r
    | Level.additive =>
      ∃ n0 p0 n p', Led p (firstType rest) n0 p0 ∧ Parsed e rest p n p' ∧
        ∀ G r, additive_expression_loop G n p' = some r →
          ∃ F, additive_expression F n0 p0 = some r
    | Level.simple =>
      ∃ n0 p0 n p', Led p (firstType rest) n0 p0 ∧ Parsed e rest p n p' ∧
        ∃ F, simple_expression F n0 p0 = some (n, p')
    | Level.expression =>
      ∃ n p', Parsed e rest p n p' ∧ ∃ F, expression F p = some (n, p')
    | Level.argList =>
      ∃ n p', Parsed e rest p n p' ∧ ∃ F, arg_list F p = some (n, p')
    | Level.args =>
      ∃ n p', Parsed e rest p n p' ∧ ∃ F, args F p = some (n, p')

/-- The token kind `k` may follow the text of the additive expression `a`: it is none of the
four operators `+`, `-`, `*` and `/`, with which the text would go on, and it is not `(`
when the text ends in a bare identifier, which would then be the name of a call. -/
def EndsAdditive (a : Syn) (k : TokenType) : Prop :=
  k ≠ TokenType.PLUS ∧ k ≠ TokenType.MINUS ∧ k ≠ TokenType.TIMES ∧ k ≠ TokenType.DIVIDE ∧
    (a.endsInVar = true → k ≠ TokenType.LPAREN)

/-- The shape of an Identifier node. -/
def idShape (name : String) : Shape :=
  Shape.node (Label.id name) Shape.null Shape.null Shape.null Shape.null

/-- The shape of a Constant node. -/
def constShape (val : Int) : Shape :=
  Shape.node (Label.const val) Shape.null Shape.null Shape.null Shape.null

/-- The shape of an Operator node over two operands. -/
def opShape (o : TokenType) (l r : Shape) : Shape :=
  Shape.node (Label.op o) l r Shape.null Shape.null

/-- The syntax tree of the identifier `name`. -/
def synVar (name : String) : Syn := Syn.var (tok TokenType.ID name)

/-- The syntax tree of `a - b - c` in the reference grammar. -/
def minusMinus : Syn :=
  Syn.op (Syn.op (synVar "a") (tok TokenType.MINUS "-") (synVar "b")) (tok TokenType.MINUS "-")
    (synVar "c")

/-- The syntax tree of `a / b * c` in the reference grammar. -/
def divideTimes : Syn :=
  Syn.op (Syn.op (synVar "a") (tok TokenType.DIVIDE "/") (synVar "b")) (tok TokenType.TIMES "*")
    (synVar "c")

/-- The syntax tree of `a + b * c` in the reference grammar. -/
def plusTimes : Syn :=
  Syn.op (synVar "a") (tok TokenType.PLUS "+")
    (Syn.op (synVar "b") (tok TokenType.TIMES "*") (synVar "c"))

/-- The syntax tree of `f ( 1 , x ) * ( a + b ) - c` in the reference grammar: a call, a
parenthesised expression and an identifier as primaries. -/
def mixedPrimaries : Syn :=
  Syn.op
    (Syn.op
      (Syn.call (tok TokenType.ID "f") (tok TokenType.LPAREN "(")
        (Syn.comma (Syn.num (tok TokenType.NUM "1")) (tok TokenType.COMMA ",") (synVar "x"))
        (tok TokenType.RPAREN ")"))
      (tok TokenType.TIMES "*")
      (Syn.paren (tok TokenType.LPAREN "(")
        (Syn.op (synVar "a") (tok TokenType.PLUS "+") (synVar "b"))
        (tok TokenType.RPAREN ")")))
    (tok TokenType.MINUS "-") (synVar "c")

/-- The tokens of `f ( 1 , x ) * ( a + b ) ;`. -/
def callTimesParen : List Token :=
  [tok TokenType.ID "f", tok TokenType.LPAREN "(", tok TokenType.NUM "1",
   tok TokenType.COMMA ",", tok TokenType.ID "x", tok TokenType.RPAREN ")",
   tok TokenType.TIMES "*", tok TokenType.LPAREN "(", tok TokenType.ID "a",
   tok TokenType.PLUS "+", tok TokenType.ID "b", tok TokenType.RPAREN ")",
   tok TokenType.SEMI ";"]

/-- The tokens of `a - b - c ;`. -/
def minusMinusTokens : List Token :=
  [tok TokenType.ID "a", tok TokenType.MINUS "-", tok TokenType.ID "b",
   tok TokenType.MINUS "-", tok TokenType.ID "c", tok TokenType.SEMI ";"]

/-- The tokens of `a / b * c ;`. -/
def divideTimesTokens : List Token :=
  [tok TokenType.ID "a", tok TokenType.DIVIDE "/", tok TokenType.ID "b",
   tok TokenType.TIMES "*", tok TokenType.ID "c", tok TokenType.SEMI ";"]

/-- The tokens of `a + b * c ;`. -/
def plusTimesTokens : List Token :=
  [tok TokenType.ID "a", tok TokenType.PLUS "+", tok TokenType.ID "b",
   tok TokenType.TIMES "*", tok TokenType.ID "c", tok TokenType.SEMI ";"]

/-- The tree that `simple_expression` returns on `a < b < c ;` when nodes are allocated
from address 1. -/
def lessTree : TreeNode :=
  TreeNode.node 3 { newFields 1 (Kind.ExpK ExpKind.OpK) with op := TokenType.LT }
    (TreeNode.node 1 { newFields 1 (Kind.ExpK ExpKind.IdK) with name := "a" }
      TreeNode.NULL TreeNode.NULL TreeNode.NULL TreeNode.NULL)
    (TreeNode.node 2 { newFields 1 (Kind.ExpK ExpKind.IdK) with name := "b" }
      TreeNode.NULL TreeNode.NULL TreeNode.NULL TreeNode.NULL)
    TreeNode.NULL TreeNode.NULL

/-- The parser state in which `simple_expression` returns on `a < b < c ;`: the second `<`
is the lookahead. -/
def lessState : ParseState :=
  { token := TokenType.LT, tokenString := "<", lineno := 1,
    source := [tok TokenType.ID "c", tok TokenType.SEMI ";"], listing := [], brk := 4 }

/-- How much of the input is left in the parser state `p`: two for every token still in the
source and one for a lookahead other than `ENDOFFILE`.  Every request for a token makes it
smaller, unless the lookahead is `ENDOFFILE` and the source is exhausted. -/
def remaining (p : ParseState) : Nat :=
  2 * p.source.length + (if p.token = TokenType.ENDOFFILE then 0 else 1)

/-- With enough fuel, each procedure of the expression parser returns from every state in
which at most `n` of the input is left, in a state in which no more of the input is left
(`identifier_statement` from every such state whose lookahead is an identifier, as it is
where the parser calls it). -/
structure ExpressionsReturn (n : Nat) : Prop where
  identifier_statement : ∀ p, remaining p ≤ n → p.token = TokenType.ID →
    ∃ F r, identifier_statement F p = some r ∧ remaining r.2 ≤ remaining p
  factor : ∀ t p, remaining p ≤ n → ∃ F r, factor F t p = some r ∧ remaining r.2 ≤ remaining p
  term_loop : ∀ t p, remaining p ≤ n → ∃ F r, term_loop F t p = some r ∧ remaining r.2 ≤ remaining p
  term : ∀ t p, remaining p ≤ n → ∃ F r, term F t p = some r ∧ remaining r.2 ≤ remaining p
  additive_expression_loop : ∀ t p, remaining p ≤ n →
    ∃ F r, additive_expression_loop F t p = some r ∧ remaining r.2 ≤ remaining p
  additive_expression : ∀ t p, remaining p ≤ n →
    ∃ F r, additive_expression F t p = some r ∧ remaining r.2 ≤ remaining p
  simple_expression : ∀ t p, remaining p ≤ n →
    ∃ F r, simple_expression F t p = some r ∧ remaining r.2 ≤ remaining p
  expression : ∀ p, remaining p ≤ n → ∃ F r, expression F p = some r ∧ remaining r.2 ≤ remaining p
  arg_list_loop : ∀ b p, remaining p ≤ n →
    ∃ F r, arg_list_loop F b p = some r ∧ remaining r.2 ≤ remaining p
  arg_list : ∀ p, remaining p ≤ n → ∃ F r, arg_list F p = some r ∧ remaining r.2 ≤ remaining p
  args : ∀ p, remaining p ≤ n → ∃ F r, args F p = some r ∧ remaining r.2 ≤ remaining p

/-! # Properties -/

/-! ## The symbol table -/

theorem assign_same {β : Type} (m : Nat → β) (i : Nat) (v : β) : assign m i v i = v := by
  simp [assign]

theorem assign_other {β : Type} (m : Nat → β) (i j : Nat) (v : β) (h : j ≠ i) :
    assign m i v j = m j := by
  simp [assign, h]

theorem inBucket_sentinel (b : Nat) (e : HashNode) (h : e.name = HIGHWATERMARK) :
    inBucket b e = false := by
  simp [inBucket, h]

theorem inBucket_own (e : HashNode) (h : e.name ≠ HIGHWATERMARK) :
    inBucket (hashFunction e.name) e = true := by
  simp [inBucket, h]

theorem inBucket_other (b : Nat) (e : HashNode) (h : b ≠ hashFunction e.name) :
    inBucket b e = false := by
  simp [inBucket, Ne.symm h]

theorem dualInv_init (s : State) : DualInv (initSymbolTable s) := by
  intro b; simp [initSymbolTable]

theorem dualInv_newScope (s : State) (h : DualInv s) : DualInv (newScope s) := by
  intro b
  simp [newScope, allocateSymbolNode, List.filter_cons, inBucket_sentinel, h b]

theorem insertSymbol_dup (name : String) (d : TreeNode) (l : Int) (s : State)
    (h : symbolAlreadyDeclared name s = true) :
    insertSymbol name d l s = flagError (Diagnostic.duplicateIdentifier name) s := by
  simp [insertSymbol, h]

theorem insertSymbol_fresh (name : String) (d : TreeNode) (l : Int) (s : State)
    (h : symbolAlreadyDeclared name s = false) :
    insertSymbol name d l s =
      { s with
        hashtable := assign s.hashtable (hashFunction name)
          (allocateSymbolNode name d l :: s.hashtable (hashFunction name)),
        tempList := allocateSymbolNode name d l :: s.tempList } := by
  simp [insertSymbol, h]

theorem dualInv_insertSymbol (name : String) (d : TreeNode) (l : Int) (s : State)
    (hn : name ≠ HIGHWATERMARK) (h : DualInv s) : DualInv (insertSymbol name d l s) := by
  cases hd : symbolAlreadyDeclared name s
  · rw [insertSymbol_fresh _ _ _ _ hd]
    intro b
    by_cases hb : b = hashFunction name
    · subst hb
      have : inBucket (hashFunction name) (allocateSymbolNode name d l) = true :=
        inBucket_own _ hn
      simp [assign_same, List.filter_cons, this, h (hashFunction name)]
    · have : inBucket b (allocateSymbolNode name d l) = false := inBucket_other _ _ hb
      simp [assign_other _ _ _ _ hb, List.filter_cons, this, h b]
  · rw [insertSymbol_dup _ _ _ _ hd]
    exact h

/-- The loop of `endScope` on a list that opens with the declarations `cur` of the current
scope, followed by a sentinel. -/
theorem endScopeLoop_scope (cur : List HashNode) (sent : HashNode) (rest : List HashNode)
    (hsent : sent.name = HIGHWATERMARK) (hcur : ∀ e ∈ cur, e.name ≠ HIGHWATERMARK) :
    ∀ ht : Nat → List HashNode,
      (∀ b, ht b = (cur ++ sent :: rest).filter (inBucket b)) →
      ∃ ht', endScopeLoop ht (cur ++ sent :: rest) = some (ht', sent :: rest) ∧
        ∀ b, ht' b = rest.filter (inBucket b) := by
  induction cur with
  | nil =>
    intro ht hht
    refine ⟨ht, ?_, ?_⟩
    · simp [endScopeLoop, hsent]
    · intro b
      simpa [List.filter_cons, inBucket_sentinel _ _ hsent] using hht b
  | cons e cur ih =>
    intro ht hht
    have he : e.name ≠ HIGHWATERMARK := hcur e (List.mem_cons_self _ _)
    have hcur' : ∀ x ∈ cur, x.name ≠ HIGHWATERMARK :=
      fun x hx => hcur x (List.mem_cons_of_mem _ hx)
    have hb : ht (hashFunction e.name) =
        e :: (cur ++ sent :: rest).filter (inBucket (hashFunction e.name)) := by
      rw [hht]; simp [List.filter_cons, inBucket_own e he]
    have hnext : ∀ b, assign ht (hashFunction e.name)
        ((cur ++ sent :: rest).filter (inBucket (hashFunction e.name))) b
          = (cur ++ sent :: rest).filter (inBucket b) := by
      intro b
      by_cases hbb : b = hashFunction e.name
      · subst hbb; simp [assign_same]
      · rw [assign_other _ _ _ _ hbb, hht b]
        simp [List.filter_cons, inBucket_other b e hbb]
    obtain ⟨ht', h1, h2⟩ := ih hcur' _ hnext
    refine ⟨ht', ?_, h2⟩
    simp only [List.cons_append, endScopeLoop, hb, if_neg (Ne.symm he)]
    simpa using h1

theorem endScope_scope (s : State) (cur : List HashNode) (sent : HashNode)
    (rest : List HashNode) (h : DualInv s) (hl : s.tempList = cur ++ sent :: rest)
    (hsent : sent.name = HIGHWATERMARK) (hcur : ∀ e ∈ cur, e.name ≠ HIGHWATERMARK) :
    endScope s =
      some { s with hashtable := fun b => rest.filter (inBucket b), tempList := rest } := by
  obtain ⟨ht', h1, h2⟩ :=
    endScopeLoop_scope cur sent rest hsent hcur s.hashtable (fun b => by rw [h b, hl])
  have : ht' = fun b => rest.filter (inBucket b) := funext h2
  subst this
  simp [endScope, hl, h1, hsent]

theorem dumpCurrentScope_some (s s' : State) (h : dumpCurrentScope s = some s') : s' = s := by
  unfold dumpCurrentScope at h
  split at h
  · exact (Option.some.inj h).symm
  · split at h
    · cases hd : startDumpCurrentScope (_ :: _) with
      | none => rw [hd] at h; exact absurd h (by simp)
      | some u => rw [hd] at h; exact (Option.some.inj h).symm
    · exact (Option.some.inj h).symm

/-- The dump of entries that fit the buffer and have their declarations, up to a sentinel or
to the end of the list. -/
theorem startDumpCurrentScope_ok (rest : List HashNode)
    (hrest : ∀ e ∈ rest.head?, e.name = HIGHWATERMARK) (cur : List HashNode) :
    ∀ c, (∀ e ∈ c :: cur, e.name ≠ HIGHWATERMARK ∧ Dumpable e) →
      startDumpCurrentScope (c :: cur ++ rest) = some () := by
  induction cur with
  | nil =>
    intro c hc
    obtain ⟨_, hlen, hdecl⟩ := hc c (List.mem_cons_self _ _)
    have hlen' : ¬ IDENT_LEN + 1 < c.name.length := by omega
    cases hd : c.declaration with
    | NULL => exact absurd hd hdecl
    | node a f c0 c1 c2 sb =>
      cases rest with
      | nil => simp [startDumpCurrentScope, hlen', hd]
      | cons e rest =>
        have he : e.name = HIGHWATERMARK := hrest e (by simp)
        simp [startDumpCurrentScope, hlen', hd, he]
  | cons c' cur ih =>
    intro c hc
    obtain ⟨_, hlen, hdecl⟩ := hc c (List.mem_cons_self _ _)
    have hlen' : ¬ IDENT_LEN + 1 < c.name.length := by omega
    have hc' : c'.name ≠ HIGHWATERMARK := (hc c' (by simp)).1
    have hrec : startDumpCurrentScope (c' :: (cur ++ rest)) = some () :=
      ih c' (fun e he => hc e (List.mem_cons_of_mem _ he))
    cases hd : c.declaration with
    | NULL => exact absurd hd hdecl
    | node a f c0 c1 c2 sb =>
      show startDumpCurrentScope (c :: c' :: (cur ++ rest)) = some ()
      rw [startDumpCurrentScope]
      simp only [hc', ne_eq, not_false_eq_true, if_true, hrec, Option.some_bind, hlen',
        if_false, hd]
/-- The dump of a scope whose entries fit the buffer and have their declarations. -/
theorem dumpCurrentScope_ok (s : State) (cur : List HashNode) (sent : HashNode)
    (rest : List HashNode) (hl : s.tempList = cur ++ sent :: rest)
    (hsent : sent.name = HIGHWATERMARK) (hcur : ∀ e ∈ cur, e.name ≠ HIGHWATERMARK)
    (hd : ∀ e ∈ cur, Dumpable e) : dumpCurrentScope s = some s := by
  unfold dumpCurrentScope
  cases cur with
  | nil =>
    rw [hl]
    simp [hsent]
  | cons c cur =>
    rw [hl]
    have hc : c.name ≠ HIGHWATERMARK := hcur c (List.mem_cons_self _ _)
    have := startDumpCurrentScope_ok (sent :: rest) (by simp [hsent]) cur c
      (fun e he => ⟨hcur e he, hd e he⟩)
    simp only [List.cons_append] at this ⊢
    simp only [hc, ne_eq, not_false_eq_true, if_true, this, Option.map_some']

/-- The steps of the pass on a node that succeeds. -/
theorem startBuildSymbolTable_steps (a : Nat) (f : Fields) (c0 c1 c2 sb : TreeNode)
    (s s' : State)
    (h : startBuildSymbolTable (TreeNode.node a f c0 c1 c2 sb) s = some s') :
    ∃ s2 s3 s4 s5,
      startBuildSymbolTable c0 (enterNode (TreeNode.node a f c0 c1 c2 sb) s) = some s2 ∧
      startBuildSymbolTable c1 s2 = some s3 ∧ startBuildSymbolTable c2 s3 = some s4 ∧
      leaveNode (TreeNode.node a f c0 c1 c2 sb) s4 = some s5 ∧
      startBuildSymbolTable sb s5 = some s' := by
  rw [startBuildSymbolTable] at h
  cases h0 : startBuildSymbolTable c0 (enterNode (TreeNode.node a f c0 c1 c2 sb) s) with
  | none => simp [h0] at h
  | some s2 =>
    cases h1 : startBuildSymbolTable c1 s2 with
    | none => simp [h0, h1] at h
    | some s3 =>
      cases h2 : startBuildSymbolTable c2 s3 with
      | none => simp [h0, h1, h2] at h
      | some s4 =>
        cases h3 : leaveNode (TreeNode.node a f c0 c1 c2 sb) s4 with
        | none => simp [h0, h1, h2, h3] at h
        | some s5 =>
          simp only [h0, h1, h2, h3, Option.some_bind] at h
          exact ⟨s2, s3, s4, s5, rfl, h1, h2, h3, h⟩

/-- A list that holds a sentinel splits at its first sentinel. -/
theorem split_at_sentinel (l : List HashNode) (h : ∃ e ∈ l, e.name = HIGHWATERMARK) :
    ∃ cur sent rest, l = cur ++ sent :: rest ∧ sent.name = HIGHWATERMARK ∧
      ∀ e ∈ cur, e.name ≠ HIGHWATERMARK := by
  induction l with
  | nil => simp at h
  | cons a l ih =>
    by_cases ha : a.name = HIGHWATERMARK
    · exact ⟨[], a, l, rfl, ha, by simp⟩
    · obtain ⟨e, he, hes⟩ := h
      have hmem : ∃ e ∈ l, e.name = HIGHWATERMARK := by
        rcases List.mem_cons.1 he with rfl | he'
        · exact absurd hes ha
        · exact ⟨e, he', hes⟩
      obtain ⟨cur, sent, rest, h1, h2, h3⟩ := ih hmem
      refine ⟨a :: cur, sent, rest, by simp [h1], h2, ?_⟩
      intro x hx
      rcases List.mem_cons.1 hx with rfl | hx'
      · exact ha
      · exact h3 x hx'

theorem dualInv_endScope (s : State) (h : DualInv s) (ho : ScopeOpen s) :
    ∃ s', endScope s = some s' ∧ DualInv s' := by
  obtain ⟨cur, sent, rest, h1, h2, h3⟩ := split_at_sentinel s.tempList ho
  refine ⟨_, endScope_scope s cur sent rest h h1 h2 h3, ?_⟩
  intro b; rfl

theorem sentinel_name : sentinel.name = HIGHWATERMARK := rfl

theorem scopeList_cons_cons (cur o : List HashNode) (outer : List (List HashNode)) :
    scopeList (cur :: o :: outer) = cur ++ sentinel :: scopeList (o :: outer) := rfl

theorem scopeList_nil_cons (st : List (List HashNode)) (h : st ≠ []) :
    scopeList ([] :: st) = sentinel :: scopeList st := by
  cases st with
  | nil => exact absurd rfl h
  | cons o outer => rfl

theorem scopeList_cons_entry (e : HashNode) (cur : List HashNode)
    (outer : List (List HashNode)) :
    scopeList ((e :: cur) :: outer) = e :: scopeList (cur :: outer) := by
  cases outer with
  | nil => rfl
  | cons o outer => rfl

theorem alreadyDeclared_flatten (name : String) (cur : List HashNode)
    (outer : List (List HashNode)) (hcur : ∀ e ∈ cur, e.name ≠ HIGHWATERMARK) :
    symbolAlreadyDeclaredFrom name (scopeList (cur :: outer))
      = cur.any (fun e => decide (e.name = name)) := by
  induction cur with
  | nil =>
    cases outer with
    | nil => simp [scopeList, symbolAlreadyDeclaredFrom]
    | cons o outer => simp [scopeList, symbolAlreadyDeclaredFrom, sentinel_name]
  | cons a cur ih =>
    have ha : a.name ≠ HIGHWATERMARK := hcur a (List.mem_cons_self _ _)
    have ih' := ih (fun e he => hcur e (List.mem_cons_of_mem _ he))
    rw [scopeList_cons_entry]
    by_cases hn : name = a.name
    · simp [symbolAlreadyDeclaredFrom, ha, hn]
    · have hn' : ¬ a.name = name := fun h => hn h.symm
      simp [symbolAlreadyDeclaredFrom, ha, hn, hn', ih']

theorem toState_declareSpec (name : String) (decl : TreeNode) (line : Int) (r : SpecState)
    (hr : r.WF) (hn : name ≠ HIGHWATERMARK) :
    insertSymbol name decl line r.toState = (declareSpec name decl line r).toState := by
  obtain ⟨hne, hnames⟩ := hr
  cases hsc : r.scopes with
  | nil => exact absurd hsc hne
  | cons cur outer =>
    have hcur : ∀ e ∈ cur, e.name ≠ HIGHWATERMARK :=
      fun e he => hnames cur (by simp [hsc]) e he
    have hdup : symbolAlreadyDeclared name r.toState
        = cur.any (fun e => decide (e.name = name)) := by
      simp only [symbolAlreadyDeclared, SpecState.toState, hsc]
      exact alreadyDeclared_flatten name cur outer hcur
    cases hany : cur.any (fun e => decide (e.name = name))
    · rw [insertSymbol_fresh _ _ _ _ (hdup.trans hany)]
      simp only [declareSpec, hsc, hany, SpecState.toState, allocateSymbolNode]
      simp only [scopeList_cons_entry, Bool.false_eq_true, if_false]
      congr 1
      funext b
      by_cases hb : b = hashFunction name
      · subst hb
        have := inBucket_own
          { name := name, declaration := decl, lineFirstReferenced := line } hn
        simp [assign_same, List.filter_cons, this]
      · have := inBucket_other b
          { name := name, declaration := decl, lineFirstReferenced := line } hb
        simp [assign_other _ _ _ _ hb, List.filter_cons, this]
    · rw [insertSymbol_dup _ _ _ _ (hdup.trans hany)]
      simp [declareSpec, hsc, hany, SpecState.toState, flagError]

theorem wf_declareSpec (name : String) (decl : TreeNode) (line : Int) (r : SpecState)
    (hr : r.WF) (hn : name ≠ HIGHWATERMARK) : (declareSpec name decl line r).WF := by
  obtain ⟨hne, hnames⟩ := hr
  unfold declareSpec
  cases hsc : r.scopes with
  | nil => exact absurd hsc hne
  | cons cur outer =>
    simp only
    split
    · exact ⟨by simp [hsc], by simpa [hsc] using hnames⟩
    · refine ⟨by simp, ?_⟩
      intro sc hsc' e he
      simp only [List.mem_cons] at hsc'
      rcases hsc' with rfl | hsc'
      · rcases List.mem_cons.1 he with rfl | he'
        · exact hn
        · exact hnames cur (by simp [hsc]) e he'
      · exact hnames sc (by simp [hsc, hsc']) e he

theorem toState_enterSpec (r : SpecState) (hr : r.WF) :
    newScope r.toState = (enterSpec r).toState := by
  simp only [newScope, enterSpec, SpecState.toState, scopeList_nil_cons _ hr.1]
  have hs : ∀ b, inBucket b (allocateSymbolNode HIGHWATERMARK TreeNode.NULL 0) = false :=
    fun b => inBucket_sentinel b sentinel sentinel_name
  simp [List.filter_cons, hs, sentinel]

theorem wf_enterSpec (r : SpecState) (hr : r.WF) : (enterSpec r).WF := by
  refine ⟨by simp [enterSpec], ?_⟩
  intro sc hsc e he
  simp only [enterSpec, List.mem_cons] at hsc
  rcases hsc with rfl | hsc
  · simp at he
  · exact hr.2 sc hsc e he

theorem dualInv_toState (r : SpecState) : DualInv r.toState := fun _ => rfl

theorem toState_exitSpec (r : SpecState) (hr : r.WF) (h2 : r.scopes.tail ≠ []) :
    endScope r.toState = some (exitSpec r).toState := by
  obtain ⟨hne, hnames⟩ := hr
  cases hsc : r.scopes with
  | nil => exact absurd hsc hne
  | cons cur outer =>
    cases outer with
    | nil => simp [hsc] at h2
    | cons o outer =>
      have hcur : ∀ e ∈ cur, e.name ≠ HIGHWATERMARK :=
        fun e he => hnames cur (by simp [hsc]) e he
      rw [endScope_scope r.toState cur sentinel (scopeList (o :: outer)) (dualInv_toState r)
        (by simp [SpecState.toState, hsc, scopeList_cons_cons]) sentinel_name hcur]
      simp [exitSpec, SpecState.toState, hsc]

theorem wf_exitSpec (r : SpecState) (hr : r.WF) (h2 : r.scopes.tail ≠ []) :
    (exitSpec r).WF := by
  refine ⟨h2, ?_⟩
  intro sc hsc e he
  exact hr.2 sc (List.mem_of_mem_tail hsc) e he

theorem lookupFrom_eq_find (name : String) (l : List HashNode) :
    lookupFrom name l = l.find? (fun e => decide (e.name = name)) := by
  induction l with
  | nil => rfl
  | cons a l ih =>
    by_cases hn : name = a.name
    · simp [lookupFrom, hn]
    · have hn' : ¬ a.name = name := fun h => hn h.symm
      simp [lookupFrom, hn, hn', ih]

theorem lookupFrom_bucket (name : String) (l : List HashNode) :
    lookupFrom name (l.filter (inBucket (hashFunction name)))
      = lookupFrom name (l.filter (fun e => decide (e.name ≠ HIGHWATERMARK))) := by
  induction l with
  | nil => rfl
  | cons a l ih =>
    by_cases ha : a.name = HIGHWATERMARK
    · simp [List.filter_cons, inBucket_sentinel _ a ha, ha, ih]
    · by_cases hh : hashFunction a.name = hashFunction name
      · have : inBucket (hashFunction name) a = true := by simp [inBucket, ha, hh]
        simp [List.filter_cons, this, ha, lookupFrom, ih]
      · have : inBucket (hashFunction name) a = false := by simp [inBucket, ha, hh]
        have hn : ¬ name = a.name := fun h => hh (by rw [h])
        simp [List.filter_cons, this, ha, lookupFrom, ih, hn]

theorem filter_flatten (st : List (List HashNode))
    (h : ∀ sc ∈ st, ∀ e ∈ sc, e.name ≠ HIGHWATERMARK) :
    (scopeList st).filter (fun e => decide (e.name ≠ HIGHWATERMARK)) = st.flatten := by
  induction st with
  | nil => rfl
  | cons cur outer ih =>
    have hcur : ∀ e ∈ cur, e.name ≠ HIGHWATERMARK := h cur (List.mem_cons_self _ _)
    have hf : cur.filter (fun e => decide (e.name ≠ HIGHWATERMARK)) = cur :=
      List.filter_eq_self.2 (fun e he => by simpa using hcur e he)
    have ih' := ih (fun sc hsc => h sc (List.mem_cons_of_mem _ hsc))
    cases outer with
    | nil => simpa only [scopeList, List.flatten_cons, List.flatten_nil, List.append_nil] using hf
    | cons o outer =>
      rw [scopeList_cons_cons, List.filter_append, hf, List.filter_cons, ih']
      simp [sentinel_name]

theorem lookupScopes_eq_join (name : String) (st : List (List HashNode)) :
    lookupScopes name st = st.flatten.find? (fun e => decide (e.name = name)) := by
  induction st with
  | nil => rfl
  | cons cur outer ih =>
    simp only [lookupScopes, List.flatten_cons, List.find?_append, ih]
    cases cur.find? (fun e => decide (e.name = name)) <;> rfl

theorem toState_lookup (name : String) (r : SpecState) (hr : r.WF) :
    lookupSymbol name r.toState = lookupScopes name r.scopes := by
  rw [lookupScopes_eq_join, ← filter_flatten r.scopes hr.2, ← lookupFrom_eq_find,
    ← lookupFrom_bucket]
  rfl

theorem insertSymbol_tempList (name : String) (d : TreeNode) (l : Int) (s : State) :
    (insertSymbol name d l s).tempList = s.tempList ∨
    (insertSymbol name d l s).tempList = allocateSymbolNode name d l :: s.tempList := by
  cases hd : symbolAlreadyDeclared name s
  · right; rw [insertSymbol_fresh _ _ _ _ hd]
  · left; rw [insertSymbol_dup _ _ _ _ hd]; rfl

theorem insertAll_shape (decls : List (String × TreeNode × Int)) :
    ∀ s : State, DualInv s → (∀ d ∈ decls, d.1 ≠ HIGHWATERMARK) →
      ∃ cur, (insertAll decls s).tempList = cur ++ s.tempList ∧
        (∀ e ∈ cur, e.name ≠ HIGHWATERMARK) ∧ DualInv (insertAll decls s) := by
  induction decls with
  | nil => intro s h _; exact ⟨[], rfl, by simp, h⟩
  | cons d decls ih =>
    intro s h hn
    have hd : d.1 ≠ HIGHWATERMARK := hn d (List.mem_cons_self _ _)
    obtain ⟨cur, h1, h2, h3⟩ := ih (insertSymbol d.1 d.2.1 d.2.2 s)
      (dualInv_insertSymbol _ _ _ _ hd h) (fun x hx => hn x (List.mem_cons_of_mem _ hx))
    rcases insertSymbol_tempList d.1 d.2.1 d.2.2 s with h4 | h4
    · exact ⟨cur, by simpa [insertAll, h4] using h1, h2, h3⟩
    · refine ⟨cur ++ [allocateSymbolNode d.1 d.2.1 d.2.2], ?_, ?_, h3⟩
      · simpa [insertAll, h4] using h1
      · intro e he
        rcases List.mem_append.1 he with he | he
        · exact h2 e he
        · simp only [List.mem_singleton] at he
          subst he; exact hd

/-! ## Sequences of symbol-table calls -/

theorem any_eraseNumbers (name : String) (cur : List (Nat × HashNode)) :
    (cur.map Prod.snd).any (fun e => decide (e.name = name))
      = cur.any (fun p => decide (p.2.name = name)) := by
  induction cur with
  | nil => rfl
  | cons a cur ih => simp only [List.map_cons, List.any_cons, ih]

theorem tracks_step (t : Nat) (op : SymOp) (s : State) (st st' : List (List (Nat × HashNode)))
    (h : Tracks t s st) (hop : op.declaresSentinel = false)
    (hst : visibleStep t op st = some st') :
    ∃ s', applyOp op s = some s' ∧ Tracks (t + 1) s' st' := by
  obtain ⟨⟨r, hwf, hsc, rfl⟩, hsorted, hlt⟩ := h
  cases op with
  | insert name decl line =>
    have hn : name ≠ HIGHWATERMARK := by simpa [SymOp.declaresSentinel] using hop
    cases st with
    | nil => simp [visibleStep] at hst
    | cons cur outer =>
      refine ⟨_, rfl, ?_⟩
      rw [toState_declareSpec name decl line r hwf hn]
      have hany := any_eraseNumbers name cur
      have hsc' : r.scopes = cur.map Prod.snd :: eraseNumbers outer := by
        simpa [eraseNumbers] using hsc
      cases hdup : cur.any (fun p => decide (p.2.name = name))
      case true =>
        simp only [visibleStep, hdup, if_true, Option.some.injEq] at hst
        subst hst
        refine ⟨⟨declareSpec name decl line r, wf_declareSpec _ _ _ _ hwf hn, ?_, rfl⟩,
          hsorted, fun p hp => Nat.lt_succ_of_lt (hlt p hp)⟩
        simp [declareSpec, hsc', hany, hdup, eraseNumbers]
      case false =>
        simp only [visibleStep, hdup, Bool.false_eq_true, if_false, Option.some.injEq] at hst
        subst hst
        refine ⟨⟨declareSpec name decl line r, wf_declareSpec _ _ _ _ hwf hn, ?_, rfl⟩,
          ?_, ?_⟩
        · simp [declareSpec, hsc', hany, hdup, eraseNumbers]
        · simp only [List.flatten_cons, List.cons_append, List.pairwise_cons]
          exact ⟨fun p hp => hlt p (by simpa using hp), by simpa using hsorted⟩
        · intro p hp
          simp only [List.flatten_cons, List.cons_append, List.mem_cons] at hp
          rcases hp with rfl | hp
          · exact Nat.lt_succ_self _
          · exact Nat.lt_succ_of_lt (hlt p (by simpa using hp))
  | enter =>
    simp only [visibleStep, Option.some.injEq] at hst
    subst hst
    refine ⟨_, rfl, ⟨enterSpec r, wf_enterSpec r hwf, ?_, toState_enterSpec r hwf⟩, ?_, ?_⟩
    · simp [enterSpec, hsc, eraseNumbers]
    · simpa using hsorted
    · intro p hp
      exact Nat.lt_succ_of_lt (hlt p (by simpa using hp))
  | exit =>
    cases st with
    | nil => simp [visibleStep] at hst
    | cons cur outer =>
      cases outer with
      | nil => simp [visibleStep] at hst
      | cons o outer =>
        simp only [visibleStep, Option.some.injEq] at hst
        subst hst
        have h2 : r.scopes.tail ≠ [] := by simp [hsc, eraseNumbers]
        refine ⟨_, toState_exitSpec r hwf h2,
          ⟨exitSpec r, wf_exitSpec r hwf h2, ?_, rfl⟩, ?_, ?_⟩
        · simp [exitSpec, hsc, eraseNumbers]
        · have := hsorted
          simp only [List.flatten_cons] at this
          simpa using (List.pairwise_append.1 this).2.1
        · intro p hp
          exact Nat.lt_succ_of_lt (hlt p (by
            simp only [List.flatten_cons, List.mem_append]
            right; simpa using hp))

theorem tracks_run (ops : List SymOp) :
    ∀ (t : Nat) (s : State) (st st' : List (List (Nat × HashNode))),
      Tracks t s st → (∀ op ∈ ops, op.declaresSentinel = false) →
      visibleAfter t ops st = some st' →
      ∃ s', runOps ops s = some s' ∧ Tracks (t + ops.length) s' st' := by
  induction ops with
  | nil =>
    intro t s st st' h _ hst
    simp only [visibleAfter, Option.some.injEq] at hst
    subst hst
    exact ⟨s, rfl, h⟩
  | cons op ops ih =>
    intro t s st st' h hops hst
    cases hstep : visibleStep t op st with
    | none => simp [visibleAfter, hstep] at hst
    | some st1 =>
      obtain ⟨s1, hs1, ht1⟩ :=
        tracks_step t op s st st1 h (hops op (List.mem_cons_self _ _)) hstep
      have hst1 : visibleAfter (t + 1) ops st1 = some st' := by
        simpa [visibleAfter, hstep] using hst
      obtain ⟨s', hs', ht'⟩ :=
        ih (t + 1) s1 st1 st' ht1 (fun o ho => hops o (List.mem_cons_of_mem _ ho)) hst1
      refine ⟨s', by simp [runOps, hs1, hs'], ?_⟩
      have : t + (op :: ops).length = t + 1 + ops.length := by
        simp only [List.length_cons]; omega
      rw [this]; exact ht'

theorem tracks_init (s0 : State) : Tracks 0 (initSymbolTable s0) [[]] := by
  refine ⟨⟨s0.withScopes [[]], ⟨by simp [State.withScopes], ?_⟩, rfl, rfl⟩, by simp, by simp⟩
  intro sc hsc e he
  simp only [State.withScopes, List.mem_singleton] at hsc
  subst hsc
  simp at he

/-- In a list of numbered entries that is sorted newest first, the first entry with a name
is the one with the greatest number. -/
theorem find_newest (name : String) (l : List (Nat × HashNode))
    (hs : l.Pairwise (fun p q => q.1 < p.1)) (e : HashNode) :
    (l.map Prod.snd).find? (fun x => decide (x.name = name)) = some e ↔
      ∃ t, (t, e) ∈ l ∧ e.name = name ∧ ∀ p ∈ l, p.2.name = name → p.1 ≤ t := by
  induction l with
  | nil => simp
  | cons a l ih =>
    obtain ⟨ha, hl⟩ := List.pairwise_cons.1 hs
    by_cases hn : a.2.name = name
    · simp only [List.map_cons, List.find?_cons, hn, decide_True, Option.some.injEq]
      constructor
      · rintro rfl
        refine ⟨a.1, by simp, hn, ?_⟩
        intro p hp _
        rcases List.mem_cons.1 hp with rfl | hp
        · exact le_refl _
        · exact le_of_lt (ha p hp)
      · rintro ⟨t, hmem, _, hmax⟩
        rcases List.mem_cons.1 hmem with heq | hmem
        · rw [← heq]
        · have h1 : a.1 ≤ t := hmax a (List.mem_cons_self _ _) hn
          have h2 : t < a.1 := ha (t, e) hmem
          omega
    · simp only [List.map_cons, List.find?_cons, hn, decide_False, ih hl]
      constructor
      · rintro ⟨t, hmem, hname, hmax⟩
        refine ⟨t, List.mem_cons_of_mem _ hmem, hname, ?_⟩
        intro p hp hpn
        rcases List.mem_cons.1 hp with rfl | hp
        · exact absurd hpn hn
        · exact hmax p hp hpn
      · rintro ⟨t, hmem, hname, hmax⟩
        rcases List.mem_cons.1 hmem with heq | hmem
        · exact absurd (by rw [← heq]; exact hname) hn
        · exact ⟨t, hmem, hname, fun p hp hpn => hmax p (List.mem_cons_of_mem _ hp) hpn⟩

theorem flatten_eraseNumbers (st : List (List (Nat × HashNode))) :
    (eraseNumbers st).flatten = st.flatten.map Prod.snd := by
  induction st with
  | nil => rfl
  | cons a st ih =>
    simp only [eraseNumbers, List.map_cons, List.flatten_cons, List.map_append] at ih ⊢
    rw [ih]

theorem tracks_lookup (t : Nat) (s : State) (st : List (List (Nat × HashNode)))
    (h : Tracks t s st) (name : String) :
    lookupSymbol name s = (st.flatten.map Prod.snd).find? (fun x => decide (x.name = name)) := by
  obtain ⟨⟨r, hwf, hsc, rfl⟩, _, _⟩ := h
  rw [toState_lookup name r hwf, lookupScopes_eq_join, hsc, flatten_eraseNumbers]

/-! ## The resolution pass as a pass over a scope stack -/

theorem enterNode_function (addr : Nat) (f : Fields) (c0 c1 c2 sib : TreeNode) (s : State)
    (hk : f.kind = Kind.DecK DecKind.FuncDecK) :
    enterNode (TreeNode.node addr f c0 c1 c2 sib) s =
      newScope { insertSymbol f.name (TreeNode.node addr f c0 c1 c2 sib) f.lineno s with
        enclosingFunction := TreeNode.node addr f c0 c1 c2 sib,
        scopeDepth := (insertSymbol f.name (TreeNode.node addr f c0 c1 c2 sib)
          f.lineno s).scopeDepth + 1 } := by
  simp [enterNode, insertDeclaration, enterFunction, enterCompound, checkIdentifier,
    markReturn, hk]

theorem enterNode_variable (addr : Nat) (f : Fields) (c0 c1 c2 sib : TreeNode) (s : State)
    (dec : DecKind) (hk : f.kind = Kind.DecK dec) (hd : dec ≠ DecKind.FuncDecK) :
    enterNode (TreeNode.node addr f c0 c1 c2 sib) s =
      insertSymbol f.name (TreeNode.node addr f c0 c1 c2 sib) f.lineno s := by
  simp [enterNode, insertDeclaration, enterFunction, enterCompound, checkIdentifier,
    markReturn, hk, hd]

theorem enterNode_compound (addr : Nat) (f : Fields) (c0 c1 c2 sib : TreeNode) (s : State)
    (hk : f.kind = Kind.StmtK StmtKind.CompoundK) :
    enterNode (TreeNode.node addr f c0 c1 c2 sib) s =
      newScope { s with scopeDepth := s.scopeDepth + 1 } := by
  simp [enterNode, insertDeclaration, enterFunction, enterCompound, checkIdentifier,
    markReturn, hk]

theorem enterNode_reference (addr : Nat) (f : Fields) (c0 c1 c2 sib : TreeNode) (s : State)
    (hk : f.kind = Kind.ExpK ExpKind.IdK ∨ f.kind = Kind.StmtK StmtKind.CallK) :
    enterNode (TreeNode.node addr f c0 c1 c2 sib) s =
      match lookupSymbol f.name s with
      | none => flagSemanticError (Diagnostic.unknownIdentifier f.name) s
      | some currentSymbol =>
        { s with declaration := assign s.declaration addr currentSymbol.declaration } := by
  rcases hk with hk | hk <;>
  simp [enterNode, insertDeclaration, enterFunction, enterCompound, checkIdentifier,
    markReturn, hk]

theorem enterNode_return (addr : Nat) (f : Fields) (c0 c1 c2 sib : TreeNode) (s : State)
    (hk : f.kind = Kind.StmtK StmtKind.ReturnK) :
    enterNode (TreeNode.node addr f c0 c1 c2 sib) s =
      { s with declaration := assign s.declaration addr s.enclosingFunction } := by
  simp [enterNode, insertDeclaration, enterFunction, enterCompound, checkIdentifier,
    markReturn, hk]

theorem enterNode_other (addr : Nat) (f : Fields) (c0 c1 c2 sib : TreeNode) (s : State)
    (hk : f.kind = Kind.StmtK StmtKind.IfK ∨ f.kind = Kind.StmtK StmtKind.WhileK ∨
      f.kind = Kind.ExpK ExpKind.OpK ∨ f.kind = Kind.ExpK ExpKind.ConstK ∨
      f.kind = Kind.ExpK ExpKind.AssignK) :
    enterNode (TreeNode.node addr f c0 c1 c2 sib) s = s := by
  rcases hk with hk | hk | hk | hk | hk <;>
  simp [enterNode, insertDeclaration, enterFunction, enterCompound, checkIdentifier,
    markReturn, hk]

theorem sameOuter_refl (r : SpecState) (h : r.WF) : SameOuter r r := ⟨h, rfl⟩

theorem sameOuter_trans {r1 r2 r3 : SpecState} (h12 : SameOuter r1 r2)
    (h23 : SameOuter r2 r3) : SameOuter r1 r3 :=
  ⟨h23.1, h23.2.trans h12.2⟩

theorem sameOuter_declareSpec (name : String) (decl : TreeNode) (line : Int) (r : SpecState)
    (hr : r.WF) (hn : name ≠ HIGHWATERMARK) : SameOuter r (declareSpec name decl line r) := by
  refine ⟨wf_declareSpec name decl line r hr hn, ?_⟩
  unfold declareSpec
  cases hsc : r.scopes with
  | nil => simp [hsc]
  | cons cur outer =>
    simp only
    split <;> simp [hsc]

/-- Entering a node in the C pass is the visit of the spec pass. -/
theorem enterNode_toState (addr : Nat) (f : Fields) (c0 c1 c2 sib : TreeNode) (r : SpecState)
    (hr : r.WF) (hf : f.declaresSentinel = false) :
    enterNode (TreeNode.node addr f c0 c1 c2 sib) r.toState
        = (visitSpec (TreeNode.node addr f c0 c1 c2 sib) r).toState ∧
      (visitSpec (TreeNode.node addr f c0 c1 c2 sib) r).WF ∧
      (opensScope f.kind = true →
        (visitSpec (TreeNode.node addr f c0 c1 c2 sib) r).scopes.tail ≠ [] ∧
        (visitSpec (TreeNode.node addr f c0 c1 c2 sib) r).scopes.tail.tail = r.scopes.tail) ∧
      (opensScope f.kind = false →
        (visitSpec (TreeNode.node addr f c0 c1 c2 sib) r).scopes.tail = r.scopes.tail) := by
  cases hk : f.kind with
  | DecK dec =>
    have hn : f.name ≠ HIGHWATERMARK := by
      simpa [Fields.declaresSentinel, hk] using hf
    have hd := toState_declareSpec f.name (TreeNode.node addr f c0 c1 c2 sib) f.lineno r hr hn
    have hso := sameOuter_declareSpec f.name (TreeNode.node addr f c0 c1 c2 sib) f.lineno r hr hn
    cases dec with
    | FuncDecK =>
      have hwf' : SpecState.WF { declareSpec f.name (TreeNode.node addr f c0 c1 c2 sib)
          f.lineno r with
          enclosingFunction := TreeNode.node addr f c0 c1 c2 sib,
          scopeDepth := (declareSpec f.name (TreeNode.node addr f c0 c1 c2 sib)
            f.lineno r).scopeDepth + 1 } := hso.1
      refine ⟨?_, ?_, ?_, ?_⟩
      · rw [enterNode_function _ _ _ _ _ _ _ hk, hd]
        simp only [visitSpec, hk]
        exact toState_enterSpec _ hwf'
      · simp only [visitSpec, hk]
        exact wf_enterSpec _ hwf'
      · intro _
        simp only [visitSpec, hk, enterSpec, List.tail_cons]
        exact ⟨hso.1.1, hso.2⟩
      · intro h; simp [opensScope] at h
    | ScalarDecK =>
      refine ⟨?_, ?_, ?_, ?_⟩
      · rw [enterNode_variable _ _ _ _ _ _ _ _ hk (by decide), hd]
        simp only [visitSpec, hk]
      · simpa only [visitSpec, hk] using hso.1
      · intro h; simp [opensScope] at h
      · intro _; simpa only [visitSpec, hk] using hso.2
    | ArrayDecK =>
      refine ⟨?_, ?_, ?_, ?_⟩
      · rw [enterNode_variable _ _ _ _ _ _ _ _ hk (by decide), hd]
        simp only [visitSpec, hk]
      · simpa only [visitSpec, hk] using hso.1
      · intro h; simp [opensScope] at h
      · intro _; simpa only [visitSpec, hk] using hso.2
  | StmtK stmt =>
    cases stmt with
    | CompoundK =>
      have hwf' : SpecState.WF { r with scopeDepth := r.scopeDepth + 1 } := hr
      refine ⟨?_, ?_, ?_, ?_⟩
      · rw [enterNode_compound _ _ _ _ _ _ _ hk]
        simp only [visitSpec, hk]
        exact toState_enterSpec _ hwf'
      · simp only [visitSpec, hk]
        exact wf_enterSpec _ hwf'
      · intro _
        simp only [visitSpec, hk, enterSpec, List.tail_cons]
        exact ⟨hr.1, trivial⟩
      · intro h; simp [opensScope] at h
    | CallK =>
      refine ⟨?_, ?_, ?_, ?_⟩
      · rw [enterNode_reference _ _ _ _ _ _ _ (Or.inr hk), toState_lookup f.name r hr]
        simp only [visitSpec, hk]
        cases lookupScopes f.name r.scopes <;> rfl
      · simp only [visitSpec, hk]
        cases lookupScopes f.name r.scopes <;> exact hr
      · intro h; simp [opensScope] at h
      · intro _
        simp only [visitSpec, hk]
        cases lookupScopes f.name r.scopes <;> rfl
    | ReturnK =>
      refine ⟨?_, ?_, ?_, ?_⟩
      · rw [enterNode_return _ _ _ _ _ _ _ hk]
        simp only [visitSpec, hk]
        rfl
      · simp only [visitSpec, hk]; exact hr
      · intro h; simp [opensScope] at h
      · intro _; simp only [visitSpec, hk]
    | IfK =>
      refine ⟨?_, ?_, ?_, ?_⟩
      · rw [enterNode_other _ _ _ _ _ _ _ (by simp [hk])]
        simp only [visitSpec, hk]
      · simp only [visitSpec, hk]; exact hr
      · intro h; simp [opensScope] at h
      · intro _; simp only [visitSpec, hk]
    | WhileK =>
      refine ⟨?_, ?_, ?_, ?_⟩
      · rw [enterNode_other _ _ _ _ _ _ _ (by simp [hk])]
        simp only [visitSpec, hk]
      · simp only [visitSpec, hk]; exact hr
      · intro h; simp [opensScope] at h
      · intro _; simp only [visitSpec, hk]
  | ExpK exp =>
    cases exp with
    | IdK =>
      refine ⟨?_, ?_, ?_, ?_⟩
      · rw [enterNode_reference _ _ _ _ _ _ _ (Or.inl hk), toState_lookup f.name r hr]
        simp only [visitSpec, hk]
        cases lookupScopes f.name r.scopes <;> rfl
      · simp only [visitSpec, hk]
        cases lookupScopes f.name r.scopes <;> exact hr
      · intro h; simp [opensScope] at h
      · intro _
        simp only [visitSpec, hk]
        cases lookupScopes f.name r.scopes <;> rfl
    | OpK =>
      refine ⟨?_, ?_, ?_, ?_⟩
      · rw [enterNode_other _ _ _ _ _ _ _ (by simp [hk])]
        simp only [visitSpec, hk]
      · simp only [visitSpec, hk]; exact hr
      · intro h; simp [opensScope] at h
      · intro _; simp only [visitSpec, hk]
    | ConstK =>
      refine ⟨?_, ?_, ?_, ?_⟩
      · rw [enterNode_other _ _ _ _ _ _ _ (by simp [hk])]
        simp only [visitSpec, hk]
      · simp only [visitSpec, hk]; exact hr
      · intro h; simp [opensScope] at h
      · intro _; simp only [visitSpec, hk]
    | AssignK =>
      refine ⟨?_, ?_, ?_, ?_⟩
      · rw [enterNode_other _ _ _ _ _ _ _ (by simp [hk])]
        simp only [visitSpec, hk]
      · simp only [visitSpec, hk]; exact hr
      · intro h; simp [opensScope] at h
      · intro _; simp only [visitSpec, hk]

/-- Leaving a node in the C pass, when it succeeds, is the leave of the spec pass, provided
that a scope other than the outermost one is open when the node closes a scope. -/
theorem leaveNode_toState (addr : Nat) (f : Fields) (c0 c1 c2 sib : TreeNode) (r : SpecState)
    (hr : r.WF) (h2 : opensScope f.kind = true → r.scopes.tail ≠ []) :
    AtMost (leaveNode (TreeNode.node addr f c0 c1 c2 sib) r.toState)
        (leaveSpec (TreeNode.node addr f c0 c1 c2 sib) r).toState ∧
      (leaveSpec (TreeNode.node addr f c0 c1 c2 sib) r).WF ∧
      (opensScope f.kind = true →
        (leaveSpec (TreeNode.node addr f c0 c1 c2 sib) r).scopes = r.scopes.tail) ∧
      (opensScope f.kind = false → leaveSpec (TreeNode.node addr f c0 c1 c2 sib) r = r) := by
  cases ho : opensScope f.kind
  · have hno : ¬ (f.kind = Kind.DecK DecKind.FuncDecK ∨ f.kind = Kind.StmtK StmtKind.CompoundK) := by
      simpa [opensScope] using ho
    refine ⟨?_, ?_, ?_, ?_⟩
    · intro y hy
      simp only [leaveNode, hno, if_false, Option.some.injEq] at hy
      rw [← hy]
      simp [leaveSpec, ho]
    · simpa [leaveSpec, ho] using hr
    · intro h; simp at h
    · intro _; simp [leaveSpec, ho]
  · have hyes : f.kind = Kind.DecK DecKind.FuncDecK ∨ f.kind = Kind.StmtK StmtKind.CompoundK := by
      simpa [opensScope] using ho
    have hwf' : SpecState.WF { r with scopeDepth := r.scopeDepth - 1 } := hr
    have ht : ({ r with scopeDepth := r.scopeDepth - 1 } : SpecState).scopes.tail ≠ [] := h2 ho
    refine ⟨?_, ?_, ?_, ?_⟩
    · intro y hy
      simp only [leaveNode, leaveSpec, ho, hyes, if_true, TraceAnalyze] at hy ⊢
      cases hd : dumpCurrentScope r.toState with
      | none => rw [hd] at hy; exact absurd hy (by simp)
      | some s1 =>
        rw [hd, dumpCurrentScope_some _ _ hd] at hy
        have := toState_exitSpec _ hwf' ht
        exact Option.some.inj (hy.symm.trans this)
    · simp only [leaveSpec, ho, if_true]
      exact wf_exitSpec _ hwf' ht
    · intro _; simp [leaveSpec, ho, exitSpec]
    · intro h; simp at h

theorem declaresSentinel_node (addr : Nat) (f : Fields) (c0 c1 c2 sib : TreeNode)
    (h : declaresSentinel (TreeNode.node addr f c0 c1 c2 sib) = false) :
    f.declaresSentinel = false ∧ declaresSentinel c0 = false ∧ declaresSentinel c1 = false ∧
      declaresSentinel c2 = false ∧ declaresSentinel sib = false := by
  simpa [declaresSentinel, and_assoc] using h

/-- The C resolution pass over the scope list and the hash buckets, when it completes,
computes what the spec pass computes over the scope stack, and only the innermost scope is
changed. -/
theorem startBuildSymbolTable_toState (t : TreeNode) :
    ∀ r : SpecState, r.WF → declaresSentinel t = false →
      AtMost (startBuildSymbolTable t r.toState) (resolveSpec t r).toState ∧
        SameOuter r (resolveSpec t r) := by
  induction t with
  | NULL =>
    intro r hr _
    exact ⟨fun y hy => (Option.some.inj hy).symm, sameOuter_refl r hr⟩
  | node addr f c0 c1 c2 sib ih0 ih1 ih2 ihs =>
    intro r hr hs
    obtain ⟨hf, hs0, hs1, hs2, hss⟩ := declaresSentinel_node addr f c0 c1 c2 sib hs
    obtain ⟨he, hwf1, hopen, hclosed⟩ := enterNode_toState addr f c0 c1 c2 sib r hr hf
    obtain ⟨e0, so0⟩ := ih0 _ hwf1 hs0
    obtain ⟨e1, so1⟩ := ih1 _ so0.1 hs1
    obtain ⟨e2, so2⟩ := ih2 _ so1.1 hs2
    have so : SameOuter (visitSpec (TreeNode.node addr f c0 c1 c2 sib) r)
        (resolveSpec c2 (resolveSpec c1 (resolveSpec c0
          (visitSpec (TreeNode.node addr f c0 c1 c2 sib) r)))) :=
      sameOuter_trans (sameOuter_trans so0 so1) so2
    obtain ⟨el, hwfl, hlo, hlc⟩ := leaveNode_toState addr f c0 c1 c2 sib _ so.1
      (fun ho => by rw [so.2]; exact (hopen ho).1)
    obtain ⟨es, sos⟩ := ihs _ hwfl hss
    refine ⟨?_, sos.1, ?_⟩
    · intro y hy
      obtain ⟨s2, s3, s4, s5, h0, h1, h2, hl, hsb⟩ :=
        startBuildSymbolTable_steps addr f c0 c1 c2 sib _ y hy
      rw [he] at h0
      rw [e0 s2 h0] at h1
      rw [e1 s3 h1] at h2
      rw [e2 s4 h2] at hl
      rw [el s5 hl] at hsb
      simp only [resolveSpec]
      exact es y hsb
    · simp only [resolveSpec]
      rw [sos.2]
      cases ho : opensScope f.kind
      · rw [hlc ho, so.2, hclosed ho]
      · rw [hlo ho, so.2, (hopen ho).2]

theorem toState_withScopes_nil (s : State) (h1 : s.tempList = [])
    (h2 : ∀ b, s.hashtable b = []) : (s.withScopes [[]]).toState = s := by
  have : s.hashtable = fun _ => [] := funext h2
  cases s
  simp_all [State.withScopes, SpecState.toState, scopeList]

theorem wf_withScopes_nil (s : State) : (s.withScopes [[]]).WF := by
  refine ⟨by simp [State.withScopes], ?_⟩
  intro sc hsc e he
  simp only [State.withScopes, List.mem_singleton] at hsc
  subst hsc
  simp at he

/-- The state in which `declarePredefines` makes its two insertions. -/
theorem declarePredefines_eq (s : State) :
    declarePredefines s =
      insertSymbol "output" (predefinedOutput s) 0
        (insertSymbol "input" (predefinedInput s) 0
          { s with
            brk := s.brk + 1 + 1 + 1,
            declaration := assign (assign (assign s.declaration s.brk TreeNode.NULL)
              (s.brk + 1) TreeNode.NULL) (s.brk + 1 + 1) TreeNode.NULL,
            expressionType := assign (assign (assign s.expressionType s.brk ExpType.Function)
              (s.brk + 1) ExpType.Integer) (s.brk + 1 + 1) ExpType.Function }) := rfl

theorem declarePredefines_toState (s : State) (h1 : s.tempList = [])
    (h2 : ∀ b, s.hashtable b = []) :
    declarePredefines s = (predefinesSpec s).toState ∧ (predefinesSpec s).WF := by
  have hin : ("input" : String) ≠ HIGHWATERMARK := by decide
  have hout : ("output" : String) ≠ HIGHWATERMARK := by decide
  have hio : ¬ ("input" : String) = "output" := by decide
  let s3 : State := { s with
            brk := s.brk + 1 + 1 + 1,
            declaration := assign (assign (assign s.declaration s.brk TreeNode.NULL)
              (s.brk + 1) TreeNode.NULL) (s.brk + 1 + 1) TreeNode.NULL,
            expressionType := assign (assign (assign s.expressionType s.brk ExpType.Function)
              (s.brk + 1) ExpType.Integer) (s.brk + 1 + 1) ExpType.Function }
  have e3 : (s3.withScopes [[]]).toState = s3 := toState_withScopes_nil s3 h1 h2
  have w3 := wf_withScopes_nil s3
  have w4 := wf_declareSpec "input" (predefinedInput s) 0 _ w3 hin
  have w5 := wf_declareSpec "output" (predefinedOutput s) 0 _ w4 hout
  have e5 : declarePredefines s = (declareSpec "output" (predefinedOutput s) 0
      (declareSpec "input" (predefinedInput s) 0 (s3.withScopes [[]]))).toState := by
    rw [declarePredefines_eq, ← toState_declareSpec _ _ _ _ w4 hout,
      ← toState_declareSpec _ _ _ _ w3 hin, e3]
  have e6 : declareSpec "output" (predefinedOutput s) 0
      (declareSpec "input" (predefinedInput s) 0 (s3.withScopes [[]])) = predefinesSpec s := by
    have e7 : declareSpec "output" (predefinedOutput s) 0
      (declareSpec "input" (predefinedInput s) 0 (s3.withScopes [[]])) =
        (s3.withScopes
          [[{ name := "output", declaration := predefinedOutput s, lineFirstReferenced := 0 },
            { name := "input", declaration := predefinedInput s, lineFirstReferenced := 0 }]]) := by
      simp [declareSpec, State.withScopes, hio]
    rw [e7]
    have e8 := congrArg SpecState.toState e7
    rw [← e5] at e8
    simp only [predefinesSpec, State.withScopes, e8, SpecState.toState]
  exact ⟨e5.trans (congrArg _ e6), e6 ▸ w5⟩

theorem dualInv_start (brk : Nat) (lineno : Int) : DualInv (State.start brk lineno) := by
  intro b; rfl

/-! ## Symbol table: lookup, insertion and scopes -/

/-- C1.  Take any sequence of `insertSymbol` / `newScope` / `endScope` calls, run from the
empty table, that is balanced (`visibleAfter` has a result: no `endScope` without an open
scope) and declares no identifier equal to the sentinel name.  Then the calls run to
completion, and `lookupSymbol name` returns the entry of the most recently inserted
declaration of `name` among those whose scope has not been exited (the visible entry with
the greatest call number), and returns not-found exactly when no visible declaration has
that name. -/
theorem lookupSymbol_innermost_visible (s0 : State) (ops : List SymOp)
    (visible : List (List (Nat × HashNode)))
    (hnames : ∀ op ∈ ops, op.declaresSentinel = false)
    (hvis : visibleAfter 0 ops [[]] = some visible) :
    ∃ s, runOps ops (initSymbolTable s0) = some s ∧
      ∀ name : String,
        (∀ e, lookupSymbol name s = some e ↔
          ∃ t, (t, e) ∈ visible.flatten ∧ e.name = name ∧
            ∀ p ∈ visible.flatten, p.2.name = name → p.1 ≤ t) ∧
        (lookupSymbol name s = none ↔ ∀ p ∈ visible.flatten, p.2.name ≠ name) := by
  obtain ⟨s, hs, ht⟩ := tracks_run ops 0 (initSymbolTable s0) [[]] visible
    (tracks_init s0) hnames hvis
  refine ⟨s, hs, fun name => ⟨fun e => ?_, ?_⟩⟩
  · rw [tracks_lookup _ s visible ht name]
    exact find_newest name visible.flatten ht.2.1 e
  · rw [tracks_lookup _ s visible ht name, List.find?_eq_none]
    constructor
    · intro h p hp
      simpa using h p.2 (List.mem_map_of_mem _ hp)
    · intro h x hx
      obtain ⟨p, hp, rfl⟩ := List.mem_map.1 hx
      simpa using h p hp

/-- Witness of C1: `x` is declared, a scope is entered, and `x` is declared again. -/
theorem lookupSymbol_innermost_visible_witness :
    (∀ op ∈ shadowingOps, op.declaresSentinel = false) ∧
    visibleAfter 0 shadowingOps [[]] = some shadowingVisible ∧
    ∃ s, runOps shadowingOps (initSymbolTable (State.start 7 1)) = some s ∧
      ∀ name : String,
        (∀ e, lookupSymbol name s = some e ↔
          ∃ t, (t, e) ∈ shadowingVisible.flatten ∧ e.name = name ∧
            ∀ p ∈ shadowingVisible.flatten, p.2.name = name → p.1 ≤ t) ∧
        (lookupSymbol name s = none ↔ ∀ p ∈ shadowingVisible.flatten, p.2.name ≠ name) :=
  ⟨by decide, by decide,
    lookupSymbol_innermost_visible (State.start 7 1) shadowingOps shadowingVisible
      (by decide) (by decide)⟩

/-- C4.  Scope round trip: from a state that satisfies the dual-structure invariant,
`newScope`, then any finite run of `insertSymbol` calls with names other than the sentinel,
then `endScope` succeeds and gives back the hash buckets and the scope list of the state
before; hence every lookup answers after the scope is exited as it did before the scope was
entered. -/
theorem scope_round_trip (s : State) (decls : List (String × TreeNode × Int))
    (h : DualInv s) (hn : ∀ d ∈ decls, d.1 ≠ HIGHWATERMARK) :
    ∃ s', endScope (insertAll decls (newScope s)) = some s' ∧
      s'.hashtable = s.hashtable ∧ s'.tempList = s.tempList ∧
      ∀ name, lookupSymbol name s' = lookupSymbol name s := by
  obtain ⟨cur, h1, h2, h3⟩ := insertAll_shape decls (newScope s) (dualInv_newScope s h) hn
  have h4 : (insertAll decls (newScope s)).tempList = cur ++ sentinel :: s.tempList := h1
  have hht : (fun b => s.tempList.filter (inBucket b)) = s.hashtable :=
    funext fun b => (h b).symm
  refine ⟨_, endScope_scope _ cur sentinel s.tempList h3 h4 sentinel_name h2, ?_, rfl, ?_⟩
  · exact hht
  · intro name
    simp only [lookupSymbol, h (hashFunction name)]

/-- Witness of C4: an outer `x`, and a scope in which `x` is declared again; in the whole
resolution pass over `int x; int f(void){ int x; return x; }` the name `x` resolves to the
outer declaration once the body of `f` has been left. -/
theorem scope_round_trip_witness :
    DualInv outerXState ∧
    (∀ d ∈ [("x", innerX, (1 : Int))], d.1 ≠ HIGHWATERMARK) ∧
    (∃ s', endScope (insertAll [("x", innerX, (1 : Int))] (newScope outerXState)) = some s' ∧
      s'.hashtable = outerXState.hashtable ∧ s'.tempList = outerXState.tempList ∧
      ∀ name, lookupSymbol name s' = lookupSymbol name outerXState) ∧
    (buildSymTab shadowingProgram (State.start 7 1)).map (fun s => lookupSymbol "x" s)
      = some (some outerXEntry) :=
  ⟨dualInv_insertSymbol _ _ _ _ (by decide) (dualInv_start 7 1), by decide,
    scope_round_trip outerXState [("x", innerX, (1 : Int))]
      (dualInv_insertSymbol _ _ _ _ (by decide) (dualInv_start 7 1)) (by decide),
    by decide⟩

/-- C5.  The dual-structure invariant (every hash bucket is the subsequence of the
non-sentinel scope-list entries whose name hashes to it, in the same order) holds for the
empty table and is preserved by `insertSymbol` for any name other than the sentinel, by
`newScope`, and by `endScope`, which succeeds, whenever at least one scope is open. -/
theorem dualInv_preserved :
    (∀ s, DualInv (initSymbolTable s)) ∧
    (∀ name decl line s, name ≠ HIGHWATERMARK → DualInv s →
      DualInv (insertSymbol name decl line s)) ∧
    (∀ s, DualInv s → DualInv (newScope s)) ∧
    (∀ s, DualInv s → ScopeOpen s → ∃ s', endScope s = some s' ∧ DualInv s') :=
  ⟨dualInv_init, dualInv_insertSymbol, dualInv_newScope, dualInv_endScope⟩

/-- Witness of C5: the invariant after a declaration in a new scope of the empty table, and
after that scope is left. -/
theorem dualInv_preserved_witness :
    ("x" : String) ≠ HIGHWATERMARK ∧
    DualInv (insertSymbol "x" innerX 1 (newScope (initSymbolTable (State.start 7 1)))) ∧
    ScopeOpen (insertSymbol "x" innerX 1 (newScope (initSymbolTable (State.start 7 1)))) ∧
    ∃ s', endScope (insertSymbol "x" innerX 1
        (newScope (initSymbolTable (State.start 7 1)))) = some s' ∧ DualInv s' :=
  ⟨by decide,
    dualInv_preserved.2.1 "x" innerX 1 _ (by decide)
      (dualInv_preserved.2.2.1 _ (dualInv_preserved.1 (State.start 7 1))),
    ⟨sentinel, by decide, rfl⟩,
    dualInv_preserved.2.2.2 _
      (dualInv_preserved.2.1 "x" innerX 1 _ (by decide)
        (dualInv_preserved.2.2.1 _ (dualInv_preserved.1 (State.start 7 1))))
      ⟨sentinel, by decide, rfl⟩⟩

/-! ## Semantic analyzer: resolution and type checking -/

theorem checkParmsFrom_iff (s : State) (parms : TreeNode) :
    ∀ args : TreeNode, checkParmsFrom s parms args = true ↔ ParmsMatch s parms args := by
  induction parms with
  | NULL =>
    intro args
    cases args with
    | NULL => simp [checkParmsFrom, ParmsMatch, siblings]
    | node a2 f2 x2 y2 z2 sib2 => simp [checkParmsFrom, ParmsMatch, siblings]
  | node a1 f1 x1 y1 z1 sib1 _ _ _ ih =>
    intro args
    cases args with
    | NULL => simp [checkParmsFrom, ParmsMatch, siblings]
    | node a2 f2 x2 y2 z2 sib2 =>
      by_cases ht : s.expressionType a1 = s.expressionType a2
      · simp only [checkParmsFrom, ht, ne_eq, not_true_eq_false, if_false, ih sib2]
        simp [ParmsMatch, siblings, ht]
      · simp only [checkParmsFrom, ht, ne_eq, not_false_eq_true, if_true]
        simp [ParmsMatch, siblings, ht]

theorem checkNode_call (s : State) (addr : Nat) (f : Fields) (args c1 c2 sib : TreeNode)
    (da : Nat) (fd : Fields) (parms d1 d2 ds : TreeNode)
    (hk : f.kind = Kind.StmtK StmtKind.CallK)
    (hd : s.declaration addr = TreeNode.node da fd parms d1 d2 ds) :
    checkNode (TreeNode.node addr f args c1 c2 sib) s =
      some { (if checkParmsFrom s parms args then s
              else flagSemanticError (Diagnostic.parametersDontMatch f.lineno) s) with
        expressionType := assign s.expressionType addr fd.functionReturnType } := by
  cases hc : checkParmsFrom s parms args <;>
  simp [checkNode, hk, hd, checkFormalAgainstActualParms, hc, flagSemanticError]

theorem checkNode_return (s : State) (addr : Nat) (f : Fields) (value c1 c2 sib : TreeNode)
    (da : Nat) (fd : Fields) (d0 d1 d2 ds : TreeNode)
    (hk : f.kind = Kind.StmtK StmtKind.ReturnK)
    (hd : s.declaration addr = TreeNode.node da fd d0 d1 d2 ds)
    (hr : fd.functionReturnType = ExpType.Integer) :
    checkNode (TreeNode.node addr f value c1 c2 sib) s =
      some (if value = TreeNode.NULL ∨ readExpressionType s value ≠ some ExpType.Integer then
        flagSemanticError (Diagnostic.returnNotInteger f.lineno) s else s) := by
  simp only [checkNode, hk, hd, hr, if_true]
  split <;> rfl

theorem noIntegerValue_iff (s : State) (value : TreeNode) :
    NoIntegerValue s value ↔
      (value = TreeNode.NULL ∨ readExpressionType s value ≠ some ExpType.Integer) := by
  cases value with
  | NULL => simp [NoIntegerValue]
  | node a g x y z w => simp [NoIntegerValue, readExpressionType]

theorem listing_ne_append (l : List Diagnostic) (d : Diagnostic) : l ≠ l ++ [d] := by
  intro h
  have := congrArg List.length h
  simp at this

theorem parmsMatch_declared (s : State) (parms : TreeNode) :
    ∀ args : TreeNode, ParmsTyped s parms →
      (ParmsMatch s parms args ↔ ParmsMatchDeclared s parms args) := by
  induction parms with
  | NULL =>
    intro args _
    simp [ParmsMatch, ParmsMatchDeclared, siblings, declaredTypes]
  | node a1 f1 x1 y1 z1 sib1 _ _ _ ih =>
    intro args ht
    have ht' : s.expressionType a1 = f1.variableDataType ∧ ParmsTyped s sib1 := by
      simpa [ParmsTyped, siblings, declaredTypes] using ht
    cases args with
    | NULL => simp [ParmsMatch, ParmsMatchDeclared, siblings, declaredTypes]
    | node a2 f2 x2 y2 z2 sib2 =>
      have := ih sib2 ht'.2
      simp only [ParmsMatch, ParmsMatchDeclared] at this
      simp only [ParmsMatch, ParmsMatchDeclared, siblings, declaredTypes, List.length_cons,
        List.zip_cons_cons, List.mem_cons, forall_eq_or_imp, add_left_inj, ht'.1]
      constructor
      · rintro ⟨hl, h1, h2⟩
        exact ⟨(this.1 ⟨hl, h2⟩).1, h1, (this.1 ⟨hl, h2⟩).2⟩
      · rintro ⟨hl, h1, h2⟩
        exact ⟨(this.2 ⟨hl, h2⟩).1, h1, (this.2 ⟨hl, h2⟩).2⟩

/-- C8, evaluated on the code.  After the resolution pass over
`int main(void){ return y; }` the identifier `y` (node 4) has a null resolved-declaration
reference; `checkNode` on that node reads `declaration->expressionType` through the null
reference, and the analysis does not run to completion. -/
theorem typeCheck_unresolved_reference_fails :
    (buildSymTab undeclaredProgram (State.start 5 1)).map (fun s => s.declaration 4)
      = some TreeNode.NULL ∧
    (buildSymTab undeclaredProgram (State.start 5 1)).bind
        (checkNode (identifier 4 "y" TreeNode.NULL)) = none ∧
    analyze undeclaredProgram (State.start 5 1) = none :=
  ⟨by decide, Option.isNone_iff_eq_none.1 (by decide),
    Option.isNone_iff_eq_none.1 (by decide)⟩

/-- C9.  For a call node whose resolved declaration is a (non-null) declaration node,
`checkFormalAgainstActualParms` returns TRUE if and only if the parameter chain of the
declaration and the argument chain of the call have the same length and at every position
the inferred types are equal, and FALSE otherwise; once the parameters have been typed, the
inferred type of a parameter is its declared type.  `checkNode` succeeds on the call and
appends the formal/actual mismatch diagnostic (setting the error flag) exactly when the
result is FALSE. -/
theorem checkFormalAgainstActualParms_positional (s : State) (addr : Nat) (f : Fields)
    (args c1 c2 sib : TreeNode) (da : Nat) (fd : Fields) (parms d1 d2 ds : TreeNode)
    (hk : f.kind = Kind.StmtK StmtKind.CallK)
    (hd : s.declaration addr = TreeNode.node da fd parms d1 d2 ds) :
    (checkFormalAgainstActualParms (s.declaration addr)
        (TreeNode.node addr f args c1 c2 sib) s = some true ↔ ParmsMatch s parms args) ∧
    (checkFormalAgainstActualParms (s.declaration addr)
        (TreeNode.node addr f args c1 c2 sib) s = some false ↔ ¬ ParmsMatch s parms args) ∧
    (ParmsTyped s parms →
      (checkFormalAgainstActualParms (s.declaration addr)
          (TreeNode.node addr f args c1 c2 sib) s = some true
        ↔ ParmsMatchDeclared s parms args)) ∧
    ∃ s', checkNode (TreeNode.node addr f args c1 c2 sib) s = some s' ∧
      (s'.listing = s.listing ++ [Diagnostic.parametersDontMatch f.lineno]
        ↔ ¬ ParmsMatch s parms args) ∧
      (¬ ParmsMatch s parms args → s'.Error = true) ∧
      (ParmsMatch s parms args → s'.listing = s.listing ∧ s'.Error = s.Error) := by
  have hiff := checkParmsFrom_iff s parms args
  refine ⟨?_, ?_, ?_, _, checkNode_call s addr f args c1 c2 sib da fd parms d1 d2 ds hk hd, ?_⟩
  · simp [hd, checkFormalAgainstActualParms, hiff]
  · simp [hd, checkFormalAgainstActualParms, ← hiff]
  · intro ht
    rw [← parmsMatch_declared s parms args ht]
    simp [hd, checkFormalAgainstActualParms, hiff]
  · cases hc : checkParmsFrom s parms args
    · have hno : ¬ ParmsMatch s parms args := by rw [← hiff, hc]; simp
      simp [hno, flagSemanticError]
    · have hyes : ParmsMatch s parms args := hiff.1 hc
      simp [hyes, listing_ne_append]

/-- Witness of C9: the call `g(1, 2)` of `void g(int a){} void main(void){ g(1, 2); g(); }`
in the state that the analysis reaches; the analysis of that program reports both calls. -/
theorem checkFormalAgainstActualParms_positional_witness :
    ((callStmt 7 "g" arityArgs (callStmt 8 "g" TreeNode.NULL TreeNode.NULL)) =
        TreeNode.node 7 { newFields 1 (Kind.StmtK StmtKind.CallK) with name := "g" }
          arityArgs TreeNode.NULL TreeNode.NULL
          (callStmt 8 "g" TreeNode.NULL TreeNode.NULL) ∧
      arityState.declaration 7 = arityProgram ∧
      ParmsTyped arityState (paramDec 2 "a" TreeNode.NULL)) ∧
    (checkFormalAgainstActualParms (arityState.declaration 7)
        (callStmt 7 "g" arityArgs (callStmt 8 "g" TreeNode.NULL TreeNode.NULL)) arityState
        = some false
      ↔ ¬ ParmsMatch arityState (paramDec 2 "a" TreeNode.NULL) arityArgs) ∧
    (analyze arityProgram (State.start 9 1)).map (fun s => s.listing)
      = some [Diagnostic.parametersDontMatch 1, Diagnostic.parametersDontMatch 1] :=
  ⟨⟨rfl, by decide, by unfold ParmsTyped; decide⟩,
    (checkFormalAgainstActualParms_positional arityState 7
      { newFields 1 (Kind.StmtK StmtKind.CallK) with name := "g" }
      arityArgs TreeNode.NULL TreeNode.NULL (callStmt 8 "g" TreeNode.NULL TreeNode.NULL)
      1 { newFields 1 (Kind.DecK DecKind.FuncDecK) with
          name := "g", functionReturnType := ExpType.Void }
      (paramDec 2 "a" TreeNode.NULL) TreeNode.NULL TreeNode.NULL arityMain
      rfl (by decide)).2.1,
    by decide⟩

/-- C10.  For a return node whose enclosing function (its resolved declaration) has return
type Integer, `checkNode` succeeds, and it appends the *missing or non-integer return
expression* diagnostic and sets the error flag if and only if the node has no value
expression or the inferred type of its value expression is not Integer; otherwise the state
is left as it was. -/
theorem checkNode_return_integer (s : State) (addr : Nat) (f : Fields)
    (value c1 c2 sib : TreeNode) (da : Nat) (fd : Fields) (d0 d1 d2 ds : TreeNode)
    (hk : f.kind = Kind.StmtK StmtKind.ReturnK)
    (hd : s.declaration addr = TreeNode.node da fd d0 d1 d2 ds)
    (hr : fd.functionReturnType = ExpType.Integer) :
    ∃ s', checkNode (TreeNode.node addr f value c1 c2 sib) s = some s' ∧
      ((s'.listing = s.listing ++ [Diagnostic.returnNotInteger f.lineno] ∧ s'.Error = true)
        ↔ NoIntegerValue s value) ∧
      (¬ NoIntegerValue s value → s' = s) := by
  refine ⟨_, checkNode_return s addr f value c1 c2 sib da fd d0 d1 d2 ds hk hd hr, ?_, ?_⟩
  · rw [noIntegerValue_iff]
    by_cases hv : value = TreeNode.NULL ∨ readExpressionType s value ≠ some ExpType.Integer
    · simp [hv, flagSemanticError]
    · simp only [hv, if_false, iff_false, not_and]
      intro h
      exact absurd h (listing_ne_append _ _)
  · rw [noIntegerValue_iff]
    intro hv
    simp [hv]

/-- Witness of C10: the `return;` of `int h(void){ return; }` in the state that the
analysis reaches; the analysis of that program reports it. -/
theorem checkNode_return_integer_witness :
    ((newFields 1 (Kind.StmtK StmtKind.ReturnK)).kind = Kind.StmtK StmtKind.ReturnK ∧
      missingReturnState.declaration 3 = missingReturnProgram ∧
      ({ newFields 1 (Kind.DecK DecKind.FuncDecK) with
          name := "h", functionReturnType := ExpType.Integer } : Fields).functionReturnType
        = ExpType.Integer) ∧
    (∃ s', checkNode (returnStmt 3 TreeNode.NULL TreeNode.NULL) missingReturnState = some s' ∧
      ((s'.listing = missingReturnState.listing ++ [Diagnostic.returnNotInteger 1] ∧
          s'.Error = true)
        ↔ NoIntegerValue missingReturnState TreeNode.NULL) ∧
      (¬ NoIntegerValue missingReturnState TreeNode.NULL → s' = missingReturnState)) ∧
    (analyze missingReturnProgram (State.start 4 1)).map (fun s => (s.listing, s.Error))
      = some ([Diagnostic.returnNotInteger 1], true) :=
  ⟨⟨rfl, by decide, rfl⟩,
    checkNode_return_integer missingReturnState 3 (newFields 1 (Kind.StmtK StmtKind.ReturnK))
      TreeNode.NULL TreeNode.NULL TreeNode.NULL TreeNode.NULL
      1 { newFields 1 (Kind.DecK DecKind.FuncDecK) with
          name := "h", functionReturnType := ExpType.Integer }
      TreeNode.NULL
      (compound 2 TreeNode.NULL (returnStmt 3 TreeNode.NULL TreeNode.NULL) TreeNode.NULL)
      TreeNode.NULL TreeNode.NULL rfl (by decide) rfl,
    by decide⟩

/-! ## Type checking of single nodes -/

theorem checkNode_return_void (s : State) (addr : Nat) (f : Fields)
    (value c1 c2 sib : TreeNode) (da : Nat) (fd : Fields) (d0 d1 d2 ds : TreeNode)
    (hk : f.kind = Kind.StmtK StmtKind.ReturnK)
    (hd : s.declaration addr = TreeNode.node da fd d0 d1 d2 ds)
    (hr : fd.functionReturnType = ExpType.Void) :
    checkNode (TreeNode.node addr f value c1 c2 sib) s = some s := by
  simp [checkNode, hk, hd, hr]

/-- C11, evaluated on the code.  For `void k(void){ return 1; }` the return statement
carries a value and its enclosing function returns Void, yet the analysis ends with an empty
listing and the error flag clear: `checkNode` formats the message of the Void branch into
its buffer and never passes it to `flagSemanticError`. -/
theorem void_return_with_value_unreported :
    (buildSymTab voidReturnProgram (State.start 5 1)).map
        (fun s => (s.declaration 3, s.listing, s.Error))
      = some (voidReturnProgram, [], false) ∧
    (analyze voidReturnProgram (State.start 5 1)).map (fun s => (s.listing, s.Error))
      = some ([], false) :=
  ⟨by decide, by decide⟩

theorem bothInteger_nodes (s : State) (a0 : Nat) (f0 : Fields) (x0 y0 z0 w0 : TreeNode)
    (a1 : Nat) (f1 : Fields) (x1 y1 z1 w1 : TreeNode) :
    bothInteger s (TreeNode.node a0 f0 x0 y0 z0 w0) (TreeNode.node a1 f1 x1 y1 z1 w1)
      = some (decide (s.expressionType a0 = ExpType.Integer ∧
          s.expressionType a1 = ExpType.Integer)) := by
  by_cases h0 : s.expressionType a0 = ExpType.Integer <;>
  simp [bothInteger, readExpressionType, h0]

/-- C12.  For a binary-operator node with two operands (both children non-null):
if the operator is one of `+ - * / < <= > >= == !=` and both operands have inferred type
Integer, `checkNode` sets the inferred type of the node to Integer and changes nothing
else; if the operator is one of those ten and some operand is not Integer, exactly one
*operands must be integer* diagnostic is appended (the arithmetic wording for `+ - * /`,
the relational wording for the others) and the error flag is set; if the operator is any
other token value, exactly one *unknown operator* diagnostic is appended and the error flag
is set. -/
theorem checkNode_operator (s : State) (addr : Nat) (f : Fields)
    (a0 : Nat) (f0 : Fields) (x0 y0 z0 w0 : TreeNode)
    (a1 : Nat) (f1 : Fields) (x1 y1 z1 w1 : TreeNode) (c2 sib : TreeNode)
    (hk : f.kind = Kind.ExpK ExpKind.OpK) :
    (f.op ∈ knownOperators →
      s.expressionType a0 = ExpType.Integer ∧ s.expressionType a1 = ExpType.Integer →
      checkNode (TreeNode.node addr f (TreeNode.node a0 f0 x0 y0 z0 w0)
          (TreeNode.node a1 f1 x1 y1 z1 w1) c2 sib) s
        = some { s with expressionType := assign s.expressionType addr ExpType.Integer }) ∧
    (f.op ∈ knownOperators →
      ¬ (s.expressionType a0 = ExpType.Integer ∧ s.expressionType a1 = ExpType.Integer) →
      ∃ d, (d = Diagnostic.arithmeticOperands f.lineno ∨
          d = Diagnostic.relationalOperands f.lineno) ∧
        checkNode (TreeNode.node addr f (TreeNode.node a0 f0 x0 y0 z0 w0)
            (TreeNode.node a1 f1 x1 y1 z1 w1) c2 sib) s
          = some { s with listing := s.listing ++ [d], Error := true }) ∧
    (f.op ∉ knownOperators →
      checkNode (TreeNode.node addr f (TreeNode.node a0 f0 x0 y0 z0 w0)
          (TreeNode.node a1 f1 x1 y1 z1 w1) c2 sib) s
        = some { s with listing := s.listing ++ [Diagnostic.unknownOperator f.lineno],
                        Error := true }) := by
  have hb := bothInteger_nodes s a0 f0 x0 y0 z0 w0 a1 f1 x1 y1 z1 w1
  refine ⟨?_, ?_, ?_⟩
  · intro hop hty
    simp only [knownOperators, List.mem_cons, List.mem_singleton, List.not_mem_nil,
      or_false] at hop
    rcases hop with h | h | h | h | h | h | h | h | h | h <;>
    simp [checkNode, hk, h, hb, hty]
  · intro hop hty
    simp only [knownOperators, List.mem_cons, List.mem_singleton, List.not_mem_nil,
      or_false] at hop
    rcases hop with h | h | h | h | h | h | h | h | h | h
    · exact ⟨Diagnostic.arithmeticOperands f.lineno, Or.inl rfl, by
        simp [checkNode, hk, h, hb, hty, flagSemanticError]⟩
    · exact ⟨Diagnostic.arithmeticOperands f.lineno, Or.inl rfl, by
        simp [checkNode, hk, h, hb, hty, flagSemanticError]⟩
    · exact ⟨Diagnostic.arithmeticOperands f.lineno, Or.inl rfl, by
        simp [checkNode, hk, h, hb, hty, flagSemanticError]⟩
    · exact ⟨Diagnostic.arithmeticOperands f.lineno, Or.inl rfl, by
        simp [checkNode, hk, h, hb, hty, flagSemanticError]⟩
    · exact ⟨Diagnostic.relationalOperands f.lineno, Or.inr rfl, by
        simp [checkNode, hk, h, hb, hty, flagSemanticError]⟩
    · exact ⟨Diagnostic.relationalOperands f.lineno, Or.inr rfl, by
        simp [checkNode, hk, h, hb, hty, flagSemanticError]⟩
    · exact ⟨Diagnostic.relationalOperands f.lineno, Or.inr rfl, by
        simp [checkNode, hk, h, hb, hty, flagSemanticError]⟩
    · exact ⟨Diagnostic.relationalOperands f.lineno, Or.inr rfl, by
        simp [checkNode, hk, h, hb, hty, flagSemanticError]⟩
    · exact ⟨Diagnostic.relationalOperands f.lineno, Or.inr rfl, by
        simp [checkNode, hk, h, hb, hty, flagSemanticError]⟩
    · exact ⟨Diagnostic.relationalOperands f.lineno, Or.inr rfl, by
        simp [checkNode, hk, h, hb, hty, flagSemanticError]⟩
  · intro hop
    simp only [knownOperators, List.mem_cons, List.mem_singleton, List.not_mem_nil,
      or_false, not_or] at hop
    obtain ⟨h1, h2, h3, h4, h5, h6, h7, h8, h9, h10⟩ := hop
    simp [checkNode, hk, h1, h2, h3, h4, h5, h6, h7, h8, h9, h10, flagSemanticError]

/-- Witness of C12: the node of `1 + 2` with both operands typed Integer. -/
theorem checkNode_operator_witness :
    (opFields TokenType.PLUS).kind = Kind.ExpK ExpKind.OpK ∧
    (opFields TokenType.PLUS).op ∈ knownOperators ∧
    (allIntegerState.expressionType 1 = ExpType.Integer ∧
      allIntegerState.expressionType 2 = ExpType.Integer) ∧
    checkNode (TreeNode.node 3 (opFields TokenType.PLUS) (constant 1 1 TreeNode.NULL)
        (constant 2 2 TreeNode.NULL) TreeNode.NULL TreeNode.NULL) allIntegerState
      = some { allIntegerState with
          expressionType := assign allIntegerState.expressionType 3 ExpType.Integer } :=
  ⟨rfl, by decide, ⟨rfl, rfl⟩,
    (checkNode_operator allIntegerState 3 (opFields TokenType.PLUS)
      1 _ TreeNode.NULL TreeNode.NULL TreeNode.NULL TreeNode.NULL
      2 _ TreeNode.NULL TreeNode.NULL TreeNode.NULL TreeNode.NULL
      TreeNode.NULL TreeNode.NULL rfl).1 (by decide) ⟨rfl, rfl⟩⟩

theorem declarePredefines_expressionType (s : State) :
    (declarePredefines s).expressionType (s.brk + 1) = ExpType.Integer := by
  have e : (declarePredefines s).expressionType =
      assign (assign (assign s.expressionType s.brk ExpType.Function)
        (s.brk + 1) ExpType.Integer) (s.brk + 1 + 1) ExpType.Function := by
    rw [declarePredefines_eq]
    simp only [insertSymbol]
    split <;> split <;> rfl
  rw [e]
  simp [assign]

/-- C15.  After `declarePredefines` has run on an empty symbol table, `lookupSymbol "input"`
returns a function declaration with an empty parameter list and return type Integer, and
`lookupSymbol "output"` returns a function declaration with exactly one parameter, whose
declared and inferred types are Integer, and return type Void; the two entries are the whole
scope list, so both lie in the outermost scope.  Consequently a call with no arguments
passes the formal/actual check against `input`, and a call with one argument of inferred
type Integer passes it against `output`, in every state that keeps the inferred type of the
parameter. -/
theorem declarePredefines_builtins (s : State) (h1 : s.tempList = [])
    (h2 : ∀ b, s.hashtable b = []) :
    lookupSymbol "input" (declarePredefines s)
      = some { name := "input", declaration := predefinedInput s,
               lineFirstReferenced := 0 } ∧
    (∃ fi, predefinedInput s
        = TreeNode.node s.brk fi TreeNode.NULL TreeNode.NULL TreeNode.NULL TreeNode.NULL ∧
      fi.kind = Kind.DecK DecKind.FuncDecK ∧ fi.functionReturnType = ExpType.Integer) ∧
    lookupSymbol "output" (declarePredefines s)
      = some { name := "output", declaration := predefinedOutput s,
               lineFirstReferenced := 0 } ∧
    (∃ fo fp, predefinedOutput s
        = TreeNode.node (s.brk + 2) fo
            (TreeNode.node (s.brk + 1) fp TreeNode.NULL TreeNode.NULL TreeNode.NULL
              TreeNode.NULL)
            TreeNode.NULL TreeNode.NULL TreeNode.NULL ∧
      fo.kind = Kind.DecK DecKind.FuncDecK ∧ fo.functionReturnType = ExpType.Void ∧
      fp.kind = Kind.DecK DecKind.ScalarDecK ∧ fp.variableDataType = ExpType.Integer ∧
      (declarePredefines s).expressionType (s.brk + 1) = ExpType.Integer) ∧
    (declarePredefines s).tempList
      = [{ name := "output", declaration := predefinedOutput s, lineFirstReferenced := 0 },
         { name := "input", declaration := predefinedInput s, lineFirstReferenced := 0 }] ∧
    (∀ (s' : State) (a : Nat) (f : Fields) (c1 c2 sib : TreeNode),
      checkFormalAgainstActualParms (predefinedInput s)
        (TreeNode.node a f TreeNode.NULL c1 c2 sib) s' = some true) ∧
    (∀ (s' : State) (a : Nat) (f : Fields) (c1 c2 sib : TreeNode)
        (ea : Nat) (ef : Fields) (e0 e1 e2 : TreeNode),
      s'.expressionType (s.brk + 1) = ExpType.Integer →
      s'.expressionType ea = ExpType.Integer →
      checkFormalAgainstActualParms (predefinedOutput s)
        (TreeNode.node a f (TreeNode.node ea ef e0 e1 e2 TreeNode.NULL) c1 c2 sib) s'
          = some true) := by
  obtain ⟨hp, hwf⟩ := declarePredefines_toState s h1 h2
  have hio : ¬ ("input" : String) = "output" := by decide
  have hoi : ¬ ("output" : String) = "input" := by decide
  refine ⟨?_, ⟨_, rfl, rfl, rfl⟩, ?_, ⟨_, _, rfl, rfl, rfl, rfl, rfl,
    declarePredefines_expressionType s⟩, ?_, ?_, ?_⟩
  · rw [hp, toState_lookup _ _ hwf]
    simp [predefinesSpec, State.withScopes, lookupScopes, hoi]
  · rw [hp, toState_lookup _ _ hwf]
    simp [predefinesSpec, State.withScopes, lookupScopes]
  · rw [hp]
    rfl
  · intro s' a f c1 c2 sib
    simp [checkFormalAgainstActualParms, predefinedInput, checkParmsFrom]
  · intro s' a f c1 c2 sib ea ef e0 e1 e2 hp' he
    simp [checkFormalAgainstActualParms, predefinedOutput, checkParmsFrom, hp', he]

/-- Witness of C15: the built-ins in the state in which `main` starts the analysis. -/
theorem declarePredefines_builtins_witness :
    ((State.start 7 1).tempList = [] ∧ ∀ b, (State.start 7 1).hashtable b = []) ∧
    lookupSymbol "input" (declarePredefines (State.start 7 1))
      = some { name := "input", declaration := predefinedInput (State.start 7 1),
               lineFirstReferenced := 0 } ∧
    lookupSymbol "output" (declarePredefines (State.start 7 1))
      = some { name := "output", declaration := predefinedOutput (State.start 7 1),
               lineFirstReferenced := 0 } :=
  ⟨⟨rfl, fun _ => rfl⟩,
    (declarePredefines_builtins (State.start 7 1) rfl (fun _ => rfl)).1,
    (declarePredefines_builtins (State.start 7 1) rfl (fun _ => rfl)).2.2.1⟩

/-! ## The parser: single steps of the expression procedures -/

theorem upcoming_getToken (t : Token) (ts : List Token) (p : ParseState)
    (h : Upcoming (t :: ts) p) :
    Upcoming ts (getToken p) ∧ (getToken p).listing = p.listing ∧
      (getToken p).brk = p.brk := by
  obtain ⟨_, _, hs⟩ := h
  cases ts with
  | nil => simp [getToken, hs, Upcoming]
  | cons t' ts' => simp [getToken, hs, Upcoming]

theorem upcoming_token (toks : List Token) (p : ParseState) (h : Upcoming toks p) :
    p.token = firstType toks := by
  cases toks with
  | nil => exact h.1
  | cons t ts => exact h.1

theorem upcoming_brk (toks : List Token) (p : ParseState) (b : Nat)
    (h : Upcoming toks p) : Upcoming toks { p with brk := b } := by
  cases toks with
  | nil => exact h
  | cons t ts => exact h

theorem factor_num (F : Nat) (p : ParseState) (h : p.token = TokenType.NUM) :
    factor (F + 1) TreeNode.NULL p =
      some (TreeNode.node p.brk
        { newFields p.lineno (Kind.ExpK ExpKind.ConstK) with
          val := atoi p.tokenString, variableDataType := ExpType.Integer }
        TreeNode.NULL TreeNode.NULL TreeNode.NULL TreeNode.NULL,
        getToken { p with brk := p.brk + 1 }) := by
  simp [factor, newNode, matchToken, h]

theorem identifier_statement_id (F : Nat) (p : ParseState) (h : p.token = TokenType.ID)
    (hn : (getToken p).token ≠ TokenType.LPAREN) :
    identifier_statement (F + 1) p =
      some (TreeNode.node p.brk
        { newFields (getToken p).lineno (Kind.ExpK ExpKind.IdK) with name := p.tokenString }
        TreeNode.NULL TreeNode.NULL TreeNode.NULL TreeNode.NULL,
        { getToken p with brk := p.brk + 1 }) := by
  have hb : (getToken p).brk = p.brk := by
    cases hs : p.source <;> simp [getToken, hs]
  simp [identifier_statement, newNode, matchToken, h, hn, hb]

theorem factor_id (F : Nat) (p : ParseState) (h : p.token = TokenType.ID)
    (hn : (getToken p).token ≠ TokenType.LPAREN) :
    factor (F + 2) TreeNode.NULL p =
      some (TreeNode.node p.brk
        { newFields (getToken p).lineno (Kind.ExpK ExpKind.IdK) with name := p.tokenString }
        TreeNode.NULL TreeNode.NULL TreeNode.NULL TreeNode.NULL,
        { getToken p with brk := p.brk + 1 }) := by
  rw [← identifier_statement_id F p h hn]
  simp [factor, h]

theorem getToken_brk (p : ParseState) (b : Nat) :
    getToken { p with brk := b } = { getToken p with brk := b } := by
  cases hs : p.source <;> simp [getToken, hs]

theorem matchToken_same (p : ParseState) : matchToken p.token p = getToken p := by
  simp [matchToken]

theorem matchToken_eq (k : TokenType) (p : ParseState) (h : p.token = k) :
    matchToken k p = getToken p := by
  simp [matchToken, h]

theorem firstType_append_cons (ts : List Token) (t : Token) (rest : List Token) :
    firstType (ts ++ t :: rest) = firstType (ts ++ [t]) := by
  cases ts <;> rfl

theorem term_loop_step (F : Nat) (tree : TreeNode) (p : ParseState)
    (h : p.token = TokenType.TIMES ∨ p.token = TokenType.DIVIDE) :
    term_loop (F + 1) tree p =
      (factor F TreeNode.NULL (getToken { p with brk := p.brk + 1 })).bind fun r =>
        term_loop F
          (TreeNode.node p.brk { newFields p.lineno (Kind.ExpK ExpKind.OpK) with op := p.token }
            tree r.1 TreeNode.NULL TreeNode.NULL) r.2 := by
  rw [term_loop]
  simp only [h, if_true, newNode, matchToken]

theorem term_loop_stop (F : Nat) (tree : TreeNode) (p : ParseState)
    (h1 : p.token ≠ TokenType.TIMES) (h2 : p.token ≠ TokenType.DIVIDE) :
    term_loop (F + 1) tree p = some (tree, p) := by
  rw [term_loop]
  simp [h1, h2]

theorem term_unfold (F : Nat) (passdown : TreeNode) (p : ParseState) :
    term (F + 1) passdown p =
      (factor F passdown p).bind fun r => term_loop F r.1 r.2 := by
  rw [term]

theorem additive_loop_step (F : Nat) (tree : TreeNode) (p : ParseState)
    (h : p.token = TokenType.PLUS ∨ p.token = TokenType.MINUS) :
    additive_expression_loop (F + 1) tree p =
      (term F TreeNode.NULL (getToken { p with brk := p.brk + 1 })).bind fun r =>
        additive_expression_loop F
          (TreeNode.node p.brk { newFields p.lineno (Kind.ExpK ExpKind.OpK) with op := p.token }
            tree r.1 TreeNode.NULL TreeNode.NULL) r.2 := by
  rw [additive_expression_loop]
  simp only [h, if_true, newNode, matchToken]

theorem additive_loop_stop (F : Nat) (tree : TreeNode) (p : ParseState)
    (h1 : p.token ≠ TokenType.PLUS) (h2 : p.token ≠ TokenType.MINUS) :
    additive_expression_loop (F + 1) tree p = some (tree, p) := by
  rw [additive_expression_loop]
  simp [h1, h2]

theorem additive_unfold (F : Nat) (passdown : TreeNode) (p : ParseState) :
    additive_expression (F + 1) passdown p =
      (term F passdown p).bind fun r => additive_expression_loop F r.1 r.2 := by
  rw [additive_expression]

theorem upcoming_upcomingState (toks : List Token) :
    Upcoming toks (upcomingState toks) := by
  cases toks with
  | nil => exact ⟨rfl, rfl⟩
  | cons t ts => exact ⟨rfl, rfl, rfl⟩

/-! ## The parser: relational level and assignment -/

theorem simple_expression_unfold (F : Nat) (passdown : TreeNode) (p : ParseState) :
    simple_expression (F + 1) passdown p =
      (additive_expression F passdown p).bind fun r =>
        if isRelational r.2.token then
          (additive_expression F TreeNode.NULL (getToken r.2)).bind fun r2 =>
            some (TreeNode.node r2.2.brk
              { newFields r2.2.lineno (Kind.ExpK ExpKind.OpK) with op := r.2.token }
              r.1 r2.1 TreeNode.NULL TreeNode.NULL, { r2.2 with brk := r2.2.brk + 1 })
        else some r := by
  rw [simple_expression]
  simp only [newNode, matchToken, if_true]

theorem getToken_brk_eq (p : ParseState) : (getToken p).brk = p.brk := by
  cases hs : p.source <;> simp [getToken, hs]

theorem getToken_listing (p : ParseState) : (getToken p).listing = p.listing := by
  cases hs : p.source <;> simp [getToken, hs]

theorem expression_unfold_id (F : Nat) (p : ParseState) (h : p.token = TokenType.ID) :
    expression (F + 1) p =
      (identifier_statement F p).bind fun r =>
        if r.2.token = TokenType.ASSIGN then
          match r.1 with
          | TreeNode.node _ lf _ _ _ _ =>
            if lf.kind = Kind.ExpK ExpKind.IdK then
              (expression F (getToken r.2)).bind fun r2 =>
                some (TreeNode.node r2.2.brk (newFields r2.2.lineno (Kind.ExpK ExpKind.AssignK))
                  r.1 r2.1 TreeNode.NULL TreeNode.NULL, { r2.2 with brk := r2.2.brk + 1 })
            else
              some (TreeNode.NULL,
                getToken (syntaxError (SyntaxDiagnostic.notAnLvalue r.2.lineno) r.2))
          | TreeNode.NULL =>
            some (TreeNode.NULL,
              getToken (syntaxError (SyntaxDiagnostic.notAnLvalue r.2.lineno) r.2))
        else simple_expression F r.1 r.2 := by
  rw [expression]
  simp only [h, if_true, Option.bind_map]
  congr 1
  funext r
  obtain ⟨t, q⟩ := r
  by_cases hq : q.token = TokenType.ASSIGN
  · cases t with
    | NULL => simp [hq]
    | node a lf c0 c1 c2 sb =>
      by_cases hk : lf.kind = Kind.ExpK ExpKind.IdK
      · simp [hq, hk, matchToken, newNode]
      · simp [hq, hk]
  · simp [hq]

theorem identifier_statement_call (F : Nat) (p : ParseState) (h : p.token = TokenType.ID)
    (hl : (getToken p).token = TokenType.LPAREN) :
    identifier_statement (F + 1) p =
      (args F (getToken (getToken p))).bind fun r =>
        some (TreeNode.node (matchToken TokenType.RPAREN r.2).brk
          { newFields (matchToken TokenType.RPAREN r.2).lineno (Kind.StmtK StmtKind.CallK) with
            name := p.tokenString }
          r.1 TreeNode.NULL TreeNode.NULL TreeNode.NULL,
          { matchToken TokenType.RPAREN r.2 with
            brk := (matchToken TokenType.RPAREN r.2).brk + 1 }) := by
  rw [identifier_statement]
  simp only [h, if_true, matchToken, hl, newNode]

/-- C18.  On every token stream that begins `ID = e`, `expression` returns the Assignment
node whose first child is the Identifier node of `ID` and whose second child is the tree
that `expression` builds for `e`, from the token after `=` on; so `a = b = 1` nests to the
right.  On every token stream in which a call `ID(args)` is immediately followed by `=`,
`expression` reports one syntax error, skips the `=`, and returns the null tree. -/
theorem expression_assignment (F : Nat) (p : ParseState) (hid : p.token = TokenType.ID) :
    (∀ (a : Token) (src : List Token), p.source = a :: src → a.type = TokenType.ASSIGN →
      expression (F + 2) p =
        (expression (F + 1) (getToken { getToken p with brk := p.brk + 1 })).bind fun r =>
          some (TreeNode.node r.2.brk (newFields r.2.lineno (Kind.ExpK ExpKind.AssignK))
            (TreeNode.node p.brk
              { newFields (getToken p).lineno (Kind.ExpK ExpKind.IdK) with
                name := p.tokenString }
              TreeNode.NULL TreeNode.NULL TreeNode.NULL TreeNode.NULL)
            r.1 TreeNode.NULL TreeNode.NULL, { r.2 with brk := r.2.brk + 1 })) ∧
    (∀ (call : TreeNode) (p1 : ParseState),
      (getToken p).token = TokenType.LPAREN →
      identifier_statement (F + 1) p = some (call, p1) → p1.token = TokenType.ASSIGN →
      expression (F + 2) p =
        some (TreeNode.NULL,
          getToken (syntaxError (SyntaxDiagnostic.notAnLvalue p1.lineno) p1))) := by
  constructor
  · intro a src hs ha
    have ht : (getToken p).token = TokenType.ASSIGN := by simp [getToken, hs, ha]
    rw [expression_unfold_id _ p hid,
      identifier_statement_id F p hid (by rw [ht]; decide)]
    simp [ht, newFields]
  · intro call p1 hl hcall hassign
    rw [expression_unfold_id _ p hid, hcall]
    rw [identifier_statement_call F p hid hl] at hcall
    cases hargs : args F (getToken (getToken p)) with
    | none => simp [hargs] at hcall
    | some r =>
      simp only [hargs, Option.some_bind, Option.some.injEq, Prod.mk.injEq] at hcall
      obtain ⟨hc, _⟩ := hcall
      subst hc
      simp [hassign, newFields]

/-- Witness of C18: `a = b = 1` gives `Assign(a, Assign(b, 1))`, and on `f() = 1` one
syntax error is reported and the tree is null. -/
theorem expression_assignment_witness :
    (upcomingState chainedAssign).token = TokenType.ID ∧
    (tok TokenType.ASSIGN "=").type = TokenType.ASSIGN ∧
    expression (8 + 2) (upcomingState chainedAssign) =
      ((expression (8 + 1) (getToken { getToken (upcomingState chainedAssign) with
          brk := (upcomingState chainedAssign).brk + 1 })).bind fun r =>
        some (TreeNode.node r.2.brk (newFields r.2.lineno (Kind.ExpK ExpKind.AssignK))
          (TreeNode.node (upcomingState chainedAssign).brk
            { newFields (getToken (upcomingState chainedAssign)).lineno
                (Kind.ExpK ExpKind.IdK) with
              name := (upcomingState chainedAssign).tokenString }
            TreeNode.NULL TreeNode.NULL TreeNode.NULL TreeNode.NULL)
          r.1 TreeNode.NULL TreeNode.NULL, { r.2 with brk := r.2.brk + 1 })) ∧
    (expression 10 (upcomingState chainedAssign)).map (fun r => (expOf r.1, r.2.token))
      = some (Exp.assign (Exp.var "a") (Exp.assign (Exp.var "b") (Exp.num 1)),
          TokenType.SEMI) ∧
    (getToken (upcomingState callAssign)).token = TokenType.LPAREN ∧
    expression (8 + 2) (upcomingState callAssign) =
      some (TreeNode.NULL,
        getToken (syntaxError (SyntaxDiagnostic.notAnLvalue 1)
          (upcomingState [tok TokenType.ASSIGN "=", tok TokenType.NUM "1",
            tok TokenType.SEMI ";"] |> fun q => { q with brk := 2 }))) ∧
    (expression 10 (upcomingState callAssign)).map
        (fun r => (r.1, r.2.listing, r.2.token))
      = some (TreeNode.NULL, [SyntaxDiagnostic.notAnLvalue 1], TokenType.NUM) :=
  ⟨rfl, rfl,
    (expression_assignment 8 (upcomingState chainedAssign) rfl).1
      (tok TokenType.ASSIGN "=") _ rfl rfl,
    by decide, rfl,
    (expression_assignment 8 (upcomingState callAssign) rfl).2 _ _ rfl rfl rfl,
    by decide⟩

/-! ## The parser: more fuel changes no result -/

theorem below_refl {α : Type} (a : Option α) : Below a a := fun _ h => h

theorem below_bind {α β : Type} {a b : Option α} {f g : α → Option β} (h : Below a b)
    (hf : ∀ x, Below (f x) (g x)) : Below (a.bind f) (b.bind g) := by
  intro r hr
  cases ha : a with
  | none => simp [ha] at hr
  | some x =>
    rw [h x ha]
    rw [ha] at hr
    exact hf x r hr

theorem below_map {α β : Type} {a b : Option α} (f : α → β) (h : Below a b) :
    Below (a.map f) (b.map f) := by
  intro r hr
  cases ha : a with
  | none => simp [ha] at hr
  | some x =>
    rw [h x ha]
    rw [ha] at hr
    exact hr

theorem below_ite {α : Type} {c : Prop} [Decidable c] {a b a' b' : Option α}
    (h : c → Below a b) (h' : ¬ c → Below a' b') :
    Below (if c then a else a') (if c then b else b') := by
  by_cases hc : c
  · simp only [hc, if_true]; exact h hc
  · simp only [hc, if_false]; exact h' hc

theorem below_none {α : Type} (b : Option α) : Below none b := fun _ h => by simp at h

theorem local_declarations_loop_mono (F : Nat) :
    ∀ p, Below (local_declarations_loop F p) (local_declarations_loop (F + 1) p) := by
  induction F with
  | zero => intro p; rw [local_declarations_loop]; exact below_none _
  | succ F ih =>
    intro p
    rw [local_declarations_loop, local_declarations_loop]
    repeat first
      | exact below_refl _
      | exact ih _
      | apply below_map
      | apply below_ite
      | intro _

theorem local_declarations_mono (F : Nat) (p : ParseState) :
    Below (local_declarations F p) (local_declarations (F + 1) p) := by
  unfold local_declarations
  repeat first
    | exact below_refl _
    | exact local_declarations_loop_mono _ _
    | apply below_map
    | apply below_ite
    | intro _

theorem fuelMono_zero : FuelMono 0 := by
  constructor
  all_goals intros
  · rw [compound_statement]; exact below_none _
  · rw [statement_list_loop]; exact below_none _
  · rw [statement_list]; exact below_none _
  · rw [statement]; exact below_none _
  · rw [expression_statement]; exact below_none _
  · rw [if_statement]; exact below_none _
  · rw [while_statement]; exact below_none _
  · rw [return_statement]; exact below_none _
  · rw [expression]; exact below_none _
  · rw [simple_expression]; exact below_none _
  · rw [additive_expression_loop]; exact below_none _
  · rw [additive_expression]; exact below_none _
  · rw [term_loop]; exact below_none _
  · rw [term]; exact below_none _
  · rw [factor]; exact below_none _
  · rw [identifier_statement]; exact below_none _
  · rw [args]; exact below_none _
  · rw [arg_list_loop]; exact below_none _
  · rw [arg_list]; exact below_none _
theorem fuelMono_succ (F : Nat) (ih : FuelMono F) : FuelMono (F + 1) := by
  constructor
  · intro p
    rw [compound_statement, compound_statement]
    repeat first
      | exact below_refl _
      | exact local_declarations_mono _ _
      | exact ih.statement_list _
      | apply below_bind
      | apply below_ite
      | intro _
  · intro b p
    rw [statement_list_loop, statement_list_loop]
    repeat first
      | exact below_refl _
      | exact ih.statement _
      | exact ih.statement_list_loop _ _
      | apply below_bind
      | apply below_map
      | apply below_ite
      | intro _
  · intro p
    rw [statement_list, statement_list]
    repeat first
      | exact below_refl _
      | exact ih.statement _
      | exact ih.statement_list_loop _ _
      | apply below_bind
      | apply below_map
      | apply below_ite
      | intro _
  · intro p
    rw [statement, statement]
    repeat first
      | exact below_refl _
      | exact ih.if_statement _
      | exact ih.while_statement _
      | exact ih.return_statement _
      | exact ih.compound_statement _
      | exact ih.expression_statement _
      | apply below_ite
      | intro _
  · intro p
    rw [expression_statement, expression_statement]
    repeat first
      | exact below_refl _
      | exact ih.expression _
      | apply below_bind
      | apply below_ite
      | intro _
  · intro p
    rw [if_statement, if_statement]
    repeat first
      | exact below_refl _
      | exact ih.expression _
      | exact ih.statement _
      | apply below_bind
      | apply below_ite
      | intro _
  · intro p
    rw [while_statement, while_statement]
    repeat first
      | exact below_refl _
      | exact ih.expression _
      | exact ih.statement _
      | apply below_bind
      | apply below_ite
      | intro _
  · intro p
    rw [return_statement, return_statement]
    repeat first
      | exact below_refl _
      | exact ih.expression _
      | apply below_bind
      | apply below_ite
      | intro _
  · intro p
    rw [expression, expression]
    apply below_bind
    · apply below_ite
      · intro _; exact below_map _ (ih.identifier_statement _)
      · intro _; exact below_refl _
    · rintro ⟨lvalue, gotLvalue, q⟩
      apply below_ite
      · intro _
        cases lvalue with
        | NULL => exact below_refl _
        | node a lf c0 c1 c2 sb =>
          apply below_ite
          · intro _
            exact below_bind (ih.expression _) (fun _ => below_refl _)
          · intro _; exact below_refl _
      · intro _; exact ih.simple_expression _ _
  · intro t p
    rw [simple_expression, simple_expression]
    repeat first
      | exact below_refl _
      | exact ih.additive_expression _ _
      | apply below_bind
      | apply below_ite
      | intro _
  · intro t p
    rw [additive_expression_loop, additive_expression_loop]
    repeat first
      | exact below_refl _
      | exact ih.term _ _
      | exact ih.additive_expression_loop _ _
      | apply below_bind
      | apply below_ite
      | intro _
  · intro t p
    rw [additive_expression, additive_expression]
    repeat first
      | exact below_refl _
      | exact ih.term _ _
      | exact ih.additive_expression_loop _ _
      | apply below_bind
      | apply below_ite
      | intro _
  · intro t p
    rw [term_loop, term_loop]
    repeat first
      | exact below_refl _
      | exact ih.factor _ _
      | exact ih.term_loop _ _
      | apply below_bind
      | apply below_ite
      | intro _
  · intro t p
    rw [term, term]
    repeat first
      | exact below_refl _
      | exact ih.factor _ _
      | exact ih.term_loop _ _
      | apply below_bind
      | apply below_ite
      | intro _
  · intro t p
    rw [factor, factor]
    repeat first
      | exact below_refl _
      | exact ih.identifier_statement _
      | exact ih.expression _
      | apply below_bind
      | apply below_ite
      | intro _
  · intro p
    rw [identifier_statement, identifier_statement]
    repeat first
      | exact below_refl _
      | exact ih.args _
      | apply below_bind
      | apply below_ite
      | intro _
  · intro p
    rw [args, args]
    repeat first
      | exact below_refl _
      | exact ih.arg_list _
      | apply below_ite
      | intro _
  · intro b p
    rw [arg_list_loop, arg_list_loop]
    repeat first
      | exact below_refl _
      | exact ih.expression _
      | exact ih.arg_list_loop _ _
      | apply below_bind
      | apply below_map
      | apply below_ite
      | intro _
  · intro p
    rw [arg_list, arg_list]
    repeat first
      | exact below_refl _
      | exact ih.expression _
      | exact ih.arg_list_loop _ _
      | apply below_bind
      | apply below_map
      | apply below_ite
      | intro _

theorem fuelMono (F : Nat) : FuelMono F := by
  induction F with
  | zero => exact fuelMono_zero
  | succ F ih => exact fuelMono_succ F ih

theorem below_add {α β : Type} (f : Nat → α → Option β)
    (h : ∀ F x, Below (f F x) (f (F + 1) x)) (F k : Nat) (x : α) :
    Below (f F x) (f (F + k) x) := by
  induction k with
  | zero => exact below_refl _
  | succ k ih => exact fun r hr => h (F + k) x r (ih r hr)

theorem expression_fuel {F G : Nat} {p : ParseState} {r : TreeNode × ParseState}
    (h : expression F p = some r) (hle : F ≤ G) : expression G p = some r := by
  obtain ⟨k, rfl⟩ := Nat.exists_eq_add_of_le hle
  exact below_add expression (fun F x => (fuelMono F).expression x) F k p r h

theorem statement_fuel {F G : Nat} {p : ParseState} {r : TreeNode × ParseState}
    (h : statement F p = some r) (hle : F ≤ G) : statement G p = some r := by
  obtain ⟨k, rfl⟩ := Nat.exists_eq_add_of_le hle
  exact below_add statement (fun F x => (fuelMono F).statement x) F k p r h

/-! ## The parser: sibling chains -/

theorem matchType_type (t : Token) (ts : List Token) (p : ParseState) (ht : IsTypeTok t)
    (hp : Upcoming (t :: ts) p) : matchType p = (typeOfToken t, getToken p) := by
  have htok : p.token = t.type := hp.1
  rcases ht with ht | ht
  · simp [matchType, typeOfToken, htok, ht]
  · simp [matchType, typeOfToken, htok, ht]

/-- The procedure `param` on a type token and an identifier. -/
theorem param_typed (a : ParamInput) (rest : List Token) (p : ParseState) (ha : a.WF)
    (hp : Upcoming (a.1 :: a.2 :: rest) p) :
    ∃ f q, param p = (TreeNode.node p.brk f TreeNode.NULL TreeNode.NULL TreeNode.NULL
        TreeNode.NULL, q) ∧
      (f.kind, f.name, f.variableDataType, f.isParameter) = paramDecl a ∧
      Upcoming rest q ∧ q.listing = p.listing ∧ q.brk = p.brk + 1 := by
  obtain ⟨hty, hid⟩ := ha
  obtain ⟨h1, hl1, hb1⟩ := upcoming_getToken _ _ p hp
  obtain ⟨h2, hl2, hb2⟩ := upcoming_getToken _ _ _ h1
  have hm : matchType p = (typeOfToken a.1, getToken p) := matchType_type _ _ p hty hp
  have hk : (getToken p).token = TokenType.ID := h1.1.trans hid
  have hs : (getToken p).tokenString = a.2.text := h1.2.1
  refine ⟨{ newFields (getToken (getToken p)).lineno (Kind.DecK DecKind.ScalarDecK) with
      name := a.2.text, val := 0, variableDataType := typeOfToken a.1, isParameter := true },
    { getToken (getToken p) with brk := p.brk + 1 }, ?_, ?_, ?_, ?_, ?_⟩
  · simp [param, hm, matchToken, hk, newNode, hs, hb2, hb1]
  · simp [paramDecl, newFields]
  · exact upcoming_brk _ _ _ h2
  · exact hl2.trans hl1
  · rfl

theorem param_list_loop_step (F : Nat) (p : ParseState) (h : p.token = TokenType.COMMA)
    (f : Fields) (q : ParseState) (a : Nat)
    (hpar : param (getToken p) = (TreeNode.node a f TreeNode.NULL TreeNode.NULL
      TreeNode.NULL TreeNode.NULL, q)) :
    param_list_loop (F + 1) p =
      (param_list_loop F q).map fun r =>
        (some (assignSibling (TreeNode.node a f TreeNode.NULL TreeNode.NULL
          TreeNode.NULL TreeNode.NULL) r.1), r.2) := by
  rw [param_list_loop]
  simp only [h, if_true, matchToken, hpar]
  simp

theorem param_list_loop_stop (F : Nat) (p : ParseState) (h : p.token ≠ TokenType.COMMA) :
    param_list_loop (F + 1) p = some (none, p) := by
  rw [param_list_loop]
  simp only [h, if_false]

theorem paramView_assignSibling (a : Nat) (f : Fields) (r : Option TreeNode) :
    paramView (assignSibling (TreeNode.node a f TreeNode.NULL TreeNode.NULL TreeNode.NULL
      TreeNode.NULL) r) =
      (f.kind, f.name, f.variableDataType, f.isParameter) :: paramViewOpt r := by
  cases r <;> simp [assignSibling, setSibling, paramView, paramViewOpt]

theorem siblings_assignSibling (a : Nat) (f : Fields) (r : Option TreeNode) :
    siblings (assignSibling (TreeNode.node a f TreeNode.NULL TreeNode.NULL TreeNode.NULL
      TreeNode.NULL) r) = a :: siblingsOpt r := by
  cases r <;> simp [assignSibling, setSibling, siblings, siblingsOpt]

/-- The loop of `param_list` on further parameters, each after its comma. -/
theorem param_list_loop_items (items : List (Token × ParamInput)) :
    ∀ (rest : List Token) (p : ParseState) (F : Nat),
      (∀ it ∈ items, it.1.type = TokenType.COMMA ∧ it.2.WF) →
      Upcoming ((items.map fun it => [it.1, it.2.1, it.2.2]).flatten ++ rest) p →
      firstType rest ≠ TokenType.COMMA → items.length + 1 ≤ F →
      ∃ r q, param_list_loop F p = some (r, q) ∧
        paramViewOpt r = items.map (fun it => paramDecl it.2) ∧
        siblingsOpt r = List.range' p.brk items.length ∧
        Upcoming rest q ∧ q.listing = p.listing := by
  induction items with
  | nil =>
    intro rest p F _ hp hend hF
    obtain ⟨F, rfl⟩ := Nat.exists_eq_add_of_le hF
    refine ⟨none, p, ?_, rfl, rfl, hp, rfl⟩
    rw [Nat.add_comm]
    apply param_list_loop_stop
    rw [upcoming_token _ p hp]
    exact hend
  | cons it items ih =>
    intro rest p F hwf hp hend hF
    obtain ⟨F, rfl⟩ : ∃ G, F = G + 1 := ⟨F - 1, by simp at hF; omega⟩
    have hit := hwf it (List.mem_cons_self _ _)
    have hp' : Upcoming (it.1 :: it.2.1 :: it.2.2 ::
        ((items.map fun it => [it.1, it.2.1, it.2.2]).flatten ++ rest)) p := by
      simpa using hp
    obtain ⟨h1, hl1, hb1⟩ := upcoming_getToken _ _ p hp'
    obtain ⟨f, q, hpar, hview, hq, hlq, hbq⟩ := param_typed it.2 _ (getToken p) hit.2 h1
    obtain ⟨r, q', hloop, hv, hsib, hq', hlq'⟩ := ih rest q F
      (fun x hx => hwf x (List.mem_cons_of_mem _ hx)) hq hend (by simp at hF; omega)
    refine ⟨some (assignSibling (TreeNode.node (getToken p).brk f TreeNode.NULL TreeNode.NULL
      TreeNode.NULL TreeNode.NULL) r), q', ?_, ?_, ?_, hq', ?_⟩
    · rw [param_list_loop_step F p (hp'.1.trans hit.1) f q _ hpar, hloop]
      rfl
    · show paramView (assignSibling _ r) = _
      rw [paramView_assignSibling, hv, hview]
      rfl
    · show siblings (assignSibling _ r) = _
      rw [siblings_assignSibling, hsib, hbq, hb1]
      rfl
    · rw [hlq', hlq, hl1]
/-- The procedure `param_list` on a written-out parameter list whose first type is `int`. -/
theorem param_list_typed (a : ParamListInput) (rest : List Token) (p : ParseState) (F : Nat)
    (ha : a.WF) (hint : a.1.1.type = TokenType.INT)
    (hp : Upcoming (paramTokens a ++ rest) p) (hend : firstType rest ≠ TokenType.COMMA)
    (hF : a.2.length + 1 ≤ F) :
    ∃ t q, param_list F p = some (t, q) ∧ paramView t = paramDecls a ∧
      siblings t = List.range' p.brk (a.2.length + 1) ∧
      Upcoming rest q ∧ q.listing = p.listing := by
  have hp' : Upcoming (a.1.1 :: a.1.2 ::
      ((a.2.map fun it => [it.1, it.2.1, it.2.2]).flatten ++ rest)) p := by
    simpa [paramTokens] using hp
  obtain ⟨f, q, hpar, hview, hq, hlq, hbq⟩ := param_typed a.1 _ p ha.1 hp'
  obtain ⟨r, q', hloop, hv, hsib, hq', hlq'⟩ :=
    param_list_loop_items a.2 rest q F ha.2 hq hend hF
  have hv0 : p.token ≠ TokenType.VOID := by
    rw [hp'.1, hint]; decide
  refine ⟨assignSibling (TreeNode.node p.brk f TreeNode.NULL TreeNode.NULL TreeNode.NULL
    TreeNode.NULL) r, q', ?_, ?_, ?_, hq', hlq'.trans hlq⟩
  · simp [param_list, hv0, hpar, hloop]
  · rw [paramView_assignSibling, hv, hview]; rfl
  · rw [siblings_assignSibling, hsib, hbq]; rfl

theorem param_list_void (F : Nat) (p : ParseState) (h : p.token = TokenType.VOID) :
    param_list F p = some (TreeNode.NULL, getToken p) := by
  simp [param_list, h, matchToken]

theorem assignSibling_chainOpt (t : TreeNode) (ts : List TreeNode) :
    assignSibling t (chainOpt ts) = chainOf (t :: ts) := by
  cases ts <;> rfl

theorem arg_list_loop_step (F : Nat) (p : ParseState) (h : p.token = TokenType.COMMA) :
    arg_list_loop (F + 1) true p =
      (expression F (getToken p)).bind fun r =>
        (arg_list_loop F (decide (r.1 ≠ TreeNode.NULL)) r.2).map fun r' =>
          (some (assignSibling r.1 r'.1), r'.2) := by
  rw [arg_list_loop]
  simp only [h, if_true, matchToken]

theorem arg_list_loop_stop (F : Nat) (b : Bool) (p : ParseState)
    (h : p.token ≠ TokenType.COMMA) : arg_list_loop (F + 1) b p = some (none, p) := by
  rw [arg_list_loop]
  simp only [h, if_false]

theorem arg_list_unfold (F : Nat) (p : ParseState) :
    arg_list (F + 1) p =
      (expression F p).bind fun r =>
        (arg_list_loop F (decide (r.1 ≠ TreeNode.NULL)) r.2).map fun r' =>
          (assignSibling r.1 r'.1, r'.2) := by
  rw [arg_list]

/-- The first argument and the loop of `arg_list` on parsed argument expressions. -/
theorem arg_list_loop_chain (G : Nat) (ts : List TreeNode) :
    ∀ (p q : ParseState) (F : Nat), ArgsParsed G ts p q → (∀ t ∈ ts, t ≠ TreeNode.NULL) →
      G + ts.length ≤ F →
      ∃ t rest p1, ts = t :: rest ∧ expression G p = some (t, p1) ∧
        arg_list_loop F true p1 = some (chainOpt rest, q) := by
  induction ts with
  | nil => intro p q F h; exact absurd h (by simp [ArgsParsed])
  | cons t ts ih =>
    intro p q F h hnn hF
    cases ts with
    | nil =>
      obtain ⟨he, hq⟩ := h
      obtain ⟨F, rfl⟩ : ∃ F', F = F' + 1 := ⟨F - 1, by simp at hF; omega⟩
      exact ⟨t, [], q, rfl, he, arg_list_loop_stop F true q hq⟩
    | cons t' ts =>
      obtain ⟨p1, he, hc, hrest⟩ := h
      obtain ⟨F, rfl⟩ : ∃ F', F = F' + 1 := ⟨F - 1, by simp at hF; omega⟩
      obtain ⟨t2, rest2, p2, heq, he2, hloop⟩ := ih (getToken p1) q F hrest
        (fun x hx => hnn x (List.mem_cons_of_mem _ hx)) (by simp at hF ⊢; omega)
      obtain ⟨rfl, rfl⟩ := List.cons.inj heq
      have hnn2 : t' ≠ TreeNode.NULL := hnn t' (by simp)
      refine ⟨t, t' :: ts, p1, rfl, he, ?_⟩
      rw [arg_list_loop_step F p1 hc,
        expression_fuel he2 (by simp at hF; omega : G ≤ F)]
      simp only [Option.some_bind, hnn2, ne_eq, not_false_eq_true, decide_True, hloop,
        Option.map_some', assignSibling_chainOpt]
      rfl

theorem arg_list_chain (G : Nat) (ts : List TreeNode) (p q : ParseState) (F : Nat)
    (h : ArgsParsed G ts p q) (hnn : ∀ t ∈ ts, t ≠ TreeNode.NULL)
    (hF : G + ts.length ≤ F) : arg_list (F + 1) p = some (chainOf ts, q) := by
  obtain ⟨t, rest, p1, rfl, he, hloop⟩ := arg_list_loop_chain G ts p q F h hnn hF
  have hnn1 : t ≠ TreeNode.NULL := hnn t (by simp)
  rw [arg_list_unfold, expression_fuel he (by omega : G ≤ F)]
  simp only [Option.some_bind, hnn1, ne_eq, not_false_eq_true, decide_True, hloop,
    Option.map_some', assignSibling_chainOpt]

theorem statement_list_loop_step (F : Nat) (p : ParseState)
    (h : p.token ≠ TokenType.RBRACE) :
    statement_list_loop (F + 1) true p =
      (statement F p).bind fun r =>
        if r.1 ≠ TreeNode.NULL then
          (statement_list_loop F true r.2).map fun r' =>
            (some (assignSibling r.1 r'.1), r'.2)
        else statement_list_loop F true r.2 := by
  rw [statement_list_loop]
  simp only [h, if_true, ne_eq, not_false_eq_true, true_and]

theorem statement_list_loop_stop (F : Nat) (b : Bool) (p : ParseState)
    (h : p.token = TokenType.RBRACE) : statement_list_loop (F + 1) b p = some (none, p) := by
  rw [statement_list_loop]
  simp [h]

theorem statement_list_unfold (F : Nat) (p : ParseState) (h : p.token ≠ TokenType.RBRACE) :
    statement_list (F + 1) p =
      (statement F p).bind fun r =>
        (statement_list_loop F (decide (r.1 ≠ TreeNode.NULL)) r.2).map fun r' =>
          (assignSibling r.1 r'.1, r'.2) := by
  rw [statement_list]
  simp only [h, ne_eq, not_false_eq_true, if_true]

/-- The first statement and the loop of `statement_list` on parsed statements. -/
theorem statement_list_loop_chain (G : Nat) (ts : List TreeNode) :
    ∀ (p q : ParseState) (F : Nat), StmtsParsed G ts p q → (∀ t ∈ ts, t ≠ TreeNode.NULL) →
      G + ts.length ≤ F →
      ∃ t rest p1, ts = t :: rest ∧ p.token ≠ TokenType.RBRACE ∧
        statement G p = some (t, p1) ∧
        statement_list_loop F true p1 = some (chainOpt rest, q) := by
  induction ts with
  | nil => intro p q F h; exact absurd h (by simp [StmtsParsed])
  | cons t ts ih =>
    intro p q F h hnn hF
    cases ts with
    | nil =>
      obtain ⟨hp, he, hq⟩ := h
      obtain ⟨F, rfl⟩ : ∃ F', F = F' + 1 := ⟨F - 1, by simp at hF; omega⟩
      exact ⟨t, [], q, rfl, hp, he, statement_list_loop_stop F true q hq⟩
    | cons t' ts =>
      obtain ⟨hp, p1, he, hrest⟩ := h
      obtain ⟨F, rfl⟩ : ∃ F', F = F' + 1 := ⟨F - 1, by simp at hF; omega⟩
      obtain ⟨t2, rest2, p2, heq, hp1, he2, hloop⟩ := ih p1 q F hrest
        (fun x hx => hnn x (List.mem_cons_of_mem _ hx)) (by simp at hF ⊢; omega)
      obtain ⟨rfl, rfl⟩ := List.cons.inj heq
      have hnn2 : t' ≠ TreeNode.NULL := hnn t' (by simp)
      refine ⟨t, t' :: ts, p1, rfl, hp, he, ?_⟩
      rw [statement_list_loop_step F p1 hp1,
        statement_fuel he2 (by simp at hF; omega : G ≤ F)]
      simp only [Option.some_bind, hnn2, ne_eq, not_false_eq_true, if_true, hloop,
        Option.map_some', assignSibling_chainOpt]
      rfl

theorem statement_list_chain (G : Nat) (ts : List TreeNode) (p q : ParseState) (F : Nat)
    (h : StmtsParsed G ts p q) (hnn : ∀ t ∈ ts, t ≠ TreeNode.NULL)
    (hF : G + ts.length ≤ F) : statement_list (F + 1) p = some (chainOf ts, q) := by
  obtain ⟨t, rest, p1, rfl, hp, he, hloop⟩ := statement_list_loop_chain G ts p q F h hnn hF
  have hnn1 : t ≠ TreeNode.NULL := hnn t (by simp)
  rw [statement_list_unfold F p hp, statement_fuel he (by omega : G ≤ F)]
  simp only [Option.some_bind, hnn1, ne_eq, not_false_eq_true, decide_True, hloop,
    Option.map_some', assignSibling_chainOpt]
theorem returns_none {α : Type} (P : α → Prop) : Returns P none := fun _ h => by simp at h

theorem returns_some {α : Type} {P : α → Prop} {x : α} (h : P x) : Returns P (some x) := by
  intro r hr
  cases hr
  exact h

theorem returns_bind {α β : Type} {P : β → Prop} {Q : α → Prop} {a : Option α}
    {f : α → Option β} (h : Returns Q a) (hf : ∀ x, Q x → Returns P (f x)) :
    Returns P (a.bind f) := by
  intro r hr
  cases ha : a with
  | none => simp [ha] at hr
  | some x =>
    rw [ha] at hr
    exact hf x (h x ha) r hr

theorem returns_bind_any {α β : Type} {P : β → Prop} {a : Option α}
    {f : α → Option β} (hf : ∀ x, Returns P (f x)) : Returns P (a.bind f) :=
  returns_bind (fun _ _ => True.intro) (fun x _ => hf x)

theorem returns_ite {α : Type} {P : α → Prop} {c : Prop} [Decidable c] {a b : Option α}
    (h : c → Returns P a) (h' : ¬ c → Returns P b) : Returns P (if c then a else b) := by
  by_cases hc : c
  · simp only [hc, if_true]; exact h hc
  · simp only [hc, if_false]; exact h' hc

theorem loneResult_zero : LoneResult 0 := by
  constructor
  all_goals intros
  · rw [compound_statement]; exact returns_none _
  · rw [statement]; exact returns_none _
  · rw [expression_statement]; exact returns_none _
  · rw [if_statement]; exact returns_none _
  · rw [while_statement]; exact returns_none _
  · rw [return_statement]; exact returns_none _
  · rw [expression]; exact returns_none _
  · rw [simple_expression]; exact returns_none _
  · rw [additive_expression_loop]; exact returns_none _
  · rw [additive_expression]; exact returns_none _
  · rw [term_loop]; exact returns_none _
  · rw [term]; exact returns_none _
  · rw [factor]; exact returns_none _
  · rw [identifier_statement]; exact returns_none _

theorem loneResult_succ (F : Nat) (ih : LoneResult F) : LoneResult (F + 1) := by
  constructor
  · intro p
    rw [compound_statement]
    repeat first
      | exact returns_some True.intro
      | exact returns_some rfl
      | apply returns_ite
      | apply returns_bind_any
      | intro _
  · intro p
    rw [statement]
    repeat first
      | exact returns_some True.intro
      | exact ih.if_statement _
      | exact ih.while_statement _
      | exact ih.return_statement _
      | exact ih.compound_statement _
      | exact ih.expression_statement _
      | apply returns_ite
      | intro _
  · intro p
    rw [expression_statement]
    apply returns_ite
    · intro _; exact returns_some True.intro
    · intro _
      apply returns_ite
      · intro _
        exact returns_bind (ih.expression _) (fun x hx => returns_some hx)
      · intro _; exact returns_some True.intro
  · intro p
    rw [if_statement]
    repeat first
      | exact returns_some rfl
      | apply returns_bind_any
      | intro _
  · intro p
    rw [while_statement]
    repeat first
      | exact returns_some rfl
      | apply returns_bind_any
      | intro _
  · intro p
    rw [return_statement]
    repeat first
      | exact returns_some rfl
      | apply returns_bind_any
      | intro _
  · intro p
    rw [expression]
    refine returns_bind (Q := fun x => Lone x.1) ?_ ?_
    · apply returns_ite
      · intro _ r hr
        obtain ⟨x, hx, rfl⟩ := Option.map_eq_some'.1 hr
        exact ih.identifier_statement _ x hx
      · intro _; exact returns_some True.intro
    · rintro ⟨lvalue, gotLvalue, q⟩ hl
      apply returns_ite
      · intro _
        cases lvalue with
        | NULL => exact returns_some True.intro
        | node a lf c0 c1 c2 sb =>
          apply returns_ite
          · intro _
            exact returns_bind_any (fun _ => returns_some rfl)
          · intro _; exact returns_some True.intro
      · intro _; exact ih.simple_expression _ _ hl
  · intro t p ht
    rw [simple_expression]
    refine returns_bind (ih.additive_expression _ _ ht) ?_
    intro x hx
    apply returns_ite
    · intro _
      exact returns_bind_any (fun _ => returns_some rfl)
    · intro _; exact returns_some hx
  · intro t p ht
    rw [additive_expression_loop]
    apply returns_ite
    · intro _
      exact returns_bind_any (fun _ => ih.additive_expression_loop _ _ rfl)
    · intro _; exact returns_some ht
  · intro t p ht
    rw [additive_expression]
    exact returns_bind (ih.term _ _ ht) (fun x hx => ih.additive_expression_loop _ _ hx)
  · intro t p ht
    rw [term_loop]
    apply returns_ite
    · intro _
      exact returns_bind_any (fun _ => ih.term_loop _ _ rfl)
    · intro _; exact returns_some ht
  · intro t p ht
    rw [term]
    exact returns_bind (ih.factor _ _ ht) (fun x hx => ih.term_loop _ _ hx)
  · intro t p ht
    rw [factor]
    apply returns_ite
    · intro _; exact returns_some ht
    · intro _
      apply returns_ite
      · intro _; exact ih.identifier_statement _
      · intro _
        apply returns_ite
        · intro _
          exact returns_bind (ih.expression _) (fun x hx => returns_some hx)
        · intro _
          apply returns_ite
          · intro _; exact returns_some rfl
          · intro _; exact returns_some True.intro
  · intro p
    rw [identifier_statement]
    repeat first
      | exact returns_some rfl
      | apply returns_ite
      | apply returns_bind_any
      | intro _

theorem loneResult (F : Nat) : LoneResult F := by
  induction F with
  | zero => exact loneResult_zero
  | succ F ih => exact loneResult_succ F ih

theorem unchain_setSibling (t s : TreeNode) (ht : t ≠ TreeNode.NULL) (hl : Lone t) :
    unchain (setSibling t s) = t :: unchain s := by
  cases t with
  | NULL => exact absurd rfl ht
  | node a f c0 c1 c2 sb =>
    have : sb = TreeNode.NULL := hl
    subst this
    rfl

theorem unchain_chainOf (ts : List TreeNode) (hnn : ∀ t ∈ ts, t ≠ TreeNode.NULL)
    (hl : ∀ t ∈ ts, Lone t) : unchain (chainOf ts) = ts := by
  induction ts with
  | nil => rfl
  | cons t ts ih =>
    cases ts with
    | nil =>
      have hn : t ≠ TreeNode.NULL := hnn t (by simp)
      have hlt : Lone t := hl t (by simp)
      cases t with
      | NULL => exact absurd rfl hn
      | node a f c0 c1 c2 sb =>
        have : sb = TreeNode.NULL := hlt
        subst this
        rfl
    | cons t' ts =>
      show unchain (setSibling t (chainOf (t' :: ts))) = _
      rw [unchain_setSibling t _ (hnn t (by simp)) (hl t (by simp)),
        ih (fun x hx => hnn x (List.mem_cons_of_mem _ hx))
          (fun x hx => hl x (List.mem_cons_of_mem _ hx))]

theorem argsParsed_lone (G : Nat) (ts : List TreeNode) :
    ∀ (p q : ParseState), ArgsParsed G ts p q → ∀ t ∈ ts, Lone t := by
  induction ts with
  | nil => intro p q h; exact absurd h (by simp [ArgsParsed])
  | cons t ts ih =>
    intro p q h
    cases ts with
    | nil =>
      intro x hx
      obtain rfl : x = t := by simpa using hx
      exact (loneResult G).expression p _ h.1
    | cons t' ts =>
      obtain ⟨p1, he, _, hrest⟩ := h
      intro x hx
      rcases List.mem_cons.1 hx with rfl | hx
      · exact (loneResult G).expression p _ he
      · exact ih _ _ hrest x hx

theorem stmtsParsed_lone (G : Nat) (ts : List TreeNode) :
    ∀ (p q : ParseState), StmtsParsed G ts p q → ∀ t ∈ ts, Lone t := by
  induction ts with
  | nil => intro p q h; exact absurd h (by simp [StmtsParsed])
  | cons t ts ih =>
    intro p q h
    cases ts with
    | nil =>
      intro x hx
      obtain rfl : x = t := by simpa using hx
      exact (loneResult G).statement p _ h.2.1
    | cons t' ts =>
      obtain ⟨_, p1, he, hrest⟩ := h
      intro x hx
      rcases List.mem_cons.1 hx with rfl | hx
      · exact (loneResult G).statement p _ he
      · exact ih _ _ hrest x hx

/-- C19, counterexample: `void a` is one `type id` parameter, but for it `param_list`
returns the empty chain, with whatever fuel. -/
theorem param_list_void_first :
    voidFirst.WF ∧
    Upcoming (paramTokens voidFirst ++ [tok TokenType.RPAREN ")"])
      (upcomingState (paramTokens voidFirst ++ [tok TokenType.RPAREN ")"])) ∧
    firstType [tok TokenType.RPAREN ")"] ≠ TokenType.COMMA ∧
    ∀ F, ¬ ∃ t q,
      param_list F (upcomingState (paramTokens voidFirst ++ [tok TokenType.RPAREN ")"]))
        = some (t, q) ∧ paramView t = paramDecls voidFirst := by
  refine ⟨by simp [ParamListInput.WF, ParamInput.WF, IsTypeTok, voidFirst, tok],
    upcoming_upcomingState _, by decide, ?_⟩
  rintro F ⟨t, q, h, hv⟩
  rw [param_list_void F _ rfl] at h
  obtain ⟨rfl, _⟩ := Prod.mk.inj (Option.some.inj h)
  exact absurd hv (by decide)

/-- C19, amended.  On n >= 1 comma-separated `type id` parameters of which the first has
type `int`, `param_list` (given fuel for their number) returns a sibling chain of exactly n
scalar declaration nodes, each tagged is-parameter, whose names and types are those of the
parameters in textual order; whenever the lookahead is `void`, it returns the empty chain
and skips that token.  On n argument expressions parsed to non-null trees, `arg_list`
returns the chain of exactly these n trees in textual order; on n statements parsed to
non-null trees, `statement_list` returns the chain of exactly these n trees in textual
order. -/
theorem sibling_chains_in_order :
    (∀ (a : ParamListInput) (rest : List Token) (p : ParseState) (F : Nat),
      a.WF → a.1.1.type = TokenType.INT → Upcoming (paramTokens a ++ rest) p →
      firstType rest ≠ TokenType.COMMA → a.2.length + 1 ≤ F →
      ∃ t q, param_list F p = some (t, q) ∧ paramView t = paramDecls a ∧
        siblings t = List.range' p.brk (a.2.length + 1) ∧
        Upcoming rest q ∧ q.listing = p.listing) ∧
    (∀ (F : Nat) (p : ParseState), p.token = TokenType.VOID →
      param_list F p = some (TreeNode.NULL, getToken p)) ∧
    (∀ (G : Nat) (ts : List TreeNode) (p q : ParseState) (F : Nat),
      ArgsParsed G ts p q → (∀ t ∈ ts, t ≠ TreeNode.NULL) → G + ts.length ≤ F →
      ∃ t, arg_list (F + 1) p = some (t, q) ∧ unchain t = ts) ∧
    (∀ (G : Nat) (ts : List TreeNode) (p q : ParseState) (F : Nat),
      StmtsParsed G ts p q → (∀ t ∈ ts, t ≠ TreeNode.NULL) → G + ts.length ≤ F →
      ∃ t, statement_list (F + 1) p = some (t, q) ∧ unchain t = ts) := by
  refine ⟨param_list_typed, param_list_void, ?_, ?_⟩
  · intro G ts p q F h hnn hF
    exact ⟨chainOf ts, arg_list_chain G ts p q F h hnn hF,
      unchain_chainOf ts hnn (argsParsed_lone G ts p q h)⟩
  · intro G ts p q F h hnn hF
    exact ⟨chainOf ts, statement_list_chain G ts p q F h hnn hF,
      unchain_chainOf ts hnn (stmtsParsed_lone G ts p q h)⟩

/-- Witness of C19: the parameters `int a, void b, int c`, the parameter list `void`, the
arguments `a, b + 1, 2` and the statements `x = 1; return x;`. -/
theorem sibling_chains_in_order_witness :
    (threeParams.WF ∧ threeParams.1.1.type = TokenType.INT ∧
      ∃ t q, param_list 3 (upcomingState (paramTokens threeParams ++
          [tok TokenType.RPAREN ")"])) = some (t, q) ∧
        paramView t = paramDecls threeParams ∧ siblings t = List.range' 1 (2 + 1) ∧
        Upcoming [tok TokenType.RPAREN ")"] q ∧ q.listing = []) ∧
    param_list 0 (upcomingState [tok TokenType.VOID "void", tok TokenType.RPAREN ")"])
      = some (TreeNode.NULL,
          getToken (upcomingState [tok TokenType.VOID "void", tok TokenType.RPAREN ")"])) ∧
    (ArgsParsed 6 threeArgTrees (upcomingState threeArgs)
        (lastTokenState (tok TokenType.RPAREN ")") 6) ∧
      ∃ t, arg_list (9 + 1) (upcomingState threeArgs)
          = some (t, lastTokenState (tok TokenType.RPAREN ")") 6) ∧
        unchain t = threeArgTrees) ∧
    (StmtsParsed 8 twoStatementTrees (upcomingState twoStatements)
        (lastTokenState (tok TokenType.RBRACE "\x7d") 6) ∧
      ∃ t, statement_list (10 + 1) (upcomingState twoStatements)
          = some (t, lastTokenState (tok TokenType.RBRACE "\x7d") 6) ∧
        unchain t = twoStatementTrees) :=
  ⟨⟨by simp [ParamListInput.WF, ParamInput.WF, IsTypeTok, threeParams, tok], rfl,
      sibling_chains_in_order.1 threeParams [tok TokenType.RPAREN ")"] _ 3
        (by simp [ParamListInput.WF, ParamInput.WF, IsTypeTok, threeParams, tok]) rfl
        (upcoming_upcomingState _) (by decide) (by decide)⟩,
    sibling_chains_in_order.2.1 0 _ rfl,
    ⟨⟨_, rfl, rfl, _, rfl, rfl, rfl, by decide⟩,
      sibling_chains_in_order.2.2.1 6 threeArgTrees _ _ 9
        ⟨_, rfl, rfl, _, rfl, rfl, rfl, by decide⟩ (by decide) (by decide)⟩,
    ⟨⟨by decide, _, rfl, by decide, rfl, rfl⟩,
      sibling_chains_in_order.2.2.2 8 twoStatementTrees _ _ 10
        ⟨by decide, _, rfl, by decide, rfl, rfl⟩ (by decide) (by decide)⟩⟩

/-! ## The parser: syntax errors -/

theorem reported_syntaxError (toks : List Token) (d : SyntaxDiagnostic)
    (p : ParseState) (h : Upcoming toks p) : Reported toks d p (syntaxError d p) := by
  refine ⟨?_, rfl⟩
  cases toks with
  | nil => exact h
  | cons t ts => exact h

theorem reported_getToken (t : Token) (ts : List Token) (d : SyntaxDiagnostic)
    (p : ParseState) (h : Upcoming (t :: ts) p) :
    Reported ts d p (getToken (syntaxError d p)) := by
  have h' : Upcoming (t :: ts) (syntaxError d p) := h
  obtain ⟨hu, hl, _⟩ := upcoming_getToken t ts _ h'
  exact ⟨hu, hl⟩

/-- C20, counterexample: `match(ID)` with the lookahead `;` reports one syntax error and
does not advance: the lookahead and the source are as before, and the state is not the one
after an advance, whatever the error written. -/
theorem matchToken_mismatch_stays :
    (upcomingState [tok TokenType.SEMI ";", tok TokenType.ID "x"]).token ≠ TokenType.ID ∧
    (matchToken TokenType.ID
        (upcomingState [tok TokenType.SEMI ";", tok TokenType.ID "x"])).listing
      = [SyntaxDiagnostic.unexpectedToken 1 TokenType.SEMI ";"] ∧
    (matchToken TokenType.ID
        (upcomingState [tok TokenType.SEMI ";", tok TokenType.ID "x"])).token
      = TokenType.SEMI ∧
    (matchToken TokenType.ID
        (upcomingState [tok TokenType.SEMI ";", tok TokenType.ID "x"])).source
      = [tok TokenType.ID "x"] ∧
    ∀ d, matchToken TokenType.ID
        (upcomingState [tok TokenType.SEMI ";", tok TokenType.ID "x"])
      ≠ getToken (syntaxError d
          (upcomingState [tok TokenType.SEMI ";", tok TokenType.ID "x"])) := by
  refine ⟨by decide, by decide, by decide, by decide, ?_⟩
  intro d h
  have h1 := congrArg ParseState.token h
  have h2 : (getToken (syntaxError d
      (upcomingState [tok TokenType.SEMI ";", tok TokenType.ID "x"]))).token
      = TokenType.ID := rfl
  rw [h2] at h1
  exact absurd h1 (by decide)

/-- C20, amended.  `match(expected)` with a lookahead different from `expected`, and
`matchType` with a lookahead that is no type, report one syntax error and do not advance
the lookahead.  The default cases of `statement`, `factor`, `declaration` and
`var_declaration`, and `expression` on an assignment to something that is not an
identifier, report one syntax error, advance the lookahead by exactly one token, and return
the null tree. -/
theorem syntax_error_recovery :
    (∀ (toks : List Token) (p : ParseState) (expected : TokenType), Upcoming toks p →
      p.token ≠ expected →
      Reported toks (unexpectedHere p) p (matchToken expected p)) ∧
    (∀ (toks : List Token) (p : ParseState), Upcoming toks p →
      p.token ≠ TokenType.INT → p.token ≠ TokenType.VOID →
      (matchType p).1 = ExpType.Void ∧
      Reported toks
        (SyntaxDiagnostic.expectedType p.lineno p.token p.tokenString) p (matchType p).2) ∧
    (∀ (t : Token) (ts : List Token) (p : ParseState) (F : Nat), Upcoming (t :: ts) p →
      t.type ≠ TokenType.IF → t.type ≠ TokenType.WHILE → t.type ≠ TokenType.RETURN →
      t.type ≠ TokenType.LBRACE → t.type ≠ TokenType.ID → t.type ≠ TokenType.SEMI →
      t.type ≠ TokenType.LPAREN → t.type ≠ TokenType.NUM →
      ∃ q, statement (F + 1) p = some (TreeNode.NULL, q) ∧
        Reported ts (unexpectedHere p) p q) ∧
    (∀ (t : Token) (ts : List Token) (p : ParseState) (F : Nat), Upcoming (t :: ts) p →
      t.type ≠ TokenType.ID → t.type ≠ TokenType.LPAREN → t.type ≠ TokenType.NUM →
      ∃ q, factor (F + 1) TreeNode.NULL p = some (TreeNode.NULL, q) ∧
        Reported ts (unexpectedHere p) p q) ∧
    (∀ (t : Token) (ts : List Token) (p : ParseState) (F : Nat),
      Upcoming (t :: ts) (matchToken TokenType.ID (matchType p).2) →
      t.type ≠ TokenType.SEMI → t.type ≠ TokenType.LPAREN →
      ∃ q, declaration F p = some (TreeNode.NULL, q) ∧
        Reported ts (unexpectedHere (matchToken TokenType.ID (matchType p).2))
          (matchToken TokenType.ID (matchType p).2) q) ∧
    (∀ (t : Token) (ts : List Token) (p : ParseState),
      Upcoming (t :: ts) (matchToken TokenType.ID (matchType p).2) →
      t.type ≠ TokenType.SEMI →
      ∃ q, var_declaration p = (TreeNode.NULL, q) ∧
        Reported ts (unexpectedHere (matchToken TokenType.ID (matchType p).2))
          (matchToken TokenType.ID (matchType p).2) q) ∧
    (∀ (t : Token) (ts : List Token) (p p1 : ParseState) (call : TreeNode) (F : Nat),
      p.token = TokenType.ID → (getToken p).token = TokenType.LPAREN →
      identifier_statement (F + 1) p = some (call, p1) → Upcoming (t :: ts) p1 →
      t.type = TokenType.ASSIGN →
      ∃ q, expression (F + 2) p = some (TreeNode.NULL, q) ∧
        Reported ts (SyntaxDiagnostic.notAnLvalue p1.lineno) p1 q) := by
  refine ⟨?_, ?_, ?_, ?_, ?_, ?_, ?_⟩
  · intro toks p expected hp hne
    have : matchToken expected p = syntaxError (unexpectedHere p) p := by
      simp [matchToken, hne, unexpectedHere]
    rw [this]
    exact reported_syntaxError _ _ _ hp
  · intro toks p hp h1 h2
    have : matchType p = (ExpType.Void,
        syntaxError (SyntaxDiagnostic.expectedType p.lineno p.token p.tokenString) p) := by
      simp [matchType, h1, h2]
    rw [this]
    exact ⟨rfl, reported_syntaxError _ _ _ hp⟩
  · intro t ts p F hp h1 h2 h3 h4 h5 h6 h7 h8
    have ht : p.token = t.type := hp.1
    refine ⟨getToken (syntaxError (unexpectedHere p) p), ?_,
      reported_getToken t ts _ p hp⟩
    rw [statement]
    simp [ht, h1, h2, h3, h4, h5, h6, h7, h8, unexpectedHere]
  · intro t ts p F hp h1 h2 h3
    have ht : p.token = t.type := hp.1
    refine ⟨getToken (syntaxError (unexpectedHere p) p), ?_,
      reported_getToken t ts _ p hp⟩
    rw [factor]
    simp [ht, h1, h2, h3, unexpectedHere]
  · intro t ts p F hp h1 h2
    have ht : (matchToken TokenType.ID (matchType p).2).token = t.type := hp.1
    refine ⟨getToken (syntaxError (unexpectedHere (matchToken TokenType.ID (matchType p).2))
      (matchToken TokenType.ID (matchType p).2)), ?_, reported_getToken t ts _ _ hp⟩
    unfold declaration
    simp [ht, h1, h2, unexpectedHere]
  · intro t ts p hp h1
    have ht : (matchToken TokenType.ID (matchType p).2).token = t.type := hp.1
    refine ⟨getToken (syntaxError (unexpectedHere (matchToken TokenType.ID (matchType p).2))
      (matchToken TokenType.ID (matchType p).2)), ?_, reported_getToken t ts _ _ hp⟩
    unfold var_declaration
    simp [ht, h1, unexpectedHere]
  · intro t ts p p1 call F hid hl hcall hp1 hassign
    have ht : p1.token = TokenType.ASSIGN := hp1.1.trans hassign
    refine ⟨getToken (syntaxError (SyntaxDiagnostic.notAnLvalue p1.lineno) p1), ?_,
      reported_getToken t ts _ p1 hp1⟩
    rw [expression_unfold_id _ p hid, hcall]
    rw [identifier_statement_call F p hid hl] at hcall
    cases hargs : args F (getToken (getToken p)) with
    | none => simp [hargs] at hcall
    | some r =>
      simp only [hargs, Option.some_bind, Option.some.injEq, Prod.mk.injEq] at hcall
      obtain ⟨hc, _⟩ := hcall
      subst hc
      simp [ht, newFields]

/-- Witness of C20: on the upcoming tokens `) x ;`, `match(ID)` and `matchType` report and
stay, and `statement`, `factor`, `declaration` and `var_declaration` report and skip the
`)`; on `f ( ) = 1 ;`, `expression` reports and skips the `=`. -/
theorem syntax_error_recovery_witness :
    (upcomingState strayParen).token ≠ TokenType.ID ∧
    Reported strayParen (unexpectedHere (upcomingState strayParen))
      (upcomingState strayParen) (matchToken TokenType.ID (upcomingState strayParen)) ∧
    ((matchType (upcomingState strayParen)).1 = ExpType.Void ∧
      Reported strayParen (SyntaxDiagnostic.expectedType 1 TokenType.RPAREN ")")
        (upcomingState strayParen) (matchType (upcomingState strayParen)).2) ∧
    (∃ q, statement (0 + 1) (upcomingState strayParen) = some (TreeNode.NULL, q) ∧
      Reported [tok TokenType.ID "x", tok TokenType.SEMI ";"]
        (unexpectedHere (upcomingState strayParen)) (upcomingState strayParen) q) ∧
    (∃ q, factor (0 + 1) TreeNode.NULL (upcomingState strayParen)
        = some (TreeNode.NULL, q) ∧
      Reported [tok TokenType.ID "x", tok TokenType.SEMI ";"]
        (unexpectedHere (upcomingState strayParen)) (upcomingState strayParen) q) ∧
    (∃ q, declaration 0 (upcomingState strayParen) = some (TreeNode.NULL, q) ∧
      Reported [tok TokenType.ID "x", tok TokenType.SEMI ";"]
        (unexpectedHere
          (matchToken TokenType.ID (matchType (upcomingState strayParen)).2))
        (matchToken TokenType.ID (matchType (upcomingState strayParen)).2) q) ∧
    (∃ q, var_declaration (upcomingState strayParen) = (TreeNode.NULL, q) ∧
      Reported [tok TokenType.ID "x", tok TokenType.SEMI ";"]
        (unexpectedHere
          (matchToken TokenType.ID (matchType (upcomingState strayParen)).2))
        (matchToken TokenType.ID (matchType (upcomingState strayParen)).2) q) ∧
    (∃ q, expression (8 + 2) (upcomingState callAssign) = some (TreeNode.NULL, q) ∧
      Reported [tok TokenType.NUM "1", tok TokenType.SEMI ";"]
        (SyntaxDiagnostic.notAnLvalue 1)
        afterCall q) :=
  ⟨by decide,
    syntax_error_recovery.1 strayParen _ TokenType.ID (upcoming_upcomingState _) (by decide),
    syntax_error_recovery.2.1 strayParen _ (upcoming_upcomingState _) (by decide)
      (by decide),
    syntax_error_recovery.2.2.1 (tok TokenType.RPAREN ")") _ _ 0 (upcoming_upcomingState _)
      (by decide) (by decide) (by decide) (by decide) (by decide) (by decide) (by decide)
      (by decide),
    syntax_error_recovery.2.2.2.1 (tok TokenType.RPAREN ")") _ _ 0
      (upcoming_upcomingState _) (by decide) (by decide) (by decide),
    syntax_error_recovery.2.2.2.2.1 (tok TokenType.RPAREN ")") _ (upcomingState strayParen) 0
      ⟨rfl, rfl, rfl⟩ (by decide) (by decide),
    syntax_error_recovery.2.2.2.2.2.1 (tok TokenType.RPAREN ")") _
      (upcomingState strayParen) ⟨rfl, rfl, rfl⟩ (by decide),
    syntax_error_recovery.2.2.2.2.2.2 (tok TokenType.ASSIGN "=") _
      (upcomingState callAssign) _ _ 8 rfl rfl rfl ⟨rfl, rfl, rfl⟩ rfl⟩

/-! ## The type checker: one call of `checkNode` as an effect -/

theorem checkNode_eq (t : TreeNode) (s : State) :
    checkNode t s = (effectOf s t).map fun e => e.apply (addrOf t) s := by
  cases t with
  | NULL => rfl
  | node addr f c0 c1 c2 sb =>
    unfold checkNode effectOf
    rcases hk : f.kind with k | k | k <;> cases k
    all_goals simp only [hk]
    · -- IfK
      cases readExpressionType s c0 with
      | none => rfl
      | some t0 =>
        by_cases h : t0 = ExpType.Integer <;>
          simp [h, Effect.apply, Effect.reportTo, addrOf]
    · -- WhileK
      cases readExpressionType s c0 with
      | none => rfl
      | some t0 =>
        by_cases h : t0 = ExpType.Integer <;>
          simp [h, Effect.apply, Effect.reportTo, addrOf]
    · -- ReturnK
      cases hd : s.declaration addr with
      | NULL => rfl
      | node a fd d0 d1 d2 dsb =>
        by_cases h1 : fd.functionReturnType = ExpType.Integer
        · by_cases h2 : c0 = TreeNode.NULL ∨ readExpressionType s c0 ≠ some ExpType.Integer
          · simp [h1, h2, Effect.apply, Effect.reportTo, addrOf]
          · simp [h1, h2, Effect.apply, Effect.reportTo, addrOf]
        · by_cases h3 : fd.functionReturnType = ExpType.Void <;>
            simp [h1, h3, Effect.apply, Effect.reportTo, addrOf]
    · -- CallK
      cases hc : checkFormalAgainstActualParms (s.declaration addr)
          (TreeNode.node addr f c0 c1 c2 sb) s with
      | none => rfl
      | some ok =>
        cases hd : s.declaration addr with
        | NULL => cases ok <;> simp [flagSemanticError, hd]
        | node a fd d0 d1 d2 dsb =>
          cases ok <;>
            simp [flagSemanticError, hd, Effect.apply, Effect.reportTo, addrOf]
    · -- CompoundK
      simp [Effect.apply, Effect.reportTo, addrOf]
    · -- OpK
      by_cases ha : f.op = TokenType.PLUS ∨ f.op = TokenType.MINUS ∨ f.op = TokenType.TIMES
          ∨ f.op = TokenType.DIVIDE
      · simp only [ha, if_true]
        cases bothInteger s c0 c1 with
        | none => rfl
        | some b => cases b <;> simp [Effect.apply, Effect.reportTo, addrOf]
      · simp only [ha, if_false]
        by_cases hr : f.op = TokenType.GT ∨ f.op = TokenType.LT ∨ f.op = TokenType.LTE
            ∨ f.op = TokenType.GTE ∨ f.op = TokenType.EQ ∨ f.op = TokenType.NEQ
        · simp only [hr, if_true]
          cases bothInteger s c0 c1 with
          | none => rfl
          | some b => cases b <;> simp [Effect.apply, Effect.reportTo, addrOf]
        · simp only [hr, if_false]
          simp [Effect.apply, Effect.reportTo, addrOf]
    · -- ConstK
      simp [Effect.apply, Effect.reportTo, addrOf]
    · -- IdK
      cases readExpressionType s (s.declaration addr) with
      | none => rfl
      | some td =>
        by_cases h : td = ExpType.Integer
        · by_cases h0 : c0 = TreeNode.NULL <;>
            simp [h, h0, Effect.apply, Effect.reportTo, addrOf]
        · simp [h, Effect.apply, Effect.reportTo, addrOf]
    · -- AssignK
      cases bothInteger s c0 c1 with
      | none => rfl
      | some b => cases b <;> simp [Effect.apply, Effect.reportTo, addrOf]
    · simp [Effect.apply, Effect.reportTo, addrOf]
    · simp [Effect.apply, Effect.reportTo, addrOf]
    · simp [Effect.apply, Effect.reportTo, addrOf]
theorem readExpressionType_congr (s u : State) (c : TreeNode)
    (h : ∀ a ∈ topAddr c, u.expressionType a = s.expressionType a) :
    readExpressionType u c = readExpressionType s c := by
  cases c with
  | NULL => rfl
  | node a f c0 c1 c2 sb =>
    simp only [readExpressionType]
    rw [h a (by simp [topAddr])]

theorem checkParmsFrom_congr (s u : State) :
    ∀ (p a : TreeNode),
      (∀ x ∈ siblings p ++ siblings a, u.expressionType x = s.expressionType x) →
      checkParmsFrom u p a = checkParmsFrom s p a := by
  intro p
  induction p with
  | NULL => intro a _; cases a <;> rfl
  | node pa pf p0 p1 p2 psb _ _ _ ih =>
    intro a h
    cases a with
    | NULL => rfl
    | node aa af a0 a1 a2 asb =>
      simp only [checkParmsFrom]
      rw [h pa (by simp [siblings]), h aa (by simp [siblings]),
        ih asb (fun x hx => h x (by
          simp only [siblings, List.mem_append, List.mem_cons] at hx ⊢
          tauto))]

theorem bothInteger_congr (s u : State) (c0 c1 : TreeNode)
    (h : ∀ a ∈ topAddr c0 ++ topAddr c1, u.expressionType a = s.expressionType a) :
    bothInteger u c0 c1 = bothInteger s c0 c1 := by
  unfold bothInteger
  rw [readExpressionType_congr s u c0 (fun a ha => h a (by simp [ha])),
    readExpressionType_congr s u c1 (fun a ha => h a (by simp [ha]))]

theorem effectOf_congr (s u : State) (t : TreeNode) (h : Agree s u t) :
    effectOf u t = effectOf s t := by
  obtain ⟨hd, hr, hi⟩ := h
  cases t with
  | NULL => rfl
  | node addr f c0 c1 c2 sb =>
    unfold effectOf
    rcases hk : f.kind with k | k | k <;> cases k
    all_goals simp only [hk, hd]
    all_goals simp only [reads, hk] at hr
    · rw [readExpressionType_congr s u c0 hr]
    · rw [readExpressionType_congr s u c0 hr]
    · rw [readExpressionType_congr s u c0 hr]
    · -- CallK
      have : checkFormalAgainstActualParms (s.declaration addr)
          (TreeNode.node addr f c0 c1 c2 sb) u
          = checkFormalAgainstActualParms (s.declaration addr)
              (TreeNode.node addr f c0 c1 c2 sb) s := by
        cases hD : s.declaration addr with
        | NULL => rfl
        | node a fd d0 d1 d2 dsb =>
          simp only [checkFormalAgainstActualParms]
          rw [checkParmsFrom_congr s u d0 c0 (by simpa [hD, child0Of] using hr)]
      rw [this]
    · rw [bothInteger_congr s u c0 c1 hr]
    · -- IdK
      simp only [idReads, hk, if_true] at hi
      cases hD : s.declaration addr with
      | NULL => rfl
      | node a fd d0 d1 d2 dsb =>
        have := hi a (by simp [hD, topAddr])
        simp only [readExpressionType, Option.map_some']
        by_cases hs : s.expressionType a = ExpType.Integer
        · simp [hs, this.2 hs]
        · have hu : ¬ u.expressionType a = ExpType.Integer := fun h => hs (this.1 h)
          simp [hs, hu]
    · rw [bothInteger_congr s u c0 c1 hr]
theorem checkAll_append (l1 l2 : List TreeNode) (s : State) :
    checkAll (l1 ++ l2) s = (checkAll l1 s).bind (checkAll l2) := by
  induction l1 generalizing s with
  | nil => rfl
  | cons n l1 ih =>
    simp only [List.cons_append, checkAll]
    cases checkNode n s with
    | none => rfl
    | some s' => exact ih s'

theorem traverse_eq_checkAll (t : TreeNode) :
    ∀ s, traverse nullProc checkNode t s = checkAll (postNodes t) s := by
  induction t with
  | NULL => intro s; rfl
  | node a f c0 c1 c2 sb ih0 ih1 ih2 ihs =>
    intro s
    simp only [traverse, nullProc, postNodes, Option.some_bind, checkAll_append, checkAll,
      ih0, ih1, ih2, ihs, Option.bind_assoc]

theorem apply_declaration (e : Effect) (a : Nat) (s : State) :
    (e.apply a s).declaration = s.declaration := by
  rcases e with ⟨w, r⟩
  cases w <;> cases r <;> rfl

theorem apply_expressionType (e : Effect) (a : Nat) (s : State) :
    (e.apply a s).expressionType
      = match e.write with
        | some v => assign s.expressionType a v
        | none => s.expressionType := by
  rcases e with ⟨w, r⟩
  cases w <;> cases r <;> rfl

theorem apply_listing (e : Effect) (a : Nat) (s : State) :
    (e.apply a s).listing = s.listing ++ e.report.toList := by
  rcases e with ⟨w, r⟩
  cases w <;> cases r <;> simp [Effect.apply, Effect.reportTo, flagSemanticError]

theorem apply_Error (e : Effect) (a : Nat) (s : State) :
    (e.apply a s).Error = (s.Error || e.report.isSome) := by
  rcases e with ⟨w, r⟩
  cases w <;> cases r <;> simp [Effect.apply, Effect.reportTo, flagSemanticError]

theorem apply_other (e : Effect) (a : Nat) (s : State) (x : Nat) (h : x ≠ a) :
    (e.apply a s).expressionType x = s.expressionType x := by
  rw [apply_expressionType]
  cases e.write with
  | none => rfl
  | some v => simp [assign, h]

/-- One step of `checkAll`, through the effect of the node. -/
theorem checkAll_cons (n : TreeNode) (l : List TreeNode) (s s1 : State)
    (h : checkAll (n :: l) s = some s1) :
    ∃ e, effectOf s n = some e ∧ checkAll l (e.apply (addrOf n) s) = some s1 := by
  simp only [checkAll, checkNode_eq] at h
  cases he : effectOf s n with
  | none => simp [he] at h
  | some e => exact ⟨e, rfl, by simpa [he] using h⟩

/-- A run of `checkAll`, cut before one of its nodes. -/
theorem checkAll_split (pre : List TreeNode) (n : TreeNode) (post : List TreeNode)
    (s s1 : State) (h : checkAll (pre ++ n :: post) s = some s1) :
    ∃ sn e, checkAll pre s = some sn ∧ effectOf sn n = some e ∧
      checkAll post (e.apply (addrOf n) sn) = some s1 := by
  rw [checkAll_append] at h
  cases hp : checkAll pre s with
  | none => simp [hp] at h
  | some sn =>
    rw [hp] at h
    obtain ⟨e, he, hpost⟩ := checkAll_cons n post sn s1 h
    exact ⟨sn, e, rfl, he, hpost⟩

/-- What a run of `checkAll` leaves as it is: the resolved declarations, and the inferred
types of the nodes that are not in the list. -/
theorem checkAll_frame (l : List TreeNode) :
    ∀ s s1, checkAll l s = some s1 →
      s1.declaration = s.declaration ∧
      ∀ a, a ∉ l.map addrOf → s1.expressionType a = s.expressionType a := by
  induction l with
  | nil =>
    intro s s1 h
    cases h
    exact ⟨rfl, fun _ _ => rfl⟩
  | cons n l ih =>
    intro s s1 h
    obtain ⟨e, _, hl⟩ := checkAll_cons n l s s1 h
    obtain ⟨hd, het⟩ := ih _ _ hl
    refine ⟨hd.trans (apply_declaration _ _ _), ?_⟩
    intro a ha
    simp only [List.map_cons, List.mem_cons, not_or] at ha
    rw [het a ha.2, apply_other e _ s a ha.1]
theorem effectOf_function (s : State) (n : TreeNode)
    (h : kindOf n = some (Kind.DecK DecKind.FuncDecK)) :
    effectOf s n = some { write := some ExpType.Function, report := none } := by
  cases n with
  | NULL => simp [kindOf] at h
  | node a f c0 c1 c2 sb =>
    simp only [kindOf, Option.some.injEq] at h
    simp only [effectOf, h]

/-- The inferred type at an address at which only function declarations are checked is
never Integer, unless it was before. -/
theorem checkAll_not_integer (l : List TreeNode) :
    ∀ (s s1 : State) (a : Nat), checkAll l s = some s1 →
      (∀ m ∈ l, addrOf m = a → kindOf m = some (Kind.DecK DecKind.FuncDecK)) →
      s.expressionType a ≠ ExpType.Integer → s1.expressionType a ≠ ExpType.Integer := by
  induction l with
  | nil =>
    intro s s1 a h _ hs
    cases h
    exact hs
  | cons n l ih =>
    intro s s1 a h hf hs
    obtain ⟨e, he, hl⟩ := checkAll_cons n l s s1 h
    refine ih _ _ a hl (fun m hm => hf m (List.mem_cons_of_mem _ hm)) ?_
    by_cases ha : a = addrOf n
    · rw [effectOf_function s n (hf n (List.mem_cons_self _ _) ha.symm)] at he
      cases he
      rw [apply_expressionType]
      simp [assign, ha]
    · rw [apply_other e _ s a ha]
      exact hs

/-- In a run of `checkAll` on nodes at distinct addresses, a node that is ready is shown by
the final state what it was shown when it was checked. -/
theorem agree_final (pre : List TreeNode) (n : TreeNode) (post : List TreeNode)
    (s sn s1 : State) (h : checkAll (pre ++ n :: post) s = some s1)
    (hpre : checkAll pre s = some sn)
    (hnd : ((pre ++ n :: post).map addrOf).Nodup)
    (hr : NodeReady s.declaration s.expressionType (pre ++ n :: post) (pre.map addrOf) n) :
    Agree sn s1 n := by
  have hrest : checkAll (n :: post) sn = some s1 := by
    rw [checkAll_append, hpre] at h
    exact h
  obtain ⟨hd1, _⟩ := checkAll_frame _ _ _ h
  obtain ⟨hdn, _⟩ := checkAll_frame _ _ _ hpre
  obtain ⟨_, hrestet⟩ := checkAll_frame _ _ _ hrest
  have hdisj : ∀ a, a ∈ pre.map addrOf → a ∉ (n :: post).map addrOf := by
    intro a ha hb
    rw [List.map_append] at hnd
    exact (List.nodup_append.1 hnd).2.2 ha hb
  have hout : ∀ a, a ∉ (pre ++ n :: post).map addrOf → a ∉ (n :: post).map addrOf := by
    intro a ha hb
    exact ha (by rw [List.map_append]; exact List.mem_append_right _ hb)
  refine ⟨hd1.trans hdn.symm, ?_, ?_⟩
  · intro a ha
    rw [hdn] at ha
    rcases hr.1 a ha with h1 | h1
    · exact hrestet a (hdisj a h1)
    · exact hrestet a (hout a h1)
  · intro a ha
    rw [hdn] at ha
    rcases hr.2 a ha with h1 | h1 | ⟨hf, h0⟩
    · rw [hrestet a (hdisj a h1)]
    · rw [hrestet a (hout a h1)]
    · have h1 := checkAll_not_integer _ s s1 a h hf h0
      have hn := checkAll_not_integer _ s sn a hpre
        (fun m hm => hf m (List.mem_append_left _ hm)) h0
      exact ⟨fun x => absurd x h1, fun x => absurd x hn⟩

/-- The type that `checkNode` wrote to a node is the type of the node when the run ends. -/
theorem write_final (pre : List TreeNode) (n : TreeNode) (post : List TreeNode)
    (sn s1 : State) (e : Effect) (hnd : ((pre ++ n :: post).map addrOf).Nodup)
    (hpost : checkAll post (e.apply (addrOf n) sn) = some s1) :
    s1.expressionType (addrOf n)
      = match e.write with
        | some v => v
        | none => sn.expressionType (addrOf n) := by
  have hn : addrOf n ∉ post.map addrOf := by
    rw [List.map_append, List.map_cons] at hnd
    exact (List.nodup_cons.1 (List.nodup_append.1 hnd).2.1).1
  rw [(checkAll_frame _ _ _ hpost).2 _ hn, apply_expressionType]
  cases e.write with
  | none => rfl
  | some v => simp [assign]
/-- After a run of `checkAll` on nodes at distinct addresses, each ready in its turn, the
final state is consistent with the rule of every node: the rule, read in the final state,
has the effect that it had when the node was checked, and the type that it writes is the
type of the node. -/
theorem checkAll_consistent (l : List TreeNode) (s s1 : State)
    (h : checkAll l s = some s1) (hnd : (l.map addrOf).Nodup)
    (hr : ReadyList s.declaration s.expressionType l) :
    ∀ pre n post, l = pre ++ n :: post →
      ∃ sn e, checkAll pre s = some sn ∧ effectOf sn n = some e ∧
        checkAll post (e.apply (addrOf n) sn) = some s1 ∧
        effectOf s1 n = some e ∧
        ∀ v, e.write = some v → s1.expressionType (addrOf n) = v := by
  intro pre n post hl
  subst hl
  obtain ⟨sn, e, hpre, he, hpost⟩ := checkAll_split pre n post s s1 h
  have hag := agree_final pre n post s sn s1 h hpre hnd (hr pre n post rfl)
  refine ⟨sn, e, hpre, he, hpost, (effectOf_congr sn s1 n hag).trans he, ?_⟩
  intro v hv
  rw [write_final pre n post sn s1 e hnd hpost, hv]

theorem reportsOf_cons (s : State) (n : TreeNode) (l : List TreeNode) :
    reportsOf s (n :: l)
      = ((effectOf s n).bind fun e => e.report).toList ++ reportsOf s l := by
  simp [reportsOf]

/-- The diagnostics that a run of `checkAll` writes are those that the rules of its nodes
give in the final state. -/
theorem checkAll_listing (l : List TreeNode) (s s1 : State)
    (h : checkAll l s = some s1) (hnd : (l.map addrOf).Nodup)
    (hr : ReadyList s.declaration s.expressionType l) :
    ∀ (l2 l1 : List TreeNode) (sm : State), l = l1 ++ l2 → checkAll l1 s = some sm →
      checkAll l2 sm = some s1 →
      s1.listing = sm.listing ++ reportsOf s1 l2 ∧
      s1.Error = (sm.Error || !(reportsOf s1 l2).isEmpty) := by
  intro l2
  induction l2 with
  | nil =>
    intro l1 sm _ _ h2
    cases h2
    simp [reportsOf]
  | cons n l2 ih =>
    intro l1 sm hl h1 h2
    obtain ⟨sn, e, hpre, he, hpost, he1, _⟩ := checkAll_consistent l s s1 h hnd hr l1 n l2 hl
    rw [h1] at hpre
    cases hpre
    have h1' : checkAll (l1 ++ [n]) s = some (e.apply (addrOf n) sm) := by
      rw [checkAll_append, h1]
      simp [checkAll, checkNode_eq, he]
    obtain ⟨hlist, herr⟩ := ih (l1 ++ [n]) _ (by simp [hl]) h1' hpost
    rw [reportsOf_cons, he1, hlist, herr, apply_listing, apply_Error]
    constructor
    · simp
    · rcases e with ⟨w, r⟩
      cases r <;> simp

/-- A second run of `checkAll`, from a state with the inferred types and the resolved
declarations in which the first run ended, writes no inferred type other than the one that
is there and writes the diagnostics of the first run again. -/
theorem checkAll_again (l : List TreeNode) (s s1 : State)
    (h : checkAll l s = some s1) (hnd : (l.map addrOf).Nodup)
    (hr : ReadyList s.declaration s.expressionType l) :
    ∀ (l2 : List TreeNode), (∀ n ∈ l2, n ∈ l) → ∀ u : State,
      u.expressionType = s1.expressionType → u.declaration = s1.declaration →
      ∃ u', checkAll l2 u = some u' ∧ u'.expressionType = s1.expressionType ∧
        u'.declaration = s1.declaration ∧ u'.listing = u.listing ++ reportsOf s1 l2 := by
  intro l2
  induction l2 with
  | nil =>
    intro _ u het hd
    exact ⟨u, rfl, het, hd, by simp [reportsOf]⟩
  | cons n l2 ih =>
    intro hsub u het hd
    obtain ⟨pre, post, hl⟩ := List.append_of_mem (hsub n (List.mem_cons_self _ _))
    obtain ⟨sn, e, _, _, _, he1, hw⟩ := checkAll_consistent l s s1 h hnd hr pre n post hl
    have heu : effectOf u n = some e :=
      (effectOf_congr s1 u n ⟨hd, fun a _ => by rw [het], fun a _ => by rw [het]⟩).trans he1
    have hetu : (e.apply (addrOf n) u).expressionType = s1.expressionType := by
      rw [apply_expressionType]
      cases hwv : e.write with
      | none => exact het
      | some v =>
        funext a
        by_cases ha : a = addrOf n
        · simp [assign, ha, hw v hwv]
        · simp [assign, ha, het]
    obtain ⟨u', hu', het', hd', hl'⟩ := ih (fun m hm => hsub m (List.mem_cons_of_mem _ hm))
      (e.apply (addrOf n) u) hetu ((apply_declaration _ _ _).trans hd)
    refine ⟨u', ?_, het', hd', ?_⟩
    · simp [checkAll, checkNode_eq, heu, hu']
    · rw [hl', apply_listing, reportsOf_cons, he1]
      simp
/-! ## The type checker: the order of the checks in a tree -/

theorem append_split {α : Type} (l1 l2 pre : List α) (n : α) (post : List α)
    (h : l1 ++ l2 = pre ++ n :: post) :
    (∃ post', l1 = pre ++ n :: post' ∧ post = post' ++ l2) ∨
    (∃ pre', l2 = pre' ++ n :: post ∧ pre = l1 ++ pre') := by
  rcases List.append_eq_append_iff.1 h with ⟨a', h1, h2⟩ | ⟨c', h1, h2⟩
  · exact Or.inr ⟨a', h2, h1⟩
  · cases c' with
    | nil =>
      refine Or.inr ⟨[], ?_, ?_⟩
      · simpa using h2.symm
      · simpa using h1.symm
    | cons x c' =>
      simp only [List.cons_append, List.cons.injEq] at h2
      obtain ⟨rfl, rfl⟩ := h2
      exact Or.inl ⟨c', h1, rfl⟩

theorem addrs_node (a : Nat) (f : Fields) (c0 c1 c2 sb : TreeNode) :
    addrs (TreeNode.node a f c0 c1 c2 sb)
      = addrs c0 ++ addrs c1 ++ addrs c2 ++ a :: addrs sb := by
  simp [addrs, postNodes, addrOf]

/-- In a ready tree every node is ready in its turn. -/
theorem readyTree_split (P : List Nat → TreeNode → Prop) (t : TreeNode) :
    ∀ done, ReadyTree P done t → ∀ pre n post, postNodes t = pre ++ n :: post →
      P (done ++ pre.map addrOf) n := by
  induction t with
  | NULL =>
    intro done _ pre n post h
    simp [postNodes] at h
  | node a f c0 c1 c2 sb ih0 ih1 ih2 ihs =>
    intro done hready pre n post h
    obtain ⟨h0, h1, h2, hself, hsb⟩ := hready
    simp only [postNodes] at h
    rcases append_split _ _ pre n post h with ⟨post', h', _⟩ | ⟨pre', h', hpre⟩
    · rcases append_split _ _ pre n post' h' with ⟨post2, h'', _⟩ | ⟨pre2, h'', hpre2⟩
      · rcases append_split _ _ pre n post2 h'' with ⟨post3, h3, _⟩ | ⟨pre3, h3, hpre3⟩
        · exact ih0 done h0 pre n post3 h3
        · have := ih1 _ h1 pre3 n post2 h3
          rw [hpre3]
          simpa [addrs, List.append_assoc] using this
      · have := ih2 _ h2 pre2 n post' h''
        rw [hpre2]
        simpa [addrs, List.append_assoc] using this
    · cases pre' with
      | nil =>
        simp only [List.nil_append, List.cons.injEq] at h'
        obtain ⟨rfl, _⟩ := h'
        rw [hpre]
        simpa [addrs, List.append_assoc] using hself
      | cons x pre' =>
        simp only [List.cons_append, List.cons.injEq] at h'
        obtain ⟨rfl, h'⟩ := h'
        have := ihs _ hsb pre' n post h'
        rw [hpre]
        simpa [addrs, List.append_assoc, addrOf] using this
/-! ## The resolution pass: what a lookup can find -/

theorem entryOK_mono (et0 : Nat → ExpType) (l : List TreeNode) (done done' : List Nat)
    (D : TreeNode) (hsub : ∀ a ∈ done, a ∈ done') (h : EntryOK et0 l done D) :
    EntryOK et0 l done' D := by
  refine ⟨fun a ha => ?_, fun a ha => ?_⟩
  · rcases h.1 a ha with h1 | h1
    · exact Or.inl (hsub a h1)
    · exact Or.inr h1
  · rcases h.2 a ha with h1 | h1 | h1
    · exact Or.inl (hsub a h1)
    · exact Or.inr (Or.inl h1)
    · exact Or.inr (Or.inr h1)

theorem tableOK_mono (et0 : Nat → ExpType) (l : List TreeNode) (done done' : List Nat)
    (r : SpecState) (hsub : ∀ a ∈ done, a ∈ done') (h : TableOK et0 l done r) :
    TableOK et0 l done' r :=
  fun e he => entryOK_mono et0 l done done' _ hsub (h e he)

theorem lookupScopes_inTable (name : String) (scopes : List (List HashNode)) (e : HashNode)
    (h : lookupScopes name scopes = some e) : ∃ sc ∈ scopes, e ∈ sc := by
  induction scopes with
  | nil => simp [lookupScopes] at h
  | cons cur outer ih =>
    simp only [lookupScopes] at h
    cases hf : cur.find? (fun e => decide (e.name = name)) with
    | some e' =>
      rw [hf] at h
      cases h
      exact ⟨cur, List.mem_cons_self _ _, List.mem_of_find?_eq_some hf⟩
    | none =>
      rw [hf] at h
      obtain ⟨sc, hsc, hin⟩ := ih h
      exact ⟨sc, List.mem_cons_of_mem _ hsc, hin⟩

theorem declareSpec_inTable (name : String) (D : TreeNode) (line : Int) (r : SpecState)
    (e : HashNode) (h : InTable (declareSpec name D line r) e) :
    InTable r e ∨ e.declaration = D := by
  obtain ⟨sc, hsc, he⟩ := h
  unfold declareSpec at hsc
  cases hs : r.scopes with
  | nil =>
    rw [hs] at hsc
    simp only at hsc
    rw [hs] at hsc
    simp at hsc
  | cons cur outer =>
    rw [hs] at hsc
    simp only at hsc
    by_cases hany : cur.any (fun e => decide (e.name = name)) = true
    · rw [if_pos hany] at hsc
      simp only at hsc
      exact Or.inl ⟨sc, by rw [hs]; exact hsc, he⟩
    · rw [if_neg hany] at hsc
      simp only [List.mem_cons] at hsc
      rcases hsc with rfl | hsc
      · rcases List.mem_cons.1 he with rfl | he
        · exact Or.inr rfl
        · exact Or.inl ⟨cur, by rw [hs]; exact List.mem_cons_self _ _, he⟩
      · exact Or.inl ⟨sc, by rw [hs]; exact List.mem_cons_of_mem _ hsc, he⟩

theorem declareSpec_declaration (name : String) (D : TreeNode) (line : Int)
    (r : SpecState) : (declareSpec name D line r).declaration = r.declaration := by
  unfold declareSpec
  cases r.scopes with
  | nil => rfl
  | cons cur outer =>
    simp only
    split <;> rfl
theorem enterSpec_inTable (r : SpecState) (e : HashNode) (h : InTable (enterSpec r) e) :
    InTable r e := by
  obtain ⟨sc, hsc, he⟩ := h
  simp only [enterSpec, List.mem_cons] at hsc
  rcases hsc with rfl | hsc
  · simp at he
  · exact ⟨sc, hsc, he⟩

theorem exitSpec_inTable (r : SpecState) (e : HashNode) (h : InTable (exitSpec r) e) :
    InTable r e := by
  obtain ⟨sc, hsc, he⟩ := h
  exact ⟨sc, List.mem_of_mem_tail hsc, he⟩

theorem visitSpec_inTable (t : TreeNode) (r : SpecState) (e : HashNode)
    (h : InTable (visitSpec t r) e) :
    InTable r e ∨ ((∃ k, kindOf t = some (Kind.DecK k)) ∧ e.declaration = t) := by
  cases t with
  | NULL => exact Or.inl h
  | node a f c0 c1 c2 sb =>
    unfold visitSpec at h
    rcases hk : f.kind with k | k | k <;> cases k
    all_goals simp only [hk] at h
    · exact Or.inl h
    · exact Or.inl h
    · exact Or.inl h
    · -- CallK
      cases hl : lookupScopes f.name r.scopes with
      | none => rw [hl] at h; exact Or.inl h
      | some e' => rw [hl] at h; exact Or.inl h
    · exact Or.inl (enterSpec_inTable _ e h)
    · exact Or.inl h
    · exact Or.inl h
    · -- IdK
      cases hl : lookupScopes f.name r.scopes with
      | none => rw [hl] at h; exact Or.inl h
      | some e' => rw [hl] at h; exact Or.inl h
    · exact Or.inl h
    · rcases declareSpec_inTable _ _ _ r e h with h1 | h1
      · exact Or.inl h1
      · exact Or.inr ⟨⟨DecKind.ScalarDecK, by simp [kindOf, hk]⟩, h1⟩
    · have h' := enterSpec_inTable _ e h
      rcases declareSpec_inTable _ _ _ r e h' with h1 | h1
      · exact Or.inl h1
      · exact Or.inr ⟨⟨DecKind.FuncDecK, by simp [kindOf, hk]⟩, h1⟩
    · rcases declareSpec_inTable _ _ _ r e h with h1 | h1
      · exact Or.inl h1
      · exact Or.inr ⟨⟨DecKind.ArrayDecK, by simp [kindOf, hk]⟩, h1⟩

theorem visitSpec_declaration_other (t : TreeNode) (r : SpecState) (x : Nat)
    (hx : x ≠ addrOf t) : (visitSpec t r).declaration x = r.declaration x := by
  cases t with
  | NULL => rfl
  | node a f c0 c1 c2 sb =>
    have hxa : x ≠ a := hx
    unfold visitSpec
    rcases hk : f.kind with k | k | k <;> cases k
    all_goals simp only [hk]
    all_goals first
      | rfl
      | simp [assign, hxa]
      | (cases lookupScopes f.name r.scopes <;> simp [assign, hxa])
      | simp [enterSpec, declareSpec_declaration]

/-- The reference that the visit of an identifier or call node stores on it is a
declaration of the scope stack; when there is none, the reference is left as it is. -/
theorem visitSpec_declaration_self (a : Nat) (f : Fields) (c0 c1 c2 sb : TreeNode)
    (r : SpecState)
    (hk : f.kind = Kind.StmtK StmtKind.CallK ∨ f.kind = Kind.ExpK ExpKind.IdK) :
    (visitSpec (TreeNode.node a f c0 c1 c2 sb) r).declaration a = r.declaration a ∨
    ∃ e, InTable r e ∧
      (visitSpec (TreeNode.node a f c0 c1 c2 sb) r).declaration a = e.declaration := by
  unfold visitSpec
  rcases hk with hk | hk
  all_goals
    simp only [hk]
    cases hl : lookupScopes f.name r.scopes with
    | none => exact Or.inl rfl
    | some e =>
      refine Or.inr ⟨e, lookupScopes_inTable _ _ _ hl, ?_⟩
      simp [assign]

theorem leaveSpec_inTable (t : TreeNode) (r : SpecState) (e : HashNode)
    (h : InTable (leaveSpec t r) e) : InTable r e := by
  cases t with
  | NULL => exact h
  | node a f c0 c1 c2 sb =>
    simp only [leaveSpec] at h
    split at h
    · exact exitSpec_inTable _ e h
    · exact h

theorem leaveSpec_declaration (t : TreeNode) (r : SpecState) :
    (leaveSpec t r).declaration = r.declaration := by
  cases t with
  | NULL => rfl
  | node a f c0 c1 c2 sb =>
    simp only [leaveSpec]
    split <;> rfl

/-- The resolution pass stores references on the nodes of the tree only. -/
theorem resolveSpec_frame (t : TreeNode) :
    ∀ (r : SpecState) (x : Nat), x ∉ addrs t →
      (resolveSpec t r).declaration x = r.declaration x := by
  induction t with
  | NULL => intro r x _; rfl
  | node a f c0 c1 c2 sb ih0 ih1 ih2 ihs =>
    intro r x hx
    rw [addrs_node] at hx
    simp only [List.mem_append, List.mem_cons, not_or] at hx
    obtain ⟨⟨⟨h0, h1⟩, h2⟩, hxa, hs⟩ := hx
    simp only [resolveSpec]
    rw [ihs _ x hs, leaveSpec_declaration, ih2 _ x h2, ih1 _ x h1, ih0 _ x h0,
      visitSpec_declaration_other (TreeNode.node a f c0 c1 c2 sb) r x hxa]

theorem siblings_subset_addrs (c : TreeNode) : ∀ a ∈ siblings c, a ∈ addrs c := by
  induction c with
  | NULL => intro a ha; simp [siblings] at ha
  | node a f c0 c1 c2 sb _ _ _ ihs =>
    intro x hx
    rw [addrs_node]
    simp only [siblings, List.mem_cons] at hx
    rcases hx with rfl | hx
    · simp
    · have := ihs x hx
      simp [this]

theorem topAddr_subset_addrs (c : TreeNode) : ∀ a ∈ topAddr c, a ∈ addrs c := by
  cases c with
  | NULL => intro a ha; simp [topAddr] at ha
  | node a f c0 c1 c2 sb =>
    intro x hx
    rw [addrs_node]
    simp only [topAddr, List.mem_singleton] at hx
    simp [hx]

theorem paramChain_node (a : Nat) (f : Fields) (c0 c1 c2 sb : TreeNode)
    (h : paramChain (TreeNode.node a f c0 c1 c2 sb) = true) :
    isVarDec f.kind = true ∧ c0 = TreeNode.NULL ∧ c1 = TreeNode.NULL ∧
      c2 = TreeNode.NULL ∧ paramChain sb = true := by
  simpa [paramChain, and_assoc] using h

theorem isVarDec_kind (k : Kind) (h : isVarDec k = true) :
    k = Kind.DecK DecKind.ScalarDecK ∨ k = Kind.DecK DecKind.ArrayDecK := by
  rcases k with k | k | k <;> cases k <;> simp [isVarDec] at h ⊢

/-- The visit of a variable declaration: it is declared, and nothing else. -/
theorem visitSpec_varDec (a : Nat) (f : Fields) (c0 c1 c2 sb : TreeNode) (r : SpecState)
    (h : isVarDec f.kind = true) :
    visitSpec (TreeNode.node a f c0 c1 c2 sb) r
      = declareSpec f.name (TreeNode.node a f c0 c1 c2 sb) f.lineno r ∧
    leaveSpec (TreeNode.node a f c0 c1 c2 sb) r = r := by
  rcases isVarDec_kind _ h with hk | hk <;>
    simp [visitSpec, leaveSpec, hk, opensScope]

/-- The resolution pass on a chain of variable declarations without children stores no
reference, and adds to the scope stack only declarations of the chain. -/
theorem resolveSpec_paramChain (c : TreeNode) :
    ∀ r : SpecState, paramChain c = true →
      (resolveSpec c r).declaration = r.declaration ∧
      ∀ e, InTable (resolveSpec c r) e →
        InTable r e ∨
          (child0Of e.declaration = TreeNode.NULL ∧
            ∀ x ∈ topAddr e.declaration, x ∈ siblings c) := by
  induction c with
  | NULL => intro r _; exact ⟨rfl, fun e he => Or.inl he⟩
  | node a f c0 c1 c2 sb _ _ _ ihs =>
    intro r h
    obtain ⟨hv, rfl, rfl, rfl, hsb⟩ := paramChain_node a f _ _ _ sb h
    simp only [resolveSpec]
    rw [(visitSpec_varDec a f TreeNode.NULL TreeNode.NULL TreeNode.NULL sb _ hv).2,
      (visitSpec_varDec a f TreeNode.NULL TreeNode.NULL TreeNode.NULL sb r hv).1]
    obtain ⟨hd, hin⟩ := ihs (declareSpec f.name _ f.lineno r) hsb
    refine ⟨hd.trans (declareSpec_declaration _ _ _ r), ?_⟩
    intro e he
    rcases hin e he with h1 | ⟨h1, h2⟩
    · rcases declareSpec_inTable _ _ _ r e h1 with h3 | h3
      · exact Or.inl h3
      · refine Or.inr ⟨by rw [h3]; rfl, ?_⟩
        rw [h3]
        intro x hx
        simp only [topAddr, List.mem_singleton] at hx
        simp [siblings, hx]
    · exact Or.inr ⟨h1, fun x hx => by simp [siblings, h2 x hx]⟩
theorem nodup_parts {A B C S : List Nat} {a : Nat} (h : (A ++ B ++ C ++ a :: S).Nodup) :
    A.Nodup ∧ B.Nodup ∧ C.Nodup ∧ S.Nodup ∧
    (∀ x ∈ A, x ∉ B ∧ x ∉ C ∧ x ≠ a ∧ x ∉ S) ∧
    (∀ x ∈ B, x ∉ C ∧ x ≠ a ∧ x ∉ S) ∧
    (∀ x ∈ C, x ≠ a ∧ x ∉ S) ∧ a ∉ S := by
  obtain ⟨h1, h2, h3⟩ := List.nodup_append.1 h
  obtain ⟨h4, hC, h5⟩ := List.nodup_append.1 h1
  obtain ⟨hA, hB, h6⟩ := List.nodup_append.1 h4
  obtain ⟨haS, hS⟩ := List.nodup_cons.1 h2
  refine ⟨hA, hB, hC, hS, ?_, ?_, ?_, haS⟩
  · intro x hx
    have hx1 : x ∈ A ++ B := List.mem_append_left _ hx
    have hx2 : x ∈ A ++ B ++ C := List.mem_append_left _ hx1
    refine ⟨fun hb => h6 hx hb, fun hc => h5 hx1 hc, ?_, ?_⟩
    · rintro rfl
      exact h3 hx2 (List.mem_cons_self _ _)
    · intro hs
      exact h3 hx2 (List.mem_cons_of_mem _ hs)
  · intro x hx
    have hx1 : x ∈ A ++ B := List.mem_append_right _ hx
    have hx2 : x ∈ A ++ B ++ C := List.mem_append_left _ hx1
    refine ⟨fun hc => h5 hx1 hc, ?_, ?_⟩
    · rintro rfl
      exact h3 hx2 (List.mem_cons_self _ _)
    · intro hs
      exact h3 hx2 (List.mem_cons_of_mem _ hs)
  · intro x hx
    have hx2 : x ∈ A ++ B ++ C := List.mem_append_right _ hx
    refine ⟨?_, ?_⟩
    · rintro rfl
      exact h3 hx2 (List.mem_cons_self _ _)
    · intro hs
      exact h3 hx2 (List.mem_cons_of_mem _ hs)

theorem entryOK_null (et0 : Nat → ExpType) (l : List TreeNode) (done : List Nat) :
    EntryOK et0 l done TreeNode.NULL :=
  ⟨fun a ha => by simp [child0Of, siblings] at ha, fun a ha => by simp [topAddr] at ha⟩

/-- A node is ready when its subtrees have been checked and, if it is an identifier or a
call, its resolved declaration may be found. -/
theorem nodeReady_node (decl : Nat → TreeNode) (et0 : Nat → ExpType) (l : List TreeNode)
    (D : List Nat) (a : Nat) (f : Fields) (c0 c1 c2 sb : TreeNode)
    (hch : ∀ x ∈ addrs c0 ++ addrs c1, x ∈ D)
    (hent : f.kind = Kind.StmtK StmtKind.CallK ∨ f.kind = Kind.ExpK ExpKind.IdK →
      EntryOK et0 l D (decl a)) :
    NodeReady decl et0 l D (TreeNode.node a f c0 c1 c2 sb) := by
  have h0 : ∀ x ∈ topAddr c0, x ∈ D := fun x hx =>
    hch x (List.mem_append_left _ (topAddr_subset_addrs c0 x hx))
  have h1 : ∀ x ∈ topAddr c1, x ∈ D := fun x hx =>
    hch x (List.mem_append_right _ (topAddr_subset_addrs c1 x hx))
  have hs0 : ∀ x ∈ siblings c0, x ∈ D := fun x hx =>
    hch x (List.mem_append_left _ (siblings_subset_addrs c0 x hx))
  constructor
  · intro x hx
    simp only [reads] at hx
    rcases hk : f.kind with k | k | k <;> cases k
    all_goals simp only [hk] at hx
    all_goals first
      | exact Or.inl (h0 x hx)
      | (simp at hx; done)
      | skip
    · rcases List.mem_append.1 hx with hx | hx
      · exact (hent (Or.inl hk)).1 x hx
      · exact Or.inl (hs0 x hx)
    · rcases List.mem_append.1 hx with hx | hx
      · exact Or.inl (h0 x hx)
      · exact Or.inl (h1 x hx)
    · rcases List.mem_append.1 hx with hx | hx
      · exact Or.inl (h0 x hx)
      · exact Or.inl (h1 x hx)
  · intro x hx
    simp only [idReads] at hx
    by_cases hk : f.kind = Kind.ExpK ExpKind.IdK
    · rw [if_pos hk] at hx
      exact (hent (Or.inr hk)).2 x hx
    · rw [if_neg hk] at hx
      simp at hx

theorem readyTree_paramChain (decl : Nat → TreeNode) (et0 : Nat → ExpType)
    (l : List TreeNode) (c : TreeNode) :
    ∀ done, paramChain c = true → ReadyTree (NodeReady decl et0 l) done c := by
  induction c with
  | NULL => intro _ _; trivial
  | node a f c0 c1 c2 sb _ _ _ ihs =>
    intro done h
    obtain ⟨hv, rfl, rfl, rfl, hsb⟩ := paramChain_node a f _ _ _ sb h
    refine ⟨trivial, trivial, trivial, ?_, ihs _ hsb⟩
    apply nodeReady_node
    · intro x hx
      simp [addrs, postNodes] at hx
    · intro hk
      rcases isVarDec_kind _ hv with h1 | h1 <;> rcases hk with h2 | h2 <;>
        rw [h1] at h2 <;> cases h2

theorem plainDecls_node (a : Nat) (f : Fields) (c0 c1 c2 sb : TreeNode)
    (h : plainDecls (TreeNode.node a f c0 c1 c2 sb) = true) :
    (f.kind = Kind.DecK DecKind.FuncDecK → paramChain c0 = true) ∧
    (isVarDec f.kind = true →
      c0 = TreeNode.NULL ∧ c1 = TreeNode.NULL ∧ c2 = TreeNode.NULL) ∧
    plainDecls c0 = true ∧ plainDecls c1 = true ∧ plainDecls c2 = true ∧
    plainDecls sb = true := by
  simp only [plainDecls, Bool.and_eq_true] at h
  obtain ⟨⟨⟨⟨hs, h0⟩, h1⟩, h2⟩, hsb⟩ := h
  refine ⟨?_, ?_, h0, h1, h2, hsb⟩
  · intro hk
    simpa [hk] using hs
  · intro hv
    have hk : f.kind ≠ Kind.DecK DecKind.FuncDecK := by
      rcases isVarDec_kind _ hv with h | h <;> rw [h] <;> decide
    simpa [hk, hv] using hs

theorem addrOf_injOn (l : List TreeNode) (h : (l.map addrOf).Nodup) (m n : TreeNode)
    (hm : m ∈ l) (hn : n ∈ l) (he : addrOf m = addrOf n) : m = n :=
  List.inj_on_of_nodup_map h hm hn he
theorem kind_other (k : Kind) (hF : k ≠ Kind.DecK DecKind.FuncDecK)
    (hV : ¬ isVarDec k = true) : ∀ d, k ≠ Kind.DecK d := by
  intro d hd
  subst hd
  cases d
  · exact hV rfl
  · exact hF rfl
  · exact hV rfl

/-- What the resolution pass establishes for the type checker: the declarations of the
scope stack may be found, and every node of the tree is ready to be checked in its turn,
with the references that the pass stores.  The tree is one whose declarations have the
shape that the parser gives them, and whose nodes, at distinct addresses, bear no reference
yet. -/
theorem resolveSpec_ready (et0 : Nat → ExpType) (l : List TreeNode)
    (hndl : (l.map addrOf).Nodup) (het0 : ∀ n ∈ l, et0 (addrOf n) ≠ ExpType.Integer)
    (t : TreeNode) :
    ∀ (r : SpecState) (done : List Nat), plainDecls t = true →
      (∀ n ∈ postNodes t, n ∈ l) → (addrs t).Nodup → TableOK et0 l done r →
      (∀ x ∈ addrs t, r.declaration x = TreeNode.NULL) →
      TableOK et0 l (done ++ addrs t) (resolveSpec t r) ∧
      ∀ decl', (∀ x ∈ addrs t, decl' x = (resolveSpec t r).declaration x) →
        ReadyTree (NodeReady decl' et0 l) done t := by
  induction t with
  | NULL =>
    intro r done _ _ _ htab _
    refine ⟨?_, fun _ _ => trivial⟩
    simpa [addrs, postNodes, resolveSpec] using htab
  | node a f c0 c1 c2 sb ih0 ih1 ih2 ihs =>
    intro r done hplain hsub hnd htab hnull
    obtain ⟨hpF, hpV, hp0, hp1, hp2, hps⟩ := plainDecls_node a f c0 c1 c2 sb hplain
    rw [addrs_node] at hnd hnull
    obtain ⟨nd0, nd1, nd2, nds, dA, dB, dC, haS⟩ := nodup_parts hnd
    have hsub0 : ∀ n ∈ postNodes c0, n ∈ l := fun n hn => hsub n (by simp [postNodes, hn])
    have hsub1 : ∀ n ∈ postNodes c1, n ∈ l := fun n hn => hsub n (by simp [postNodes, hn])
    have hsub2 : ∀ n ∈ postNodes c2, n ∈ l := fun n hn => hsub n (by simp [postNodes, hn])
    have hsubS : ∀ n ∈ postNodes sb, n ∈ l := fun n hn => hsub n (by simp [postNodes, hn])
    have hT : TreeNode.node a f c0 c1 c2 sb ∈ l := hsub _ (by simp [postNodes])
    -- the states of the pass
    obtain ⟨r1, hr1⟩ : ∃ r1, r1 = visitSpec (TreeNode.node a f c0 c1 c2 sb) r := ⟨_, rfl⟩
    obtain ⟨r2, hr2⟩ : ∃ r2, r2 = resolveSpec c0 r1 := ⟨_, rfl⟩
    obtain ⟨r3, hr3⟩ : ∃ r3, r3 = resolveSpec c1 r2 := ⟨_, rfl⟩
    obtain ⟨r4, hr4⟩ : ∃ r4, r4 = resolveSpec c2 r3 := ⟨_, rfl⟩
    obtain ⟨r5, hr5⟩ : ∃ r5, r5 = leaveSpec (TreeNode.node a f c0 c1 c2 sb) r4 := ⟨_, rfl⟩
    have hres : resolveSpec (TreeNode.node a f c0 c1 c2 sb) r = resolveSpec sb r5 := by
      simp only [resolveSpec, hr5, hr4, hr3, hr2, hr1]
    -- the references that each part leaves as they are
    have d1 : ∀ x, x ≠ a → r1.declaration x = r.declaration x := fun x hx => by
      rw [hr1]
      exact visitSpec_declaration_other (TreeNode.node a f c0 c1 c2 sb) r x hx
    have d2 : ∀ x, x ∉ addrs c0 → r2.declaration x = r1.declaration x := fun x hx => by
      rw [hr2]; exact resolveSpec_frame c0 r1 x hx
    have d3 : ∀ x, x ∉ addrs c1 → r3.declaration x = r2.declaration x := fun x hx => by
      rw [hr3]; exact resolveSpec_frame c1 r2 x hx
    have d4 : ∀ x, x ∉ addrs c2 → r4.declaration x = r3.declaration x := fun x hx => by
      rw [hr4]; exact resolveSpec_frame c2 r3 x hx
    have d5 : r5.declaration = r4.declaration := by
      rw [hr5]; exact leaveSpec_declaration _ r4
    have d6 : ∀ x, x ∉ addrs sb → (resolveSpec sb r5).declaration x = r5.declaration x :=
      fun x hx => resolveSpec_frame sb r5 x hx
    have t5 : ∀ e, InTable r5 e → InTable r4 e := fun e he => by
      rw [hr5] at he; exact leaveSpec_inTable _ r4 e he
    -- disjointness, the other way round
    have nA_of_B : ∀ x ∈ addrs c1, x ∉ addrs c0 := fun x hx h => (dA x h).1 hx
    have nA_of_C : ∀ x ∈ addrs c2, x ∉ addrs c0 := fun x hx h => (dA x h).2.1 hx
    have nB_of_C : ∀ x ∈ addrs c2, x ∉ addrs c1 := fun x hx h => (dB x h).1 hx
    have nA_of_S : ∀ x ∈ addrs sb, x ∉ addrs c0 := fun x hx h => (dA x h).2.2.2 hx
    have nB_of_S : ∀ x ∈ addrs sb, x ∉ addrs c1 := fun x hx h => (dB x h).2.2 hx
    have nC_of_S : ∀ x ∈ addrs sb, x ∉ addrs c2 := fun x hx h => (dC x h).2 hx
    have na_of_S : ∀ x ∈ addrs sb, x ≠ a := fun x hx h => haS (h ▸ hx)
    have naA : a ∉ addrs c0 := fun h => (dA a h).2.2.1 rfl
    have naB : a ∉ addrs c1 := fun h => (dB a h).2.1 rfl
    have naC : a ∉ addrs c2 := fun h => (dC a h).1 rfl
    have hnullA : ∀ x ∈ addrs c0, r.declaration x = TreeNode.NULL := fun x hx =>
      hnull x (by simp [hx])
    have hnullB : ∀ x ∈ addrs c1, r.declaration x = TreeNode.NULL := fun x hx =>
      hnull x (by simp [hx])
    have hnullC : ∀ x ∈ addrs c2, r.declaration x = TreeNode.NULL := fun x hx =>
      hnull x (by simp [hx])
    have hnullS : ∀ x ∈ addrs sb, r.declaration x = TreeNode.NULL := fun x hx =>
      hnull x (by simp [hx])
    have hnulla : r.declaration a = TreeNode.NULL := hnull a (by simp)
    -- the node and its subtrees
    have key : TableOK et0 l (done ++ addrs c0 ++ addrs c1 ++ addrs c2 ++ [a]) r5 ∧
        ∀ decl', (∀ x ∈ addrs c0, decl' x = r2.declaration x) →
          (∀ x ∈ addrs c1, decl' x = r3.declaration x) →
          (∀ x ∈ addrs c2, decl' x = r4.declaration x) →
          decl' a = r1.declaration a →
          ReadyTree (NodeReady decl' et0 l) done c0 ∧
          ReadyTree (NodeReady decl' et0 l) (done ++ addrs c0) c1 ∧
          ReadyTree (NodeReady decl' et0 l) (done ++ addrs c0 ++ addrs c1) c2 ∧
          NodeReady decl' et0 l (done ++ addrs c0 ++ addrs c1 ++ addrs c2)
            (TreeNode.node a f c0 c1 c2 sb) := by
      have hch : ∀ x ∈ addrs c0 ++ addrs c1,
          x ∈ done ++ addrs c0 ++ addrs c1 ++ addrs c2 := by
        intro x hx
        simp only [List.mem_append] at hx ⊢
        tauto
      by_cases hF : f.kind = Kind.DecK DecKind.FuncDecK
      · -- a function declaration
        have hchain := hpF hF
        obtain ⟨hd2, hin2⟩ := resolveSpec_paramChain c0 r1 hchain
        rw [← hr2] at hd2 hin2
        have htab2 : TableOK et0 l (done ++ addrs c0) r2 := by
          intro e he
          rcases hin2 e he with h1 | ⟨h1, h2⟩
          · rw [hr1] at h1
            rcases visitSpec_inTable _ r e h1 with h3 | ⟨_, h3⟩
            · exact entryOK_mono et0 l done _ _ (fun x hx => List.mem_append_left _ hx)
                (htab e h3)
            · rw [h3]
              refine ⟨fun x hx => Or.inl ?_, fun x hx => Or.inr (Or.inr ⟨?_, ?_⟩)⟩
              · exact List.mem_append_right _ (siblings_subset_addrs c0 x hx)
              · intro m hm hma
                simp only [topAddr, List.mem_singleton] at hx
                have : m = TreeNode.node a f c0 c1 c2 sb :=
                  addrOf_injOn l hndl m _ hm hT (by rw [hma, hx]; rfl)
                rw [this]
                simp [kindOf, hF]
              · simp only [topAddr, List.mem_singleton] at hx
                rw [hx]
                exact het0 _ hT
          · refine ⟨fun x hx => ?_, fun x hx => Or.inl ?_⟩
            · rw [h1] at hx
              simp [siblings] at hx
            · exact List.mem_append_right _ (siblings_subset_addrs c0 x (h2 x hx))
        have hnull1 : ∀ x ∈ addrs c1, r2.declaration x = TreeNode.NULL := fun x hx => by
          rw [d2 x (nA_of_B x hx), d1 x (fun h => naB (h ▸ hx)), hnullB x hx]
        obtain ⟨htab3, hready1⟩ := ih1 r2 (done ++ addrs c0) hp1 hsub1 nd1 htab2 hnull1
        rw [← hr3] at htab3 hready1
        have hnull2 : ∀ x ∈ addrs c2, r3.declaration x = TreeNode.NULL := fun x hx => by
          rw [d3 x (nB_of_C x hx), d2 x (nA_of_C x hx), d1 x (fun h => naC (h ▸ hx)),
            hnullC x hx]
        obtain ⟨htab4, hready2⟩ := ih2 r3 (done ++ addrs c0 ++ addrs c1) hp2 hsub2 nd2
          htab3 hnull2
        rw [← hr4] at htab4 hready2
        refine ⟨fun e he => entryOK_mono et0 l _ _ _
          (fun x hx => List.mem_append_left _ hx) (htab4 e (t5 e he)), ?_⟩
        intro decl' _ ag1 ag2 _
        refine ⟨readyTree_paramChain decl' et0 l c0 done hchain, hready1 decl' ag1,
          hready2 decl' ag2, nodeReady_node decl' et0 l _ a f c0 c1 c2 sb hch ?_⟩
        intro hk
        rcases hk with hk | hk <;> rw [hF] at hk <;> cases hk
      · by_cases hV : isVarDec f.kind = true
        · -- a variable declaration
          obtain ⟨rfl, rfl, rfl⟩ := hpV hV
          have e2 : r2 = r1 := hr2
          have e3 : r3 = r1 := by rw [hr3, e2]; rfl
          have e4 : r4 = r1 := by rw [hr4, e3]; rfl
          have e5 : r5 = r1 := by
            rw [hr5, e4]
            exact (visitSpec_varDec a f _ _ _ sb r1 hV).2
          have e1 : r1 = declareSpec f.name
              (TreeNode.node a f TreeNode.NULL TreeNode.NULL TreeNode.NULL sb) f.lineno r := by
            rw [hr1]
            exact (visitSpec_varDec a f _ _ _ sb r hV).1
          refine ⟨?_, ?_⟩
          · intro e he
            rw [e5, e1] at he
            rcases declareSpec_inTable _ _ _ r e he with h3 | h3
            · exact entryOK_mono et0 l done _ _ (fun x hx => by simp [hx]) (htab e h3)
            · rw [h3]
              refine ⟨fun x hx => ?_, fun x hx => Or.inl ?_⟩
              · simp [child0Of, siblings] at hx
              · simp only [topAddr, List.mem_singleton] at hx
                simp [hx]
          · intro decl' _ _ _ _
            refine ⟨trivial, trivial, trivial,
              nodeReady_node decl' et0 l _ a f _ _ _ sb hch ?_⟩
            intro hk
            rcases isVarDec_kind _ hV with h1 | h1 <;> rcases hk with h2 | h2 <;>
              rw [h1] at h2 <;> cases h2
        · -- any other node
          have hno := kind_other f.kind hF hV
          have htab1 : TableOK et0 l done r1 := by
            intro e he
            rw [hr1] at he
            rcases visitSpec_inTable _ r e he with h3 | ⟨⟨k, hk⟩, _⟩
            · exact htab e h3
            · simp only [kindOf, Option.some.injEq] at hk
              exact absurd hk (hno k)
          have hnull0 : ∀ x ∈ addrs c0, r1.declaration x = TreeNode.NULL := fun x hx => by
            rw [d1 x (fun h => naA (h ▸ hx)), hnullA x hx]
          obtain ⟨htab2, hready0⟩ := ih0 r1 done hp0 hsub0 nd0 htab1 hnull0
          rw [← hr2] at htab2 hready0
          have hnull1 : ∀ x ∈ addrs c1, r2.declaration x = TreeNode.NULL := fun x hx => by
            rw [d2 x (nA_of_B x hx), d1 x (fun h => naB (h ▸ hx)), hnullB x hx]
          obtain ⟨htab3, hready1⟩ := ih1 r2 (done ++ addrs c0) hp1 hsub1 nd1 htab2 hnull1
          rw [← hr3] at htab3 hready1
          have hnull2 : ∀ x ∈ addrs c2, r3.declaration x = TreeNode.NULL := fun x hx => by
            rw [d3 x (nB_of_C x hx), d2 x (nA_of_C x hx), d1 x (fun h => naC (h ▸ hx)),
              hnullC x hx]
          obtain ⟨htab4, hready2⟩ := ih2 r3 (done ++ addrs c0 ++ addrs c1) hp2 hsub2 nd2
            htab3 hnull2
          rw [← hr4] at htab4 hready2
          refine ⟨fun e he => entryOK_mono et0 l _ _ _
            (fun x hx => List.mem_append_left _ hx) (htab4 e (t5 e he)), ?_⟩
          intro decl' ag0 ag1 ag2 agT
          refine ⟨hready0 decl' ag0, hready1 decl' ag1, hready2 decl' ag2,
            nodeReady_node decl' et0 l _ a f c0 c1 c2 sb hch ?_⟩
          intro hk
          rw [agT, hr1]
          rcases visitSpec_declaration_self a f c0 c1 c2 sb r hk with h1 | ⟨e, he, h1⟩
          · rw [h1, hnulla]
            exact entryOK_null et0 l _
          · rw [h1]
            exact entryOK_mono et0 l done _ _ (fun x hx => by simp [hx]) (htab e he)
    -- the siblings
    obtain ⟨htab5, hnode⟩ := key
    have hnull5 : ∀ x ∈ addrs sb, r5.declaration x = TreeNode.NULL := fun x hx => by
      rw [d5, d4 x (nC_of_S x hx), d3 x (nB_of_S x hx), d2 x (nA_of_S x hx),
        d1 x (na_of_S x hx), hnullS x hx]
    obtain ⟨htab6, hreadyS⟩ := ihs r5 _ hps hsubS nds htab5 hnull5
    rw [hres, addrs_node]
    refine ⟨?_, ?_⟩
    · have : done ++ (addrs c0 ++ addrs c1 ++ addrs c2 ++ a :: addrs sb)
          = done ++ addrs c0 ++ addrs c1 ++ addrs c2 ++ [a] ++ addrs sb := by simp
      rw [this]
      exact htab6
    · intro decl' hag
      have ag0 : ∀ x ∈ addrs c0, decl' x = r2.declaration x := fun x hx => by
        rw [hag x (by simp [hx]), d6 x (dA x hx).2.2.2, d5, d4 x (dA x hx).2.1,
          d3 x (dA x hx).1]
      have ag1 : ∀ x ∈ addrs c1, decl' x = r3.declaration x := fun x hx => by
        rw [hag x (by simp [hx]), d6 x (dB x hx).2.2, d5, d4 x (dB x hx).1]
      have ag2 : ∀ x ∈ addrs c2, decl' x = r4.declaration x := fun x hx => by
        rw [hag x (by simp [hx]), d6 x (dC x hx).2, d5]
      have agT : decl' a = r1.declaration a := by
        rw [hag a (by simp), d6 a haS, d5, d4 a naC, d3 a naB, d2 a naA]
      have agS : ∀ x ∈ addrs sb, decl' x = (resolveSpec sb r5).declaration x :=
        fun x hx => hag x (by simp [hx])
      obtain ⟨g0, g1, g2, gT⟩ := hnode decl' ag0 ag1 ag2 agT
      exact ⟨g0, g1, g2, gT, hreadyS decl' agS⟩
theorem declareSpec_expressionType (name : String) (D : TreeNode) (line : Int)
    (r : SpecState) : (declareSpec name D line r).expressionType = r.expressionType := by
  unfold declareSpec
  cases r.scopes with
  | nil => rfl
  | cons cur outer =>
    simp only
    split <;> rfl

theorem visitSpec_expressionType (t : TreeNode) (r : SpecState) :
    (visitSpec t r).expressionType = r.expressionType := by
  cases t with
  | NULL => rfl
  | node a f c0 c1 c2 sb =>
    unfold visitSpec
    rcases hk : f.kind with k | k | k <;> cases k
    all_goals simp only [hk]
    all_goals first
      | rfl
      | (cases lookupScopes f.name r.scopes <;> rfl)
      | simp [enterSpec, declareSpec_expressionType]

theorem leaveSpec_expressionType (t : TreeNode) (r : SpecState) :
    (leaveSpec t r).expressionType = r.expressionType := by
  cases t with
  | NULL => rfl
  | node a f c0 c1 c2 sb =>
    simp only [leaveSpec]
    split <;> rfl

/-- The resolution pass writes no inferred type. -/
theorem resolveSpec_expressionType (t : TreeNode) :
    ∀ r : SpecState, (resolveSpec t r).expressionType = r.expressionType := by
  induction t with
  | NULL => intro r; rfl
  | node a f c0 c1 c2 sb ih0 ih1 ih2 ihs =>
    intro r
    simp only [resolveSpec]
    rw [ihs, leaveSpec_expressionType, ih2, ih1, ih0, visitSpec_expressionType]

theorem declarePredefines_maps (s : State) :
    (declarePredefines s).declaration =
      assign (assign (assign s.declaration s.brk TreeNode.NULL)
        (s.brk + 1) TreeNode.NULL) (s.brk + 1 + 1) TreeNode.NULL ∧
    (declarePredefines s).expressionType =
      assign (assign (assign s.expressionType s.brk ExpType.Function)
        (s.brk + 1) ExpType.Integer) (s.brk + 1 + 1) ExpType.Function := by
  rw [declarePredefines_eq]
  simp only [insertSymbol]
  constructor <;> (split <;> split <;> rfl)

/-- From the start state, the resolution pass leaves every node of a tree of the parser's
shape, at distinct addresses below `brk`, ready to be checked in its turn. -/
theorem buildSymTab_ready (t : TreeNode) (brk : Nat) (lineno : Int)
    (hns : declaresSentinel t = false) (hplain : plainDecls t = true)
    (hnd : (addrs t).Nodup) (hlt : ∀ a ∈ addrs t, a < brk) (s : State)
    (hb : buildSymTab t (State.start brk lineno) = some s) :
    ReadyList s.declaration s.expressionType (postNodes t) := by
  obtain ⟨hp, hwf⟩ := declarePredefines_toState (State.start brk lineno) rfl (fun _ => rfl)
  obtain ⟨hrun, _⟩ := startBuildSymbolTable_toState t (predefinesSpec (State.start brk lineno))
    hwf hns
  obtain ⟨hdecl, het⟩ := declarePredefines_maps (State.start brk lineno)
  rw [buildSymTab, hp] at hb
  rw [hrun s hb]
  have het0 : ∀ x, x < brk →
      (resolveSpec t (predefinesSpec (State.start brk lineno))).toState.expressionType x
        = ExpType.Void := by
    intro x hx
    show (resolveSpec t (predefinesSpec (State.start brk lineno))).expressionType x = _
    rw [resolveSpec_expressionType]
    show (declarePredefines (State.start brk lineno)).expressionType x = _
    rw [het]
    have h1 : x ≠ brk := by omega
    have h2 : x ≠ brk + 1 := by omega
    have h3 : x ≠ brk + 1 + 1 := by omega
    simp [assign, State.start, h1, h2, h3]
  have hnull : ∀ x, (predefinesSpec (State.start brk lineno)).declaration x
      = TreeNode.NULL := by
    intro x
    show (declarePredefines (State.start brk lineno)).declaration x = _
    rw [hdecl]
    simp only [assign, State.start]
    split <;> [rfl; (split <;> [rfl; (split <;> rfl)])]
  have hmem : ∀ n ∈ postNodes t, addrOf n < brk := fun n hn =>
    hlt _ (List.mem_map_of_mem _ hn)
  have hout : ∀ x, brk ≤ x → x ∉ (postNodes t).map addrOf := fun x hx hmemx =>
    absurd (hlt x hmemx) (by omega)
  have htab : TableOK
      (resolveSpec t (predefinesSpec (State.start brk lineno))).toState.expressionType
      (postNodes t) [] (predefinesSpec (State.start brk lineno)) := by
    rintro e ⟨sc, hsc, he⟩
    simp only [predefinesSpec, State.withScopes, List.mem_singleton] at hsc
    subst hsc
    simp only [List.mem_cons, List.mem_singleton, List.not_mem_nil, or_false] at he
    rcases he with rfl | rfl
    · refine ⟨fun x hx => Or.inr ?_, fun x hx => Or.inr (Or.inl ?_)⟩
      · simp only [predefinedOutput, child0Of, siblings, List.mem_singleton,
          State.start] at hx
        exact hout x (by omega)
      · simp only [predefinedOutput, topAddr, List.mem_singleton, State.start] at hx
        exact hout x (by omega)
    · refine ⟨fun x hx => ?_, fun x hx => Or.inr (Or.inl ?_)⟩
      · simp [predefinedInput, child0Of, siblings] at hx
      · simp only [predefinedInput, topAddr, List.mem_singleton, State.start] at hx
        exact hout x (by omega)
  obtain ⟨_, hready⟩ := resolveSpec_ready _ (postNodes t) hnd
    (fun n hn => by rw [het0 _ (hmem n hn)]; decide) t
    (predefinesSpec (State.start brk lineno)) [] hplain (fun n hn => hn) hnd htab
    (fun x _ => hnull x)
  intro pre n post hsplit
  have := readyTree_split _ t [] (hready _ (fun x _ => rfl)) pre n post hsplit
  simpa using this
/-! ## The type checker: soundness and a second run -/

theorem getD_of_isSome {α : Type} (o : Option α) (d : α) (h : o.isSome = true) :
    o = some (o.getD d) := by
  cases o with
  | none => simp at h
  | some x => rfl

theorem bothInteger_true (s : State) (c0 c1 : TreeNode)
    (h : bothInteger s c0 c1 = some true) :
    readExpressionType s c0 = some ExpType.Integer ∧
      readExpressionType s c1 = some ExpType.Integer := by
  unfold bothInteger at h
  cases h0 : readExpressionType s c0 with
  | none => simp [h0] at h
  | some t0 =>
    rw [h0] at h
    by_cases ht : t0 = ExpType.Integer
    · subst ht
      cases h1 : readExpressionType s c1 with
      | none => simp [h1] at h
      | some t1 =>
        simp only [h1, if_true, Option.some.injEq, decide_eq_true_eq] at h
        exact ⟨rfl, by rw [h]⟩
    · simp [ht] at h

/-- A node whose rule, read in the state `s`, reports nothing and writes the type that the
node has in `s`, is well typed in `s`. -/
theorem wellTyped_of_effect (s : State) (n : TreeNode) (e : Effect)
    (he : effectOf s n = some e) (hr : e.report = none)
    (hw : ∀ v, e.write = some v → s.expressionType (addrOf n) = v) : WellTyped s n := by
  cases n with
  | NULL => trivial
  | node a f c0 c1 c2 sb =>
    unfold effectOf at he
    unfold WellTyped
    rcases hk : f.kind with k | k | k <;> cases k
    all_goals simp only [hk] at he ⊢
    · -- IfK
      cases h0 : readExpressionType s c0 with
      | none => simp [h0] at he
      | some t0 =>
        simp only [h0, Option.map_some', Option.some.injEq] at he
        subst he
        by_cases ht : t0 = ExpType.Integer
        · rw [ht]
        · simp [ht] at hr
    · -- WhileK
      cases h0 : readExpressionType s c0 with
      | none => simp [h0] at he
      | some t0 =>
        simp only [h0, Option.map_some', Option.some.injEq] at he
        subst he
        by_cases ht : t0 = ExpType.Integer
        · rw [ht]
        · simp [ht] at hr
    · -- CallK
      cases hc : checkFormalAgainstActualParms (s.declaration a)
          (TreeNode.node a f c0 c1 c2 sb) s with
      | none => simp [hc] at he
      | some ok =>
        cases hD : s.declaration a with
        | NULL => simp [hc, hD] at he
        | node da fd d0 d1 d2 dsb =>
          rw [hD] at hc
          simp only [hD, hc, Option.some_bind, Option.some.injEq] at he
          subst he
          cases ok with
          | false => simp at hr
          | true =>
            simp only [checkFormalAgainstActualParms, Option.some.injEq] at hc
            exact (checkParmsFrom_iff s d0 c0).1 hc
    · -- OpK
      by_cases ha : f.op = TokenType.PLUS ∨ f.op = TokenType.MINUS ∨ f.op = TokenType.TIMES
          ∨ f.op = TokenType.DIVIDE
      · simp only [ha, if_true] at he
        cases hb : bothInteger s c0 c1 with
        | none => simp [hb] at he
        | some b =>
          simp only [hb, Option.map_some', Option.some.injEq] at he
          subst he
          cases b with
          | false => simp at hr
          | true =>
            obtain ⟨h0, h1⟩ := bothInteger_true s c0 c1 hb
            exact ⟨h0, h1, hw _ rfl⟩
      · simp only [ha, if_false] at he
        by_cases hrel : f.op = TokenType.GT ∨ f.op = TokenType.LT ∨ f.op = TokenType.LTE
            ∨ f.op = TokenType.GTE ∨ f.op = TokenType.EQ ∨ f.op = TokenType.NEQ
        · simp only [hrel, if_true] at he
          cases hb : bothInteger s c0 c1 with
          | none => simp [hb] at he
          | some b =>
            simp only [hb, Option.map_some', Option.some.injEq] at he
            subst he
            cases b with
            | false => simp at hr
            | true =>
              obtain ⟨h0, h1⟩ := bothInteger_true s c0 c1 hb
              exact ⟨h0, h1, hw _ rfl⟩
        · simp only [hrel, if_false, Option.some.injEq] at he
          subst he
          simp at hr
    · -- AssignK
      cases hb : bothInteger s c0 c1 with
      | none => simp [hb] at he
      | some b =>
        simp only [hb, Option.map_some', Option.some.injEq] at he
        subst he
        cases b with
        | false => simp at hr
        | true =>
          obtain ⟨h0, h1⟩ := bothInteger_true s c0 c1 hb
          exact ⟨h0, h1, hw _ rfl⟩

theorem reportsOf_nil_iff (s : State) (l : List TreeNode) (h : reportsOf s l = []) :
    ∀ n ∈ l, ∀ e, effectOf s n = some e → e.report = none := by
  intro n hn e he
  have : ((effectOf s n).bind fun e => e.report).toList = [] := by
    simp only [reportsOf, List.flatten_eq_nil_iff, List.mem_map] at h
    exact h _ ⟨n, hn, rfl⟩
  rw [he] at this
  cases hr : e.report with
  | none => rfl
  | some d => simp [hr] at this

/-- The two passes on a tree of the parser's shape: the resolved state, the final state,
and what relates them. -/
theorem typeCheck_consistent (t : TreeNode) (brk : Nat) (lineno : Int) (s s1 : State)
    (hns : declaresSentinel t = false) (hplain : plainDecls t = true)
    (hnd : (addrs t).Nodup) (hlt : ∀ a ∈ addrs t, a < brk)
    (hb : buildSymTab t (State.start brk lineno) = some s)
    (hc : typeCheck t s = some s1) :
    checkAll (postNodes t) s = some s1 ∧ ((postNodes t).map addrOf).Nodup ∧
      ReadyList s.declaration s.expressionType (postNodes t) := by
  have hready := buildSymTab_ready t brk lineno hns hplain hnd hlt s hb
  refine ⟨?_, hnd, hready⟩
  rw [← traverse_eq_checkAll]
  exact hc
/-- C13.  Soundness of the type checker.  Let the tree be one whose declarations have the
shape that the parser gives them (a variable declaration has no children, the first child
of a function declaration is a chain of variable declarations), whose nodes lie at distinct
addresses below `brk` and none of whose declarations bears the sentinel name, and let the
resolution pass have run on it from the start state.  If `typeCheck` then finishes with the
error flag clear, then in the final state every node of the tree is well typed: the
condition of every `if` and `while` is there and has inferred type Integer; both operands
of every operator node and of every assignment are there and have inferred type Integer,
and so has the node itself; and the arguments of every call match the parameters of its
resolved declaration in number and, position by position, in inferred type. -/
theorem typeCheck_sound (t : TreeNode) (brk : Nat) (lineno : Int) (s s1 : State)
    (hns : declaresSentinel t = false) (hplain : plainDecls t = true)
    (hnd : (addrs t).Nodup) (hlt : ∀ a ∈ addrs t, a < brk)
    (hb : buildSymTab t (State.start brk lineno) = some s)
    (hc : typeCheck t s = some s1) (he : s1.Error = false) :
    ∀ n ∈ postNodes t, WellTyped s1 n := by
  obtain ⟨hall, hnd', hready⟩ :=
    typeCheck_consistent t brk lineno s s1 hns hplain hnd hlt hb hc
  obtain ⟨_, herr⟩ := checkAll_listing (postNodes t) s s1 hall hnd' hready (postNodes t) []
    s (by simp) rfl hall
  have hnil : reportsOf s1 (postNodes t) = [] := by
    rw [he] at herr
    have := herr.symm
    simp only [Bool.or_eq_false_iff, Bool.not_eq_false', List.isEmpty_iff] at this
    exact this.2
  intro n hn
  obtain ⟨pre, post, hsplit⟩ := List.append_of_mem hn
  obtain ⟨_, e, _, _, _, he1, hw⟩ :=
    checkAll_consistent (postNodes t) s s1 hall hnd' hready pre n post hsplit
  exact wellTyped_of_effect s1 n e he1
    (reportsOf_nil_iff s1 (postNodes t) hnil n hn e he1) hw

/-- Witness of C13: the two passes on
`int g(int a){ return a + 1; } void main(void){ int x; x = g(2); if (x < 3) output(x); while (x) x = x - 1; }`
end without error, and every node is well typed; for instance the condition `x < 3` (node
17) and the assignment `x = g(2)` (node 14) have inferred type Integer. -/
theorem typeCheck_sound_witness :
    (declaresSentinel checkedProgram = false ∧ plainDecls checkedProgram = true ∧
      (addrs checkedProgram).Nodup ∧ (∀ a ∈ addrs checkedProgram, a < 28) ∧
      buildSymTab checkedProgram (State.start 28 1) = some checkedResolved ∧
      typeCheck checkedProgram checkedResolved = some checkedFinal ∧
      checkedFinal.Error = false) ∧
    (∀ n ∈ postNodes checkedProgram, WellTyped checkedFinal n) ∧
    checkedFinal.expressionType 17 = ExpType.Integer ∧
    checkedFinal.expressionType 14 = ExpType.Integer :=
  ⟨⟨by decide, by decide, by decide, by decide, getD_of_isSome _ _ (by decide),
      getD_of_isSome _ _ (by decide), by decide⟩,
    typeCheck_sound checkedProgram 28 1 checkedResolved checkedFinal (by decide) (by decide)
      (by decide) (by decide) (getD_of_isSome _ _ (by decide))
      (getD_of_isSome _ _ (by decide)) (by decide),
    by decide, by decide⟩

/-- C14, counterexample: on `int h(void){ return; }` the first run of `typeCheck` writes one
diagnostic, and a second run on the checked tree writes it again: the listing then holds
two lines. -/
theorem typeCheck_twice_repeats_diagnostic :
    (buildSymTab missingReturnProgram (State.start 4 1)).isSome = true ∧
    (typeCheck missingReturnProgram missingReturnResolved).map (fun s => s.listing)
      = some [Diagnostic.returnNotInteger 1] ∧
    ((typeCheck missingReturnProgram missingReturnResolved).bind
        (typeCheck missingReturnProgram)).map (fun s => s.listing)
      = some [Diagnostic.returnNotInteger 1, Diagnostic.returnNotInteger 1] := by
  decide

/-- C14, amended.  Let the tree be one whose declarations have the shape that the parser
gives them, whose nodes lie at distinct addresses below `brk` and none of whose
declarations bears the sentinel name, let the resolution pass have run on it from the start
state, and let `typeCheck` have finished.  Then a second run of `typeCheck` on the checked
tree finishes, leaves the inferred type of every node as it was after the first run, and
writes again exactly the diagnostics that the first run wrote, in the same order: none if
the first run wrote none. -/
theorem typeCheck_again (t : TreeNode) (brk : Nat) (lineno : Int) (s s1 : State)
    (hns : declaresSentinel t = false) (hplain : plainDecls t = true)
    (hnd : (addrs t).Nodup) (hlt : ∀ a ∈ addrs t, a < brk)
    (hb : buildSymTab t (State.start brk lineno) = some s)
    (hc : typeCheck t s = some s1) :
    ∃ s2, typeCheck t s1 = some s2 ∧ s2.expressionType = s1.expressionType ∧
      s2.listing = s1.listing ++ s1.listing.drop s.listing.length ∧
      (s1.listing = s.listing → s2.listing = s1.listing) := by
  obtain ⟨hall, hnd', hready⟩ :=
    typeCheck_consistent t brk lineno s s1 hns hplain hnd hlt hb hc
  obtain ⟨hlist, _⟩ := checkAll_listing (postNodes t) s s1 hall hnd' hready (postNodes t) []
    s (by simp) rfl hall
  obtain ⟨s2, hrun, het, _, hl2⟩ := checkAll_again (postNodes t) s s1 hall hnd' hready
    (postNodes t) (fun n hn => hn) s1 rfl rfl
  have hdrop : s1.listing.drop s.listing.length = reportsOf s1 (postNodes t) := by
    rw [hlist, List.drop_left]
  refine ⟨s2, ?_, het, ?_, ?_⟩
  · rw [typeCheck, traverse_eq_checkAll]
    exact hrun
  · rw [hl2, hdrop]
  · intro hsame
    rw [hl2, ← hdrop, hsame]
    simp

/-- Witness of C14: on `int h(void){ return; }` the second run writes the one diagnostic of
the first run again and changes no inferred type. -/
theorem typeCheck_again_witness :
    (declaresSentinel missingReturnProgram = false ∧
      plainDecls missingReturnProgram = true ∧ (addrs missingReturnProgram).Nodup ∧
      (∀ a ∈ addrs missingReturnProgram, a < 4) ∧
      buildSymTab missingReturnProgram (State.start 4 1) = some missingReturnResolved ∧
      typeCheck missingReturnProgram missingReturnResolved = some missingReturnFinal) ∧
    (∃ s2, typeCheck missingReturnProgram missingReturnFinal = some s2 ∧
      s2.expressionType = missingReturnFinal.expressionType ∧
      s2.listing = missingReturnFinal.listing ++
        missingReturnFinal.listing.drop missingReturnResolved.listing.length ∧
      (missingReturnFinal.listing = missingReturnResolved.listing →
        s2.listing = missingReturnFinal.listing)) ∧
    missingReturnFinal.listing.drop missingReturnResolved.listing.length
      = [Diagnostic.returnNotInteger 1] :=
  ⟨⟨by decide, by decide, by decide, by decide, getD_of_isSome _ _ (by decide),
      getD_of_isSome _ _ (by decide)⟩,
    typeCheck_again missingReturnProgram 4 1 missingReturnResolved missingReturnFinal
      (by decide) (by decide) (by decide) (by decide) (getD_of_isSome _ _ (by decide))
      (getD_of_isSome _ _ (by decide)),
    by decide⟩

/-! ## The parser: the shape of the declarations that it builds -/

theorem returns_map {α β : Type} {P : β → Prop} {a : Option α} {f : α → β}
    (h : Returns (fun x => P (f x)) a) : Returns P (a.map f) := by
  intro r hr
  obtain ⟨x, hx, rfl⟩ := Option.map_eq_some'.1 hr
  exact h x hx

theorem plainDecls_setSibling (t r : TreeNode) (ht : plainDecls t = true)
    (hr : plainDecls r = true) : plainDecls (setSibling t r) = true := by
  cases t with
  | NULL => rfl
  | node a f c0 c1 c2 sb =>
    obtain ⟨h1, h2, h3, h4, h5, _⟩ := plainDecls_node a f c0 c1 c2 sb ht
    simp only [setSibling, plainDecls, Bool.and_eq_true]
    simp only [plainDecls, Bool.and_eq_true] at ht
    exact ⟨⟨⟨⟨ht.1.1.1.1, h3⟩, h4⟩, h5⟩, hr⟩

theorem plainDecls_assignSibling (t : TreeNode) (r : Option TreeNode)
    (ht : plainDecls t = true) (hr : OptAll (fun t => plainDecls t = true) r) :
    plainDecls (assignSibling t r) = true := by
  cases r with
  | none => exact ht
  | some r => exact plainDecls_setSibling t r ht hr

theorem paramChain_plainDecls (c : TreeNode) (h : paramChain c = true) :
    plainDecls c = true := by
  induction c with
  | NULL => rfl
  | node a f c0 c1 c2 sb _ _ _ ihs =>
    obtain ⟨hv, rfl, rfl, rfl, hsb⟩ := paramChain_node a f _ _ _ sb h
    have hk : f.kind ≠ Kind.DecK DecKind.FuncDecK := by
      rcases isVarDec_kind _ hv with h | h <;> rw [h] <;> decide
    simp [plainDecls, hk, hv, ihs hsb]

theorem paramChain_setSibling (t r : TreeNode) (ht : paramChain t = true)
    (hr : paramChain r = true) : paramChain (setSibling t r) = true := by
  cases t with
  | NULL => rfl
  | node a f c0 c1 c2 sb =>
    obtain ⟨hv, h0, h1, h2, _⟩ := paramChain_node a f c0 c1 c2 sb ht
    simp [setSibling, paramChain, hv, h0, h1, h2, hr]

theorem paramChain_assignSibling (t : TreeNode) (r : Option TreeNode)
    (ht : paramChain t = true) (hr : OptAll (fun t => paramChain t = true) r) :
    paramChain (assignSibling t r) = true := by
  cases r with
  | none => exact ht
  | some r => exact paramChain_setSibling t r ht hr

theorem param_paramChain (p : ParseState) : paramChain (param p).1 = true := by
  simp [param, newNode, newFields, paramChain, isVarDec]

theorem var_declaration_paramChain (p : ParseState) :
    paramChain (var_declaration p).1 = true := by
  unfold var_declaration
  simp only [newNode, newFields]
  split <;> simp [paramChain, isVarDec]

theorem param_list_loop_paramChain (F : Nat) :
    ∀ p, Returns (fun r => OptAll (fun t => paramChain t = true) r.1)
      (param_list_loop F p) := by
  induction F with
  | zero => intro p; rw [param_list_loop]; exact returns_none _
  | succ F ih =>
    intro p
    rw [param_list_loop]
    apply returns_ite
    · intro _
      apply returns_ite
      · intro _
        apply returns_map
        intro r hr
        exact paramChain_assignSibling _ _ (param_paramChain _) (ih _ r hr)
      · intro _
        exact ih _
    · intro _
      exact returns_some True.intro

theorem param_list_paramChain (F : Nat) (p : ParseState) :
    Returns (fun r => paramChain r.1 = true) (param_list F p) := by
  unfold param_list
  apply returns_ite
  · intro _; exact returns_some rfl
  · intro _
    apply returns_ite
    · intro _
      apply returns_map
      intro r hr
      exact paramChain_assignSibling _ _ (param_paramChain _)
        (param_list_loop_paramChain F _ r hr)
    · intro _
      exact returns_some (param_paramChain _)

theorem local_declarations_loop_paramChain (F : Nat) :
    ∀ p, Returns (fun r => OptAll (fun t => paramChain t = true) r.1)
      (local_declarations_loop F p) := by
  induction F with
  | zero => intro p; rw [local_declarations_loop]; exact returns_none _
  | succ F ih =>
    intro p
    rw [local_declarations_loop]
    apply returns_ite
    · intro _
      apply returns_ite
      · intro _
        apply returns_map
        intro r hr
        exact paramChain_assignSibling _ _ (var_declaration_paramChain _) (ih _ r hr)
      · intro _
        exact ih _
    · intro _
      exact returns_some True.intro

theorem local_declarations_plain (F : Nat) (p : ParseState) :
    Returns (fun r => plainDecls r.1 = true) (local_declarations F p) := by
  unfold local_declarations
  have hfirst : paramChain
      (if isAType p.token = true then var_declaration p else (TreeNode.NULL, p)).1 = true := by
    split
    · exact var_declaration_paramChain p
    · rfl
  apply returns_ite
  · intro _
    apply returns_map
    intro r hr
    exact paramChain_plainDecls _ (paramChain_assignSibling _ _ hfirst
      (local_declarations_loop_paramChain F _ r hr))
  · intro _
    exact returns_some (paramChain_plainDecls _ hfirst)
theorem plainDecls_stmt (a : Nat) (l : Int) (k : StmtKind) (c0 c1 c2 : TreeNode)
    (h0 : plainDecls c0 = true) (h1 : plainDecls c1 = true) (h2 : plainDecls c2 = true) :
    plainDecls (TreeNode.node a (newFields l (Kind.StmtK k)) c0 c1 c2 TreeNode.NULL)
      = true := by
  simp [plainDecls, newFields, isVarDec, h0, h1, h2]

theorem plainDecls_exp (a : Nat) (f : Fields) (k : ExpKind) (c0 c1 : TreeNode)
    (hk : f.kind = Kind.ExpK k)
    (h0 : plainDecls c0 = true) (h1 : plainDecls c1 = true) :
    plainDecls (TreeNode.node a f c0 c1 TreeNode.NULL TreeNode.NULL) = true := by
  simp [plainDecls, hk, isVarDec, h0, h1]

theorem plainDecls_call (a : Nat) (f : Fields) (c0 : TreeNode)
    (hk : f.kind = Kind.StmtK StmtKind.CallK) (h0 : plainDecls c0 = true) :
    plainDecls (TreeNode.node a f c0 TreeNode.NULL TreeNode.NULL TreeNode.NULL) = true := by
  simp [plainDecls, hk, isVarDec, h0]

theorem plainResult_zero : PlainResult 0 := by
  constructor
  all_goals intros
  · rw [compound_statement]; exact returns_none _
  · rw [statement_list_loop]; exact returns_none _
  · rw [statement_list]; exact returns_none _
  · rw [statement]; exact returns_none _
  · rw [expression_statement]; exact returns_none _
  · rw [if_statement]; exact returns_none _
  · rw [while_statement]; exact returns_none _
  · rw [return_statement]; exact returns_none _
  · rw [expression]; exact returns_none _
  · rw [simple_expression]; exact returns_none _
  · rw [additive_expression_loop]; exact returns_none _
  · rw [additive_expression]; exact returns_none _
  · rw [term_loop]; exact returns_none _
  · rw [term]; exact returns_none _
  · rw [factor]; exact returns_none _
  · rw [identifier_statement]; exact returns_none _
  · rw [args]; exact returns_none _
  · rw [arg_list_loop]; exact returns_none _
  · rw [arg_list]; exact returns_none _

theorem plainResult_succ (F : Nat) (ih : PlainResult F) : PlainResult (F + 1) := by
  constructor
  · -- compound_statement
    intro p
    rw [compound_statement]
    apply returns_ite
    · intro _
      refine returns_bind (Q := fun x => plainDecls x.1 = true) ?_ ?_
      · apply returns_ite
        · intro _; exact local_declarations_plain _ _
        · intro _; exact returns_some rfl
      · intro x hx
        refine returns_bind (Q := fun y => plainDecls y.1 = true) ?_ ?_
        · apply returns_ite
          · intro _; exact ih.statement_list _
          · intro _; exact returns_some rfl
        · intro y hy
          exact returns_some (plainDecls_stmt _ _ _ _ _ _ hx hy rfl)
    · intro _; exact returns_some rfl
  · -- statement_list_loop
    intro b p
    rw [statement_list_loop]
    apply returns_ite
    · intro _
      refine returns_bind (ih.statement _) ?_
      intro x hx
      apply returns_ite
      · intro _
        apply returns_map
        intro r hr
        exact plainDecls_assignSibling _ _ hx (ih.statement_list_loop _ _ r hr)
      · intro _; exact ih.statement_list_loop _ _
    · intro _; exact returns_some True.intro
  · -- statement_list
    intro p
    rw [statement_list]
    apply returns_ite
    · intro _
      refine returns_bind (ih.statement _) ?_
      intro x hx
      apply returns_map
      intro r hr
      exact plainDecls_assignSibling _ _ hx (ih.statement_list_loop _ _ r hr)
    · intro _; exact returns_some rfl
  · -- statement
    intro p
    rw [statement]
    repeat first
      | exact returns_some rfl
      | exact ih.if_statement _
      | exact ih.while_statement _
      | exact ih.return_statement _
      | exact ih.compound_statement _
      | exact ih.expression_statement _
      | apply returns_ite
      | intro _
  · -- expression_statement
    intro p
    rw [expression_statement]
    apply returns_ite
    · intro _; exact returns_some rfl
    · intro _
      apply returns_ite
      · intro _
        exact returns_bind (ih.expression _) (fun x hx => returns_some hx)
      · intro _; exact returns_some rfl
  · -- if_statement
    intro p
    rw [if_statement]
    refine returns_bind (ih.expression _) ?_
    intro x hx
    refine returns_bind (ih.statement _) ?_
    intro y hy
    refine returns_bind (Q := fun z => plainDecls z.1 = true) ?_ ?_
    · apply returns_ite
      · intro _; exact ih.statement _
      · intro _; exact returns_some rfl
    · intro z hz
      exact returns_some (plainDecls_stmt _ _ _ _ _ _ hx hy hz)
  · -- while_statement
    intro p
    rw [while_statement]
    refine returns_bind (ih.expression _) ?_
    intro x hx
    refine returns_bind (ih.statement _) ?_
    intro y hy
    exact returns_some (plainDecls_stmt _ _ _ _ _ _ hx hy rfl)
  · -- return_statement
    intro p
    rw [return_statement]
    refine returns_bind (Q := fun z => plainDecls z.1 = true) ?_ ?_
    · apply returns_ite
      · intro _; exact ih.expression _
      · intro _; exact returns_some rfl
    · intro x hx
      exact returns_some (plainDecls_stmt _ _ _ _ _ _ hx rfl rfl)
  · -- expression
    intro p
    rw [expression]
    refine returns_bind (Q := fun x => plainDecls x.1 = true) ?_ ?_
    · apply returns_ite
      · intro _
        apply returns_map
        exact ih.identifier_statement _
      · intro _; exact returns_some rfl
    · rintro ⟨lvalue, gotLvalue, q⟩ hl
      apply returns_ite
      · intro _
        cases lvalue with
        | NULL => exact returns_some rfl
        | node a lf c0 c1 c2 sb =>
          apply returns_ite
          · intro _
            refine returns_bind (ih.expression _) ?_
            intro y hy
            exact returns_some (plainDecls_exp _ _ ExpKind.AssignK _ _ rfl hl hy)
          · intro _; exact returns_some rfl
      · intro _; exact ih.simple_expression _ _ hl
  · -- simple_expression
    intro t p ht
    rw [simple_expression]
    refine returns_bind (ih.additive_expression _ _ ht) ?_
    intro x hx
    apply returns_ite
    · intro _
      refine returns_bind (ih.additive_expression _ _ rfl) ?_
      intro y hy
      exact returns_some (plainDecls_exp _ _ ExpKind.OpK _ _ rfl hx hy)
    · intro _; exact returns_some hx
  · -- additive_expression_loop
    intro t p ht
    rw [additive_expression_loop]
    apply returns_ite
    · intro _
      refine returns_bind (ih.term _ _ rfl) ?_
      intro y hy
      exact ih.additive_expression_loop _ _ (plainDecls_exp _ _ ExpKind.OpK _ _ rfl ht hy)
    · intro _; exact returns_some ht
  · -- additive_expression
    intro t p ht
    rw [additive_expression]
    exact returns_bind (ih.term _ _ ht) (fun x hx => ih.additive_expression_loop _ _ hx)
  · -- term_loop
    intro t p ht
    rw [term_loop]
    apply returns_ite
    · intro _
      refine returns_bind (ih.factor _ _ rfl) ?_
      intro y hy
      exact ih.term_loop _ _ (plainDecls_exp _ _ ExpKind.OpK _ _ rfl ht hy)
    · intro _; exact returns_some ht
  · -- term
    intro t p ht
    rw [term]
    exact returns_bind (ih.factor _ _ ht) (fun x hx => ih.term_loop _ _ hx)
  · -- factor
    intro t p ht
    rw [factor]
    apply returns_ite
    · intro _; exact returns_some ht
    · intro _
      apply returns_ite
      · intro _; exact ih.identifier_statement _
      · intro _
        apply returns_ite
        · intro _
          exact returns_bind (ih.expression _) (fun x hx => returns_some hx)
        · intro _
          apply returns_ite
          · intro _
            exact returns_some (plainDecls_exp _ _ ExpKind.ConstK _ _ rfl rfl rfl)
          · intro _; exact returns_some rfl
  · -- identifier_statement
    intro p
    rw [identifier_statement]
    apply returns_ite
    · intro _
      refine returns_bind (ih.args _) ?_
      intro x hx
      exact returns_some (plainDecls_call _ _ _ rfl hx)
    · intro _
      exact returns_some (plainDecls_exp _ _ ExpKind.IdK _ _ rfl rfl rfl)
  · -- args
    intro p
    rw [args]
    apply returns_ite
    · intro _; exact ih.arg_list _
    · intro _; exact returns_some rfl
  · -- arg_list_loop
    intro b p
    rw [arg_list_loop]
    apply returns_ite
    · intro _
      refine returns_bind (ih.expression _) ?_
      intro x hx
      apply returns_ite
      · intro _
        apply returns_map
        intro r hr
        exact plainDecls_assignSibling _ _ hx (ih.arg_list_loop _ _ r hr)
      · intro _; exact ih.arg_list_loop _ _
    · intro _; exact returns_some True.intro
  · -- arg_list
    intro p
    rw [arg_list]
    refine returns_bind (ih.expression _) ?_
    intro x hx
    apply returns_map
    intro r hr
    exact plainDecls_assignSibling _ _ hx (ih.arg_list_loop _ _ r hr)

theorem plainResult (F : Nat) : PlainResult F := by
  induction F with
  | zero => exact plainResult_zero
  | succ F ih => exact plainResult_succ F ih
theorem declaration_plain (F : Nat) (p : ParseState) :
    Returns (fun r => plainDecls r.1 = true) (declaration F p) := by
  unfold declaration
  apply returns_ite
  · intro _
    exact returns_some (by simp [plainDecls, newNode, newFields, isVarDec])
  · intro _
    apply returns_ite
    · intro _
      refine returns_bind (param_list_paramChain F _) ?_
      intro x hx
      refine returns_bind ((plainResult F).compound_statement _) ?_
      intro y hy
      exact returns_some (by
        simp [plainDecls, newNode, newFields, hx, paramChain_plainDecls _ hx, hy])
    · intro _
      exact returns_some rfl

theorem declaration_list_loop_plain (F : Nat) :
    ∀ b p, Returns (fun r => OptAll (fun t => plainDecls t = true) r.1)
      (declaration_list_loop F b p) := by
  induction F with
  | zero => intro b p; rw [declaration_list_loop]; exact returns_none _
  | succ F ih =>
    intro b p
    rw [declaration_list_loop]
    apply returns_ite
    · intro _
      refine returns_bind (declaration_plain F _) ?_
      intro x hx
      apply returns_ite
      · intro _
        apply returns_map
        intro r hr
        exact plainDecls_assignSibling _ _ hx (ih _ _ r hr)
      · intro _; exact ih _ _
    · intro _; exact returns_some True.intro

/-- Every tree that `parse` returns has declarations of the shape that the type checker
relies on: a variable declaration has no children, and the first child of a function
declaration is a chain of variable declarations. -/
theorem parse_plainDecls (F : Nat) (p : ParseState) :
    Returns (fun r => plainDecls r.1 = true) (parse F p) := by
  unfold parse declaration_list
  refine returns_bind (Q := fun x => plainDecls x.1 = true) ?_ ?_
  · refine returns_bind (declaration_plain F _) ?_
    intro x hx
    apply returns_map
    intro r hr
    exact plainDecls_assignSibling _ _ hx (declaration_list_loop_plain F _ _ r hr)
  · intro x hx
    apply returns_ite
    · intro _; exact returns_some hx
    · intro _; exact returns_some hx

/-! ## SYMTAB.C: the hash function -/

theorem hash_foldl_lt (cs : List Char) :
    ∀ temp, temp < MAXTABLESIZE →
      cs.foldl (fun temp c => ((temp <<< SHIFT) + c.toNat) % MAXTABLESIZE) temp
        < MAXTABLESIZE := by
  induction cs with
  | nil => intro temp h; exact h
  | cons c cs ih =>
    intro temp _
    exact ih _ (Nat.mod_lt _ (by decide))

theorem hashTrace_lt (cs : List Char) (h : ∀ c ∈ cs, c.toNat ≤ 127) :
    ∀ temp, temp < MAXTABLESIZE → ∀ v ∈ hashTrace temp cs, v < 2 ^ 31 := by
  induction cs with
  | nil => intro temp _ v hv; simp [hashTrace] at hv
  | cons c cs ih =>
    intro temp ht v hv
    simp only [hashTrace, List.mem_cons] at hv
    rcases hv with rfl | hv
    · have hc := h c (List.mem_cons_self _ _)
      simp only [SHIFT, MAXTABLESIZE, Nat.shiftLeft_eq] at ht ⊢
      omega
    · exact ih (fun c hc => h c (List.mem_cons_of_mem _ hc)) _
        (Nat.mod_lt _ (by decide)) v hv

theorem hash_foldl_last (cs : List Char) :
    ∀ temp,
      cs.foldl (fun temp c => ((temp <<< SHIFT) + c.toNat) % MAXTABLESIZE) temp
        = ((hashTrace temp cs).getLast?.map (fun v => v % MAXTABLESIZE)).getD temp := by
  induction cs with
  | nil => intro temp; rfl
  | cons c cs ih =>
    intro temp
    simp only [List.foldl_cons, hashTrace]
    rw [ih]
    cases hcs : hashTrace (((temp <<< SHIFT) + c.toNat) % MAXTABLESIZE) cs with
    | nil => simp
    | cons v vs =>
      cases hl : (v :: vs).getLast? with
      | none => simp at hl
      | some w => simp [List.getLast?_cons_cons, hl]

theorem hash_foldl_base16 (cs : List Char) :
    ∀ temp acc, temp = acc % MAXTABLESIZE →
      cs.foldl (fun temp c => ((temp <<< SHIFT) + c.toNat) % MAXTABLESIZE) temp
        = cs.foldl (fun acc c => acc * 16 + c.toNat) acc % MAXTABLESIZE := by
  induction cs with
  | nil => intro temp acc h; exact h
  | cons c cs ih =>
    intro temp acc h
    simp only [List.foldl_cons]
    apply ih
    subst h
    simp only [SHIFT, Nat.shiftLeft_eq]
    show (acc % MAXTABLESIZE * 16 + c.toNat) % MAXTABLESIZE
      = (acc * 16 + c.toNat) % MAXTABLESIZE
    rw [Nat.add_mod, Nat.mul_mod, Nat.mod_mod, ← Nat.mul_mod, ← Nat.add_mod]

/-- C30.  For every string whose characters all have codes in 0..127, `hashFunction`
returns a value below 233, an index into the 233-bucket table; every value of
`(temp << 4) + key[i]` that the loop computes is below 2^31, so the `int` arithmetic does
not overflow; the result is the remainder of the last of these values modulo 233, and it
equals the string read as a positional number of base 16, modulo 233. -/
theorem hashFunction_range (key : String) (h : ∀ c ∈ key.data, c.toNat ≤ 127) :
    hashFunction key < 233 ∧
    (∀ v ∈ hashTrace 0 key.data, v < 2 ^ 31) ∧
    hashFunction key
      = ((hashTrace 0 key.data).getLast?.map (fun v => v % MAXTABLESIZE)).getD 0 ∧
    hashFunction key = base16 key.data % 233 :=
  ⟨hash_foldl_lt key.data 0 (by decide),
    hashTrace_lt key.data h 0 (by decide),
    hash_foldl_last key.data 0,
    hash_foldl_base16 key.data 0 0 rfl⟩

/-- Witness of C30: the name `output` hashes to bucket 149; the greatest value that the loop
computes for it is 1936. -/
theorem hashFunction_range_witness :
    (∀ c ∈ "output".data, c.toNat ≤ 127) ∧
    (hashFunction "output" < 233 ∧
      (∀ v ∈ hashTrace 0 "output".data, v < 2 ^ 31) ∧
      hashFunction "output"
        = ((hashTrace 0 "output".data).getLast?.map (fun v => v % MAXTABLESIZE)).getD 0 ∧
      hashFunction "output" = base16 "output".data % 233) ∧
    hashFunction "output" = 149 ∧
    hashTrace 0 "output".data = [111, 1893, 580, 1936, 1269, 1780] :=
  ⟨by decide, hashFunction_range "output" (by decide), by decide, by decide⟩
/-! ## SYMTAB.C: when `endScope` fails -/

theorem bucketAfter_pop (ht : Nat → List HashNode) (e front : HashNode)
    (temp pre : List HashNode) (x : HashNode)
    (hb : ht (hashFunction e.name) = front :: temp) :
    bucketAfter (assign ht (hashFunction e.name) temp) pre x
      = bucketAfter ht (e :: pre) x := by
  unfold bucketAfter popped
  by_cases h : hashFunction x.name = hashFunction e.name
  · rw [h, hb]
    simp [assign, List.countP_cons]
  · have h' : ¬ hashFunction e.name = hashFunction x.name := fun h2 => h h2.symm
    simp [assign, h, h', List.countP_cons]

theorem inconsistent_pop (ht : Nat → List HashNode) (e front : HashNode)
    (temp pre : List HashNode) (x : HashNode)
    (hb : ht (hashFunction e.name) = front :: temp) :
    Inconsistent (assign ht (hashFunction e.name) temp) pre x
      ↔ Inconsistent ht (e :: pre) x := by
  unfold Inconsistent
  rw [bucketAfter_pop ht e front temp pre x hb]

/-- The loop of `endScope`: it fails exactly when it meets an inconsistent entry before the
nearest sentinel; otherwise it stops at the nearest sentinel, or at the end of the list,
and has deleted from every bucket as many entries as it has popped. -/
theorem endScopeLoop_spec (l : List HashNode) :
    ∀ ht : Nat → List HashNode,
      (endScopeLoop ht l = none ↔
        ∃ pre e post, currentScope l = pre ++ e :: post ∧ Inconsistent ht pre e) ∧
      ∀ ht' l', endScopeLoop ht l = some (ht', l') →
        l' = l.drop (currentScope l).length ∧
        ∀ b, ht' b = (ht b).drop (popped (currentScope l) b) := by
  induction l with
  | nil =>
    intro ht
    refine ⟨⟨fun h => by simp [endScopeLoop] at h, ?_⟩, ?_⟩
    · rintro ⟨pre, e, post, h, _⟩
      simp [currentScope] at h
    · intro ht' l' h
      simp only [endScopeLoop, Option.some.injEq, Prod.mk.injEq] at h
      obtain ⟨rfl, rfl⟩ := h
      simp [currentScope, popped]
  | cons e rest ih =>
    intro ht
    by_cases hs : HIGHWATERMARK = e.name
    · have hcur : currentScope (e :: rest) = [] := by
        simp [currentScope, hs.symm]
      refine ⟨⟨fun h => by simp [endScopeLoop, hs] at h, ?_⟩, ?_⟩
      · rintro ⟨pre, x, post, h, _⟩
        rw [hcur] at h
        simp at h
      · intro ht' l' h
        simp only [endScopeLoop, hs, if_true, Option.some.injEq, Prod.mk.injEq] at h
        obtain ⟨rfl, rfl⟩ := h
        simp [hcur, popped]
    · have hs' : e.name ≠ HIGHWATERMARK := fun h => hs h.symm
      have hcur : currentScope (e :: rest) = e :: currentScope rest := by
        simp [currentScope, hs']
      cases hb : ht (hashFunction e.name) with
      | nil =>
        have hnone : endScopeLoop ht (e :: rest) = none := by
          simp [endScopeLoop, hs, hb]
        refine ⟨⟨fun _ => ⟨[], e, currentScope rest, hcur, Or.inl ?_⟩, fun _ => hnone⟩, ?_⟩
        · simp [bucketAfter, popped, hb]
        · intro ht' l' h
          rw [hnone] at h
          cases h
      | cons front temp =>
        by_cases hn : e.name = front.name
        · have hstep : endScopeLoop ht (e :: rest)
              = endScopeLoop (assign ht (hashFunction e.name) temp) rest := by
            rw [endScopeLoop]
            simp only [hs, if_false]
            rw [hb]
            simp only [if_pos hn]
          obtain ⟨ih1, ih2⟩ := ih (assign ht (hashFunction e.name) temp)
          have hself : ¬ Inconsistent ht [] e := by
            rintro (h | ⟨f, r, h, hne⟩)
            · simp [bucketAfter, popped, hb] at h
            · simp only [bucketAfter, popped, List.countP_nil, List.drop_zero, hb,
                List.cons.injEq] at h
              exact hne (h.1 ▸ hn.symm)
          refine ⟨?_, ?_⟩
          · rw [hstep, ih1, hcur]
            constructor
            · rintro ⟨pre, x, post, h, hx⟩
              exact ⟨e :: pre, x, post, by rw [h]; rfl,
                (inconsistent_pop ht e front temp pre x hb).1 hx⟩
            · rintro ⟨pre, x, post, h, hx⟩
              cases pre with
              | nil =>
                simp only [List.nil_append, List.cons.injEq] at h
                obtain ⟨rfl, _⟩ := h
                exact absurd hx hself
              | cons y pre =>
                simp only [List.cons_append, List.cons.injEq] at h
                obtain ⟨rfl, h⟩ := h
                exact ⟨pre, x, post, h,
                  (inconsistent_pop ht e front temp pre x hb).2 hx⟩
          · intro ht' l' h
            rw [hstep] at h
            obtain ⟨h1, h2⟩ := ih2 ht' l' h
            refine ⟨by rw [h1, hcur]; rfl, ?_⟩
            intro b
            rw [h2 b, hcur]
            by_cases hbe : b = hashFunction e.name
            · subst hbe
              rw [hb]
              simp [assign, popped, List.countP_cons]
            · have : ¬ hashFunction e.name = b := fun h => hbe h.symm
              simp [assign, hbe, popped, List.countP_cons, this]
        · have hnone : endScopeLoop ht (e :: rest) = none := by
            simp [endScopeLoop, hs, hb, hn]
          refine ⟨⟨fun _ => ⟨[], e, currentScope rest, hcur,
            Or.inr ⟨front, temp, ?_, fun h => hn h.symm⟩⟩, fun _ => hnone⟩, ?_⟩
          · simp [bucketAfter, popped, hb]
          · intro ht' l' h
            rw [hnone] at h
            cases h

theorem drop_currentScope (l : List HashNode) :
    (l.drop (currentScope l).length = [] ∧ ∀ e ∈ l, e.name ≠ HIGHWATERMARK) ∨
    (∃ e temp, l.drop (currentScope l).length = e :: temp ∧ e.name = HIGHWATERMARK ∧
      temp = l.drop ((currentScope l).length + 1) ∧ e ∈ l) := by
  induction l with
  | nil => exact Or.inl ⟨rfl, fun e he => by simp at he⟩
  | cons a l ih =>
    by_cases ha : a.name = HIGHWATERMARK
    · refine Or.inr ⟨a, l, ?_, ha, ?_, List.mem_cons_self _ _⟩ <;>
        simp [currentScope, ha]
    · have hcur : currentScope (a :: l) = a :: currentScope l := by
        simp [currentScope, ha]
      rcases ih with ⟨h1, h2⟩ | ⟨e, temp, h1, h2, h3, h4⟩
      · refine Or.inl ⟨by rw [hcur]; exact h1, ?_⟩
        intro e he
        rcases List.mem_cons.1 he with rfl | he
        · exact ha
        · exact h2 e he
      · exact Or.inr ⟨e, temp, by rw [hcur]; exact h1, h2, by rw [hcur]; exact h3,
          List.mem_cons_of_mem _ h4⟩

/-- C24.  `endScope` fails if and only if, among the scope-list entries before the nearest
sentinel, it meets one whose hash bucket, after the earlier entries have been popped, is
empty or has a front entry of another name, or the scope list holds no sentinel.  In every
other case it succeeds: it has deleted from every bucket as many entries as it has popped,
and has removed the popped entries and the sentinel from the scope list. -/
theorem endScope_fails_iff (s : State) :
    (endScope s = none ↔
      (∃ pre e post, currentScope s.tempList = pre ++ e :: post ∧
        Inconsistent s.hashtable pre e) ∨
      (∀ e ∈ s.tempList, e.name ≠ HIGHWATERMARK)) ∧
    (∀ s', endScope s = some s' →
      s' = { s with
        hashtable := fun b => (s.hashtable b).drop (popped (currentScope s.tempList) b),
        tempList := s.tempList.drop ((currentScope s.tempList).length + 1) }) := by
  obtain ⟨hnone, hsome⟩ := endScopeLoop_spec s.tempList s.hashtable
  cases hl : endScopeLoop s.hashtable s.tempList with
  | none =>
    have he : endScope s = none := by simp [endScope, hl]
    exact ⟨⟨fun _ => Or.inl (hnone.1 hl), fun _ => he⟩,
      fun s' h => by rw [he] at h; cases h⟩
  | some r =>
    obtain ⟨ht', l'⟩ := r
    obtain ⟨h1, h2⟩ := hsome ht' l' hl
    have hno : ¬ ∃ pre e post, currentScope s.tempList = pre ++ e :: post ∧
        Inconsistent s.hashtable pre e := fun h => by
      rw [hnone.2 h] at hl
      cases hl
    have hht : ht' = fun b =>
        (s.hashtable b).drop (popped (currentScope s.tempList) b) := funext h2
    rcases drop_currentScope s.tempList with ⟨hd, hall⟩ | ⟨e, temp, hd, hname, htemp, hmem⟩
    · have he : endScope s = none := by
        simp [endScope, hl, h1, hd]
      exact ⟨⟨fun _ => Or.inr hall, fun _ => he⟩, fun s' h => by rw [he] at h; cases h⟩
    · have he : endScope s = some { s with hashtable := ht', tempList := temp } := by
        simp [endScope, hl, h1, hd, hname]
      refine ⟨⟨fun h => ?_, ?_⟩, ?_⟩
      · rw [he] at h
        exact absurd h (by simp)
      · rintro (h | h)
        · exact absurd h hno
        · exact absurd hname (h e hmem)
      · intro s' h
        rw [he] at h
        rw [← Option.some.inj h, hht, htemp]

/-- Witness of C24: `endScope` fails on a state whose scope list is empty; it fails on a
state in which the front entry of the bucket of `x` is named `y`; and after `newScope` and
the insertion of `x` it succeeds and gives the state before them back. -/
theorem endScope_fails_iff_witness :
    endScope (State.start 1 1) = none ∧
    (∀ e ∈ (State.start 1 1).tempList, e.name ≠ HIGHWATERMARK) ∧
    endScope mismatchState = none ∧
    Inconsistent mismatchState.hashtable [] (allocateSymbolNode "x" TreeNode.NULL 1) ∧
    (endScope (insertSymbol "x" TreeNode.NULL 1 (newScope (State.start 1 1)))).map
        (fun s => (s.tempList, s.hashtable (hashFunction "x")))
      = some ([], []) :=
  ⟨((endScope_fails_iff (State.start 1 1)).1).2 (Or.inr (by decide)),
    by decide,
    ((endScope_fails_iff mismatchState).1).2
      (Or.inl ⟨[], allocateSymbolNode "x" TreeNode.NULL 1, [], by decide,
        Or.inr ⟨allocateSymbolNode "y" TreeNode.NULL 1, [], by decide, by decide⟩⟩),
    Or.inr ⟨allocateSymbolNode "y" TreeNode.NULL 1, [], by decide, by decide⟩,
    by decide⟩

/-- C29.  The type checker does not require a callee to be a function.  Take a Call node
with no argument whose name is found in the symbol table with a scalar variable declaration
(a declaration node without children).  The resolution step of the node stores that
declaration as the resolved declaration of the call and reports nothing.  Then, in every
state in which the call is so resolved, `checkFormalAgainstActualParms` compares the two
empty lists and answers TRUE, and `checkNode` returns a state that differs only in the
inferred type of the call, which becomes the `functionReturnType` field of the variable
declaration: nothing is appended to the listing and the error flag is unchanged. -/
theorem call_of_scalar_unreported (addr : Nat) (f : Fields) (c1 c2 sib : TreeNode)
    (s : State) (e : HashNode) (da : Nat) (fd : Fields) (d1 d2 ds : TreeNode)
    (hk : f.kind = Kind.StmtK StmtKind.CallK)
    (he : lookupSymbol f.name s = some e)
    (hd : e.declaration = TreeNode.node da fd TreeNode.NULL d1 d2 ds)
    (_hs : fd.kind = Kind.DecK DecKind.ScalarDecK) :
    (enterNode (TreeNode.node addr f TreeNode.NULL c1 c2 sib) s
        = { s with declaration := assign s.declaration addr e.declaration }) ∧
    ∀ s2 : State, s2.declaration addr = e.declaration →
      checkFormalAgainstActualParms (s2.declaration addr)
          (TreeNode.node addr f TreeNode.NULL c1 c2 sib) s2 = some true ∧
      checkNode (TreeNode.node addr f TreeNode.NULL c1 c2 sib) s2
        = some { s2 with
            expressionType := assign s2.expressionType addr fd.functionReturnType } := by
  refine ⟨?_, ?_⟩
  · rw [enterNode_reference addr f _ c1 c2 sib s (Or.inr hk)]
    simp [he]
  · intro s2 h2
    rw [hd] at h2
    refine ⟨?_, ?_⟩
    · rw [h2]
      simp [checkFormalAgainstActualParms, checkParmsFrom]
    · rw [checkNode_call s2 addr f TreeNode.NULL c1 c2 sib da fd TreeNode.NULL d1 d2 ds hk h2]
      simp [checkParmsFrom]

/-- The program `int x; void main(void){ x(); }`: at the call the name `x` is found with
the scalar declaration; after both passes the call is bound to that declaration, the
listing is empty and the error flag is clear. -/
theorem call_of_scalar_unreported_witness :
    lookupSymbol "x" (insertSymbol "x" scalarCallProgram 1 (State.start 5 1))
      = some (allocateSymbolNode "x" scalarCallProgram 1) ∧
    (enterNode scalarCall (insertSymbol "x" scalarCallProgram 1 (State.start 5 1))
        = { insertSymbol "x" scalarCallProgram 1 (State.start 5 1) with
            declaration := assign (insertSymbol "x" scalarCallProgram 1
              (State.start 5 1)).declaration 4 scalarCallProgram } ∧
      ∀ s2 : State, s2.declaration 4 = scalarCallProgram →
        checkFormalAgainstActualParms (s2.declaration 4) scalarCall s2 = some true ∧
        checkNode scalarCall s2
          = some { s2 with expressionType := assign s2.expressionType 4 ExpType.Void }) ∧
    (analyze scalarCallProgram (State.start 5 1)).map
        (fun s => (s.declaration 4, s.listing, s.Error))
      = some (scalarCallProgram, [], false) :=
  ⟨by decide,
   call_of_scalar_unreported 4 _ TreeNode.NULL TreeNode.NULL TreeNode.NULL
     (insertSymbol "x" scalarCallProgram 1 (State.start 5 1))
     (allocateSymbolNode "x" scalarCallProgram 1) 1 _ TreeNode.NULL TreeNode.NULL _
     rfl (by decide) rfl rfl,
   by decide⟩

/-! ## The parser at the end of the input -/

/-- At the end of the input `statement` takes its default case: it reports the token and
requests the next one, which is `ENDOFFILE` again. -/
theorem statement_at_end (F : Nat) (p : ParseState) (ht : p.token = TokenType.ENDOFFILE)
    (hs : p.source = []) :
    ∃ q, statement (F + 1) p = some (TreeNode.NULL, q) ∧ q.token = TokenType.ENDOFFILE ∧
      q.source = [] ∧ q.listing = p.listing ++ [unexpectedHere p] := by
  refine ⟨getToken (syntaxError (unexpectedHere p) p), ?_, ?_, ?_, ?_⟩
  · rw [statement]
    simp [ht, unexpectedHere]
  · simp [getToken, syntaxError, hs]
  · simp [getToken, syntaxError, hs]
  · simp [getToken, syntaxError, hs]

/-- At the end of the input the loop of `statement_list` is not left, whatever the bound on
its rounds. -/
theorem statement_list_loop_at_end (F : Nat) :
    ∀ (b : Bool) (p : ParseState), p.token = TokenType.ENDOFFILE → p.source = [] →
      statement_list_loop F b p = none := by
  induction F with
  | zero => intro b p _ _; rw [statement_list_loop]
  | succ F ih =>
    intro b p ht hs
    rw [statement_list_loop]
    simp only [ht, ne_eq, reduceCtorEq, not_false_eq_true, if_true]
    cases F with
    | zero => rw [statement]; rfl
    | succ F =>
      obtain ⟨q, hq, hqt, hqs, _⟩ := statement_at_end F p ht hs
      rw [hq]
      simp only [Option.some_bind, ne_eq, not_true_eq_false, and_false, if_false]
      exact ih b q hqt hqs

theorem statement_list_at_end (F : Nat) (p : ParseState) (ht : p.token = TokenType.ENDOFFILE)
    (hs : p.source = []) : statement_list F p = none := by
  cases F with
  | zero => rw [statement_list]
  | succ F =>
    rw [statement_list]
    simp only [ht, ne_eq, reduceCtorEq, not_false_eq_true, if_true]
    cases F with
    | zero => rw [statement]; rfl
    | succ F =>
      obtain ⟨q, hq, hqt, hqs, _⟩ := statement_at_end F p ht hs
      rw [hq]
      simp only [Option.some_bind]
      rw [statement_list_loop_at_end (F + 1) _ q hqt hqs]
      rfl

/-- A block that is opened by the last token of the input: `compound_statement` does not
return, whatever the bound. -/
theorem compound_statement_at_end (F : Nat) (p : ParseState)
    (ht : p.token = TokenType.LBRACE) (hs : p.source = []) :
    compound_statement F p = none := by
  cases F with
  | zero => rw [compound_statement]
  | succ F =>
    rw [compound_statement]
    have hm : matchToken TokenType.LBRACE p
        = { p with token := TokenType.ENDOFFILE, tokenString := "" } := by
      simp [matchToken, ht, getToken, hs]
    simp only [hm, newNode, ne_eq, reduceCtorEq, not_false_eq_true, if_true, isAType]
    simp only [reduceCtorEq, or_self, decide_False, Bool.false_eq_true, if_false,
      Option.some_bind, if_true, not_false_eq_true]
    rw [statement_list_at_end F
      { token := TokenType.ENDOFFILE, tokenString := "", lineno := p.lineno,
        source := p.source, listing := p.listing, brk := p.brk + 1 } rfl hs]
    rfl

/-- C21, evaluated on the code.  On the six tokens `int f ( void ) {` followed by the end
of the input, `parse` returns no tree: whatever bound is put on the depth of its calls and
on the rounds of its loops, the bound is exceeded.  The loop `while (token != RBRACE)` of
`statement_list` has no test for the end of the file; at the end of the file `statement`
reports *unexpected token*, requests the next token, which is `ENDOFFILE` again, and the
loop goes round for ever.  With the closing brace appended, `parse` returns within the
bound 1. -/
theorem parse_unclosed_block_diverges :
    (∀ fuel, parse fuel (ParseState.start unclosedBlock 1) = none) ∧
    (parse 1 (ParseState.start (unclosedBlock ++ [tok TokenType.RBRACE "\x7d"]) 1)).isSome
      = true := by
  refine ⟨?_, by decide⟩
  intro fuel
  have hc := compound_statement_at_end fuel
    { token := TokenType.LBRACE, tokenString := "\x7b", lineno := 1, source := [],
      listing := [], brk := 2 } rfl rfl
  simp only [parse, declaration_list, declaration, unclosedBlock, tok, ParseState.start,
    getToken, matchType, matchToken, newNode, param_list, if_true, reduceCtorEq, if_false,
    Option.some_bind]
  rw [hc]
  rfl

/-- C22, evaluated on the code.  For the tokens of `int x; void main(void){ if ( ) x = 1; }`
the parser returns a tree whose If node has a null condition (and two syntax errors); the
resolution pass accepts this tree without a diagnostic; but the type checker fails on it in
every state, and so do both passes together: `checkNode` reads
`child[0]->expressionType` of an If or While node without a test for null, and in the same
way the operands of an operator with a known operator token and of an Assignment node. -/
theorem typeCheck_null_condition_fails :
    (parse 13 (ParseState.start missingCondition 1)).map
        (fun r => (r.1, r.2.listing.length))
      = some (missingConditionProgram, 2) ∧
    (buildSymTab missingConditionProgram (State.start 8 1)).map
        (fun s => (s.listing, s.Error)) = some ([], false) ∧
    (∀ s, typeCheck missingConditionProgram s = none) ∧
    analyze missingConditionProgram (State.start 8 1) = none ∧
    (∀ (s : State) (addr : Nat) (f : Fields) (c1 c2 sib : TreeNode),
      f.kind = Kind.StmtK StmtKind.IfK ∨ f.kind = Kind.StmtK StmtKind.WhileK ∨
        f.kind = Kind.ExpK ExpKind.AssignK ∨
        (f.kind = Kind.ExpK ExpKind.OpK ∧ f.op ∈ knownOperators) →
      checkNode (TreeNode.node addr f TreeNode.NULL c1 c2 sib) s = none) := by
  have h3 : ∀ s, typeCheck missingConditionProgram s = none := by
    intro s
    simp [typeCheck, traverse, nullProc, checkNode, missingConditionProgram,
      missingConditionIf, scalarDec, funcDec, compound, identifier, constant, newFields,
      bothInteger, readExpressionType]
  refine ⟨by decide, by decide, h3, ?_, ?_⟩
  · cases hb : buildSymTab missingConditionProgram (State.start 8 1) with
    | none => simp [analyze, hb]
    | some s1 => simp [analyze, hb, h3]
  · intro s addr f c1 c2 sib h
    rcases h with h | h | h | ⟨h, ho⟩
    · simp [checkNode, h, readExpressionType]
    · simp [checkNode, h, readExpressionType]
    · simp [checkNode, h, bothInteger, readExpressionType]
    · simp only [knownOperators, List.mem_cons, List.mem_singleton, List.not_mem_nil,
        or_false] at ho
      rcases ho with ho | ho | ho | ho | ho | ho | ho | ho | ho | ho <;>
      simp [checkNode, h, ho, bothInteger, readExpressionType]

/-! ## The parser: statements that yield no node -/

theorem statement_semi (F : Nat) (p : ParseState) (h : p.token = TokenType.SEMI) :
    statement (F + 2) p = some (TreeNode.NULL, getToken p) := by
  rw [statement]
  simp only [h, reduceCtorEq, if_false, true_or, or_true, if_true]
  rw [expression_statement]
  simp [h, matchToken]

theorem statement_empty_block (F : Nat) (p : ParseState) (h : p.token = TokenType.LBRACE)
    (hn : (getToken p).token = TokenType.RBRACE) :
    statement (F + 2) p = some (TreeNode.NULL, getToken (getToken p)) := by
  rw [statement]
  simp only [h, reduceCtorEq, if_false, if_true]
  rw [compound_statement]
  simp [h, hn, matchToken]

/-- The loop of `statement_list` on parsed statements: it links the results that are nodes
when `ptr` is non-null, and links nothing when `ptr` is null. -/
theorem statement_list_loop_run (G : Nat) (ts : List TreeNode) :
    ∀ (p q : ParseState) (F : Nat) (b : Bool), StmtsRun G ts p q → G + ts.length + 1 ≤ F →
      statement_list_loop F b p = some (if b then chainOpt (nonNull ts) else none, q) := by
  induction ts with
  | nil =>
    intro p q F b h hF
    obtain ⟨hp, rfl⟩ := h
    obtain ⟨F, rfl⟩ : ∃ F', F = F' + 1 := ⟨F - 1, by omega⟩
    rw [statement_list_loop_stop F b q hp]
    cases b <;> rfl
  | cons t ts ih =>
    intro p q F b h hF
    obtain ⟨hp, p1, he, hrest⟩ := h
    obtain ⟨F, rfl⟩ : ∃ F', F = F' + 1 := ⟨F - 1, by omega⟩
    have hF' : G + ts.length + 1 ≤ F := by simp only [List.length_cons] at hF; omega
    rw [statement_list_loop]
    simp only [hp, ne_eq, not_false_eq_true, if_true]
    rw [statement_fuel he (by omega : G ≤ F)]
    simp only [Option.some_bind]
    by_cases hb : b = true ∧ t ≠ TreeNode.NULL
    · obtain ⟨rfl, ht⟩ := hb
      simp only [ht, ne_eq, not_false_eq_true, and_self, if_true]
      have hnn : nonNull (t :: ts) = t :: nonNull ts := by
        simp [nonNull, List.filter_cons, ht]
      rw [ih p1 q F true hrest hF', hnn]
      simp only [if_true, Option.map_some', assignSibling_chainOpt]
      rfl
    · rw [if_neg (by simpa using hb)]
      rw [ih p1 q F b hrest hF']
      cases b with
      | false => rfl
      | true =>
        have ht : t = TreeNode.NULL := by simpa using hb
        simp [nonNull, List.filter_cons, ht]

/-- C28.  `statement_list` loses the statements after a null first statement.  Let the
first statement of a block be parsed to the result `t` and the following statements, up to
the closing brace, to the results `ts` (a result is null when the statement yields no node).
If `t` is null, `statement_list` (given fuel for their number) returns the null chain, in the
parser state at the closing brace: the following statements are parsed and consumed, and
none of them is in the tree.  If `t` is a node, `statement_list` returns the chain of `t` and
of those of the following results that are nodes, in textual order: a null result in a later
position is skipped.  An empty statement `;` and an empty block yield the null result. -/
theorem statement_list_null_first (G : Nat) (t : TreeNode) (ts : List TreeNode)
    (p p1 q : ParseState) (F : Nat) (hp : p.token ≠ TokenType.RBRACE)
    (h1 : statement G p = some (t, p1)) (hr : StmtsRun G ts p1 q)
    (hF : G + ts.length + 1 ≤ F) :
    (t = TreeNode.NULL → statement_list (F + 1) p = some (TreeNode.NULL, q)) ∧
    (t ≠ TreeNode.NULL → statement_list (F + 1) p = some (chainOf (t :: nonNull ts), q)) ∧
    (∀ (F : Nat) (p : ParseState), p.token = TokenType.SEMI →
      statement (F + 2) p = some (TreeNode.NULL, getToken p)) ∧
    (∀ (F : Nat) (p : ParseState), p.token = TokenType.LBRACE →
      (getToken p).token = TokenType.RBRACE →
      statement (F + 2) p = some (TreeNode.NULL, getToken (getToken p))) := by
  have hs : statement_list (F + 1) p =
      ((statement_list_loop F (decide (t ≠ TreeNode.NULL)) p1).map fun r' =>
          (assignSibling t r'.1, r'.2)) := by
    rw [statement_list_unfold F p hp, statement_fuel h1 (by omega : G ≤ F)]
    rfl
  refine ⟨?_, ?_, statement_semi, statement_empty_block⟩
  · intro ht
    rw [hs, statement_list_loop_run G ts p1 q F _ hr hF]
    simp [ht, assignSibling]
  · intro ht
    rw [hs, statement_list_loop_run G ts p1 q F _ hr hF]
    simp [ht, assignSibling_chainOpt]

/-- Witness of C28: in `; return 1 ; }` the first statement is empty and the return statement
is lost; in `return 1 ; ; }` the empty statement is skipped; and the tree of
`int f(void){ ; return 1; }` has a body without statements. -/
theorem statement_list_null_first_witness :
    (statement_list 10 (upcomingState emptyFirst)
        = some (TreeNode.NULL, lastTokenState (tok TokenType.RBRACE "\x7d") 3)) ∧
    (statement_list 10 (upcomingState emptySecond)
        = some (returnStmt 1 (constant 2 1 TreeNode.NULL) TreeNode.NULL,
            lastTokenState (tok TokenType.RBRACE "\x7d") 3)) ∧
    (parse 10 (ParseState.start emptyFirstProgram 1)).map Prod.fst
      = some (funcDec 1 ExpType.Integer "f" TreeNode.NULL
          (compound 2 TreeNode.NULL TreeNode.NULL TreeNode.NULL) TreeNode.NULL) :=
  ⟨(statement_list_null_first 7 TreeNode.NULL
      [returnStmt 1 (constant 2 1 TreeNode.NULL) TreeNode.NULL]
      (upcomingState emptyFirst) (getToken (upcomingState emptyFirst))
      (lastTokenState (tok TokenType.RBRACE "\x7d") 3) 9 (by decide) (by decide)
      ⟨by decide, lastTokenState (tok TokenType.RBRACE "\x7d") 3, by decide, by decide, rfl⟩
      (by decide)).1 rfl,
   (statement_list_null_first 7 (returnStmt 1 (constant 2 1 TreeNode.NULL) TreeNode.NULL)
      [TreeNode.NULL] (upcomingState emptySecond)
      { upcomingState [tok TokenType.SEMI ";", tok TokenType.RBRACE "\x7d"] with brk := 3 }
      (lastTokenState (tok TokenType.RBRACE "\x7d") 3) 9 (by decide) (by decide)
      ⟨by decide, lastTokenState (tok TokenType.RBRACE "\x7d") 3, by decide, by decide, rfl⟩
      (by decide)).2.1 (by decide),
   by decide⟩

/-! ## The parser: the primary that is passed down -/

theorem identifier_statement_node (F : Nat) (p : ParseState) (t : TreeNode) (p1 : ParseState)
    (h : identifier_statement F p = some (t, p1)) : t ≠ TreeNode.NULL := by
  cases F with
  | zero => rw [identifier_statement] at h; exact absurd h (by simp)
  | succ F =>
    rw [identifier_statement] at h
    simp only [newNode] at h
    split at h
    · cases ha : args F (matchToken TokenType.LPAREN (matchToken TokenType.ID p)) with
      | none => rw [ha] at h; exact absurd h (by simp)
      | some r =>
        rw [ha] at h
        simp only [Option.some_bind, Option.some.injEq, Prod.mk.injEq] at h
        rw [← h.1]
        simp
    · simp only [Option.some.injEq, Prod.mk.injEq] at h
      rw [← h.1]
      simp

theorem factor_passdown (F : Nat) (t : TreeNode) (p : ParseState) (h : t ≠ TreeNode.NULL) :
    factor (F + 1) t p = some (t, p) := by
  rw [factor]
  simp [h]

theorem factor_null_id (F : Nat) (p : ParseState) (h : p.token = TokenType.ID) :
    factor (F + 1) TreeNode.NULL p = identifier_statement F p := by
  rw [factor]
  simp [h]

theorem identifier_statement_fuel {F G : Nat} {p : ParseState} {r : TreeNode × ParseState}
    (h : identifier_statement F p = some r) (hle : F ≤ G) :
    identifier_statement G p = some r := by
  obtain ⟨k, rfl⟩ := Nat.exists_eq_add_of_le hle
  exact below_add identifier_statement (fun F x => (fuelMono F).identifier_statement x)
    F k p r h

theorem simple_expression_fuel {F G : Nat} {t : TreeNode} {p : ParseState}
    {r : TreeNode × ParseState} (h : simple_expression F t p = some r) (hle : F ≤ G) :
    simple_expression G t p = some r := by
  obtain ⟨k, rfl⟩ := Nat.exists_eq_add_of_le hle
  exact below_add (fun F (x : TreeNode × ParseState) => simple_expression F x.1 x.2)
    (fun F x => (fuelMono F).simple_expression x.1 x.2) F k (t, p) r h

/-- When `factor` finds the primary `t` at `p` and leaves the state `p1`,
`simple_expression` started at `p` without a primary does what it does when started at `p1`
with the primary `t` passed down. -/
theorem simple_expression_passdown (F : Nat) (p p1 : ParseState) (t : TreeNode)
    (h : factor (F + 1) TreeNode.NULL p = some (t, p1)) (ht : t ≠ TreeNode.NULL) :
    simple_expression (F + 4) TreeNode.NULL p = simple_expression (F + 4) t p1 := by
  rw [simple_expression_unfold, simple_expression_unfold, additive_unfold, additive_unfold,
    term_unfold, term_unfold, h, factor_passdown F t p1 ht]

/-- C26.  The pass-down of the primary that `expression` has already parsed is equivalent
to parsing from scratch.  Let the lookahead be an identifier, and let the identifier-or-call
primary that `identifier_statement` parses there never be followed by `=`.  Then
`expression` and `simple_expression(NULL)` started in the same state return the same: every
result (tree and parser state) of `simple_expression(NULL)` with fuel `F` is the result of
`expression` with fuel `F + 1`, every result of `expression` with fuel `F + 1` is the result
of `simple_expression(NULL)` with fuel `F + 4`, and so the one returns a result with enough
fuel if and only if the other one returns the same result with enough fuel. -/
theorem expression_passdown (p : ParseState) (hid : p.token = TokenType.ID)
    (hne : ∀ K t p1, identifier_statement K p = some (t, p1) → p1.token ≠ TokenType.ASSIGN) :
    (∀ F r, simple_expression F TreeNode.NULL p = some r → expression (F + 1) p = some r) ∧
    (∀ F r, expression (F + 1) p = some r →
      simple_expression (F + 4) TreeNode.NULL p = some r) ∧
    (∀ r, (∃ F, expression F p = some r) ↔
      (∃ F, simple_expression F TreeNode.NULL p = some r)) := by
  have ha : ∀ F r, simple_expression F TreeNode.NULL p = some r →
      expression (F + 1) p = some r := by
    intro F r h
    rcases F with _ | _ | _ | _ | F
    · rw [simple_expression] at h; exact absurd h (by simp)
    · rw [simple_expression_unfold, additive_expression] at h; exact absurd h (by simp)
    · rw [simple_expression_unfold, additive_unfold, term] at h; exact absurd h (by simp)
    · rw [simple_expression_unfold, additive_unfold, term_unfold, factor] at h
      exact absurd h (by simp)
    · cases hi : identifier_statement F p with
      | none =>
        rw [simple_expression_unfold, additive_unfold, term_unfold, factor_null_id F p hid,
          hi] at h
        exact absurd h (by simp)
      | some tp =>
        obtain ⟨t, p1⟩ := tp
        have ht := identifier_statement_node F p t p1 hi
        have hf : factor (F + 1) TreeNode.NULL p = some (t, p1) := by
          rw [factor_null_id F p hid, hi]
        rw [simple_expression_passdown F p p1 t hf ht] at h
        rw [expression_unfold_id _ p hid,
          identifier_statement_fuel hi (by omega : F ≤ F + 3 + 1)]
        simp only [Option.some_bind, hne F t p1 hi, if_false]
        exact h
  have hb : ∀ F r, expression (F + 1) p = some r →
      simple_expression (F + 4) TreeNode.NULL p = some r := by
    intro F r h
    rw [expression_unfold_id F p hid] at h
    cases hi : identifier_statement F p with
    | none => rw [hi] at h; exact absurd h (by simp)
    | some tp =>
      obtain ⟨t, p1⟩ := tp
      have ht := identifier_statement_node F p t p1 hi
      have hf : factor (F + 1) TreeNode.NULL p = some (t, p1) := by
        rw [factor_null_id F p hid, hi]
      rw [hi] at h
      simp only [Option.some_bind, hne F t p1 hi, if_false] at h
      rw [simple_expression_passdown F p p1 t hf ht]
      exact simple_expression_fuel h (by omega)
  refine ⟨ha, hb, fun r => ⟨?_, ?_⟩⟩
  · rintro ⟨F, h⟩
    cases F with
    | zero => rw [expression] at h; exact absurd h (by simp)
    | succ F => exact ⟨F + 4, hb F r h⟩
  · rintro ⟨F, h⟩
    exact ⟨F + 1, ha F r h⟩

/-- Witness of C26: on `a + 1 ;` the primary `a` is followed by `+`, and both procedures
return the tree of `a + 1` with the lookahead at `;`. -/
theorem expression_passdown_witness :
    (upcomingState sumStatement).token = TokenType.ID ∧
    expression 6 (upcomingState sumStatement)
      = some (TreeNode.node 2 (opFields TokenType.PLUS) (identifier 1 "a" TreeNode.NULL)
          (constant 3 1 TreeNode.NULL) TreeNode.NULL TreeNode.NULL,
          lastTokenState (tok TokenType.SEMI ";") 4) ∧
    simple_expression 5 TreeNode.NULL (upcomingState sumStatement)
      = some (TreeNode.node 2 (opFields TokenType.PLUS) (identifier 1 "a" TreeNode.NULL)
          (constant 3 1 TreeNode.NULL) TreeNode.NULL TreeNode.NULL,
          lastTokenState (tok TokenType.SEMI ";") 4) :=
  ⟨by decide,
   (expression_passdown (upcomingState sumStatement) (by decide)
      (fun K t p1 h => by
        cases K with
        | zero => rw [identifier_statement] at h; exact absurd h (by simp)
        | succ K =>
          rw [identifier_statement_id K _ (by decide) (by decide)] at h
          rw [← (Prod.mk.inj (Option.some.inj h)).2]
          decide)).1 5 _ (by decide),
   by decide⟩

/-! ## Resolution: the scope of the parameters and the scope of the body -/

/-- A declaration in a scope that has just been opened is never a duplicate. -/
theorem insertSymbol_newScope (name : String) (d : TreeNode) (l : Int) (s : State) :
    insertSymbol name d l (newScope s) =
      { s with
        hashtable := assign s.hashtable (hashFunction name)
          (allocateSymbolNode name d l :: s.hashtable (hashFunction name)),
        tempList := allocateSymbolNode name d l :: sentinel :: s.tempList } := by
  rw [insertSymbol_fresh _ _ _ _ (by
    simp [symbolAlreadyDeclared, newScope, symbolAlreadyDeclaredFrom, allocateSymbolNode])]
  rfl

theorem startBuildSymbolTable_unfold (t : TreeNode) (addr : Nat) (f : Fields)
    (c0 c1 c2 sib : TreeNode) (ht : t = TreeNode.node addr f c0 c1 c2 sib) (s : State) :
    startBuildSymbolTable t s =
      (startBuildSymbolTable c0 (enterNode t s)).bind fun s =>
      (startBuildSymbolTable c1 s).bind fun s =>
      (startBuildSymbolTable c2 s).bind fun s =>
      (leaveNode t s).bind fun s => startBuildSymbolTable sib s := by
  subst ht
  rw [startBuildSymbolTable]

theorem leaveNode_plain (t : TreeNode) (addr : Nat) (f : Fields) (c0 c1 c2 sib : TreeNode)
    (ht : t = TreeNode.node addr f c0 c1 c2 sib) (hk : opensScope f.kind = false) (s : State) :
    leaveNode t s = some s := by
  subst ht
  have : ¬ (f.kind = Kind.DecK DecKind.FuncDecK ∨ f.kind = Kind.StmtK StmtKind.CompoundK) := by
    simpa [opensScope] using hk
  simp [leaveNode, this]

theorem leaveNode_scope (t : TreeNode) (addr : Nat) (f : Fields) (c0 c1 c2 sib : TreeNode)
    (ht : t = TreeNode.node addr f c0 c1 c2 sib) (hk : opensScope f.kind = true) (s : State) :
    leaveNode t s =
      (dumpCurrentScope s).bind fun s => endScope { s with scopeDepth := s.scopeDepth - 1 } := by
  subst ht
  have : f.kind = Kind.DecK DecKind.FuncDecK ∨ f.kind = Kind.StmtK StmtKind.CompoundK := by
    simpa [opensScope] using hk
  simp [leaveNode, this, TraceAnalyze]

/-- Leaving a scope whose dump goes through. -/
theorem leaveNode_dumped (t : TreeNode) (addr : Nat) (f : Fields) (c0 c1 c2 sib : TreeNode)
    (ht : t = TreeNode.node addr f c0 c1 c2 sib) (hk : opensScope f.kind = true) (s : State)
    (hd : dumpCurrentScope s = some s) :
    leaveNode t s = endScope { s with scopeDepth := s.scopeDepth - 1 } := by
  rw [leaveNode_scope t addr f c0 c1 c2 sib ht hk s, hd]
  rfl

/-- Leaving a scope that holds one declaration. -/
theorem endScope_single (s s6 : State) (hs : DualInv s) (name : String) (d : TreeNode)
    (l : Int) (hn : name ≠ HIGHWATERMARK)
    (hh : s6.hashtable = (insertSymbol name d l (newScope s)).hashtable)
    (ht : s6.tempList = (insertSymbol name d l (newScope s)).tempList) :
    endScope s6 = some { s6 with hashtable := s.hashtable, tempList := s.tempList } := by
  have hd : DualInv s6 := by
    intro b
    rw [hh, ht]
    exact dualInv_insertSymbol name d l _ hn (dualInv_newScope s hs) b
  have hl : s6.tempList = [allocateSymbolNode name d l] ++ sentinel :: s.tempList := by
    rw [ht, insertSymbol_newScope]
    rfl
  rw [endScope_scope s6 [allocateSymbolNode name d l] sentinel s.tempList hd hl sentinel_name
    (by simpa [allocateSymbolNode] using hn)]
  have : (fun b => s.tempList.filter (inBucket b)) = s.hashtable := funext fun b => (hs b).symm
  rw [this]

/-! ## Resolution: the scope discipline -/

/-- C27.  The parameters of a function and the local declarations of its body block live in
two different scopes.  Take the tree of `T f(int x){ int x; return x; }`, for any names of
the function and of the variable other than the sentinel, the name of the variable having
at most 13 characters (a longer one overruns the buffer of the scope dump when its scope is
closed), and run the resolution pass on it from any state that satisfies the dual-structure
invariant.  When the local `x` has been declared, the scope list holds, from the front: the
entry of the local `x`, the sentinel of the scope of the body, the entry of the parameter
`x`, the sentinel of the scope of the function, and what the list held once the function
itself was declared.  The pass succeeds;
it reports nothing but what the declaration of the function reported (no duplicate
identifier for `x`); the `x` under `return` is resolved to the local declaration, and the
return statement to the function; and both scopes are closed again. -/
theorem parameter_and_local_scopes (a : Nat) (fname x : String) (ty : ExpType) (s : State)
    (hs : DualInv s) (hf : fname ≠ HIGHWATERMARK) (hx : x ≠ HIGHWATERMARK)
    (hxl : x.length ≤ IDENT_LEN + 1) :
    (enterNode (shadowLocal a x) (enterNode (shadowBody a x)
        (enterNode (shadowParam a x) (enterNode (paramShadow a fname x ty) s)))).tempList
      = allocateSymbolNode x (shadowLocal a x) 1 :: sentinel ::
          allocateSymbolNode x (shadowParam a x) 1 :: sentinel ::
          (insertSymbol fname (paramShadow a fname x ty) 1 s).tempList ∧
    ∃ s', startBuildSymbolTable (paramShadow a fname x ty) s = some s' ∧
      s'.listing = (insertSymbol fname (paramShadow a fname x ty) 1 s).listing ∧
      s'.Error = (insertSymbol fname (paramShadow a fname x ty) 1 s).Error ∧
      s'.declaration (a + 5) = shadowLocal a x ∧
      s'.declaration (a + 4) = paramShadow a fname x ty ∧
      s'.tempList = (insertSymbol fname (paramShadow a fname x ty) 1 s).tempList ∧
      s'.hashtable = (insertSymbol fname (paramShadow a fname x ty) 1 s).hashtable := by
  obtain ⟨S, hS⟩ : ∃ S, S = insertSymbol fname (paramShadow a fname x ty) 1 s := ⟨_, rfl⟩
  have dS : DualInv S := hS ▸ dualInv_insertSymbol _ _ _ _ hf hs
  -- the states of the pass, in order
  obtain ⟨S1, hS1⟩ : ∃ S1 : State, S1 = { S with
      enclosingFunction := paramShadow a fname x ty, scopeDepth := S.scopeDepth + 1 } :=
    ⟨_, rfl⟩
  have d1 : DualInv S1 := by intro b; rw [hS1]; exact dS b
  have e1 : enterNode (paramShadow a fname x ty) s = newScope S1 := by
    rw [hS1, hS]
    exact enterNode_function a _ _ _ _ _ s rfl
  obtain ⟨S2, hS2⟩ : ∃ S2, S2 = insertSymbol x (shadowParam a x) 1 (newScope S1) := ⟨_, rfl⟩
  have d2 : DualInv S2 := hS2 ▸ dualInv_insertSymbol _ _ _ _ hx (dualInv_newScope _ d1)
  have e2 : enterNode (shadowParam a x) (newScope S1) = S2 := by
    rw [hS2]
    exact enterNode_variable (a + 1) _ _ _ _ _ _ DecKind.ScalarDecK rfl (by decide)
  obtain ⟨S3, hS3⟩ : ∃ S3 : State, S3 = { S2 with scopeDepth := S2.scopeDepth + 1 } :=
    ⟨_, rfl⟩
  have d3 : DualInv S3 := by intro b; rw [hS3]; exact d2 b
  have e3 : enterNode (shadowBody a x) S2 = newScope S3 := by
    rw [hS3]
    exact enterNode_compound (a + 2) _ _ _ _ _ S2 rfl
  obtain ⟨S4, hS4⟩ : ∃ S4, S4 = insertSymbol x (shadowLocal a x) 1 (newScope S3) := ⟨_, rfl⟩
  have e4 : enterNode (shadowLocal a x) (newScope S3) = S4 := by
    rw [hS4]
    exact enterNode_variable (a + 3) _ _ _ _ _ _ DecKind.ScalarDecK rfl (by decide)
  have t2 : S2.tempList = allocateSymbolNode x (shadowParam a x) 1 :: sentinel :: S.tempList := by
    rw [hS2, insertSymbol_newScope, hS1]
  have t4 : S4.tempList = allocateSymbolNode x (shadowLocal a x) 1 :: sentinel ::
      allocateSymbolNode x (shadowParam a x) 1 :: sentinel :: S.tempList := by
    rw [hS4, insertSymbol_newScope]
    show _ :: _ :: S3.tempList = _
    rw [hS3]
    show _ :: _ :: S2.tempList = _
    rw [t2]
  refine ⟨by rw [e1, e2, e3, e4, t4, hS], ?_⟩
  -- the return statement and the identifier
  obtain ⟨S5, hS5⟩ : ∃ S5 : State, S5 = { S4 with
      declaration := assign S4.declaration (a + 4) S4.enclosingFunction } := ⟨_, rfl⟩
  have e5 : enterNode (returnStmt (a + 4) (identifier (a + 5) x TreeNode.NULL) TreeNode.NULL)
      S4 = S5 := by
    rw [hS5]
    exact enterNode_return (a + 4) _ _ _ _ _ S4 rfl
  have hl : lookupSymbol x S5 = some (allocateSymbolNode x (shadowLocal a x) 1) := by
    rw [hS5, hS4, insertSymbol_newScope]
    simp [lookupSymbol, assign_same, lookupFrom, allocateSymbolNode]
  obtain ⟨S6, hS6⟩ : ∃ S6 : State, S6 = { S5 with
      declaration := assign S5.declaration (a + 5) (shadowLocal a x) } := ⟨_, rfl⟩
  have e6 : enterNode (identifier (a + 5) x TreeNode.NULL) S5 = S6 := by
    rw [hS6]
    have := enterNode_reference (a + 5)
      { newFields 1 (Kind.ExpK ExpKind.IdK) with name := x } TreeNode.NULL TreeNode.NULL
      TreeNode.NULL TreeNode.NULL S5 (Or.inl rfl)
    rw [show lookupSymbol ({ newFields 1 (Kind.ExpK ExpKind.IdK) with name := x } : Fields).name
      S5 = some (allocateSymbolNode x (shadowLocal a x) 1) from hl] at this
    exact this
  -- the two scopes are left
  have l7 : endScope { S6 with scopeDepth := S6.scopeDepth - 1 }
      = some { S6 with
          scopeDepth := S6.scopeDepth - 1, hashtable := S3.hashtable,
          tempList := S3.tempList } :=
    endScope_single S3 _ d3 x (shadowLocal a x) 1 hx (by rw [hS6, hS5, hS4])
      (by rw [hS6, hS5, hS4])
  obtain ⟨S7, hS7⟩ : ∃ S7 : State, S7 = { S6 with
      scopeDepth := S6.scopeDepth - 1, hashtable := S3.hashtable,
      tempList := S3.tempList } := ⟨_, rfl⟩
  have l8 : endScope { S7 with scopeDepth := S7.scopeDepth - 1 }
      = some { S7 with
          scopeDepth := S7.scopeDepth - 1, hashtable := S1.hashtable,
          tempList := S1.tempList } :=
    endScope_single S1 _ d1 x (shadowParam a x) 1 hx (by rw [hS7, hS3, hS2])
      (by rw [hS7, hS3, hS2])
  have dump6 : dumpCurrentScope S6 = some S6 := by
    refine dumpCurrentScope_ok S6 [allocateSymbolNode x (shadowLocal a x) 1] sentinel
      (allocateSymbolNode x (shadowParam a x) 1 :: sentinel :: S.tempList) ?_ sentinel_name
      ?_ ?_
    · rw [hS6, hS5]
      exact t4
    · intro e he
      simp only [List.mem_singleton] at he
      rw [he]
      exact hx
    · intro e he
      simp only [List.mem_singleton] at he
      rw [he]
      exact ⟨hxl, by simp [allocateSymbolNode, shadowLocal, scalarDec]⟩
  have dump7 : dumpCurrentScope S7 = some S7 := by
    refine dumpCurrentScope_ok S7 [allocateSymbolNode x (shadowParam a x) 1] sentinel
      S.tempList ?_ sentinel_name ?_ ?_
    · rw [hS7, hS3]
      exact t2
    · intro e he
      simp only [List.mem_singleton] at he
      rw [he]
      exact hx
    · intro e he
      simp only [List.mem_singleton] at he
      rw [he]
      exact ⟨hxl, by simp [allocateSymbolNode, shadowParam, paramDec]⟩
  have n0 : ∀ s0 : State, startBuildSymbolTable TreeNode.NULL s0 = some s0 := fun _ => rfl
  have hp : startBuildSymbolTable (shadowParam a x) (newScope S1) = some S2 := by
    rw [startBuildSymbolTable_unfold (shadowParam a x) (a + 1) _ TreeNode.NULL TreeNode.NULL
      TreeNode.NULL TreeNode.NULL rfl, e2]
    simp only [n0, Option.some_bind]
    exact leaveNode_plain (shadowParam a x) (a + 1) _ _ _ _ _ rfl rfl S2
  have hi : startBuildSymbolTable (identifier (a + 5) x TreeNode.NULL) S5 = some S6 := by
    rw [startBuildSymbolTable_unfold (identifier (a + 5) x TreeNode.NULL) (a + 5) _
      TreeNode.NULL TreeNode.NULL TreeNode.NULL TreeNode.NULL rfl, e6]
    simp only [n0, Option.some_bind]
    exact leaveNode_plain (identifier (a + 5) x TreeNode.NULL) (a + 5) _ _ _ _ _ rfl rfl S6
  have hr : startBuildSymbolTable
      (returnStmt (a + 4) (identifier (a + 5) x TreeNode.NULL) TreeNode.NULL) S4 = some S6 := by
    rw [startBuildSymbolTable_unfold
      (returnStmt (a + 4) (identifier (a + 5) x TreeNode.NULL) TreeNode.NULL) (a + 4) _
      (identifier (a + 5) x TreeNode.NULL) TreeNode.NULL TreeNode.NULL TreeNode.NULL rfl,
      e5, hi]
    simp only [n0, Option.some_bind]
    exact leaveNode_plain
      (returnStmt (a + 4) (identifier (a + 5) x TreeNode.NULL) TreeNode.NULL) (a + 4)
      _ _ _ _ _ rfl rfl S6
  have hd : startBuildSymbolTable (shadowLocal a x) (newScope S3) = some S4 := by
    rw [startBuildSymbolTable_unfold (shadowLocal a x) (a + 3) _ TreeNode.NULL TreeNode.NULL
      TreeNode.NULL TreeNode.NULL rfl, e4]
    simp only [n0, Option.some_bind]
    exact leaveNode_plain (shadowLocal a x) (a + 3) _ _ _ _ _ rfl rfl S4
  have hb : startBuildSymbolTable (shadowBody a x) S2 = some S7 := by
    rw [startBuildSymbolTable_unfold (shadowBody a x) (a + 2) _ (shadowLocal a x)
      (returnStmt (a + 4) (identifier (a + 5) x TreeNode.NULL) TreeNode.NULL)
      TreeNode.NULL TreeNode.NULL rfl, e3, hd]
    simp only [n0, Option.some_bind, hr]
    rw [leaveNode_dumped (shadowBody a x) (a + 2) _ _ _ _ _ rfl rfl S6 dump6, l7, hS7]
    rfl
  have ht : startBuildSymbolTable (paramShadow a fname x ty) s
      = some { S7 with
          scopeDepth := S7.scopeDepth - 1, hashtable := S1.hashtable,
          tempList := S1.tempList } := by
    rw [startBuildSymbolTable_unfold (paramShadow a fname x ty) a _ (shadowParam a x)
      (shadowBody a x) TreeNode.NULL TreeNode.NULL rfl, e1, hp]
    simp only [n0, Option.some_bind, hb]
    rw [leaveNode_dumped (paramShadow a fname x ty) a _ _ _ _ _ rfl rfl S7 dump7, l8]
    rfl
  have f2 : S2 = { S1 with
      hashtable := assign S1.hashtable (hashFunction x)
        (allocateSymbolNode x (shadowParam a x) 1 :: S1.hashtable (hashFunction x)),
      tempList := allocateSymbolNode x (shadowParam a x) 1 :: sentinel :: S1.tempList } := by
    rw [hS2, insertSymbol_newScope]
  have f4 : S4 = { S3 with
      hashtable := assign S3.hashtable (hashFunction x)
        (allocateSymbolNode x (shadowLocal a x) 1 :: S3.hashtable (hashFunction x)),
      tempList := allocateSymbolNode x (shadowLocal a x) 1 :: sentinel :: S3.tempList } := by
    rw [hS4, insertSymbol_newScope]
  refine ⟨_, ht, ?_, ?_, ?_, ?_, ?_, ?_⟩
  · rw [hS7, hS6, hS5, f4, hS3, f2, hS1, hS]
  · rw [hS7, hS6, hS5, f4, hS3, f2, hS1, hS]
  · rw [hS7, hS6]
    exact assign_same _ _ _
  · rw [hS7, hS6, hS5]
    show assign (assign S4.declaration (a + 4) S4.enclosingFunction) (a + 5) _ (a + 4) = _
    rw [assign_other _ _ _ _ (by omega), assign_same, f4, hS3, f2, hS1]
  · rw [hS1, hS]
  · rw [hS1, hS]

/-- Witness of C27: `int f(int x){ int x; return x; }`, parsed to the tree `paramShadow` and
resolved from the start state with the two built-ins declared: the listing stays empty and
the `x` under `return` (node 6) is bound to the local declaration (node 4), not to the
parameter (node 2). -/
theorem parameter_and_local_scopes_witness :
    (parse 11 (ParseState.start paramShadowTokens 1)).map Prod.fst
      = some (paramShadow 1 "f" "x" ExpType.Integer) ∧
    DualInv (declarePredefines (State.start 7 1)) ∧
    ((enterNode (shadowLocal 1 "x") (enterNode (shadowBody 1 "x")
        (enterNode (shadowParam 1 "x") (enterNode (paramShadow 1 "f" "x" ExpType.Integer)
          (declarePredefines (State.start 7 1)))))).tempList
      = allocateSymbolNode "x" (shadowLocal 1 "x") 1 :: sentinel ::
          allocateSymbolNode "x" (shadowParam 1 "x") 1 :: sentinel ::
          (insertSymbol "f" (paramShadow 1 "f" "x" ExpType.Integer) 1
            (declarePredefines (State.start 7 1))).tempList ∧
      ∃ s', startBuildSymbolTable (paramShadow 1 "f" "x" ExpType.Integer)
          (declarePredefines (State.start 7 1)) = some s' ∧
        s'.listing = (insertSymbol "f" (paramShadow 1 "f" "x" ExpType.Integer) 1
          (declarePredefines (State.start 7 1))).listing ∧
        s'.Error = (insertSymbol "f" (paramShadow 1 "f" "x" ExpType.Integer) 1
          (declarePredefines (State.start 7 1))).Error ∧
        s'.declaration (1 + 5) = shadowLocal 1 "x" ∧
        s'.declaration (1 + 4) = paramShadow 1 "f" "x" ExpType.Integer ∧
        s'.tempList = (insertSymbol "f" (paramShadow 1 "f" "x" ExpType.Integer) 1
          (declarePredefines (State.start 7 1))).tempList ∧
        s'.hashtable = (insertSymbol "f" (paramShadow 1 "f" "x" ExpType.Integer) 1
          (declarePredefines (State.start 7 1))).hashtable) ∧
    (buildSymTab (paramShadow 1 "f" "x" ExpType.Integer) (State.start 7 1)).map
        (fun s => (s.listing, s.Error, s.declaration 6))
      = some ([], false, shadowLocal 1 "x") ∧
    shadowLocal 1 "x" ≠ shadowParam 1 "x" :=
  ⟨by decide,
   dualInv_insertSymbol _ _ _ _ (by decide)
     (dualInv_insertSymbol _ _ _ _ (by decide) (fun _ => rfl)),
   parameter_and_local_scopes 1 "f" "x" ExpType.Integer (declarePredefines (State.start 7 1))
     (dualInv_insertSymbol _ _ _ _ (by decide)
       (dualInv_insertSymbol _ _ _ _ (by decide) (fun _ => rfl)))
     (by decide) (by decide) (by decide),
   by decide, by decide⟩

/-! ## Resolution: the enclosing function of a return statement -/

theorem insertSymbol_keeps (name : String) (d : TreeNode) (l : Int) (s : State) :
    (insertSymbol name d l s).declaration = s.declaration ∧
      (insertSymbol name d l s).enclosingFunction = s.enclosingFunction := by
  unfold insertSymbol
  split <;> exact ⟨rfl, rfl⟩

theorem insertDeclaration_keeps (t : TreeNode) (s : State) :
    (insertDeclaration t s).declaration = s.declaration ∧
      (insertDeclaration t s).enclosingFunction = s.enclosingFunction := by
  cases t with
  | NULL => exact ⟨rfl, rfl⟩
  | node a f c0 c1 c2 sb =>
    rcases hk : f.kind with k | k | k
    · simp only [insertDeclaration, hk, and_self]
    · simp only [insertDeclaration, hk, and_self]
    · simp only [insertDeclaration, hk]
      exact insertSymbol_keeps _ _ _ _

theorem factor_fuel {F G : Nat} {t : TreeNode} {p : ParseState}
    {r : TreeNode × ParseState} (h : factor F t p = some r) (hle : F ≤ G) :
    factor G t p = some r := by
  obtain ⟨k, rfl⟩ := Nat.exists_eq_add_of_le hle
  exact below_add (fun F (x : TreeNode × ParseState) => factor F x.1 x.2)
    (fun F x => (fuelMono F).factor x.1 x.2) F k (t, p) r h

theorem term_loop_fuel {F G : Nat} {t : TreeNode} {p : ParseState}
    {r : TreeNode × ParseState} (h : term_loop F t p = some r) (hle : F ≤ G) :
    term_loop G t p = some r := by
  obtain ⟨k, rfl⟩ := Nat.exists_eq_add_of_le hle
  exact below_add (fun F (x : TreeNode × ParseState) => term_loop F x.1 x.2)
    (fun F x => (fuelMono F).term_loop x.1 x.2) F k (t, p) r h

theorem term_fuel {F G : Nat} {t : TreeNode} {p : ParseState}
    {r : TreeNode × ParseState} (h : term F t p = some r) (hle : F ≤ G) :
    term G t p = some r := by
  obtain ⟨k, rfl⟩ := Nat.exists_eq_add_of_le hle
  exact below_add (fun F (x : TreeNode × ParseState) => term F x.1 x.2)
    (fun F x => (fuelMono F).term x.1 x.2) F k (t, p) r h

theorem additive_loop_fuel {F G : Nat} {t : TreeNode} {p : ParseState}
    {r : TreeNode × ParseState} (h : additive_expression_loop F t p = some r) (hle : F ≤ G) :
    additive_expression_loop G t p = some r := by
  obtain ⟨k, rfl⟩ := Nat.exists_eq_add_of_le hle
  exact below_add (fun F (x : TreeNode × ParseState) => additive_expression_loop F x.1 x.2)
    (fun F x => (fuelMono F).additive_expression_loop x.1 x.2) F k (t, p) r h

theorem additive_fuel {F G : Nat} {t : TreeNode} {p : ParseState}
    {r : TreeNode × ParseState} (h : additive_expression F t p = some r) (hle : F ≤ G) :
    additive_expression G t p = some r := by
  obtain ⟨k, rfl⟩ := Nat.exists_eq_add_of_le hle
  exact below_add (fun F (x : TreeNode × ParseState) => additive_expression F x.1 x.2)
    (fun F x => (fuelMono F).additive_expression x.1 x.2) F k (t, p) r h

theorem factorsRun_fuel {F G : Nat} (hle : F ≤ G) (items : List (ParseState × TreeNode)) :
    ∀ p q, FactorsRun F items p q → FactorsRun G items p q := by
  induction items with
  | nil => intro p q h; exact h
  | cons it items ih =>
    intro p q h
    obtain ⟨h1, h2, p1, h3, h4⟩ := h
    exact ⟨h1, h2, p1, factor_fuel h3 hle, ih p1 q h4⟩

theorem termRun_fuel {F G : Nat} (hle : F ≤ G) {pd : TreeNode}
    {d : TreeNode × List (ParseState × TreeNode)} {p q : ParseState}
    (h : TermRun F pd d p q) : TermRun G pd d p q := by
  obtain ⟨p1, h1, h2⟩ := h
  exact ⟨p1, factor_fuel h1 hle, factorsRun_fuel hle _ _ _ h2⟩

theorem termsRun_fuel {F G : Nat} (hle : F ≤ G)
    (items : List (ParseState × TreeNode × List (ParseState × TreeNode))) :
    ∀ p q, TermsRun F items p q → TermsRun G items p q := by
  induction items with
  | nil => intro p q h; exact h
  | cons it items ih =>
    intro p q h
    obtain ⟨h1, h2, p1, h3, h4⟩ := h
    exact ⟨h1, h2, p1, termRun_fuel hle h3, ih p1 q h4⟩

theorem additiveRun_fuel {F G : Nat} (hle : F ≤ G) {pd : TreeNode}
    {a : (TreeNode × List (ParseState × TreeNode)) ×
      List (ParseState × TreeNode × List (ParseState × TreeNode))} {p q : ParseState}
    (h : AdditiveRun F pd a p q) : AdditiveRun G pd a p q := by
  obtain ⟨p1, h1, h2⟩ := h
  exact ⟨p1, termRun_fuel hle h1, termsRun_fuel hle _ _ _ h2⟩

/-- Every result of the loop of `term` comes from a run of it. -/
theorem term_loop_run (F : Nat) :
    ∀ (tree : TreeNode) (p : ParseState) (t : TreeNode) (q : ParseState),
      term_loop F tree p = some (t, q) →
      ∃ items, FactorsRun F items p q ∧
        t = items.foldl (fun l it => opNode it.1 l it.2) tree := by
  induction F with
  | zero => intro tree p t q h; rw [term_loop] at h; exact absurd h (by simp)
  | succ F ih =>
    intro tree p t q h
    by_cases hm : p.token = TokenType.TIMES ∨ p.token = TokenType.DIVIDE
    · rw [term_loop_step F tree p hm] at h
      cases hf : factor F TreeNode.NULL (getToken { p with brk := p.brk + 1 }) with
      | none => rw [hf] at h; exact absurd h (by simp)
      | some r =>
        rw [hf] at h
        simp only [Option.some_bind] at h
        obtain ⟨items, hrun, ht⟩ := ih _ _ _ _ h
        refine ⟨(p, r.1) :: items, ⟨rfl, hm, r.2, ?_, factorsRun_fuel (by omega) _ _ _ hrun⟩,
          ?_⟩
        · exact factor_fuel hf (by omega)
        · rw [ht]; rfl
    · have h1 : p.token ≠ TokenType.TIMES := fun h => hm (Or.inl h)
      have h2 : p.token ≠ TokenType.DIVIDE := fun h => hm (Or.inr h)
      rw [term_loop_stop F tree p h1 h2] at h
      simp only [Option.some.injEq, Prod.mk.injEq] at h
      exact ⟨[], ⟨h.2.symm, h1, h2⟩, h.1.symm⟩

/-- Every result of `term` comes from a run of it. -/
theorem term_run (F : Nat) (pd : TreeNode) (p : ParseState) (t : TreeNode) (q : ParseState)
    (h : term F pd p = some (t, q)) : ∃ d, TermRun F pd d p q ∧ t = termTree d := by
  cases F with
  | zero => rw [term] at h; exact absurd h (by simp)
  | succ F =>
    rw [term_unfold] at h
    cases hf : factor F pd p with
    | none => rw [hf] at h; exact absurd h (by simp)
    | some r =>
      rw [hf] at h
      simp only [Option.some_bind] at h
      obtain ⟨items, hrun, ht⟩ := term_loop_run F _ _ _ _ h
      exact ⟨(r.1, items), ⟨r.2, factor_fuel hf (by omega),
        factorsRun_fuel (by omega) _ _ _ hrun⟩, ht⟩

/-- Every result of the loop of `additive_expression` comes from a run of it. -/
theorem additive_loop_run (F : Nat) :
    ∀ (tree : TreeNode) (p : ParseState) (t : TreeNode) (q : ParseState),
      additive_expression_loop F tree p = some (t, q) →
      ∃ items, TermsRun F items p q ∧
        t = items.foldl (fun l it => opNode it.1 l (termTree it.2)) tree := by
  induction F with
  | zero =>
    intro tree p t q h; rw [additive_expression_loop] at h; exact absurd h (by simp)
  | succ F ih =>
    intro tree p t q h
    by_cases hm : p.token = TokenType.PLUS ∨ p.token = TokenType.MINUS
    · rw [additive_loop_step F tree p hm] at h
      cases hf : term F TreeNode.NULL (getToken { p with brk := p.brk + 1 }) with
      | none => rw [hf] at h; exact absurd h (by simp)
      | some r =>
        rw [hf] at h
        simp only [Option.some_bind] at h
        obtain ⟨d, hd, hr⟩ := term_run F _ _ r.1 r.2 hf
        obtain ⟨items, hrun, ht⟩ := ih _ _ _ _ h
        refine ⟨(p, d) :: items,
          ⟨rfl, hm, r.2, termRun_fuel (by omega) hd, termsRun_fuel (by omega) _ _ _ hrun⟩, ?_⟩
        rw [ht, hr]; rfl
    · have h1 : p.token ≠ TokenType.PLUS := fun h => hm (Or.inl h)
      have h2 : p.token ≠ TokenType.MINUS := fun h => hm (Or.inr h)
      rw [additive_loop_stop F tree p h1 h2] at h
      simp only [Option.some.injEq, Prod.mk.injEq] at h
      exact ⟨[], ⟨h.2.symm, h1, h2⟩, h.1.symm⟩

/-- Every result of `additive_expression` comes from a run of it. -/
theorem additive_run (F : Nat) (pd : TreeNode) (p : ParseState) (t : TreeNode)
    (q : ParseState) (h : additive_expression F pd p = some (t, q)) :
    ∃ a, AdditiveRun F pd a p q ∧ t = additiveTree a := by
  cases F with
  | zero => rw [additive_expression] at h; exact absurd h (by simp)
  | succ F =>
    rw [additive_unfold] at h
    cases hf : term F pd p with
    | none => rw [hf] at h; exact absurd h (by simp)
    | some r =>
      rw [hf] at h
      simp only [Option.some_bind] at h
      obtain ⟨d, hd, hr⟩ := term_run F _ _ r.1 r.2 hf
      obtain ⟨items, hrun, ht⟩ := additive_loop_run F _ _ _ _ h
      refine ⟨(d, items), ⟨r.2, termRun_fuel (by omega) hd,
        termsRun_fuel (by omega) _ _ _ hrun⟩, ?_⟩
      rw [ht, hr]; rfl

/-! ## The parser against the reference grammar of expressions -/

theorem shapeOf_setSibling (a b : TreeNode) :
    shapeOf (setSibling a b) = (shapeOf a).setSibling (shapeOf b) := by
  cases a <;> rfl

theorem shapeOf_ne_null (n : TreeNode) (l : Label) (c0 c1 c2 sb : Shape)
    (h : shapeOf n = Shape.node l c0 c1 c2 sb) : n ≠ TreeNode.NULL := by
  intro hn
  rw [hn] at h
  exact absurd h (by simp [shapeOf])

/-- The reference tree of an expression is a node without a sibling. -/
theorem syn_shape_node (e : Syn) :
    ∀ v, e.wf v = true → v.rank ≤ 4 →
      ∃ l c0 c1 c2, e.shape = Shape.node l c0 c1 c2 Shape.null := by
  induction e with
  | num t => intro v _ _; exact ⟨_, _, _, _, rfl⟩
  | var t => intro v _ _; exact ⟨_, _, _, _, rfl⟩
  | call name lp args rp _ => intro v _ _; exact ⟨_, _, _, _, rfl⟩
  | paren lp e rp ih =>
    intro v h _
    simp only [Syn.wf, Bool.and_eq_true] at h
    exact ih Level.expression h.2 (by decide)
  | op l o r _ _ => intro v _ _; exact ⟨_, _, _, _, rfl⟩
  | assign name eq r _ => intro v _ _; exact ⟨_, _, _, _, rfl⟩
  | noArgs =>
    intro v h hv
    simp only [Syn.wf, decide_eq_true_eq] at h
    rw [h] at hv
    exact absurd hv (by decide)
  | comma first c more _ _ =>
    intro v h hv
    simp only [Syn.wf, Bool.and_eq_true, decide_eq_true_eq] at h
    omega

theorem parsed_ne_null (e : Syn) (v : Level) (h : e.wf v = true) (hv : v.rank ≤ 4)
    (rest : List Token) (p : ParseState) (n : TreeNode) (p' : ParseState)
    (hp : Parsed e rest p n p') : n ≠ TreeNode.NULL := by
  obtain ⟨l, c0, c1, c2, hs⟩ := syn_shape_node e v h hv
  exact shapeOf_ne_null n l c0 c1 c2 Shape.null (hp.1.trans hs)

/-- The text of an expression or of an argument list begins with a literal, an identifier
or `(`. -/
theorem syn_first (e : Syn) :
    ∀ v, e.wf v = true → v.rank ≤ 5 → ∀ rest,
      firstType (e.tokens ++ rest) = TokenType.NUM ∨
        firstType (e.tokens ++ rest) = TokenType.ID ∨
        firstType (e.tokens ++ rest) = TokenType.LPAREN := by
  induction e with
  | num t =>
    intro v h _ rest
    simp only [Syn.wf, decide_eq_true_eq] at h
    exact Or.inl h
  | var t =>
    intro v h _ rest
    simp only [Syn.wf, decide_eq_true_eq] at h
    exact Or.inr (Or.inl h)
  | call name lp args rp _ =>
    intro v h _ rest
    simp only [Syn.wf, Bool.and_eq_true, decide_eq_true_eq] at h
    exact Or.inr (Or.inl h.1.1.1)
  | paren lp e rp _ =>
    intro v h _ rest
    simp only [Syn.wf, Bool.and_eq_true, decide_eq_true_eq] at h
    exact Or.inr (Or.inr h.1.1)
  | op l o r ihl _ =>
    intro v h _ rest
    have hl : ∃ w, l.wf w = true ∧ w.rank ≤ 5 := by
      simp only [Syn.wf, Bool.or_eq_true, Bool.and_eq_true] at h
      rcases h with (h | h) | h
      · exact ⟨Level.term, h.1.2, by decide⟩
      · exact ⟨Level.additive, h.1.2, by decide⟩
      · exact ⟨Level.additive, h.1.2, by decide⟩
    obtain ⟨w, hw, hr⟩ := hl
    have := ihl w hw hr (o :: (r.tokens ++ rest))
    simpa [Syn.tokens] using this
  | assign name eq r _ =>
    intro v h _ rest
    simp only [Syn.wf, Bool.and_eq_true, decide_eq_true_eq] at h
    exact Or.inr (Or.inl h.1.1.2)
  | noArgs =>
    intro v h hv
    simp only [Syn.wf, decide_eq_true_eq] at h
    rw [h] at hv
    exact absurd hv (by decide)
  | comma first c more ihf _ =>
    intro v h _ rest
    simp only [Syn.wf, Bool.and_eq_true, decide_eq_true_eq] at h
    have := ihf Level.expression h.1.2 (by decide) (c :: (more.tokens ++ rest))
    simpa [Syn.tokens] using this

theorem factor_paren (F : Nat) (p : ParseState) (h : p.token = TokenType.LPAREN) :
    factor (F + 1) TreeNode.NULL p =
      (expression F (getToken p)).bind fun r =>
        some (r.1, matchToken TokenType.RPAREN r.2) := by
  rw [factor]
  simp [h, matchToken]

theorem expression_unfold_other (F : Nat) (p : ParseState) (h : p.token ≠ TokenType.ID) :
    expression (F + 1) p = simple_expression F TreeNode.NULL p := by
  rw [expression]
  simp [h]

theorem args_unfold (F : Nat) (p : ParseState) :
    args (F + 1) p =
      if p.token ≠ TokenType.RPAREN then arg_list F p else some (TreeNode.NULL, p) := by
  rw [args]

theorem args_fuel {F G : Nat} {p : ParseState} {r : TreeNode × ParseState}
    (h : args F p = some r) (hle : F ≤ G) : args G p = some r := by
  obtain ⟨k, rfl⟩ := Nat.exists_eq_add_of_le hle
  exact below_add args (fun F x => (fuelMono F).args x) F k p r h

theorem arg_list_fuel {F G : Nat} {p : ParseState} {r : TreeNode × ParseState}
    (h : arg_list F p = some r) (hle : F ≤ G) : arg_list G p = some r := by
  obtain ⟨k, rfl⟩ := Nat.exists_eq_add_of_le hle
  exact below_add arg_list (fun F x => (fuelMono F).arg_list x) F k p r h

theorem factor_pos {F : Nat} {t : TreeNode} {p : ParseState} {r : TreeNode × ParseState}
    (h : factor F t p = some r) : ∃ G, F = G + 1 := by
  cases F with
  | zero => rw [factor] at h; exact absurd h (by simp)
  | succ G => exact ⟨G, rfl⟩

/-- A literal is parsed as a factor. -/
theorem parses_num (t : Token) (ht : t.type = TokenType.NUM) :
    Parses Level.factor (Syn.num t) := by
  intro rest p hp _
  show ∃ n p', Parsed (Syn.num t) rest p n p' ∧ ∃ F, factor F TreeNode.NULL p = some (n, p')
  have hp' : Upcoming (t :: rest) p := hp
  obtain ⟨hu, hl, _⟩ := upcoming_getToken t rest p hp'
  refine ⟨_, _, ⟨?_, ?_, ?_⟩, 1, factor_num 0 p (hp'.1.trans ht)⟩
  · simp [shapeOf, labelOf, newFields, Syn.shape, hp'.2.1]
  · rw [getToken_brk]; exact upcoming_brk _ _ _ hu
  · rw [getToken_brk]; exact hl

/-- An identifier that no `(` follows is parsed as a factor. -/
theorem parses_var (t : Token) (ht : t.type = TokenType.ID) :
    Parses Level.factor (Syn.var t) := by
  intro rest p hp hf
  show ∃ n p', Parsed (Syn.var t) rest p n p' ∧ ∃ F, factor F TreeNode.NULL p = some (n, p')
  have hp' : Upcoming (t :: rest) p := hp
  obtain ⟨hu, hl, _⟩ := upcoming_getToken t rest p hp'
  have hnl : (getToken p).token ≠ TokenType.LPAREN := by
    rw [upcoming_token rest _ hu]; exact hf.1 rfl
  refine ⟨_, _, ⟨?_, ?_, ?_⟩, 2, factor_id 0 p (hp'.1.trans ht) hnl⟩
  · simp [shapeOf, labelOf, newFields, Syn.shape, hp'.2.1]
  · exact upcoming_brk _ _ _ hu
  · exact hl

/-- A call is parsed as a factor when its arguments are parsed. -/
theorem parses_call (name lp : Token) (a : Syn) (rp : Token)
    (hn : name.type = TokenType.ID) (hlp : lp.type = TokenType.LPAREN)
    (hrp : rp.type = TokenType.RPAREN) (ha : Parses Level.args a) :
    Parses Level.factor (Syn.call name lp a rp) := by
  intro rest p hp _
  show ∃ n p', Parsed (Syn.call name lp a rp) rest p n p' ∧
    ∃ F, factor F TreeNode.NULL p = some (n, p')
  have hp' : Upcoming (name :: lp :: (a.tokens ++ rp :: rest)) p := by
    simpa [Syn.tokens] using hp
  obtain ⟨hu1, hl1, _⟩ := upcoming_getToken _ _ p hp'
  obtain ⟨hu2, hl2, _⟩ := upcoming_getToken _ _ _ hu1
  have hfa : Follows Level.args a (firstType (rp :: rest)) :=
    ⟨fun _ => by simp [firstType, hrp], fun _ => by simp [firstType, hrp],
      fun _ => by simp [firstType, hrp, isRelational], fun _ => by simp [firstType, hrp],
      fun _ => hrp⟩
  obtain ⟨n, q, ⟨hs, hq, hlq⟩, F, hF⟩ := ha (rp :: rest) _ hu2 hfa
  obtain ⟨hu3, hl3, _⟩ := upcoming_getToken _ _ q hq
  have hm : matchToken TokenType.RPAREN q = getToken q :=
    matchToken_eq _ _ (hq.1.trans hrp)
  have hid : p.token = TokenType.ID := hp'.1.trans hn
  have hlpar : (getToken p).token = TokenType.LPAREN := hu1.1.trans hlp
  have hfac : factor (F + 2) TreeNode.NULL p =
      some (TreeNode.node (getToken q).brk
        { newFields (getToken q).lineno (Kind.StmtK StmtKind.CallK) with
          name := p.tokenString }
        n TreeNode.NULL TreeNode.NULL TreeNode.NULL,
        { getToken q with brk := (getToken q).brk + 1 }) := by
    rw [factor_null_id (F + 1) p hid, identifier_statement_call F p hid hlpar, hF]
    simp only [Option.some_bind, hm]
  refine ⟨_, _, ⟨?_, ?_, ?_⟩, F + 2, hfac⟩
  · simp [shapeOf, labelOf, newFields, Syn.shape, hp'.2.1, hs]
  · exact upcoming_brk _ _ _ hu3
  · show (getToken q).listing = p.listing
    rw [hl3, hlq, hl2, hl1]

/-- A parenthesised expression is parsed as a factor when the expression is parsed. -/
theorem parses_paren (lp : Token) (e : Syn) (rp : Token)
    (hlp : lp.type = TokenType.LPAREN) (hrp : rp.type = TokenType.RPAREN)
    (he : Parses Level.expression e) : Parses Level.factor (Syn.paren lp e rp) := by
  intro rest p hp _
  show ∃ n p', Parsed (Syn.paren lp e rp) rest p n p' ∧
    ∃ F, factor F TreeNode.NULL p = some (n, p')
  have hp' : Upcoming (lp :: (e.tokens ++ rp :: rest)) p := by
    simpa [Syn.tokens] using hp
  obtain ⟨hu1, hl1, _⟩ := upcoming_getToken _ _ p hp'
  have hfe : Follows Level.expression e (firstType (rp :: rest)) :=
    ⟨fun _ => by simp [firstType, hrp], fun _ => by simp [firstType, hrp],
      fun _ => by simp [firstType, hrp, isRelational], fun _ => by simp [firstType, hrp],
      fun h => absurd h (by decide)⟩
  obtain ⟨n, q, ⟨hs, hq, hlq⟩, F, hF⟩ := he (rp :: rest) _ hu1 hfe
  obtain ⟨hu3, hl3, _⟩ := upcoming_getToken _ _ q hq
  have hm : matchToken TokenType.RPAREN q = getToken q :=
    matchToken_eq _ _ (hq.1.trans hrp)
  refine ⟨n, getToken q, ⟨hs, hu3, ?_⟩, F + 1, ?_⟩
  · rw [hl3, hlq, hl1]
  · rw [factor_paren F p (hp'.1.trans hlp), hF]
    simp only [Option.some_bind, hm]

theorem follows_mono {v w : Level} {e : Syn} {k : TokenType} (h : Follows v e k)
    (hle : w.rank ≤ v.rank) : Follows w e k :=
  ⟨h.1, fun hw => h.2.1 (by omega), fun hw => h.2.2.1 (by omega),
    fun hw => h.2.2.2.1 (by omega), fun hw => h.2.2.2.2 (by omega)⟩

theorem term_loop_pos {F : Nat} {t : TreeNode} {p : ParseState} {r : TreeNode × ParseState}
    (h : term_loop F t p = some r) : ∃ G, F = G + 1 := by
  cases F with
  | zero => rw [term_loop] at h; exact absurd h (by simp)
  | succ G => exact ⟨G, rfl⟩

theorem additive_loop_pos {F : Nat} {t : TreeNode} {p : ParseState}
    {r : TreeNode × ParseState} (h : additive_expression_loop F t p = some r) :
    ∃ G, F = G + 1 := by
  cases F with
  | zero => rw [additive_expression_loop] at h; exact absurd h (by simp)
  | succ G => exact ⟨G, rfl⟩

/-- With a primary passed down, `term` is its loop. -/
theorem term_passed (G : Nat) (n : TreeNode) (p : ParseState) (hn : n ≠ TreeNode.NULL)
    (r : TreeNode × ParseState) (h : term_loop G n p = some r) :
    term (G + 1) n p = some r := by
  obtain ⟨G', rfl⟩ := term_loop_pos h
  rw [term_unfold, factor_passdown G' n p hn]
  exact h

/-- With a primary passed down, `term` returns what its loop returns. -/
theorem term_passed_inv (F : Nat) (n : TreeNode) (p : ParseState) (hn : n ≠ TreeNode.NULL)
    (r : TreeNode × ParseState) (h : term F n p = some r) :
    ∃ G, term_loop G n p = some r := by
  cases F with
  | zero => rw [term] at h; exact absurd h (by simp)
  | succ F =>
    rw [term_unfold] at h
    cases F with
    | zero => rw [factor] at h; exact absurd h (by simp)
    | succ F =>
      rw [factor_passdown F n p hn] at h
      exact ⟨F + 1, h⟩

/-- The procedure `term` started at the first primary returns what it returns behind that
primary with the primary passed down. -/
theorem term_led (p : ParseState) (k : TokenType) (n0 : TreeNode) (p0 : ParseState)
    (hl : Led p k n0 p0) (F : Nat) (r : TreeNode × ParseState)
    (h : term F n0 p0 = some r) : ∃ F', term F' TreeNode.NULL p = some r := by
  obtain ⟨hn, ⟨G, hG⟩, _⟩ := hl
  obtain ⟨K, hK⟩ := term_passed_inv F n0 p0 hn r h
  refine ⟨max G K + 1, ?_⟩
  rw [term_unfold, factor_fuel hG (le_max_left G K)]
  exact term_loop_fuel hK (le_max_right G K)

/-- With a primary passed down, `additive_expression` returns what its loop returns after
the loop of `term`. -/
theorem additive_led (p : ParseState) (k : TokenType) (n0 : TreeNode) (p0 : ParseState)
    (hl : Led p k n0 p0) (F : Nat) (r : TreeNode × ParseState)
    (h : additive_expression F n0 p0 = some r) :
    ∃ F', additive_expression F' TreeNode.NULL p = some r := by
  cases F with
  | zero => rw [additive_expression] at h; exact absurd h (by simp)
  | succ F =>
    rw [additive_unfold] at h
    cases ht : term F n0 p0 with
    | none => rw [ht] at h; exact absurd h (by simp)
    | some x =>
      rw [ht] at h
      simp only [Option.some_bind] at h
      obtain ⟨F', hF'⟩ := term_led p k n0 p0 hl F x ht
      refine ⟨max F' F + 1, ?_⟩
      rw [additive_unfold, term_fuel hF' (le_max_left F' F)]
      exact additive_loop_fuel h (le_max_right F' F)

theorem simple_led (p : ParseState) (k : TokenType) (n0 : TreeNode) (p0 : ParseState)
    (hl : Led p k n0 p0) (F : Nat) (r : TreeNode × ParseState)
    (h : simple_expression F n0 p0 = some r) :
    ∃ F', simple_expression F' TreeNode.NULL p = some r := by
  obtain ⟨hn, ⟨G, hG⟩, _⟩ := hl
  refine ⟨max G F + 4, ?_⟩
  rw [simple_expression_passdown (max G F) p p0 n0
    (factor_fuel hG (by have := le_max_left G F; omega)) hn]
  exact simple_expression_fuel h (by have := le_max_right G F; omega)

/-- A factor is a term. -/
theorem parses_term_of_factor (e : Syn) (w : Level) (hw : e.wf w = true) (hr : w.rank ≤ 4)
    (h : Parses Level.factor e) : Parses Level.term e := by
  intro rest p hp hf
  show ∃ n0 p0 n p', Led p (firstType rest) n0 p0 ∧ Parsed e rest p n p' ∧
    ∀ G r, term_loop G n p' = some r → ∃ F, term F n0 p0 = some r
  obtain ⟨n, p', hpar, hF⟩ := h rest p hp (follows_mono hf (by decide))
  have hn : n ≠ TreeNode.NULL := parsed_ne_null e w hw hr rest p n p' hpar
  refine ⟨n, p', n, p', ⟨hn, hF, fun hk => ?_⟩, hpar, fun G r hr => ⟨G + 1, ?_⟩⟩
  · rw [upcoming_token rest p' hpar.2.1]; exact hk
  · exact term_passed G n p' hn r hr

theorem upcoming_afterOp (o : Token) (ts : List Token) (p : ParseState)
    (h : Upcoming (o :: ts) p) :
    Upcoming ts (afterOp p) ∧ (afterOp p).listing = p.listing := by
  have h' : Upcoming (o :: ts) { p with brk := p.brk + 1 } := upcoming_brk _ _ _ h
  obtain ⟨hu, hl, _⟩ := upcoming_getToken o ts _ h'
  exact ⟨hu, hl⟩

theorem shapeOf_opNode (p : ParseState) (l r : TreeNode) :
    shapeOf (opNode p l r) =
      Shape.node (Label.op p.token) (shapeOf l) (shapeOf r) Shape.null Shape.null := by
  simp [opNode, shapeOf, labelOf, newFields]

/-- A term, `*` or `/`, and a factor are a term. -/
theorem parses_mul (l : Syn) (o : Token) (r : Syn) (ho : isMulOp o.type = true)
    (hl : Parses Level.term l) (hr : Parses Level.factor r) :
    Parses Level.term (Syn.op l o r) := by
  intro rest p hp hf
  show ∃ n0 p0 n p', Led p (firstType rest) n0 p0 ∧ Parsed (Syn.op l o r) rest p n p' ∧
    ∀ G x, term_loop G n p' = some x → ∃ F, term F n0 p0 = some x
  have ho' : o.type = TokenType.TIMES ∨ o.type = TokenType.DIVIDE := by
    simpa [isMulOp] using ho
  have hp' : Upcoming (l.tokens ++ o :: (r.tokens ++ rest)) p := by
    simpa [Syn.tokens] using hp
  have hfl : Follows Level.term l (firstType (o :: (r.tokens ++ rest))) := by
    refine ⟨fun _ => ?_, fun h => absurd h (by decide), fun h => absurd h (by decide),
      fun h => absurd h (by decide), fun h => absurd h (by decide)⟩
    rcases ho' with h | h <;> simp [firstType, h]
  obtain ⟨n0, p0, nl, pl, hled, ⟨hsl, hul, hll⟩, hcont⟩ := hl _ p hp' hfl
  obtain ⟨hua, hla⟩ := upcoming_afterOp o _ pl hul
  have hfr : Follows Level.factor r (firstType rest) :=
    ⟨hf.1, fun h => absurd h (by decide), fun h => absurd h (by decide),
      fun h => absurd h (by decide), fun h => absurd h (by decide)⟩
  obtain ⟨nr, pr, ⟨hsr, hur, hlr⟩, Fr, hFr⟩ := hr rest _ hua hfr
  have htok : pl.token = o.type := hul.1
  refine ⟨n0, p0, opNode pl nl nr, pr, ⟨hled.1, hled.2.1, fun _ => ?_⟩, ⟨?_, hur, ?_⟩, ?_⟩
  · apply hled.2.2
    rcases ho' with h | h <;> simp [firstType, h]
  · rw [shapeOf_opNode, hsl, hsr, htok]; rfl
  · rw [hlr, hla, hll]
  · intro G x hx
    apply hcont (max G Fr + 1) x
    rw [term_loop_step _ nl pl (htok ▸ ho'),
      show getToken { pl with brk := pl.brk + 1 } = afterOp pl from rfl,
      factor_fuel hFr (le_max_right G Fr)]
    exact term_loop_fuel hx (le_max_left G Fr)

/-- A term is an additive expression. -/
theorem parses_additive_of_term (e : Syn) (h : Parses Level.term e) :
    Parses Level.additive e := by
  intro rest p hp hf
  show ∃ n0 p0 n p', Led p (firstType rest) n0 p0 ∧ Parsed e rest p n p' ∧
    ∀ G r, additive_expression_loop G n p' = some r →
      ∃ F, additive_expression F n0 p0 = some r
  obtain ⟨n0, p0, n, p', hled, hpar, hcont⟩ := h rest p hp (follows_mono hf (by decide))
  have hk := hf.2.1 (by decide)
  have htok : p'.token = firstType rest := upcoming_token rest p' hpar.2.1
  obtain ⟨F, hF⟩ := hcont 1 (n, p')
    (term_loop_stop 0 n p' (htok ▸ hk.1) (htok ▸ hk.2))
  refine ⟨n0, p0, n, p', hled, hpar, fun G r hr => ⟨max F G + 1, ?_⟩⟩
  rw [additive_unfold, term_fuel hF (le_max_left F G)]
  exact additive_loop_fuel hr (le_max_right F G)

/-- An additive expression, `+` or `-`, and a term are an additive expression. -/
theorem parses_add (l : Syn) (o : Token) (r : Syn) (ho : isAddOp o.type = true)
    (hl : Parses Level.additive l) (hr : Parses Level.term r) :
    Parses Level.additive (Syn.op l o r) := by
  intro rest p hp hf
  show ∃ n0 p0 n p', Led p (firstType rest) n0 p0 ∧ Parsed (Syn.op l o r) rest p n p' ∧
    ∀ G x, additive_expression_loop G n p' = some x →
      ∃ F, additive_expression F n0 p0 = some x
  have ho' : o.type = TokenType.PLUS ∨ o.type = TokenType.MINUS := by
    simpa [isAddOp] using ho
  have hp' : Upcoming (l.tokens ++ o :: (r.tokens ++ rest)) p := by
    simpa [Syn.tokens] using hp
  have hfl : Follows Level.additive l (firstType (o :: (r.tokens ++ rest))) := by
    refine ⟨fun _ => ?_, fun _ => ?_, fun h => absurd h (by decide),
      fun h => absurd h (by decide), fun h => absurd h (by decide)⟩
    · rcases ho' with h | h <;> simp [firstType, h]
    · rcases ho' with h | h <;> simp [firstType, h]
  obtain ⟨n0, p0, nl, pl, hled, ⟨hsl, hul, hll⟩, hcont⟩ := hl _ p hp' hfl
  obtain ⟨hua, hla⟩ := upcoming_afterOp o _ pl hul
  have hfr : Follows Level.term r (firstType rest) :=
    ⟨hf.1, fun h => absurd h (by decide), fun h => absurd h (by decide),
      fun h => absurd h (by decide), fun h => absurd h (by decide)⟩
  obtain ⟨m0, q0, nr, pr, hledr, ⟨hsr, hur, hlr⟩, hcontr⟩ := hr rest _ hua hfr
  have hk := hf.2.1 (by decide)
  have htokr : pr.token = firstType rest := upcoming_token rest pr hur
  obtain ⟨F1, hF1⟩ := hcontr 1 (nr, pr)
    (term_loop_stop 0 nr pr (htokr ▸ hk.1) (htokr ▸ hk.2))
  obtain ⟨Fr, hFr⟩ := term_led _ _ m0 q0 hledr F1 _ hF1
  have htok : pl.token = o.type := hul.1
  refine ⟨n0, p0, opNode pl nl nr, pr, ⟨hled.1, hled.2.1, fun _ => ?_⟩, ⟨?_, hur, ?_⟩, ?_⟩
  · apply hled.2.2
    rcases ho' with h | h <;> simp [firstType, h]
  · rw [shapeOf_opNode, hsl, hsr, htok]; rfl
  · rw [hlr, hla, hll]
  · intro G x hx
    apply hcont (max G Fr + 1) x
    rw [additive_loop_step _ nl pl (htok ▸ ho'),
      show getToken { pl with brk := pl.brk + 1 } = afterOp pl from rfl,
      term_fuel hFr (le_max_right G Fr)]
    exact additive_loop_fuel hx (le_max_left G Fr)

theorem follows_rparen (v : Level) (e : Syn) : Follows v e TokenType.RPAREN :=
  ⟨fun _ => by decide, fun _ => by decide, fun _ => by decide, fun _ => by decide,
    fun _ => rfl⟩

theorem follows_comma (e : Syn) : Follows Level.expression e TokenType.COMMA :=
  ⟨fun _ => by decide, fun _ => by decide, fun _ => by decide, fun _ => by decide,
    fun h => absurd h (by decide)⟩

theorem shapeOf_relNode (p q : ParseState) (l r : TreeNode) :
    shapeOf (relNode p q l r) =
      Shape.node (Label.op p.token) (shapeOf l) (shapeOf r) Shape.null Shape.null := by
  simp [relNode, shapeOf, labelOf, newFields]

/-- Two additive expressions with a relational operator between them, whatever follows that
does not continue the second one: `simple_expression` returns the operator node over the
two. -/
theorem simple_relational (l : Syn) (o : Token) (r : Syn)
    (ho : isRelational o.type = true)
    (hl : Parses Level.additive l) (hr : Parses Level.additive r)
    (rest : List Token) (p : ParseState)
    (hp : Upcoming ((Syn.op l o r).tokens ++ rest) p)
    (hf : Follows Level.additive r (firstType rest))
    (h1 : firstType rest ≠ TokenType.PLUS) (h2 : firstType rest ≠ TokenType.MINUS) :
    ∃ n0 p0 n p', Led p (firstType rest) n0 p0 ∧ Parsed (Syn.op l o r) rest p n p' ∧
      ∃ F, simple_expression F n0 p0 = some (n, p') := by
  have ho' : o.type ≠ TokenType.PLUS ∧ o.type ≠ TokenType.MINUS ∧
      o.type ≠ TokenType.TIMES ∧ o.type ≠ TokenType.DIVIDE ∧ o.type ≠ TokenType.LPAREN ∧
      o.type ≠ TokenType.ASSIGN := by
    refine ⟨?_, ?_, ?_, ?_, ?_, ?_⟩ <;> intro h <;> rw [h] at ho <;> exact absurd ho (by decide)
  have hp' : Upcoming (l.tokens ++ o :: (r.tokens ++ rest)) p := by
    simpa [Syn.tokens] using hp
  have hfl : Follows Level.additive l (firstType (o :: (r.tokens ++ rest))) :=
    ⟨fun _ => ho'.2.2.2.2.1, fun _ => ⟨ho'.2.2.1, ho'.2.2.2.1⟩, fun h => absurd h (by decide),
      fun h => absurd h (by decide), fun h => absurd h (by decide)⟩
  obtain ⟨n0, p0, nl, pl, hled, ⟨hsl, hul, hll⟩, hcont⟩ := hl _ p hp' hfl
  have htok : pl.token = o.type := hul.1
  obtain ⟨Fl, hFl⟩ := hcont 1 (nl, pl)
    (additive_loop_stop 0 nl pl (htok ▸ ho'.1) (htok ▸ ho'.2.1))
  obtain ⟨hug, hlg, _⟩ := upcoming_getToken o _ pl hul
  obtain ⟨m0, q0, nr, pr, hledr, ⟨hsr, hur, hlr⟩, hcontr⟩ := hr rest _ hug hf
  have htokr : pr.token = firstType rest := upcoming_token rest pr hur
  obtain ⟨F1, hF1⟩ := hcontr 1 (nr, pr)
    (additive_loop_stop 0 nr pr (htokr ▸ h1) (htokr ▸ h2))
  obtain ⟨Fr, hFr⟩ := additive_led _ _ m0 q0 hledr F1 _ hF1
  refine ⟨n0, p0, relNode pl pr nl nr, { pr with brk := pr.brk + 1 },
    ⟨hled.1, hled.2.1, fun _ => hled.2.2 ho'.2.2.2.2.2⟩,
    ⟨?_, upcoming_brk _ _ _ hur, ?_⟩, max Fl Fr + 1, ?_⟩
  · rw [shapeOf_relNode, hsl, hsr, htok]; rfl
  · show pr.listing = p.listing
    rw [hlr, hlg, hll]
  · have hrel : isRelational pl.token = true := by rw [htok]; exact ho
    rw [simple_expression_unfold, additive_fuel hFl (le_max_left Fl Fr)]
    simp only [Option.some_bind, hrel, if_true, additive_fuel hFr (le_max_right Fl Fr)]
    rfl

/-- An additive expression is a simple expression. -/
theorem parses_simple_of_additive (e : Syn) (h : Parses Level.additive e) :
    Parses Level.simple e := by
  intro rest p hp hf
  show ∃ n0 p0 n p', Led p (firstType rest) n0 p0 ∧ Parsed e rest p n p' ∧
    ∃ F, simple_expression F n0 p0 = some (n, p')
  obtain ⟨n0, p0, n, p', hled, hpar, hcont⟩ := h rest p hp (follows_mono hf (by decide))
  have hk := hf.2.2.1 (by decide)
  have htok : p'.token = firstType rest := upcoming_token rest p' hpar.2.1
  obtain ⟨F, hF⟩ := hcont 1 (n, p')
    (additive_loop_stop 0 n p' (htok ▸ hk.1) (htok ▸ hk.2.1))
  refine ⟨n0, p0, n, p', hled, hpar, F + 1, ?_⟩
  rw [simple_expression_unfold, hF]
  simp only [Option.some_bind, htok, hk.2.2]
  rfl

/-- Two additive expressions with a relational operator between them are a simple
expression. -/
theorem parses_rel (l : Syn) (o : Token) (r : Syn) (ho : isRelational o.type = true)
    (hl : Parses Level.additive l) (hr : Parses Level.additive r) :
    Parses Level.simple (Syn.op l o r) := by
  intro rest p hp hf
  have hk := hf.2.2.1 (by decide)
  exact simple_relational l o r ho hl hr rest p hp
    ⟨hf.1, fun _ => hf.2.1 (by decide), fun h => absurd h (by decide),
      fun h => absurd h (by decide), fun h => absurd h (by decide)⟩ hk.1 hk.2.1

/-- A simple expression is an expression. -/
theorem parses_expression_of_simple (e : Syn) (h : Parses Level.simple e) :
    Parses Level.expression e := by
  intro rest p hp hf
  show ∃ n p', Parsed e rest p n p' ∧ ∃ F, expression F p = some (n, p')
  obtain ⟨n0, p0, n, p', hled, hpar, F, hF⟩ := h rest p hp (follows_mono hf (by decide))
  have hne : p0.token ≠ TokenType.ASSIGN := hled.2.2 (hf.2.2.2.1 (by decide))
  refine ⟨n, p', hpar, ?_⟩
  by_cases hid : p.token = TokenType.ID
  · obtain ⟨G, hG⟩ := hled.2.1
    obtain ⟨G', rfl⟩ := factor_pos hG
    rw [factor_null_id G' p hid] at hG
    refine ⟨max G' F + 1, ?_⟩
    rw [expression_unfold_id _ p hid, identifier_statement_fuel hG (le_max_left G' F)]
    simp only [Option.some_bind, hne, if_false]
    exact simple_expression_fuel hF (le_max_right G' F)
  · obtain ⟨F', hF'⟩ := simple_led p _ n0 p0 hled F _ hF
    exact ⟨F' + 1, by rw [expression_unfold_other F' p hid]; exact hF'⟩

theorem expression_assign_unfold (F : Nat) (p : ParseState) (hid : p.token = TokenType.ID)
    (ht : (getToken p).token = TokenType.ASSIGN) :
    expression (F + 2) p =
      (expression (F + 1) (getToken { getToken p with brk := p.brk + 1 })).bind fun r =>
        some (TreeNode.node r.2.brk (newFields r.2.lineno (Kind.ExpK ExpKind.AssignK))
          (TreeNode.node p.brk
            { newFields (getToken p).lineno (Kind.ExpK ExpKind.IdK) with
              name := p.tokenString }
            TreeNode.NULL TreeNode.NULL TreeNode.NULL TreeNode.NULL)
          r.1 TreeNode.NULL TreeNode.NULL, { r.2 with brk := r.2.brk + 1 }) := by
  rw [expression_unfold_id _ p hid, identifier_statement_id F p hid (by rw [ht]; decide)]
  simp [ht, newFields]

/-- An identifier, `=` and an expression are an expression. -/
theorem parses_assign (name eq : Token) (r : Syn) (hn : name.type = TokenType.ID)
    (heq : eq.type = TokenType.ASSIGN) (hr : Parses Level.expression r) :
    Parses Level.expression (Syn.assign name eq r) := by
  intro rest p hp hf
  show ∃ n p', Parsed (Syn.assign name eq r) rest p n p' ∧
    ∃ F, expression F p = some (n, p')
  have hp' : Upcoming (name :: eq :: (r.tokens ++ rest)) p := by
    simpa [Syn.tokens] using hp
  obtain ⟨hu1, hl1, _⟩ := upcoming_getToken _ _ p hp'
  have hid : p.token = TokenType.ID := hp'.1.trans hn
  have hasg : (getToken p).token = TokenType.ASSIGN := hu1.1.trans heq
  have hnl : (getToken p).token ≠ TokenType.LPAREN := by rw [hasg]; decide
  have hu1' : Upcoming (eq :: (r.tokens ++ rest)) { getToken p with brk := p.brk + 1 } :=
    upcoming_brk _ _ _ hu1
  obtain ⟨hu2, hl2, _⟩ := upcoming_getToken _ _ _ hu1'
  obtain ⟨nr, pr, ⟨hsr, hur, hlr⟩, F, hF⟩ := hr rest _ hu2 hf
  have hres : expression (F + 2) p =
      some (TreeNode.node pr.brk (newFields pr.lineno (Kind.ExpK ExpKind.AssignK))
        (TreeNode.node p.brk
          { newFields (getToken p).lineno (Kind.ExpK ExpKind.IdK) with name := p.tokenString }
          TreeNode.NULL TreeNode.NULL TreeNode.NULL TreeNode.NULL)
        nr TreeNode.NULL TreeNode.NULL, { pr with brk := pr.brk + 1 }) := by
    rw [expression_assign_unfold F p hid hasg, expression_fuel hF (Nat.le_succ F)]
    rfl
  refine ⟨_, _, ⟨?_, upcoming_brk _ _ _ hur, ?_⟩, F + 2, hres⟩
  · simp [shapeOf, labelOf, newFields, Syn.shape, hp'.2.1, hsr]
  · show pr.listing = p.listing
    rw [hlr, hl2]; exact hl1

theorem arg_list_pos {F : Nat} {p : ParseState} {r : TreeNode × ParseState}
    (h : arg_list F p = some r) : ∃ G, F = G + 1 := by
  cases F with
  | zero => rw [arg_list] at h; exact absurd h (by simp)
  | succ G => exact ⟨G, rfl⟩

theorem arg_list_loop_fuel {F G : Nat} {b : Bool} {p : ParseState}
    {r : Option TreeNode × ParseState} (h : arg_list_loop F b p = some r) (hle : F ≤ G) :
    arg_list_loop G b p = some r := by
  obtain ⟨k, rfl⟩ := Nat.exists_eq_add_of_le hle
  exact below_add (fun F (x : Bool × ParseState) => arg_list_loop F x.1 x.2)
    (fun F x => (fuelMono F).arg_list_loop x.1 x.2) F k (b, p) r h

/-- At a comma the loop of `arg_list` does what `arg_list` does behind the comma. -/
theorem arg_list_loop_comma (F : Nat) (p : ParseState) (h : p.token = TokenType.COMMA) :
    arg_list_loop (F + 1) true p =
      (arg_list (F + 1) (getToken p)).map fun r => (some r.1, r.2) := by
  rw [arg_list_loop_step F p h, arg_list_unfold]
  cases expression F (getToken p) with
  | none => rfl
  | some r =>
    simp only [Option.some_bind]
    cases arg_list_loop F (decide (r.1 ≠ TreeNode.NULL)) r.2 <;> rfl

/-- An expression is an argument list. -/
theorem parses_argList_of_expression (e : Syn) (h : Parses Level.expression e) :
    Parses Level.argList e := by
  intro rest p hp hf
  show ∃ n p', Parsed e rest p n p' ∧ ∃ F, arg_list F p = some (n, p')
  have hk : firstType rest = TokenType.RPAREN := hf.2.2.2.2 (by decide)
  obtain ⟨n, p', hpar, F, hF⟩ := h rest p hp (hk ▸ follows_rparen _ e)
  have htok : p'.token ≠ TokenType.COMMA := by
    rw [upcoming_token rest p' hpar.2.1, hk]; decide
  refine ⟨n, p', hpar, F + 2, ?_⟩
  rw [arg_list_unfold, expression_fuel hF (Nat.le_succ F)]
  simp only [Option.some_bind, arg_list_loop_stop F _ p' htok, Option.map_some',
    assignSibling]

/-- An expression, a comma and an argument list are an argument list. -/
theorem parses_comma (first : Syn) (c : Token) (more : Syn)
    (hc : c.type = TokenType.COMMA) (hw : first.wf Level.expression = true)
    (h1 : Parses Level.expression first) (h2 : Parses Level.argList more) :
    Parses Level.argList (Syn.comma first c more) := by
  intro rest p hp hf
  show ∃ n p', Parsed (Syn.comma first c more) rest p n p' ∧
    ∃ F, arg_list F p = some (n, p')
  have hk : firstType rest = TokenType.RPAREN := hf.2.2.2.2 (by decide)
  have hp' : Upcoming (first.tokens ++ c :: (more.tokens ++ rest)) p := by
    simpa [Syn.tokens] using hp
  have hfc : Follows Level.expression first (firstType (c :: (more.tokens ++ rest))) := by
    show Follows Level.expression first c.type
    rw [hc]; exact follows_comma first
  obtain ⟨nf, pf, hparf, F1, hF1⟩ := h1 _ p hp' hfc
  have hnf : nf ≠ TreeNode.NULL :=
    parsed_ne_null first _ hw (by decide) _ p nf pf hparf
  obtain ⟨hug, hlg, _⟩ := upcoming_getToken c _ pf hparf.2.1
  have hfm : Follows Level.argList more (firstType rest) := hk ▸ follows_rparen _ more
  obtain ⟨nm, pm, ⟨hsm, hum, hlm⟩, F2, hF2⟩ := h2 rest _ hug hfm
  obtain ⟨G2, rfl⟩ := arg_list_pos hF2
  have hcomma : pf.token = TokenType.COMMA := hparf.2.1.1.trans hc
  have hloop : arg_list_loop (max F1 (G2 + 1)) true pf = some (some nm, pm) := by
    apply arg_list_loop_fuel _ (le_max_right F1 (G2 + 1))
    rw [arg_list_loop_comma G2 pf hcomma, hF2]
    rfl
  refine ⟨setSibling nf nm, pm, ⟨?_, hum, ?_⟩, max F1 (G2 + 1) + 1, ?_⟩
  · rw [shapeOf_setSibling, hparf.1, hsm]; rfl
  · rw [hlm, hlg, hparf.2.2]
  · rw [arg_list_unfold, expression_fuel hF1 (le_max_left F1 (G2 + 1))]
    simp only [Option.some_bind, hnf, ne_eq, not_false_eq_true, decide_True, hloop,
      Option.map_some', assignSibling]

/-- An empty argument list, before `)`. -/
theorem parses_noArgs : Parses Level.args Syn.noArgs := by
  intro rest p hp hf
  show ∃ n p', Parsed Syn.noArgs rest p n p' ∧ ∃ F, args F p = some (n, p')
  have hk : firstType rest = TokenType.RPAREN := hf.2.2.2.2 (by decide)
  have hp' : Upcoming rest p := hp
  have htok : p.token = TokenType.RPAREN := (upcoming_token rest p hp').trans hk
  refine ⟨TreeNode.NULL, p, ⟨rfl, hp', rfl⟩, 1, ?_⟩
  rw [args_unfold]
  simp [htok]

/-- An argument list is the arguments of a call. -/
theorem parses_args_of_argList (e : Syn) (w : Level) (hw : e.wf w = true)
    (hr : w.rank ≤ 5) (h : Parses Level.argList e) : Parses Level.args e := by
  intro rest p hp hf
  show ∃ n p', Parsed e rest p n p' ∧ ∃ F, args F p = some (n, p')
  obtain ⟨n, p', hpar, F, hF⟩ := h rest p hp (follows_mono hf (by decide))
  have htok : p.token ≠ TokenType.RPAREN := by
    rw [upcoming_token _ p hp]
    rcases syn_first e w hw hr rest with h | h | h <;> rw [h] <;> decide
  refine ⟨n, p', hpar, F + 1, ?_⟩
  rw [args_unfold]
  simp only [htok, ne_eq, not_false_eq_true, if_true]
  exact hF

/-- What the parser handles as one nonterminal it handles as every nonterminal that derives
it. -/
theorem parses_lift (e : Syn) (w v : Level) (hw : e.wf w = true) (h : Parses w e)
    (hle : w.rank ≤ v.rank) : Parses v e := by
  have t01 : w.rank ≤ 4 → Parses Level.factor e → Parses Level.term e :=
    fun hr => parses_term_of_factor e w hw hr
  have t56 : w.rank ≤ 5 → Parses Level.argList e → Parses Level.args e :=
    fun hr => parses_args_of_argList e w hw hr
  have a := parses_additive_of_term e
  have s := parses_simple_of_additive e
  have x := parses_expression_of_simple e
  have l := parses_argList_of_expression e
  cases w <;> cases v <;>
    first
    | exact h
    | exact absurd hle (by decide)
    | exact t01 (by decide) h
    | exact a (t01 (by decide) h)
    | exact s (a (t01 (by decide) h))
    | exact x (s (a (t01 (by decide) h)))
    | exact l (x (s (a (t01 (by decide) h))))
    | exact t56 (by decide) (l (x (s (a (t01 (by decide) h)))))
    | exact a h
    | exact s (a h)
    | exact x (s (a h))
    | exact l (x (s (a h)))
    | exact t56 (by decide) (l (x (s (a h))))
    | exact s h
    | exact x (s h)
    | exact l (x (s h))
    | exact t56 (by decide) (l (x (s h)))
    | exact x h
    | exact l (x h)
    | exact t56 (by decide) (l (x h))
    | exact l h
    | exact t56 (by decide) (l h)
    | exact t56 (by decide) h

/-- The parser handles every syntax tree of the reference grammar as each nonterminal that
derives it. -/
theorem parses (e : Syn) : ∀ v, e.wf v = true → Parses v e := by
  induction e with
  | num t =>
    intro v h
    have ht : t.type = TokenType.NUM := by simpa [Syn.wf] using h
    exact parses_lift _ Level.factor v (by simp [Syn.wf, ht]) (parses_num t ht)
      (Nat.zero_le _)
  | var t =>
    intro v h
    have ht : t.type = TokenType.ID := by simpa [Syn.wf] using h
    exact parses_lift _ Level.factor v (by simp [Syn.wf, ht]) (parses_var t ht)
      (Nat.zero_le _)
  | call name lp args rp ih =>
    intro v h
    have h' : (Syn.call name lp args rp).wf Level.factor = true := h
    simp only [Syn.wf, Bool.and_eq_true, decide_eq_true_eq] at h
    exact parses_lift _ Level.factor v h'
      (parses_call name lp args rp h.1.1.1 h.1.1.2 h.1.2 (ih _ h.2)) (Nat.zero_le _)
  | paren lp e rp ih =>
    intro v h
    have h' : (Syn.paren lp e rp).wf Level.factor = true := h
    simp only [Syn.wf, Bool.and_eq_true, decide_eq_true_eq] at h
    exact parses_lift _ Level.factor v h'
      (parses_paren lp e rp h.1.1 h.1.2 (ih _ h.2)) (Nat.zero_le _)
  | op l o r ihl ihr =>
    intro v h
    simp only [Syn.wf, Bool.or_eq_true, Bool.and_eq_true, decide_eq_true_eq] at h
    rcases h with (⟨⟨⟨ho, hv⟩, hl⟩, hr⟩ | ⟨⟨⟨ho, hv⟩, hl⟩, hr⟩) | ⟨⟨⟨ho, hv⟩, hl⟩, hr⟩
    · exact parses_lift _ Level.term v (by simp [Syn.wf, ho, hl, hr, Level.rank])
        (parses_mul l o r ho (ihl _ hl) (ihr _ hr)) hv
    · exact parses_lift _ Level.additive v (by simp [Syn.wf, ho, hl, hr, Level.rank])
        (parses_add l o r ho (ihl _ hl) (ihr _ hr)) hv
    · exact parses_lift _ Level.simple v (by simp [Syn.wf, ho, hl, hr, Level.rank])
        (parses_rel l o r ho (ihl _ hl) (ihr _ hr)) hv
  | assign name eq r ih =>
    intro v h
    simp only [Syn.wf, Bool.and_eq_true, decide_eq_true_eq] at h
    exact parses_lift _ Level.expression v
      (by simp [Syn.wf, h.1.1.2, h.1.2, h.2, Level.rank])
      (parses_assign name eq r h.1.1.2 h.1.2 (ih _ h.2)) h.1.1.1
  | noArgs =>
    intro v h
    simp only [Syn.wf, decide_eq_true_eq] at h
    rw [h]
    exact parses_noArgs
  | comma first c more ih1 ih2 =>
    intro v h
    simp only [Syn.wf, Bool.and_eq_true, decide_eq_true_eq] at h
    exact parses_lift _ Level.argList v
      (by simp [Syn.wf, h.1.1.2, h.1.2, h.2, Level.rank])
      (parses_comma first c more h.1.1.2 h.1.2 (ih1 _ h.1.2) (ih2 _ h.2)) h.1.1.1

/-- The procedure `simple_expression` on two additive expressions of the reference grammar
with one relational operator between them. -/
theorem simple_syn (l r : Syn) (o : Token) (rest : List Token) (p : ParseState)
    (hl : l.wf Level.additive = true) (hr : r.wf Level.additive = true)
    (ho : isRelational o.type = true)
    (hp : Upcoming (l.tokens ++ o :: (r.tokens ++ rest)) p)
    (hend : EndsAdditive r (firstType rest)) :
    ∃ F n p', (∀ G, F ≤ G → simple_expression G TreeNode.NULL p = some (n, p')) ∧
      shapeOf n = Shape.node (Label.op o.type) l.shape r.shape Shape.null Shape.null ∧
      Upcoming rest p' ∧ p'.listing = p.listing := by
  obtain ⟨h1, h2, h3, h4, h5⟩ := hend
  have hf : Follows Level.additive r (firstType rest) :=
    ⟨h5, fun _ => ⟨h3, h4⟩, fun h => absurd h (by decide), fun h => absurd h (by decide),
      fun h => absurd h (by decide)⟩
  have hp' : Upcoming ((Syn.op l o r).tokens ++ rest) p := by
    simpa [Syn.tokens] using hp
  obtain ⟨n0, p0, n, p', hled, ⟨hs, hu, hlst⟩, F1, hF1⟩ :=
    simple_relational l o r ho (parses l _ hl) (parses r _ hr) rest p hp' hf h1 h2
  obtain ⟨F, hF⟩ := simple_led p _ n0 p0 hled F1 _ hF1
  exact ⟨F, n, p', fun G hG => simple_expression_fuel hF hG, hs, hu, hlst⟩

/-- Every result of `simple_expression` comes from one run of `additive_expression`, or
from two with one relational operator between them. -/
theorem simple_run (F : Nat) (passdown : TreeNode) (p : ParseState) (t : TreeNode)
    (q : ParseState) (h : simple_expression F passdown p = some (t, q)) :
    ∃ a p1, AdditiveRun F passdown a p p1 ∧
      ((isRelational p1.token = false ∧ t = additiveTree a ∧ q = p1) ∨
       (isRelational p1.token = true ∧
        ∃ b p2, AdditiveRun F TreeNode.NULL b (getToken p1) p2 ∧
          t = relNode p1 p2 (additiveTree a) (additiveTree b) ∧
          q = { p2 with brk := p2.brk + 1 })) := by
  cases F with
  | zero => rw [simple_expression] at h; exact absurd h (by simp)
  | succ F =>
    rw [simple_expression_unfold] at h
    cases hl : additive_expression F passdown p with
    | none => rw [hl] at h; exact absurd h (by simp)
    | some x =>
      rw [hl] at h
      simp only [Option.some_bind] at h
      obtain ⟨a, hrun, ha⟩ := additive_run F passdown p x.1 x.2 hl
      refine ⟨a, x.2, additiveRun_fuel (Nat.le_succ F) hrun, ?_⟩
      by_cases hrel : isRelational x.2.token = true
      · rw [if_pos hrel] at h
        cases hr : additive_expression F TreeNode.NULL (getToken x.2) with
        | none => rw [hr] at h; exact absurd h (by simp)
        | some y =>
          rw [hr] at h
          simp only [Option.some_bind, Option.some.injEq, Prod.mk.injEq] at h
          obtain ⟨b, hrunb, hb⟩ := additive_run F TreeNode.NULL _ y.1 y.2 hr
          refine Or.inr ⟨hrel, b, y.2, additiveRun_fuel (Nat.le_succ F) hrunb, ?_, h.2.symm⟩
          rw [← h.1, ha, hb]
          rfl
      · rw [if_neg hrel] at h
        simp only [Option.some.injEq] at h
        refine Or.inl ⟨by simpa using hrel, ?_, ?_⟩
        · rw [← ha, h]
        · rw [h]

/-- C16.  For every additive expression of the reference grammar, in which `*` and `/` bind
tighter than `+` and `-` and both levels associate to the left, and whose primaries are
integer literals, identifiers, calls with any argument expressions and parenthesised
expressions of any kind: when its text is upcoming and what follows is none of the four
operators (nor `(` directly after a final identifier), `additive_expression` returns, with
enough fuel, the tree of the reference grammar, leaves the token after the text as the
lookahead, and reports no syntax error. -/
theorem additive_expression_reference (a : Syn) (rest : List Token) (p : ParseState)
    (ha : a.wf Level.additive = true) (hp : Upcoming (a.tokens ++ rest) p)
    (hend : EndsAdditive a (firstType rest)) :
    ∃ F n p', (∀ G, F ≤ G → additive_expression G TreeNode.NULL p = some (n, p')) ∧
      shapeOf n = a.shape ∧ Upcoming rest p' ∧ p'.listing = p.listing := by
  obtain ⟨h1, h2, h3, h4, h5⟩ := hend
  have hf : Follows Level.additive a (firstType rest) :=
    ⟨h5, fun _ => ⟨h3, h4⟩, fun h => absurd h (by decide), fun h => absurd h (by decide),
      fun h => absurd h (by decide)⟩
  obtain ⟨n0, p0, n, p', hled, ⟨hs, hu, hl⟩, hcont⟩ := parses a Level.additive ha rest p hp hf
  have htok : p'.token = firstType rest := upcoming_token rest p' hu
  obtain ⟨F1, hF1⟩ := hcont 1 (n, p') (additive_loop_stop 0 n p' (htok ▸ h1) (htok ▸ h2))
  obtain ⟨F, hF⟩ := additive_led p _ n0 p0 hled F1 _ hF1
  exact ⟨F, n, p', fun G hG => additive_fuel hF hG, hs, hu, hl⟩

/-- Witness of C16: `f ( 1 , x ) * ( a + b ) - c ;`, with a call and a parenthesised
expression as primaries; and `a - b - c` gives `Op(-, Op(-, a, b), c)`, `a / b * c` gives
`Op(*, Op(/, a, b), c)`, `a + b * c` gives `Op(+, a, Op(*, b, c))`, and
`f ( 1 , x ) * ( a + b )` gives `Op(*, Call f (1, x), Op(+, a, b))`. -/
theorem additive_expression_reference_witness :
    (mixedPrimaries.wf Level.additive = true ∧
      Upcoming (mixedPrimaries.tokens ++ [tok TokenType.SEMI ";"])
        (upcomingState (mixedPrimaries.tokens ++ [tok TokenType.SEMI ";"])) ∧
      EndsAdditive mixedPrimaries (firstType [tok TokenType.SEMI ";"])) ∧
    (∃ F n p',
      (∀ G, F ≤ G →
        additive_expression G TreeNode.NULL
          (upcomingState (mixedPrimaries.tokens ++ [tok TokenType.SEMI ";"])) = some (n, p')) ∧
      shapeOf n = mixedPrimaries.shape ∧ Upcoming [tok TokenType.SEMI ";"] p' ∧
      p'.listing = (upcomingState (mixedPrimaries.tokens ++ [tok TokenType.SEMI ";"])).listing) ∧
    (minusMinus.tokens ++ [tok TokenType.SEMI ";"] = minusMinusTokens ∧
      (additive_expression 8 TreeNode.NULL (upcomingState minusMinusTokens)).map
          (fun r => (shapeOf r.1, r.2.token))
        = some (opShape TokenType.MINUS
            (opShape TokenType.MINUS (idShape "a") (idShape "b")) (idShape "c"),
            TokenType.SEMI)) ∧
    (divideTimes.tokens ++ [tok TokenType.SEMI ";"] = divideTimesTokens ∧
      (additive_expression 8 TreeNode.NULL (upcomingState divideTimesTokens)).map
          (fun r => (shapeOf r.1, r.2.token))
        = some (opShape TokenType.TIMES
            (opShape TokenType.DIVIDE (idShape "a") (idShape "b")) (idShape "c"),
            TokenType.SEMI)) ∧
    (plusTimes.tokens ++ [tok TokenType.SEMI ";"] = plusTimesTokens ∧
      (additive_expression 8 TreeNode.NULL (upcomingState plusTimesTokens)).map
          (fun r => (shapeOf r.1, r.2.token))
        = some (opShape TokenType.PLUS (idShape "a")
            (opShape TokenType.TIMES (idShape "b") (idShape "c")), TokenType.SEMI)) ∧
    (additive_expression 12 TreeNode.NULL (upcomingState callTimesParen)).map
        (fun r => (shapeOf r.1, r.2.token, r.2.listing))
      = some (opShape TokenType.TIMES
          (Shape.node (Label.call "f")
            (Shape.node (Label.const 1) Shape.null Shape.null Shape.null (idShape "x"))
            Shape.null Shape.null Shape.null)
          (opShape TokenType.PLUS (idShape "a") (idShape "b")), TokenType.SEMI, []) :=
  ⟨⟨by decide, upcoming_upcomingState _, by unfold EndsAdditive; decide⟩,
    additive_expression_reference mixedPrimaries [tok TokenType.SEMI ";"]
      (upcomingState (mixedPrimaries.tokens ++ [tok TokenType.SEMI ";"]))
      (by decide) (upcoming_upcomingState _) (by unfold EndsAdditive; decide),
    ⟨by decide, by decide⟩, ⟨by decide, by decide⟩, ⟨by decide, by decide⟩, by decide⟩

/-! ## The parser: the expression procedures return on every input -/

theorem remaining_getToken_le (p : ParseState) : remaining (getToken p) ≤ remaining p := by
  cases hs : p.source with
  | nil =>
    simp only [remaining, getToken, hs, List.length_nil, if_true]
    omega
  | cons t rest =>
    simp only [remaining, getToken, hs, List.length_cons]
    split <;> split <;> omega

theorem remaining_getToken_lt (p : ParseState) (h : p.token ≠ TokenType.ENDOFFILE) :
    remaining (getToken p) < remaining p := by
  cases hs : p.source with
  | nil =>
    simp only [remaining, getToken, hs, List.length_nil, if_true, h, if_false]
    omega
  | cons t rest =>
    simp only [remaining, getToken, hs, List.length_cons, h, if_false]
    split <;> omega

theorem remaining_matchToken_le (k : TokenType) (p : ParseState) :
    remaining (matchToken k p) ≤ remaining p := by
  rw [matchToken]
  split
  · exact remaining_getToken_le p
  · exact le_refl _

theorem remaining_afterOp_lt (p : ParseState) (h : p.token ≠ TokenType.ENDOFFILE) :
    remaining (afterOp p) < remaining p :=
  remaining_getToken_lt { p with brk := p.brk + 1 } h

theorem factor_other (F : Nat) (p : ParseState) (h1 : p.token ≠ TokenType.ID)
    (h2 : p.token ≠ TokenType.LPAREN) (h3 : p.token ≠ TokenType.NUM) :
    factor (F + 1) TreeNode.NULL p =
      some (TreeNode.NULL,
        getToken (syntaxError
          (SyntaxDiagnostic.unexpectedToken p.lineno p.token p.tokenString) p)) := by
  rw [factor]
  simp [h1, h2, h3]

theorem arg_list_loop_unfold (F : Nat) (b : Bool) (p : ParseState)
    (h : p.token = TokenType.COMMA) :
    arg_list_loop (F + 1) b p =
      (expression F (getToken p)).bind fun r =>
        if b then
          (arg_list_loop F (decide (r.1 ≠ TreeNode.NULL)) r.2).map fun r' =>
            (some (assignSibling r.1 r'.1), r'.2)
        else arg_list_loop F false r.2 := by
  rw [arg_list_loop]
  simp only [h, if_true, matchToken]

theorem returns_identifier_statement (n : Nat) (ih : ∀ m, m < n → ExpressionsReturn m)
    (p : ParseState) (hp : remaining p ≤ n) (hid : p.token = TokenType.ID) :
    ∃ F r, identifier_statement F p = some r ∧ remaining r.2 ≤ remaining p := by
  have h1 : remaining (getToken p) < remaining p :=
    remaining_getToken_lt p (by rw [hid]; decide)
  by_cases hl : (getToken p).token = TokenType.LPAREN
  · have h2 : remaining (getToken (getToken p)) < remaining (getToken p) :=
      remaining_getToken_lt _ (by rw [hl]; decide)
    obtain ⟨F, r, hF, hr⟩ := (ih (remaining (getToken (getToken p))) (by omega)).args _
      (le_refl _)
    have hm := remaining_matchToken_le TokenType.RPAREN r.2
    refine ⟨F + 1, (TreeNode.node (matchToken TokenType.RPAREN r.2).brk
        { newFields (matchToken TokenType.RPAREN r.2).lineno (Kind.StmtK StmtKind.CallK) with
          name := p.tokenString }
        r.1 TreeNode.NULL TreeNode.NULL TreeNode.NULL,
        { matchToken TokenType.RPAREN r.2 with
          brk := (matchToken TokenType.RPAREN r.2).brk + 1 }), ?_, ?_⟩
    · rw [identifier_statement_call F p hid hl, hF]
      rfl
    · show remaining (matchToken TokenType.RPAREN r.2) ≤ remaining p
      omega
  · refine ⟨1, _, identifier_statement_id 0 p hid hl, ?_⟩
    show remaining (getToken p) ≤ remaining p
    omega

theorem returns_factor (n : Nat) (ih : ∀ m, m < n → ExpressionsReturn m)
    (t : TreeNode) (p : ParseState) (hp : remaining p ≤ n) :
    ∃ F r, factor F t p = some r ∧ remaining r.2 ≤ remaining p := by
  by_cases ht : t = TreeNode.NULL
  · subst ht
    by_cases hid : p.token = TokenType.ID
    · obtain ⟨F, r, hF, hr⟩ := returns_identifier_statement n ih p hp hid
      exact ⟨F + 1, r, by rw [factor_null_id F p hid]; exact hF, hr⟩
    · by_cases hlp : p.token = TokenType.LPAREN
      · have h1 : remaining (getToken p) < remaining p :=
          remaining_getToken_lt p (by rw [hlp]; decide)
        obtain ⟨F, r, hF, hr⟩ := (ih (remaining (getToken p)) (by omega)).expression _
          (le_refl _)
        have hm := remaining_matchToken_le TokenType.RPAREN r.2
        refine ⟨F + 1, (r.1, matchToken TokenType.RPAREN r.2), ?_, ?_⟩
        · rw [factor_paren F p hlp, hF]
          rfl
        · show remaining (matchToken TokenType.RPAREN r.2) ≤ remaining p
          omega
      · by_cases hnum : p.token = TokenType.NUM
        · refine ⟨1, _, factor_num 0 p hnum, ?_⟩
          exact remaining_getToken_le { p with brk := p.brk + 1 }
        · refine ⟨1, _, factor_other 0 p hid hlp hnum, ?_⟩
          exact remaining_getToken_le
            (syntaxError (SyntaxDiagnostic.unexpectedToken p.lineno p.token p.tokenString) p)
  · exact ⟨1, _, factor_passdown 0 t p ht, le_refl _⟩

theorem returns_term_loop (n : Nat) (ih : ∀ m, m < n → ExpressionsReturn m)
    (t : TreeNode) (p : ParseState) (hp : remaining p ≤ n) :
    ∃ F r, term_loop F t p = some r ∧ remaining r.2 ≤ remaining p := by
  by_cases hm : p.token = TokenType.TIMES ∨ p.token = TokenType.DIVIDE
  · have h1 : remaining (afterOp p) < remaining p :=
      remaining_afterOp_lt p (by rcases hm with h | h <;> rw [h] <;> decide)
    obtain ⟨F1, r1, hF1, hr1⟩ := (ih (remaining (afterOp p)) (by omega)).factor
      TreeNode.NULL _ (le_refl _)
    obtain ⟨F2, r2, hF2, hr2⟩ := (ih (remaining r1.2) (by omega)).term_loop
      (opNode p t r1.1) _ (le_refl _)
    refine ⟨max F1 F2 + 1, r2, ?_, by omega⟩
    rw [term_loop_step _ t p hm,
      show getToken { p with brk := p.brk + 1 } = afterOp p from rfl,
      factor_fuel hF1 (le_max_left F1 F2)]
    exact term_loop_fuel hF2 (le_max_right F1 F2)
  · exact ⟨1, _, term_loop_stop 0 t p (fun h => hm (Or.inl h)) (fun h => hm (Or.inr h)),
      le_refl _⟩

theorem returns_term (n : Nat) (ih : ∀ m, m < n → ExpressionsReturn m)
    (t : TreeNode) (p : ParseState) (hp : remaining p ≤ n) :
    ∃ F r, term F t p = some r ∧ remaining r.2 ≤ remaining p := by
  obtain ⟨F1, r1, hF1, hr1⟩ := returns_factor n ih t p hp
  obtain ⟨F2, r2, hF2, hr2⟩ := returns_term_loop n ih r1.1 r1.2 (by omega)
  refine ⟨max F1 F2 + 1, r2, ?_, by omega⟩
  show term (max F1 F2 + 1) t p = some r2
  rw [term_unfold, factor_fuel hF1 (le_max_left F1 F2)]
  exact term_loop_fuel hF2 (le_max_right F1 F2)

theorem returns_additive_loop (n : Nat) (ih : ∀ m, m < n → ExpressionsReturn m)
    (t : TreeNode) (p : ParseState) (hp : remaining p ≤ n) :
    ∃ F r, additive_expression_loop F t p = some r ∧ remaining r.2 ≤ remaining p := by
  by_cases hm : p.token = TokenType.PLUS ∨ p.token = TokenType.MINUS
  · have h1 : remaining (afterOp p) < remaining p :=
      remaining_afterOp_lt p (by rcases hm with h | h <;> rw [h] <;> decide)
    obtain ⟨F1, r1, hF1, hr1⟩ := (ih (remaining (afterOp p)) (by omega)).term
      TreeNode.NULL _ (le_refl _)
    obtain ⟨F2, r2, hF2, hr2⟩ := (ih (remaining r1.2) (by omega)).additive_expression_loop
      (opNode p t r1.1) _ (le_refl _)
    refine ⟨max F1 F2 + 1, r2, ?_, by omega⟩
    rw [additive_loop_step _ t p hm,
      show getToken { p with brk := p.brk + 1 } = afterOp p from rfl,
      term_fuel hF1 (le_max_left F1 F2)]
    exact additive_loop_fuel hF2 (le_max_right F1 F2)
  · exact ⟨1, _, additive_loop_stop 0 t p (fun h => hm (Or.inl h)) (fun h => hm (Or.inr h)),
      le_refl _⟩

theorem returns_additive (n : Nat) (ih : ∀ m, m < n → ExpressionsReturn m)
    (t : TreeNode) (p : ParseState) (hp : remaining p ≤ n) :
    ∃ F r, additive_expression F t p = some r ∧ remaining r.2 ≤ remaining p := by
  obtain ⟨F1, r1, hF1, hr1⟩ := returns_term n ih t p hp
  obtain ⟨F2, r2, hF2, hr2⟩ := returns_additive_loop n ih r1.1 r1.2 (by omega)
  refine ⟨max F1 F2 + 1, r2, ?_, by omega⟩
  show additive_expression (max F1 F2 + 1) t p = some r2
  rw [additive_unfold, term_fuel hF1 (le_max_left F1 F2)]
  exact additive_loop_fuel hF2 (le_max_right F1 F2)

theorem returns_simple (n : Nat) (ih : ∀ m, m < n → ExpressionsReturn m)
    (t : TreeNode) (p : ParseState) (hp : remaining p ≤ n) :
    ∃ F r, simple_expression F t p = some r ∧ remaining r.2 ≤ remaining p := by
  obtain ⟨F1, r1, hF1, hr1⟩ := returns_additive n ih t p hp
  by_cases hrel : isRelational r1.2.token = true
  · have h1 := remaining_getToken_le r1.2
    obtain ⟨F2, r2, hF2, hr2⟩ := returns_additive n ih TreeNode.NULL (getToken r1.2)
      (by omega)
    refine ⟨max F1 F2 + 1, (relNode r1.2 r2.2 r1.1 r2.1, { r2.2 with brk := r2.2.brk + 1 }),
      ?_, ?_⟩
    · rw [simple_expression_unfold, additive_fuel hF1 (le_max_left F1 F2)]
      simp only [Option.some_bind, hrel, if_true, additive_fuel hF2 (le_max_right F1 F2)]
      rfl
    · show remaining r2.2 ≤ remaining p
      omega
  · refine ⟨F1 + 1, r1, ?_, hr1⟩
    rw [simple_expression_unfold, hF1]
    simp only [Option.some_bind, hrel]
    rfl

theorem returns_expression (n : Nat) (ih : ∀ m, m < n → ExpressionsReturn m)
    (p : ParseState) (hp : remaining p ≤ n) :
    ∃ F r, expression F p = some r ∧ remaining r.2 ≤ remaining p := by
  by_cases hid : p.token = TokenType.ID
  · obtain ⟨F1, ⟨t1, p1⟩, hF1, hr1⟩ := returns_identifier_statement n ih p hp hid
    have hr1' : remaining p1 ≤ remaining p := hr1
    by_cases hasg : p1.token = TokenType.ASSIGN
    · have hlt : remaining (getToken p1) < remaining p1 :=
        remaining_getToken_lt p1 (by rw [hasg]; decide)
      have herr : remaining
          (getToken (syntaxError (SyntaxDiagnostic.notAnLvalue p1.lineno) p1)) ≤
          remaining p :=
        le_trans (remaining_getToken_le _) hr1'
      cases t1 with
      | NULL =>
        refine ⟨F1 + 1, (TreeNode.NULL,
          getToken (syntaxError (SyntaxDiagnostic.notAnLvalue p1.lineno) p1)), ?_, herr⟩
        rw [expression_unfold_id F1 p hid, hF1]
        simp only [Option.some_bind, hasg, if_true]
      | node a lf c0 c1 c2 sb =>
        by_cases hk : lf.kind = Kind.ExpK ExpKind.IdK
        · obtain ⟨F2, r2, hF2, hr2⟩ := (ih (remaining (getToken p1)) (by omega)).expression _
            (le_refl _)
          refine ⟨max F1 F2 + 1,
            (TreeNode.node r2.2.brk (newFields r2.2.lineno (Kind.ExpK ExpKind.AssignK))
              (TreeNode.node a lf c0 c1 c2 sb) r2.1 TreeNode.NULL TreeNode.NULL,
              { r2.2 with brk := r2.2.brk + 1 }), ?_, ?_⟩
          · rw [expression_unfold_id _ p hid,
              identifier_statement_fuel hF1 (le_max_left F1 F2)]
            simp only [Option.some_bind, hasg, if_true, hk,
              expression_fuel hF2 (le_max_right F1 F2)]
          · show remaining r2.2 ≤ remaining p
            omega
        · refine ⟨F1 + 1, (TreeNode.NULL,
          getToken (syntaxError (SyntaxDiagnostic.notAnLvalue p1.lineno) p1)), ?_, herr⟩
          rw [expression_unfold_id F1 p hid, hF1]
          simp only [Option.some_bind, hasg, if_true, hk, if_false]
    · obtain ⟨F2, r2, hF2, hr2⟩ := returns_simple n ih t1 p1 (by omega)
      refine ⟨max F1 F2 + 1, r2, ?_, by omega⟩
      rw [expression_unfold_id _ p hid, identifier_statement_fuel hF1 (le_max_left F1 F2)]
      simp only [Option.some_bind, hasg, if_false]
      exact simple_expression_fuel hF2 (le_max_right F1 F2)
  · obtain ⟨F, r, hF, hr⟩ := returns_simple n ih TreeNode.NULL p hp
    exact ⟨F + 1, r, by rw [expression_unfold_other F p hid]; exact hF, hr⟩

theorem returns_arg_list_loop (n : Nat) (ih : ∀ m, m < n → ExpressionsReturn m)
    (b : Bool) (p : ParseState) (hp : remaining p ≤ n) :
    ∃ F r, arg_list_loop F b p = some r ∧ remaining r.2 ≤ remaining p := by
  by_cases hc : p.token = TokenType.COMMA
  · have h1 : remaining (getToken p) < remaining p :=
      remaining_getToken_lt p (by rw [hc]; decide)
    obtain ⟨F1, r1, hF1, hr1⟩ := (ih (remaining (getToken p)) (by omega)).expression _
      (le_refl _)
    cases b with
    | true =>
      obtain ⟨F2, r2, hF2, hr2⟩ := (ih (remaining r1.2) (by omega)).arg_list_loop
        (decide (r1.1 ≠ TreeNode.NULL)) _ (le_refl _)
      refine ⟨max F1 F2 + 1, (some (assignSibling r1.1 r2.1), r2.2), ?_, ?_⟩
      · rw [arg_list_loop_unfold _ true p hc, expression_fuel hF1 (le_max_left F1 F2)]
        simp only [Option.some_bind, if_true, arg_list_loop_fuel hF2 (le_max_right F1 F2),
          Option.map_some']
      · show remaining r2.2 ≤ remaining p
        omega
    | false =>
      obtain ⟨F2, r2, hF2, hr2⟩ := (ih (remaining r1.2) (by omega)).arg_list_loop
        false _ (le_refl _)
      refine ⟨max F1 F2 + 1, r2, ?_, by omega⟩
      rw [arg_list_loop_unfold _ false p hc, expression_fuel hF1 (le_max_left F1 F2)]
      simp only [Option.some_bind, Bool.false_eq_true, if_false]
      exact arg_list_loop_fuel hF2 (le_max_right F1 F2)
  · exact ⟨1, _, arg_list_loop_stop 0 b p hc, le_refl _⟩

theorem returns_arg_list (n : Nat) (ih : ∀ m, m < n → ExpressionsReturn m)
    (p : ParseState) (hp : remaining p ≤ n) :
    ∃ F r, arg_list F p = some r ∧ remaining r.2 ≤ remaining p := by
  obtain ⟨F1, r1, hF1, hr1⟩ := returns_expression n ih p hp
  obtain ⟨F2, r2, hF2, hr2⟩ := returns_arg_list_loop n ih (decide (r1.1 ≠ TreeNode.NULL))
    r1.2 (by omega)
  refine ⟨max F1 F2 + 1, (assignSibling r1.1 r2.1, r2.2), ?_, ?_⟩
  · rw [arg_list_unfold, expression_fuel hF1 (le_max_left F1 F2)]
    simp only [Option.some_bind, arg_list_loop_fuel hF2 (le_max_right F1 F2),
      Option.map_some']
  · show remaining r2.2 ≤ remaining p
    omega

theorem returns_args (n : Nat) (ih : ∀ m, m < n → ExpressionsReturn m)
    (p : ParseState) (hp : remaining p ≤ n) :
    ∃ F r, args F p = some r ∧ remaining r.2 ≤ remaining p := by
  by_cases hr : p.token = TokenType.RPAREN
  · refine ⟨1, (TreeNode.NULL, p), ?_, le_refl _⟩
    rw [args_unfold]
    simp [hr]
  · obtain ⟨F, r, hF, hle⟩ := returns_arg_list n ih p hp
    refine ⟨F + 1, r, ?_, hle⟩
    rw [args_unfold]
    simp only [hr, ne_eq, not_false_eq_true, if_true]
    exact hF

/-- The procedures of the expression parser return on every input: each recursive call and
each iteration of a loop comes after a request for a token. -/
theorem expressionsReturn (n : Nat) : ExpressionsReturn n := by
  induction n using Nat.strong_induction_on with
  | _ n ih =>
    exact
      { identifier_statement := returns_identifier_statement n ih
        factor := returns_factor n ih
        term_loop := returns_term_loop n ih
        term := returns_term n ih
        additive_expression_loop := returns_additive_loop n ih
        additive_expression := returns_additive n ih
        simple_expression := returns_simple n ih
        expression := returns_expression n ih
        arg_list_loop := returns_arg_list_loop n ih
        arg_list := returns_arg_list n ih
        args := returns_args n ih }

/-- On every input `simple_expression` returns, with every fuel above some bound. -/
theorem simple_total (passdown : TreeNode) (p : ParseState) :
    ∃ F t q, ∀ G, F ≤ G → simple_expression G passdown p = some (t, q) := by
  obtain ⟨F, r, hF, _⟩ := (expressionsReturn (remaining p)).simple_expression passdown p
    (le_refl _)
  exact ⟨F, r.1, r.2, fun G hG => simple_expression_fuel hF hG⟩

/-- C17.  `simple_expression` consumes at most one relational operator at its own nesting
level.  On every token stream, with or without a primary passed down, `simple_expression`
returns with enough fuel, always the same; the tree it returns is the tree of one run of
`additive_expression`, when the lookahead after that run is not relational, and otherwise
the one Operator node of that relational operator over the trees of two runs of
`additive_expression`; the tree of such a run consists of Operator nodes of `+`, `-`, `*`
and `/` over the trees that `factor` returned for the primaries, so that another relational
operator node occurs at most inside a primary.  And when two additive expressions of the
reference grammar with one relational operator between them are upcoming,
`simple_expression` returns that operator node over the two reference trees and leaves the
token after the second operand as the lookahead, also when it is relational. -/
theorem simple_expression_one_relational :
    (∀ (passdown : TreeNode) (p : ParseState),
      ∃ F t q, (∀ G, F ≤ G → simple_expression G passdown p = some (t, q)) ∧
        (∀ G r, simple_expression G passdown p = some r → r = (t, q)) ∧
        ∃ a p1, AdditiveRun F passdown a p p1 ∧
          ((isRelational p1.token = false ∧ t = additiveTree a ∧ q = p1) ∨
           (isRelational p1.token = true ∧
            ∃ b p2, AdditiveRun F TreeNode.NULL b (getToken p1) p2 ∧
              t = relNode p1 p2 (additiveTree a) (additiveTree b) ∧
              q = { p2 with brk := p2.brk + 1 }))) ∧
    (∀ (l r : Syn) (o : Token) (rest : List Token) (p : ParseState),
      l.wf Level.additive = true → r.wf Level.additive = true →
      isRelational o.type = true →
      Upcoming (l.tokens ++ o :: (r.tokens ++ rest)) p →
      EndsAdditive r (firstType rest) →
      ∃ F n p', (∀ G, F ≤ G → simple_expression G TreeNode.NULL p = some (n, p')) ∧
        shapeOf n = Shape.node (Label.op o.type) l.shape r.shape Shape.null Shape.null ∧
        Upcoming rest p' ∧ p'.listing = p.listing) := by
  refine ⟨fun passdown p => ?_,
    fun l r o rest p hl hr ho hp hend => simple_syn l r o rest p hl hr ho hp hend⟩
  obtain ⟨F, t, q, hF⟩ := simple_total passdown p
  refine ⟨F, t, q, hF, fun G r hr => ?_, simple_run F passdown p t q (hF F (le_refl F))⟩
  have h1 := simple_expression_fuel hr (le_max_left G F)
  rw [hF (max G F) (le_max_right G F)] at h1
  exact (Option.some.inj h1).symm

/-- Witness of C17: on `a < b < c ;` the result is `Op(<, a, b)` and the second `<` is the
lookahead, with `c ;` still in the source. -/
theorem simple_expression_one_relational_witness :
    simple_expression 8 TreeNode.NULL (upcomingState chainedLess) = some (lessTree, lessState) ∧
    (∃ F a p1, AdditiveRun F TreeNode.NULL a (upcomingState chainedLess) p1 ∧
      ((isRelational p1.token = false ∧ lessTree = additiveTree a ∧ lessState = p1) ∨
       (isRelational p1.token = true ∧
        ∃ b p2, AdditiveRun F TreeNode.NULL b (getToken p1) p2 ∧
          lessTree = relNode p1 p2 (additiveTree a) (additiveTree b) ∧
          lessState = { p2 with brk := p2.brk + 1 }))) ∧
    ((synVar "a").wf Level.additive = true ∧ (synVar "b").wf Level.additive = true ∧
      isRelational (tok TokenType.LT "<").type = true ∧
      Upcoming ((synVar "a").tokens ++ tok TokenType.LT "<" ::
          ((synVar "b").tokens ++ [tok TokenType.LT "<", tok TokenType.ID "c",
            tok TokenType.SEMI ";"])) (upcomingState chainedLess) ∧
      EndsAdditive (synVar "b") (firstType [tok TokenType.LT "<", tok TokenType.ID "c",
        tok TokenType.SEMI ";"])) ∧
    (∃ F n p',
      (∀ G, F ≤ G →
        simple_expression G TreeNode.NULL (upcomingState chainedLess) = some (n, p')) ∧
      shapeOf n = Shape.node (Label.op (tok TokenType.LT "<").type) (synVar "a").shape
        (synVar "b").shape Shape.null Shape.null ∧
      Upcoming [tok TokenType.LT "<", tok TokenType.ID "c", tok TokenType.SEMI ";"] p' ∧
      p'.listing = (upcomingState chainedLess).listing) ∧
    shapeOf lessTree = opShape TokenType.LT (idShape "a") (idShape "b") ∧
    lessState.token = TokenType.LT := by
  have hev : simple_expression 8 TreeNode.NULL (upcomingState chainedLess)
      = some (lessTree, lessState) := by decide
  refine ⟨hev, ?_,
    ⟨by decide, by decide, by decide, upcoming_upcomingState chainedLess,
      by unfold EndsAdditive; decide⟩,
    simple_expression_one_relational.2 (synVar "a") (synVar "b") (tok TokenType.LT "<")
      [tok TokenType.LT "<", tok TokenType.ID "c", tok TokenType.SEMI ";"]
      (upcomingState chainedLess) (by decide) (by decide) (by decide)
      (upcoming_upcomingState chainedLess) (by unfold EndsAdditive; decide),
    by decide, rfl⟩
  obtain ⟨F, t, q, _, huniq, a, p1, hrun, hshape⟩ :=
    simple_expression_one_relational.1 TreeNode.NULL (upcomingState chainedLess)
  have heq := huniq 8 _ hev
  simp only [Prod.mk.injEq] at heq
  rw [← heq.1, ← heq.2] at hshape
  exact ⟨F, a, p1, hrun, hshape⟩

end CMinus
